import Mathlib

/-! # Arx Libertatis animation subsystem: cache, decoder, playback

A shallow embedding of `src/animation/Animation.cpp`.

Modelling conventions
* `float` values are rationals (`ℚ`).  The arithmetic on them is exact, with
  one exception: where playback sets the elapsed time, a `long`, against the
  `float` duration (the tests `ctime > anim_time` and the difference
  `ctime - anim_time`), the operands and the difference are rounded to the
  nearest value of 24 binary digits, as the conversion to `float` does.
* `long`, `short` and `s32` values are mathematical integers (`Int`); the
  one place where the source multiplies two `s32` values into an `s32`
  (`num_frame * 1000`) wraps explicitly, and so does the one addition of an
  unbounded operand to a `long` (`ctime += time`).  Lock counts and alternate
  counts are assumed to stay below the range of their machine type.
* A pointer `ANIM_HANDLE *` into the table `animations` is the index of the
  slot (`Option Nat`, `none` for `NULL`).
* A function whose outcome is not defined by the source (a read past the end
  of the buffer, a probe loop that never stops) returns `none` at the outer
  `Option`.
-/

namespace Arx

/-! ## Plain data -/

/-- Three floats. -/
structure Vec3f where
  x : ℚ := 0
  y : ℚ := 0
  z : ℚ := 0
  deriving DecidableEq, Repr, Inhabited

/-- The constant `Vec3f::ZERO`. -/
def Vec3f.ZERO : Vec3f := ⟨0, 0, 0⟩

/-- Scaling of a vector, `v * r` in the source. -/
def Vec3f.scale (v : Vec3f) (r : ℚ) : Vec3f := ⟨v.x * r, v.y * r, v.z * r⟩

/-- Sum of two vectors. -/
def Vec3f.add (a b : Vec3f) : Vec3f := ⟨a.x + b.x, a.y + b.y, a.z + b.z⟩

/-- A quaternion, four floats. -/
structure ArxQuat where
  w : ℚ := 0
  x : ℚ := 0
  y : ℚ := 0
  z : ℚ := 0
  deriving DecidableEq, Repr, Inhabited

/-! ## On-disk records (declared in headers outside the excerpt)

Only the fields `TheaToEerie` reads are kept. -/

/-- File header of a TEA animation. -/
structure THEA_HEADER where
  version : Int
  nb_frames : Int
  nb_groups : Int
  nb_key_frames : Int
  deriving DecidableEq, Repr, Inhabited

/-- Key frame record, old layout. -/
structure THEA_KEYFRAME where
  num_frame : Int
  flag_frame : Int
  master_key_frame : Int
  key_frame : Int
  key_move : Int
  key_orient : Int
  key_morph : Int
  time_frame : Int
  deriving DecidableEq, Repr, Inhabited

/-- Key frame record, layout of version 2015 (the `info_frame` text is never read). -/
structure THEA_KEYFRAME_2015 where
  num_frame : Int
  flag_frame : Int
  master_key_frame : Int
  key_frame : Int
  key_move : Int
  key_orient : Int
  key_morph : Int
  time_frame : Int
  deriving DecidableEq, Repr, Inhabited

/-- Per-group transform record. -/
structure THEO_GROUPANIM where
  key_group : Int
  Quaternion : ArxQuat
  translate : Vec3f
  zoom : Vec3f
  deriving DecidableEq, Repr, Inhabited

/-- Embedded sample descriptor. -/
structure THEA_SAMPLE where
  sample_name : List Nat
  sample_size : Int
  deriving DecidableEq, Repr, Inhabited

/-! ## Decoded track -/

/-- One decoded key frame; the default value is the zero-filled record. -/
structure EERIE_FRAME where
  num_frame : Int := 0
  flag : Int := 0
  master_key_frame : Int := 0
  f_translate : Int := 0
  f_rotate : Int := 0
  time : ℚ := 0
  translate : Vec3f := {}
  quat : ArxQuat := {}
  sample : Int := 0
  deriving DecidableEq, Repr, Inhabited

/-- One decoded group transform; the default value is the zero-filled record. -/
structure EERIE_GROUP where
  key : Int := 0
  translate : Vec3f := {}
  quat : ArxQuat := {}
  zoom : Vec3f := {}
  deriving DecidableEq, Repr, Inhabited

/-- A decoded clip. -/
structure EERIE_ANIM where
  anim_time : ℚ := 0
  nb_groups : Int := 0
  nb_key_frames : Int := 0
  frames : List EERIE_FRAME := []
  groups : List EERIE_GROUP := []
  voidgroups : List Nat := []
  deriving DecidableEq, Repr, Inhabited

/-! ## Collaborators and absent declarations -/

/-- What the excerpt takes from the rest of the repository: the sizes of the
on-disk records and the value a run of bytes has when viewed as one of them
(`reinterpret_cast`), the resource reader, the path suffixing of `res::path`,
and the sample loader. -/
structure Env where
  sizeof_THEA_HEADER : Nat
  as_THEA_HEADER : List Nat → THEA_HEADER
  sizeof_THEA_KEYFRAME : Nat
  as_THEA_KEYFRAME : List Nat → THEA_KEYFRAME
  sizeof_THEA_KEYFRAME_2015 : Nat
  as_THEA_KEYFRAME_2015 : List Nat → THEA_KEYFRAME_2015
  sizeof_THEA_KEYMOVE : Nat
  as_THEA_KEYMOVE : List Nat → Vec3f
  sizeof_ArxQuat : Nat
  as_ArxQuat : List Nat → ArxQuat
  sizeof_THEO_GROUPANIM : Nat
  as_THEO_GROUPANIM : List Nat → THEO_GROUPANIM
  as_s32 : List Nat → Int
  sizeof_THEA_SAMPLE : Nat
  as_THEA_SAMPLE : List Nat → THEA_SAMPLE
  /-- The call `resources->readAlloc(path, FileSize)`: the bytes of the file, or `none`. -/
  readAlloc : String → Option (List Nat)
  /-- The method `res::path::append_basename`. -/
  append_basename : String → String → String
  /-- The call `ARX_SOUND_Load(res::path::load(util::loadString(name)))`. -/
  ARX_SOUND_Load : List Nat → Int

/-- The bytes `adr[pos .. pos + size)`, or `none` when they are not all inside the buffer. -/
def view (adr : List Nat) (pos size : Nat) : Option (List Nat) :=
  if pos + size ≤ adr.length then some ((adr.drop pos).take size) else none

/-- The statement `pos += n` for a `size_t pos` and a signed `n`. -/
def advance (pos : Nat) (n : Int) : Nat := (((pos : Int) + n) % 2 ^ 64).toNat

/-- Wrap-around of an integer into the range of `s32`. -/
def wrapS32 (x : Int) : Int := (x + 2 ^ 31) % 2 ^ 32 - 2 ^ 31

/-- Modelled from the spec: `checked_range_cast<short>` (platform header, not in
the excerpt) returns its argument when it fits a `short`; outside that range its
contract is broken and no result is defined. -/
def checked_range_cast_short (v : Int) : Option Int :=
  if -32768 ≤ v ∧ v ≤ 32767 then some v else none

/-- Modelled from the spec: `allocStructZero<T>(n)` (platform header, not in the
excerpt) yields an array of the declared count, zero-initialised; for a negative
count there is no such array and no result is defined. -/
def allocStructZero {α : Type} [Inhabited α] (n : Int) : Option (List α) :=
  if n < 0 then none else some (List.replicate n.toNat default)

/-! ## The decoder `TheaToEerie` -/

/-- Time from key frame `f1` to key frame `f2`: the sum of `frames[kk].time` for
`kk = f1 + 1, ..., f2`, or 0 when an index is out of range. -/
def GetTimeBetweenKeyFrames (ea : EERIE_ANIM) (f1 f2 : Int) : ℚ :=
  if f1 < 0 ∨ f1 > ea.nb_key_frames - 1 ∨ f2 < 0 ∨ f2 > ea.nb_key_frames - 1 then 0
  else
    (List.range (f2.toNat - f1.toNat)).foldl
      (fun time d => time + (ea.frames.getD (f1.toNat + 1 + d) default).time) 0

/-- The normalised key frame record at `pos`: the 2015 layout is read as it is,
the old layout is copied field by field into a zeroed 2015 record. Returns the
record and the position after it. -/
def TheaToEerie.readKeyframe (env : Env) (adr : List Nat) (th : THEA_HEADER) (pos : Nat) :
    Option (THEA_KEYFRAME_2015 × Nat) :=
  if th.version ≥ 2015 then
    (view adr pos env.sizeof_THEA_KEYFRAME_2015).map fun b =>
      (env.as_THEA_KEYFRAME_2015 b, pos + env.sizeof_THEA_KEYFRAME_2015)
  else
    (view adr pos env.sizeof_THEA_KEYFRAME).map fun b =>
      let tkf := env.as_THEA_KEYFRAME b
      ({ num_frame := tkf.num_frame
         flag_frame := tkf.flag_frame
         master_key_frame := tkf.master_key_frame
         key_frame := tkf.key_frame
         key_move := tkf.key_move
         key_orient := tkf.key_orient
         key_morph := tkf.key_morph
         time_frame := tkf.time_frame }, pos + env.sizeof_THEA_KEYFRAME)

/-- The loop `for(long j = 0; j < th->nb_groups; j++)` of key frame `i`, with `n`
iterations left: reads one group record per group into `groups[j + i * nb_groups]`. -/
def TheaToEerie.groupLoop (env : Env) (adr : List Nat) (th : THEA_HEADER) (i : Nat) :
    Nat → Nat → List EERIE_GROUP → Nat → Option (List EERIE_GROUP × Nat)
  | 0, _, groups, pos => some (groups, pos)
  | n + 1, j, groups, pos =>
    match view adr pos env.sizeof_THEO_GROUPANIM with
    | none => none
    | some b =>
      let tga := env.as_THEO_GROUPANIM b
      TheaToEerie.groupLoop env adr th i n (j + 1)
        (groups.set (j + i * th.nb_groups.toNat)
          { key := tga.key_group, quat := tga.Quaternion,
            translate := tga.translate, zoom := tga.zoom })
        (pos + env.sizeof_THEO_GROUPANIM)

/-- The step `if(tkf2015->key_move != 0)` of the key frame body: the global
translation, read when the record announces one. -/
def TheaToEerie.readMove (env : Env) (adr : List Nat) (tkf2015 : THEA_KEYFRAME_2015)
    (fr : EERIE_FRAME) (pos : Nat) : Option (EERIE_FRAME × Nat) :=
  if tkf2015.key_move ≠ 0 then
    (view adr pos env.sizeof_THEA_KEYMOVE).map fun b =>
      ({ fr with translate := env.as_THEA_KEYMOVE b }, pos + env.sizeof_THEA_KEYMOVE)
  else some (fr, pos)

/-- The step `if(tkf2015->key_orient != 0)` of the key frame body: the global
rotation, read after the 8 bytes of the `THEO_ANGLE` when the record announces one. -/
def TheaToEerie.readOrient (env : Env) (adr : List Nat) (tkf2015 : THEA_KEYFRAME_2015)
    (fr : EERIE_FRAME) (pos : Nat) : Option (EERIE_FRAME × Nat) :=
  if tkf2015.key_orient ≠ 0 then
    (view adr (pos + 8) env.sizeof_ArxQuat).map fun b =>
      ({ fr with quat := env.as_ArxQuat b }, pos + 8 + env.sizeof_ArxQuat)
  else some (fr, pos)

/-- The sound step of the key frame body: `num_sample`, then the sample descriptor
and its bytes unless `num_sample` is -1. -/
def TheaToEerie.readSample (env : Env) (adr : List Nat) (fr : EERIE_FRAME) (pos : Nat) :
    Option (EERIE_FRAME × Nat) :=
  match view adr pos 4 with
  | none => none
  | some w =>
    let num_sample := env.as_s32 w
    let pos := pos + 4
    let fr := { fr with sample := -1 }
    if num_sample ≠ -1 then
      (view adr pos env.sizeof_THEA_SAMPLE).map fun b =>
        let ts := env.as_THEA_SAMPLE b
        ({ fr with sample := env.ARX_SOUND_Load ts.sample_name },
          advance (pos + env.sizeof_THEA_SAMPLE) ts.sample_size)
    else some (fr, pos)

/-- Body of the key frame reading loop for key frame `i`, starting at `pos`. -/
def TheaToEerie.keyframe (env : Env) (adr : List Nat) (th : THEA_HEADER) (i : Nat)
    (eerie : EERIE_ANIM) (pos : Nat) : Option (EERIE_ANIM × Nat) :=
  match TheaToEerie.readKeyframe env adr th pos with
  | none => none
  | some (tkf2015, pos) =>
    match checked_range_cast_short tkf2015.key_orient,
        checked_range_cast_short tkf2015.key_move with
    | some f_rotate, some f_translate =>
      let time_frame : Int := wrapS32 (tkf2015.num_frame * 1000)
      let fr : EERIE_FRAME :=
        { eerie.frames.getD i default with
          master_key_frame := tkf2015.master_key_frame
          num_frame := tkf2015.num_frame
          f_rotate := f_rotate
          f_translate := f_translate
          time := (time_frame : ℚ) * (1 / 24)
          flag := tkf2015.flag_frame }
      let anim_time := eerie.anim_time + (time_frame : ℚ)
      match TheaToEerie.readMove env adr tkf2015 fr pos with
      | none => none
      | some (fr, pos) =>
        match TheaToEerie.readOrient env adr tkf2015 fr pos with
        | none => none
        | some (fr, pos) =>
          -- a global morph is skipped
          let pos := if tkf2015.key_morph ≠ 0 then pos + 16 else pos
          match TheaToEerie.groupLoop env adr th i th.nb_groups.toNat 0 eerie.groups pos with
          | none => none
          | some (groups, pos) =>
            match TheaToEerie.readSample env adr fr pos with
            | none => none
            | some (fr, pos) =>
              -- the trailing `num_sfx` word is skipped
              some ({ eerie with
                      frames := eerie.frames.set i fr, groups := groups
                      anim_time := anim_time },
                pos + 4)
    | _, _ => none

/-- The loop `for(long i = 0; i < th->nb_key_frames; i++)` reading the key frames,
with `n` iterations left. -/
def TheaToEerie.keyframeLoop (env : Env) (adr : List Nat) (th : THEA_HEADER) :
    Nat → Nat → EERIE_ANIM → Nat → Option (EERIE_ANIM × Nat)
  | 0, _, eerie, pos => some (eerie, pos)
  | n + 1, i, eerie, pos =>
    match TheaToEerie.keyframe env adr th i eerie pos with
    | none => none
    | some (eerie, pos) => TheaToEerie.keyframeLoop env adr th n (i + 1) eerie pos

/-- The loop `while((k >= 0) && (!frames[k].flag)) k--` started at `k`. -/
def TheaToEerie.scanBack (frames : List EERIE_FRAME) (flag : EERIE_FRAME → Int) : Nat → Int
  | 0 => if flag (frames.getD 0 default) = 0 then -1 else 0
  | k + 1 =>
    if flag (frames.getD (k + 1) default) = 0 then TheaToEerie.scanBack frames flag k
    else ((k + 1 : Nat) : Int)

/-- The loop `while((j < nb_key_frames) && (!frames[j].flag)) j++` started at `j`,
with `n = nb_key_frames - j` positions left. -/
def TheaToEerie.scanFwd (frames : List EERIE_FRAME) (flag : EERIE_FRAME → Int) :
    Nat → Nat → Nat
  | 0, j => j
  | n + 1, j =>
    if flag (frames.getD j default) = 0 then TheaToEerie.scanFwd frames flag n (j + 1) else j

/-- Translation half of the gap-fill body for key frame `i`. -/
def TheaToEerie.fillTranslate (th : THEA_HEADER) (i : Nat) (eerie : EERIE_ANIM) : EERIE_ANIM :=
  if (eerie.frames.getD i default).f_translate = 0 then
    let k := TheaToEerie.scanBack eerie.frames (fun f => f.f_translate) i
    let j := TheaToEerie.scanFwd eerie.frames (fun f => f.f_translate)
      (th.nb_key_frames.toNat - i) i
    if (j : Int) < th.nb_key_frames ∧ k ≥ 0 then
      let r1 := GetTimeBetweenKeyFrames eerie k i
      let r2 := GetTimeBetweenKeyFrames eerie i j
      let tot := 1 / (r1 + r2)
      let r1 := r1 * tot
      let r2 := r2 * tot
      { eerie with
        frames := eerie.frames.set i
          { eerie.frames.getD i default with
            translate := ((eerie.frames.getD j default).translate.scale r1).add
              ((eerie.frames.getD k.toNat default).translate.scale r2) } }
    else eerie
  else eerie

/-- Rotation half of the gap-fill body for key frame `i`. -/
def TheaToEerie.fillRotate (th : THEA_HEADER) (i : Nat) (eerie : EERIE_ANIM) : EERIE_ANIM :=
  if (eerie.frames.getD i default).f_rotate = 0 then
    let k := TheaToEerie.scanBack eerie.frames (fun f => f.f_rotate) i
    let j := TheaToEerie.scanFwd eerie.frames (fun f => f.f_rotate)
      (th.nb_key_frames.toNat - i) i
    if (j : Int) < th.nb_key_frames ∧ k ≥ 0 then
      let r1 := GetTimeBetweenKeyFrames eerie k i
      let r2 := GetTimeBetweenKeyFrames eerie i j
      let tot := 1 / (r1 + r2)
      let r1 := r1 * tot
      let r2 := r2 * tot
      let qj := (eerie.frames.getD j default).quat
      let qk := (eerie.frames.getD k.toNat default).quat
      { eerie with
        frames := eerie.frames.set i
          { eerie.frames.getD i default with
            quat := { w := qj.w * r1 + qk.w * r2
                      x := qj.x * r1 + qk.x * r2
                      y := qj.y * r1 + qk.y * r2
                      z := qj.z * r1 + qk.z * r2 } } }
    else eerie
  else eerie

/-- The gap-fill loop over the key frames, with `n` iterations left. -/
def TheaToEerie.fillLoop (th : THEA_HEADER) : Nat → Nat → EERIE_ANIM → EERIE_ANIM
  | 0, _, eerie => eerie
  | n + 1, i, eerie =>
    TheaToEerie.fillLoop th n (i + 1)
      (TheaToEerie.fillRotate th i (TheaToEerie.fillTranslate th i eerie))

/-- The inner loop of the void-group pass for group `i`, with `n` key frames left:
`true` when no key frame from `j` on moves the group. -/
def TheaToEerie.voidScan (eerie : EERIE_ANIM) (i : Nat) : Nat → Nat → Bool
  | 0, _ => true
  | n + 1, j =>
    let g := eerie.groups.getD (i + j * eerie.nb_groups.toNat) default
    if g.quat.x ≠ 0 ∨ g.quat.y ≠ 0 ∨ g.quat.z ≠ 0 ∨ g.quat.w ≠ 1
        ∨ g.translate ≠ Vec3f.ZERO ∨ g.zoom ≠ Vec3f.ZERO then false
    else TheaToEerie.voidScan eerie i n (j + 1)

/-- The outer loop of the void-group pass, with `n` groups left. -/
def TheaToEerie.voidLoop : Nat → Nat → EERIE_ANIM → EERIE_ANIM
  | 0, _, eerie => eerie
  | n + 1, i, eerie =>
    TheaToEerie.voidLoop n (i + 1)
      (if TheaToEerie.voidScan eerie i eerie.nb_key_frames.toNat 0 then
        { eerie with voidgroups := eerie.voidgroups.set i 1 }
      else eerie)

/-- Decoder of a TEA buffer. The outer `none` is an undefined outcome (a read
outside the buffer, a broken cast or allocation contract), `some none` is the
`NULL` return, `some (some e)` the decoded track. -/
def TheaToEerie (env : Env) (adr : List Nat) : Option (Option EERIE_ANIM) :=
  match view adr 0 env.sizeof_THEA_HEADER with
  | none => none
  | some b =>
    let th := env.as_THEA_HEADER b
    if th.version < 2014 then some none
    else
      match (allocStructZero th.nb_key_frames : Option (List EERIE_FRAME)),
          (allocStructZero (th.nb_key_frames * th.nb_groups) : Option (List EERIE_GROUP)),
          (allocStructZero th.nb_groups : Option (List Nat)) with
      | some frames, some groups, some voidgroups =>
        let eerie : EERIE_ANIM :=
          { nb_groups := th.nb_groups, nb_key_frames := th.nb_key_frames
            frames := frames, groups := groups, voidgroups := voidgroups, anim_time := 0 }
        match TheaToEerie.keyframeLoop env adr th th.nb_key_frames.toNat 0 eerie
            env.sizeof_THEA_HEADER with
        | none => none
        | some (eerie, _) =>
          let eerie := TheaToEerie.fillLoop th th.nb_key_frames.toNat 0 eerie
          let eerie :=
            { eerie with
              frames := eerie.frames.map fun f => { f with f_translate := 1, f_rotate := 1 } }
          let eerie := TheaToEerie.voidLoop eerie.nb_groups.toNat 0 eerie
          let anim_time : ℚ := (th.nb_frames : ℚ) * 1000 * (1 / 24)
          some (some { eerie with anim_time := if anim_time < 1 then 1 else anim_time })
      | _, _, _ => none

/-! ## The animation cache -/

/-- Number of slots of the table `animations`. -/
def MAX_ANIMATIONS : Nat := 900

/-- One slot of the cache. `anims` is the array of track pointers (`[]` for a
`NULL` array, `none` for a `NULL` entry); a default slot is what the constructor
`ANIM_HANDLE()` builds. -/
structure ANIM_HANDLE where
  path : String := ""
  anims : List (Option EERIE_ANIM) := []
  alt_nb : Int := 0
  locks : Int := 0
  deriving DecidableEq, Repr, Inhabited

/-- The vector `animations`, as the map from a slot index to the slot. Every loop
of the source ranges over the indices below `MAX_ANIMATIONS`; the values at larger
indices are never read or written. -/
abbrev AnimTable := Nat → ANIM_HANDLE

/-- The table as constructed at start-up: `MAX_ANIMATIONS` default slots. -/
def emptyTable : AnimTable := fun _ => {}

/-- What a call of `Load` produced: the returned pointer, the table afterwards, and
the paths handed to `readAlloc`, in order. -/
structure LoadResult where
  handle : Option Nat
  animations : AnimTable
  reads : List String

/-- Drop one lock from a handle, not going below zero; `NULL` is ignored. -/
def EERIE_ANIMMANAGER_ReleaseHandle (animations : AnimTable) (anim : Option Nat) : AnimTable :=
  match anim with
  | none => animations
  | some h =>
    let locks := (animations h).locks - 1
    Function.update animations h
      { animations h with locks := if locks < 0 then 0 else locks }

/-- The loop of `PurgeUnused` from slot `i`, with `n` slots left. Releasing the
tracks leaves the slot without an array (`anims = NULL`) and with an empty path;
`alt_nb` and `locks` are not written. -/
def EERIE_ANIMMANAGER_PurgeUnused.loop : Nat → Nat → AnimTable → AnimTable
  | 0, _, animations => animations
  | n + 1, i, animations =>
    if (animations i).path ≠ "" ∧ (animations i).locks = 0 then
      EERIE_ANIMMANAGER_PurgeUnused.loop n (i + 1)
        (Function.update animations i { animations i with anims := [], path := "" })
    else EERIE_ANIMMANAGER_PurgeUnused.loop n (i + 1) animations

/-- Free every live slot that has no lock. -/
def EERIE_ANIMMANAGER_PurgeUnused (animations : AnimTable) : AnimTable :=
  EERIE_ANIMMANAGER_PurgeUnused.loop MAX_ANIMATIONS 0 animations

/-- The loop of `GetHandle` from slot `i`, with `n` slots left. -/
def EERIE_ANIMMANAGER_GetHandle.loop (animations : AnimTable) (path : String) :
    Nat → Nat → Option Nat
  | 0, _ => none
  | n + 1, i =>
    if (animations i).path = path then some i
    else EERIE_ANIMMANAGER_GetHandle.loop animations path n (i + 1)

/-- First slot whose path equals `path`, or `NULL`. -/
def EERIE_ANIMMANAGER_GetHandle (animations : AnimTable) (path : String) : Option Nat :=
  EERIE_ANIMMANAGER_GetHandle.loop animations path MAX_ANIMATIONS 0

/-- The call `realloc(anims, sizeof(EERIE_ANIM *) * n)`: the first `n` entries are
kept; entries beyond the old size are indeterminate in the source and `NULL` here. -/
def realloc (anims : List (Option EERIE_ANIM)) (n : Nat) : List (Option EERIE_ANIM) :=
  anims.take n ++ List.replicate (n - anims.length) none

/-- Read and decode `path` and append the track to the handle. Returns the `bool`
result, the table afterwards and the paths read. -/
def EERIE_ANIMMANAGER_AddAltAnim (env : Env) (animations : AnimTable) (ah : Option Nat)
    (path : String) : Option (Bool × AnimTable × List String) :=
  match ah with
  | none => some (false, animations, [])
  | some h =>
    if (animations h).path = "" then some (false, animations, [])
    else
      match env.readAlloc path with
      | none => some (false, animations, [path])
      | some adr =>
        match TheaToEerie env adr with
        | none => none
        | some none => some (false, animations, [path])
        | some (some temp) =>
          let alt_nb := (animations h).alt_nb + 1
          some (true,
            Function.update animations h
              { animations h with
                alt_nb := alt_nb
                anims := (realloc (animations h).anims alt_nb.toNat).set (alt_nb.toNat - 1)
                  (some temp) },
            [path])

/-- The `do ... while(AddAltAnim(&animations[i], altpath))` loop of `Load`, probing
the suffixes `pathcount`, `pathcount + 1`, ...; `fuel` bounds the number of probes
and `none` is returned when it runs out. -/
def EERIE_ANIMMANAGER_Load_NoWarning.altLoop (env : Env) (path : String) (i : Nat) :
    Nat → Nat → AnimTable → List String → Option (AnimTable × List String)
  | 0, _, _, _ => none
  | fuel + 1, pathcount, animations, reads =>
    let altpath := env.append_basename path (toString pathcount)
    match EERIE_ANIMMANAGER_AddAltAnim env animations (some i) altpath with
    | none => none
    | some (true, animations, r) =>
      EERIE_ANIMMANAGER_Load_NoWarning.altLoop env path i fuel (pathcount + 1) animations
        (reads ++ r)
    | some (false, animations, r) => some (animations, reads ++ r)

/-- Body of the loop of `Load` at the first free slot `i`. -/
def EERIE_ANIMMANAGER_Load_NoWarning.slot (env : Env) (fuel : Nat) (path : String) (i : Nat)
    (animations : AnimTable) : Option LoadResult :=
  match env.readAlloc path with
  | none => some ⟨none, animations, [path]⟩
  | some adr =>
    match TheaToEerie env adr with
    | none => none
    | some anim0 =>
      let animations :=
        Function.update animations i { animations i with anims := [anim0], alt_nb := 1 }
      match anim0 with
      | none => some ⟨none, animations, [path]⟩
      | some _ =>
        let animations :=
          Function.update animations i { animations i with path := path, locks := 1 }
        match EERIE_ANIMMANAGER_Load_NoWarning.altLoop env path i fuel 2 animations [path] with
        | none => none
        | some (animations, reads) => some ⟨some i, animations, reads⟩

/-- The loop of `Load` over the slots from `i`, with `n` slots left. -/
def EERIE_ANIMMANAGER_Load_NoWarning.loop (env : Env) (fuel : Nat) (path : String) :
    Nat → Nat → AnimTable → Option LoadResult
  | 0, _, animations => some ⟨none, animations, []⟩
  | n + 1, i, animations =>
    if (animations i).path ≠ "" then
      EERIE_ANIMMANAGER_Load_NoWarning.loop env fuel path n (i + 1) animations
    else EERIE_ANIMMANAGER_Load_NoWarning.slot env fuel path i animations

/-- Load an animation by path: lock the handle that has it, or fill the first free
slot from the file and its numbered alternates. -/
def EERIE_ANIMMANAGER_Load_NoWarning (env : Env) (fuel : Nat) (path : String)
    (animations : AnimTable) : Option LoadResult :=
  match EERIE_ANIMMANAGER_GetHandle animations path with
  | some h =>
    some ⟨some h,
      Function.update animations h { animations h with locks := (animations h).locks + 1 }, []⟩
  | none => EERIE_ANIMMANAGER_Load_NoWarning.loop env fuel path MAX_ANIMATIONS 0 animations

/-- Same as `Load_NoWarning`; the warning it logs is not part of the model. -/
def EERIE_ANIMMANAGER_Load (env : Env) (fuel : Nat) (path : String)
    (animations : AnimTable) : Option LoadResult :=
  EERIE_ANIMMANAGER_Load_NoWarning env fuel path animations

/-- Free slot `i` whatever its lock count: the tracks are released, the array
pointer is `NULL` and the path is empty afterwards. -/
def EERIE_ANIMMANAGER_Clear (animations : AnimTable) (i : Nat) : AnimTable :=
  Function.update animations i { animations i with anims := [], path := "" }

/-- The loop of `ClearAll` from slot `i`, with `n` slots left. -/
def EERIE_ANIMMANAGER_ClearAll.loop : Nat → Nat → AnimTable → AnimTable
  | 0, _, animations => animations
  | n + 1, i, animations =>
    if (animations i).path ≠ "" then
      EERIE_ANIMMANAGER_ClearAll.loop n (i + 1) (EERIE_ANIMMANAGER_Clear animations i)
    else EERIE_ANIMMANAGER_ClearAll.loop n (i + 1) animations

/-- Clear every live slot. -/
def EERIE_ANIMMANAGER_ClearAll (animations : AnimTable) : AnimTable :=
  EERIE_ANIMMANAGER_ClearAll.loop MAX_ANIMATIONS 0 animations

/-! ## Entities, as far as the cache touches them -/

/-- Modelled from the spec: the flag bitset of a playback state, "paused, looping,
reverse playback, externally-driven time, force-play, stop-at-end-of-clip,
just-ended-this-tick". The masks `EA_*` are declared in a header outside the
excerpt; each is taken to be one bit of the word, independent of the others, so
the word is a record with one boolean per named bit and `other` for the bits the
excerpt never names. The default value is the zero word. -/
structure AnimFlags where
  EA_LOOP : Bool := false
  EA_REVERSE : Bool := false
  EA_PAUSED : Bool := false
  EA_ANIMEND : Bool := false
  EA_STOPEND : Bool := false
  EA_FORCEPLAY : Bool := false
  EA_EXCONTROL : Bool := false
  other : Nat := 0
  deriving DecidableEq, Repr, Inhabited

/-- Playback state of one animation layer; the default value is the zero-filled
record (`memset(.., 0, ..)` with both clip pointers `NULL`). -/
structure ANIM_USE where
  next_anim : Option Nat := none
  cur_anim : Option Nat := none
  altidx_cur : Int := 0
  ctime : Int := 0
  flags : AnimFlags := {}
  nextflags : AnimFlags := {}
  lastframe : Int := 0
  pour : ℚ := 0
  fr : Int := 0
  deriving DecidableEq, Repr, Inhabited

/-- The fields of an entity that the excerpt reads or writes. -/
structure Entity where
  anims : List (Option Nat)
  animlayer : List ANIM_USE
  ioflags : Nat := 0
  pos : Vec3f := {}
  move : Vec3f := {}
  lastmove : Vec3f := {}
  lastanimtime : Nat := 0
  nb_lastanimvertex : Int := 0
  deriving DecidableEq, Repr, Inhabited

/-- The loop `for(j < MAX_ANIMS)` of `ReloadAll` on the cache: every handle the
entity refers to is released once. -/
def EERIE_ANIMMANAGER_ReloadAll.releaseAnims (animations : AnimTable) :
    List (Option Nat) → AnimTable
  | [] => animations
  | a :: rest =>
    EERIE_ANIMMANAGER_ReloadAll.releaseAnims (EERIE_ANIMMANAGER_ReleaseHandle animations a) rest

/-- The body of the entity loop of `ReloadAll` for a non-null entity. -/
def EERIE_ANIMMANAGER_ReloadAll.entity (animations : AnimTable) (e : Entity) :
    AnimTable × Entity :=
  (EERIE_ANIMMANAGER_ReloadAll.releaseAnims animations e.anims,
    { e with
      anims := e.anims.map fun _ => none
      animlayer := e.animlayer.map fun _ => {} })

/-- The entity loop of `ReloadAll`; a `none` entry is a null entity pointer. -/
def EERIE_ANIMMANAGER_ReloadAll.entityLoop (animations : AnimTable) :
    List (Option Entity) → AnimTable × List (Option Entity)
  | [] => (animations, [])
  | none :: rest =>
    let r := EERIE_ANIMMANAGER_ReloadAll.entityLoop animations rest
    (r.1, none :: r.2)
  | some e :: rest =>
    let r1 := EERIE_ANIMMANAGER_ReloadAll.entity animations e
    let r := EERIE_ANIMMANAGER_ReloadAll.entityLoop r1.1 rest
    (r.1, some r1.2 :: r.2)

/-- The slot loop of `ReloadAll` from slot `i`, with `n` slots left. -/
def EERIE_ANIMMANAGER_ReloadAll.loop (env : Env) (fuel : Nat) :
    Nat → Nat → AnimTable → Option AnimTable
  | 0, _, animations => some animations
  | n + 1, i, animations =>
    if (animations i).path ≠ "" then
      let path := (animations i).path
      match EERIE_ANIMMANAGER_Load env fuel path (EERIE_ANIMMANAGER_Clear animations i) with
      | none => none
      | some r => EERIE_ANIMMANAGER_ReloadAll.loop env fuel n (i + 1) r.animations
    else EERIE_ANIMMANAGER_ReloadAll.loop env fuel n (i + 1) animations

/-- Drop every entity reference, then clear and reload every live slot. -/
def EERIE_ANIMMANAGER_ReloadAll (env : Env) (fuel : Nat) (animations : AnimTable)
    (entities : List (Option Entity)) : Option (AnimTable × List (Option Entity)) :=
  let r := EERIE_ANIMMANAGER_ReloadAll.entityLoop animations entities
  (EERIE_ANIMMANAGER_ReloadAll.loop env fuel MAX_ANIMATIONS 0 r.1).map fun t => (t, r.2)

/-! ## Vocabulary of the claims -/

/-- The decode of the file at `path`, as `Load` and `AddAltAnim` obtain it: read the
file, then run `TheaToEerie` on its bytes. `some none` stands for a file that fails
to read or to decode. -/
def decodeFile (env : Env) (path : String) : Option (Option EERIE_ANIM) :=
  match env.readAlloc path with
  | none => some none
  | some adr => TheaToEerie env adr

/-- The header `TheaToEerie` sees at the start of the buffer, when the buffer holds
a whole header. -/
def theaHeader (env : Env) (adr : List Nat) : Option THEA_HEADER :=
  (view adr 0 env.sizeof_THEA_HEADER).map env.as_THEA_HEADER

/-- The paths `path + "c"`, `path + "c+1"`, ... of `n` consecutive probes, each
suffix appended to the base name of `path` itself. -/
def probePaths (env : Env) (path : String) (c n : Nat) : List String :=
  (List.range n).map fun k => env.append_basename path (toString (c + k))

/-- The tracks found by probing the suffixes `c`, `c + 1`, ... of `path` up to the
first one that fails, with at most `fuel` probes. -/
def probeAlts (env : Env) (path : String) : Nat → Nat → Option (List EERIE_ANIM)
  | 0, _ => none
  | fuel + 1, c =>
    match decodeFile env (env.append_basename path (toString c)) with
    | none => none
    | some none => some []
    | some (some e) => (probeAlts env path fuel (c + 1)).map fun alts => e :: alts

/-- A run of `n` calls `Load(path)`: the pointers returned, in order, and the table
afterwards. -/
def loadTimes (env : Env) (fuel : Nat) (path : String) :
    Nat → AnimTable → Option (List (Option Nat) × AnimTable)
  | 0, animations => some ([], animations)
  | n + 1, animations =>
    match EERIE_ANIMMANAGER_Load_NoWarning env fuel path animations with
    | none => none
    | some r => (loadTimes env fuel path n r.animations).map fun x => (r.handle :: x.1, x.2)

/-- A run of `n` calls `ReleaseHandle(anim)`. -/
def releaseTimes (anim : Option Nat) : Nat → AnimTable → AnimTable
  | 0, animations => animations
  | n + 1, animations => releaseTimes anim n (EERIE_ANIMMANAGER_ReleaseHandle animations anim)

/-- The cache states reachable from the start-up table by the operations of the
cache, with any files, any entity list and any arguments at each step. -/
inductive Reachable : AnimTable → Prop
  | init : Reachable emptyTable
  | load (env : Env) (fuel : Nat) (path : String) (t : AnimTable) (r : LoadResult) :
      Reachable t → EERIE_ANIMMANAGER_Load_NoWarning env fuel path t = some r →
      Reachable r.animations
  | release (t : AnimTable) (anim : Option Nat) :
      Reachable t → Reachable (EERIE_ANIMMANAGER_ReleaseHandle t anim)
  | purge (t : AnimTable) : Reachable t → Reachable (EERIE_ANIMMANAGER_PurgeUnused t)
  | clear (t : AnimTable) (i : Nat) :
      Reachable t → i < MAX_ANIMATIONS → Reachable (EERIE_ANIMMANAGER_Clear t i)
  | clearAll (t : AnimTable) : Reachable t → Reachable (EERIE_ANIMMANAGER_ClearAll t)
  | reloadAll (env : Env) (fuel : Nat) (t : AnimTable) (entities : List (Option Entity))
      (r : AnimTable × List (Option Entity)) :
      Reachable t → EERIE_ANIMMANAGER_ReloadAll env fuel t entities = some r →
      Reachable r.1

/-- No two slots below `MAX_ANIMATIONS` hold the same non-empty path. -/
def UniquePaths (t : AnimTable) : Prop :=
  ∀ i j, i < MAX_ANIMATIONS → j < MAX_ANIMATIONS → (t i).path ≠ "" →
    (t i).path = (t j).path → i = j

/-! ## A concrete environment for examples

Records are packed, every integer field is a little-endian 32-bit word, and the
float fields of the examples hold whole numbers stored the same way. -/

/-- The little-endian signed 32-bit word at offset `off` of `b`. -/
def le32 (b : List Nat) (off : Nat) : Int :=
  wrapS32 ((b.getD off 0 : Int) + 256 * (b.getD (off + 1) 0 : Int)
    + 65536 * (b.getD (off + 2) 0 : Int) + 16777216 * (b.getD (off + 3) 0 : Int))

/-- Example environment over the file system `files`. -/
def exampleEnv (files : String → Option (List Nat)) : Env where
  sizeof_THEA_HEADER := 16
  as_THEA_HEADER := fun b =>
    { version := le32 b 0, nb_frames := le32 b 4, nb_groups := le32 b 8
      nb_key_frames := le32 b 12 }
  sizeof_THEA_KEYFRAME := 32
  as_THEA_KEYFRAME := fun b =>
    { num_frame := le32 b 0, flag_frame := le32 b 4, master_key_frame := le32 b 8
      key_frame := le32 b 12, key_move := le32 b 16, key_orient := le32 b 20
      key_morph := le32 b 24, time_frame := le32 b 28 }
  sizeof_THEA_KEYFRAME_2015 := 32
  as_THEA_KEYFRAME_2015 := fun b =>
    { num_frame := le32 b 0, flag_frame := le32 b 4, master_key_frame := le32 b 8
      key_frame := le32 b 12, key_move := le32 b 16, key_orient := le32 b 20
      key_morph := le32 b 24, time_frame := le32 b 28 }
  sizeof_THEA_KEYMOVE := 12
  as_THEA_KEYMOVE := fun b => ⟨le32 b 0, le32 b 4, le32 b 8⟩
  sizeof_ArxQuat := 16
  as_ArxQuat := fun b => ⟨le32 b 0, le32 b 4, le32 b 8, le32 b 12⟩
  sizeof_THEO_GROUPANIM := 52
  as_THEO_GROUPANIM := fun b =>
    { key_group := le32 b 0
      Quaternion := ⟨le32 b 12, le32 b 16, le32 b 20, le32 b 24⟩
      translate := ⟨le32 b 28, le32 b 32, le32 b 36⟩
      zoom := ⟨le32 b 40, le32 b 44, le32 b 48⟩ }
  as_s32 := fun b => le32 b 0
  sizeof_THEA_SAMPLE := 8
  as_THEA_SAMPLE := fun b => { sample_name := b.take 4, sample_size := le32 b 4 }
  readAlloc := files
  append_basename := fun path bit => path ++ bit
  ARX_SOUND_Load := fun name => name.getD 0 0

/-- A header-only buffer of the example layout: version 2014, 24 frames, no group,
no key frame. -/
def emptyClip : List Nat := [222, 7, 0, 0, 24, 0, 0, 0, 0, 0, 0, 0, 0, 0, 0, 0]

/-- A header-only buffer of the example layout with the unsupported version 2013. -/
def oldClip : List Nat := [221, 7, 0, 0, 24, 0, 0, 0, 0, 0, 0, 0, 0, 0, 0, 0]

/-- The four bytes of the little-endian 32-bit word `n`. -/
def w32 (n : Nat) : List Nat := [n % 256, n / 256 % 256, n / 65536 % 256, n / 16777216 % 256]

/-- A buffer of the example layout: version 2015, 24 frames, one group, two key
frames. Key frame 0 (frame 0, event flag 9) carries a translation (1, 2, 3) and a
rotation; key frame 1 (frame 12) carries neither and has an embedded sample of
three bytes. -/
def twoFrameClip : List Nat :=
  w32 2015 ++ w32 24 ++ w32 1 ++ w32 2 ++
  w32 0 ++ w32 9 ++ w32 1 ++ w32 1 ++ w32 1 ++ w32 1 ++ w32 0 ++ w32 0 ++
  w32 1 ++ w32 2 ++ w32 3 ++
  List.replicate 8 0 ++ w32 1 ++ w32 0 ++ w32 0 ++ w32 0 ++
  (w32 0 ++ List.replicate 8 0 ++ w32 1 ++ w32 0 ++ w32 0 ++ w32 0 ++ List.replicate 24 0) ++
  [255, 255, 255, 255] ++ w32 0 ++
  w32 12 ++ w32 0 ++ w32 0 ++ w32 1 ++ w32 0 ++ w32 0 ++ w32 0 ++ w32 7 ++
  (w32 0 ++ List.replicate 8 0 ++ w32 1 ++ w32 0 ++ w32 0 ++ w32 0 ++ List.replicate 24 0) ++
  w32 0 ++ ([65, 66, 67, 68] ++ w32 3) ++ [1, 2, 3] ++ w32 0

/-- A file system for the examples: "walk" and "walk2" decode, "old" has an
unsupported version, nothing else exists. -/
def exampleFiles (path : String) : Option (List Nat) :=
  if path = "walk" then some emptyClip
  else if path = "walk2" then some emptyClip
  else if path = "old" then some oldClip
  else none

/-- The track the example decoder makes of `emptyClip`. -/
def emptyClipTrack : EERIE_ANIM := { anim_time := 1000, nb_groups := 0, nb_key_frames := 0 }

/-- Example table: slot 0 holds "walk" with two tracks and one lock, as a `Load` of
"walk" from `exampleFiles` leaves it. -/
def walkTable : AnimTable :=
  Function.update emptyTable 0
    { path := "walk", anims := [some emptyClipTrack, some emptyClipTrack]
      alt_nb := 2, locks := 1 }

/-- Example entities: one entity that refers to slot 0 and plays it on its only
layer, and one null entry. -/
def exampleEntities : List (Option Entity) :=
  [some { anims := [some 0, none], animlayer := [{ cur_anim := some 0, ctime := 40 }] }, none]

/-! ## Vocabulary of the decoder claims -/

/-- The zero-initialised track that `TheaToEerie` allocates for the header `th`
before it reads the key frames. -/
def TheaToEerie.alloc (th : THEA_HEADER) : Option EERIE_ANIM :=
  match (allocStructZero th.nb_key_frames : Option (List EERIE_FRAME)),
      (allocStructZero (th.nb_key_frames * th.nb_groups) : Option (List EERIE_GROUP)),
      (allocStructZero th.nb_groups : Option (List Nat)) with
  | some frames, some groups, some voidgroups =>
    some { nb_groups := th.nb_groups, nb_key_frames := th.nb_key_frames
           frames := frames, groups := groups, voidgroups := voidgroups, anim_time := 0 }
  | _, _, _ => none

/-- What `TheaToEerie` does to the track once the key frames are read: the gap-fill
pass, the pass that marks every translation and rotation as resolved, the
void-group pass, and the final duration. -/
def TheaToEerie.post (th : THEA_HEADER) (eerie : EERIE_ANIM) : EERIE_ANIM :=
  let eerie := TheaToEerie.fillLoop th th.nb_key_frames.toNat 0 eerie
  let eerie :=
    { eerie with
      frames := eerie.frames.map fun f => { f with f_translate := 1, f_rotate := 1 } }
  let eerie := TheaToEerie.voidLoop eerie.nb_groups.toNat 0 eerie
  let anim_time : ℚ := (th.nb_frames : ℚ) * 1000 * (1 / 24)
  { eerie with anim_time := if anim_time < 1 then 1 else anim_time }

/-- What the body of the key frame loop reads for one key frame: the normalised
key frame record, the translation and the rotation when the record announces them,
one group record per group, and the sample descriptor unless `num_sample` is -1. -/
structure KeyframeRead where
  tkf2015 : THEA_KEYFRAME_2015
  move : Option Vec3f
  quat : Option ArxQuat
  groups : List THEO_GROUPANIM
  sample : Option THEA_SAMPLE
  deriving DecidableEq, Repr, Inhabited

/-- The `n` consecutive group records at `pos`, and the position after them. -/
def TheaToEerie.readGroups (env : Env) (adr : List Nat) :
    Nat → Nat → Option (List THEO_GROUPANIM × Nat)
  | 0, pos => some ([], pos)
  | n + 1, pos =>
    match view adr pos env.sizeof_THEO_GROUPANIM with
    | none => none
    | some b =>
      match TheaToEerie.readGroups env adr n (pos + env.sizeof_THEO_GROUPANIM) with
      | none => none
      | some (rest, pos) => some (env.as_THEO_GROUPANIM b :: rest, pos)

/-- The reads of one key frame that starts at `pos`, in the order of the source, and
the position of the next key frame. -/
def TheaToEerie.read (env : Env) (adr : List Nat) (th : THEA_HEADER) (pos : Nat) :
    Option (KeyframeRead × Nat) :=
  match TheaToEerie.readKeyframe env adr th pos with
  | none => none
  | some (tkf2015, pos) =>
    match (if tkf2015.key_move ≠ 0 then
        (view adr pos env.sizeof_THEA_KEYMOVE).map fun b =>
          (some (env.as_THEA_KEYMOVE b), pos + env.sizeof_THEA_KEYMOVE)
      else some (none, pos) : Option (Option Vec3f × Nat)) with
    | none => none
    | some (move, pos) =>
      match (if tkf2015.key_orient ≠ 0 then
          (view adr (pos + 8) env.sizeof_ArxQuat).map fun b =>
            (some (env.as_ArxQuat b), pos + 8 + env.sizeof_ArxQuat)
        else some (none, pos) : Option (Option ArxQuat × Nat)) with
      | none => none
      | some (quat, pos) =>
        match TheaToEerie.readGroups env adr th.nb_groups.toNat
            (if tkf2015.key_morph ≠ 0 then pos + 16 else pos) with
        | none => none
        | some (groups, pos) =>
          match view adr pos 4 with
          | none => none
          | some w =>
            match (if env.as_s32 w ≠ -1 then
                (view adr (pos + 4) env.sizeof_THEA_SAMPLE).map fun b =>
                  (some (env.as_THEA_SAMPLE b),
                    advance (pos + 4 + env.sizeof_THEA_SAMPLE) (env.as_THEA_SAMPLE b).sample_size)
              else some (none, pos + 4) : Option (Option THEA_SAMPLE × Nat)) with
            | none => none
            | some (sample, pos) =>
              some ({ tkf2015 := tkf2015, move := move, quat := quat, groups := groups
                      sample := sample }, pos + 4)

/-- The reads of `n` consecutive key frames from `pos` on. -/
def TheaToEerie.readAll (env : Env) (adr : List Nat) (th : THEA_HEADER) :
    Nat → Nat → Option (List KeyframeRead)
  | 0, _ => some []
  | n + 1, pos =>
    match TheaToEerie.read env adr th pos with
    | none => none
    | some (r, pos) =>
      match TheaToEerie.readAll env adr th n pos with
      | none => none
      | some rest => some (r :: rest)

/-- The key frame records of a buffer: the reads of the `nb_key_frames` key frames
that follow the header. -/
def keyframeReads (env : Env) (adr : List Nat) (th : THEA_HEADER) : Option (List KeyframeRead) :=
  TheaToEerie.readAll env adr th th.nb_key_frames.toNat env.sizeof_THEA_HEADER

/-- The frame the key frame body leaves in `frames[i]` after the reads `r`, where
`base` is the zero-initialised entry it started from. -/
def TheaToEerie.frameOf (env : Env) (r : KeyframeRead) (base : EERIE_FRAME) : EERIE_FRAME :=
  { master_key_frame := r.tkf2015.master_key_frame
    num_frame := r.tkf2015.num_frame
    f_rotate := r.tkf2015.key_orient
    f_translate := r.tkf2015.key_move
    time := ((wrapS32 (r.tkf2015.num_frame * 1000) : Int) : ℚ) * (1 / 24)
    flag := r.tkf2015.flag_frame
    translate := match r.move with
      | some v => v
      | none => base.translate
    quat := match r.quat with
      | some q => q
      | none => base.quat
    sample := match r.sample with
      | some ts => env.ARX_SOUND_Load ts.sample_name
      | none => -1 }

/-- The group transform stored for a group record. -/
def TheaToEerie.groupOf (tga : THEO_GROUPANIM) : EERIE_GROUP :=
  { key := tga.key_group, quat := tga.Quaternion, translate := tga.translate, zoom := tga.zoom }

/-- The group array after the group records `recs` of key frame `i` were stored from
group `j` on, `G` being the group count. -/
def TheaToEerie.storeGroups (G i : Nat) :
    List THEO_GROUPANIM → Nat → List EERIE_GROUP → List EERIE_GROUP
  | [], _, groups => groups
  | tga :: rest, j, groups =>
    TheaToEerie.storeGroups G i rest (j + 1) (groups.set (j + i * G) (TheaToEerie.groupOf tga))

/-- The track after the key frame body stored the reads `r` of key frame `i`. -/
def TheaToEerie.store (env : Env) (th : THEA_HEADER) (i : Nat) (r : KeyframeRead)
    (eerie : EERIE_ANIM) : EERIE_ANIM :=
  { eerie with
    frames := eerie.frames.set i (TheaToEerie.frameOf env r (eerie.frames.getD i default))
    groups := TheaToEerie.storeGroups th.nb_groups.toNat i r.groups 0 eerie.groups
    anim_time := eerie.anim_time + ((wrapS32 (r.tkf2015.num_frame * 1000) : Int) : ℚ) }

/-- A group transform that leaves the group where it is: identity rotation, zero
translation, zero scale. -/
def THEO_GROUPANIM.isVoid (tga : THEO_GROUPANIM) : Prop :=
  tga.Quaternion = { w := 1, x := 0, y := 0, z := 0 } ∧ tga.translate = Vec3f.ZERO ∧
    tga.zoom = Vec3f.ZERO

/-- The track after the key frame body stored the reads `recs` of the key frames
`i`, `i + 1`, ... in turn. -/
def TheaToEerie.storeAll (env : Env) (th : THEA_HEADER) :
    Nat → List KeyframeRead → EERIE_ANIM → EERIE_ANIM
  | _, [], eerie => eerie
  | i, r :: rest, eerie =>
    TheaToEerie.storeAll env th (i + 1) rest (TheaToEerie.store env th i r eerie)

/-- Two frames that agree in every field other than the translation and the
rotation. -/
def EERIE_FRAME.sameRecord (a b : EERIE_FRAME) : Prop :=
  a.num_frame = b.num_frame ∧ a.flag = b.flag ∧ a.master_key_frame = b.master_key_frame ∧
    a.f_translate = b.f_translate ∧ a.f_rotate = b.f_rotate ∧ a.time = b.time ∧
    a.sample = b.sample

/-- The test `(j < nb_key_frames) && (k >= 0)` of the translation gap-fill for key
frame `i`: an earlier and a later key frame with an authored translation exist. -/
def TheaToEerie.fillsTranslate (th : THEA_HEADER) (i : Nat) (eerie : EERIE_ANIM) : Prop :=
  ((TheaToEerie.scanFwd eerie.frames (fun f => f.f_translate)
      (th.nb_key_frames.toNat - i) i : Nat) : Int) < th.nb_key_frames ∧
    TheaToEerie.scanBack eerie.frames (fun f => f.f_translate) i ≥ 0

/-- The test `(j < nb_key_frames) && (k >= 0)` of the rotation gap-fill for key
frame `i`. -/
def TheaToEerie.fillsRotate (th : THEA_HEADER) (i : Nat) (eerie : EERIE_ANIM) : Prop :=
  ((TheaToEerie.scanFwd eerie.frames (fun f => f.f_rotate)
      (th.nb_key_frames.toNat - i) i : Nat) : Int) < th.nb_key_frames ∧
    TheaToEerie.scanBack eerie.frames (fun f => f.f_rotate) i ≥ 0

/-- The test of the void-group pass on one stored group transform, negated: the
rotation is the identity and the translation and the scale are zero. -/
def EERIE_GROUP.isVoid (g : EERIE_GROUP) : Prop :=
  g.quat.x = 0 ∧ g.quat.y = 0 ∧ g.quat.z = 0 ∧ g.quat.w = 1 ∧ g.translate = Vec3f.ZERO ∧
    g.zoom = Vec3f.ZERO

/-- The header of `twoFrameClip`. -/
def twoFrameHeader : THEA_HEADER :=
  { version := 2015, nb_frames := 24, nb_groups := 1, nb_key_frames := 2 }

/-- A buffer of the example layout: version 2015, 24 frames, no group, three key
frames at the frames 0, 10 and 20. The first carries the translation (0, 0, 0), the
last the translation (10, 0, 0), the middle one none; none carries a rotation. -/
def threeFrameClip : List Nat :=
  w32 2015 ++ w32 24 ++ w32 0 ++ w32 3 ++
  w32 0 ++ w32 0 ++ w32 0 ++ w32 1 ++ w32 1 ++ w32 0 ++ w32 0 ++ w32 0 ++
  w32 0 ++ w32 0 ++ w32 0 ++
  [255, 255, 255, 255] ++ w32 0 ++
  w32 10 ++ w32 0 ++ w32 0 ++ w32 1 ++ w32 0 ++ w32 0 ++ w32 0 ++ w32 10 ++
  [255, 255, 255, 255] ++ w32 0 ++
  w32 20 ++ w32 0 ++ w32 0 ++ w32 1 ++ w32 1 ++ w32 0 ++ w32 0 ++ w32 20 ++
  w32 10 ++ w32 0 ++ w32 0 ++
  [255, 255, 255, 255] ++ w32 0

/-- The header of `threeFrameClip`. -/
def threeFrameHeader : THEA_HEADER :=
  { version := 2015, nb_frames := 24, nb_groups := 0, nb_key_frames := 3 }

/-! ## Playback

`long` is the 64-bit integer of the LP64 platforms; the one addition that takes an
unbounded operand, `ctime += time`, wraps. A `float` is a rational number, and the
conversion of a `float` to `long` truncates toward zero. Where the end of a clip
sets the elapsed time, a `long`, against the `float` duration, in the tests
`ctime > anim_time` and in the overflow `ctime - anim_time`, the operation is done
on `float` values: the `long` is converted to the nearest `float`, and so is the
result of the subtraction. -/

/-- Wrap-around of an integer into the range of a 64-bit `long`. -/
def wrapLong (x : Int) : Int := (x + 2 ^ 63) % 2 ^ 64 - 2 ^ 63

/-- Conversion of a `float` to `long`: truncation toward zero. -/
def truncQ (q : ℚ) : Int := Int.tdiv q.num q.den

/-- Rounding of a rational to the nearest integer, a tie going to the even one. -/
def roundHalfEven (m : ℚ) : Int :=
  if m - (⌊m⌋ : ℚ) < 1 / 2 then ⌊m⌋
  else if 1 / 2 < m - (⌊m⌋ : ℚ) then ⌊m⌋ + 1
  else if ⌊m⌋ % 2 = 0 then ⌊m⌋ else ⌊m⌋ + 1

/-- The `float` nearest to `q`, a tie going to the even significand: with
`2 ^ e <= |q| < 2 ^ (e + 1)` the significand `|q| / 2 ^ (e - 23)` is rounded to a
whole number of 24 binary digits. The exponent is not bounded: the values rounded
here, a `long`, a duration and their difference, lie inside the range of a
`float`. A value that is a `float` already is left as it is. -/
def roundFloat (q : ℚ) : ℚ :=
  if q = 0 then 0
  else
    (if q < 0 then -1 else 1)
      * ((roundHalfEven (|q| / (2 : ℚ) ^ (Int.log 2 |q| - 23)) : Int) : ℚ)
      * (2 : ℚ) ^ (Int.log 2 |q| - 23)

/-- The conversion `(float)n` of a `long`; it is exact up to `2 ^ 24` in
magnitude. -/
def floatOfLong (n : Int) : ℚ := roundFloat (n : ℚ)

/-- The table `anim_power`. -/
def anim_power : List Int := [100, 20, 15, 12, 8, 6, 5, 4, 3, 2, 2, 1, 1, 1, 1]

/-- The expression `anim_power[min(i, 14)]`. -/
def anim_power_at (i : Int) : Int := anim_power.getD (min i 14).toNat 0

/-- The loop `for(long i = 1; i < ah->alt_nb; i++) tot += anim_power[min(i, 14L)]`,
with `n` iterations left. -/
def ANIM_GetAltIdx.totLoop : Nat → Int → Int → Int
  | 0, _, tot => tot
  | n + 1, i, tot => ANIM_GetAltIdx.totLoop n (i + 1) (tot + anim_power_at i)

/-- One pass `for(short i = 0; i < ah->alt_nb; i++)` of the selection loop, with
`n` iterations left; `rnd d` is the value of the `d`-th call of `rnd()`. Returns
the index accepted, if any, and the number of draws made so far. -/
def ANIM_GetAltIdx.pass (rnd : Nat → ℚ) (tot old : Int) : Nat → Int → Nat → Option Int × Nat
  | 0, _, d => (none, d)
  | n + 1, i, d =>
    let r : ℚ := rnd d * (tot : ℚ)
    if r < (anim_power_at i : ℚ) ∧ i ≠ old then (some i, d + 1)
    else ANIM_GetAltIdx.pass rnd tot old n (i + 1) (d + 1)

/-- The loop `while(1)` of the selection, with at most `fuel` passes. -/
def ANIM_GetAltIdx.retry (rnd : Nat → ℚ) (alt_nb tot old : Int) : Nat → Nat → Option Int
  | 0, _ => none
  | fuel + 1, d =>
    match ANIM_GetAltIdx.pass rnd tot old alt_nb.toNat 0 d with
    | (some i, _) => some i
    | (none, d) => ANIM_GetAltIdx.retry rnd alt_nb tot old fuel d

/-- Weighted pick of an alternate of `ah` other than `old`, from the draws `rnd`;
`none` when `fuel` passes accept no index. -/
def ANIM_GetAltIdx (rnd : Nat → ℚ) (fuel : Nat) (ah : ANIM_HANDLE) (old : Int) : Option Int :=
  if ah.alt_nb = 1 then some 0
  else
    ANIM_GetAltIdx.retry rnd ah.alt_nb
      (ANIM_GetAltIdx.totLoop (ah.alt_nb - 1).toNat 1 (anim_power_at 0)) old fuel 0

/-- What playback takes from the rest of the repository: the indices `ANIM_WALK`,
... of the locomotion clips in `Entity::anims`, the masks `IO_FREEZESCRIPT` and
`IO_NPC` of `Entity::ioflags`, and the value of
`checked_range_cast<unsigned long>(arxtime.get_frame_time())`. -/
structure PlayEnv where
  ANIM_WALK : Nat
  ANIM_WALK2 : Nat
  ANIM_WALK3 : Nat
  ANIM_RUN : Nat
  ANIM_RUN2 : Nat
  ANIM_RUN3 : Nat
  IO_FREEZESCRIPT : Nat
  IO_NPC : Nat
  frame_time : Nat

/-- The calls that a tick makes on an entity or on the sound system, in order. -/
inductive AnimEvent where
  | FinishAnim (eanim : Nat)
  | ARX_SOUND_PlayAnim (sample : Int) (position : Option Vec3f)
  | ARX_NPC_NeedStepSound (position : Option Vec3f)
  deriving DecidableEq, Repr

/-- The statements of `ResetAnim` after its null test: the reset of the per-clip
state of a non-null playback state. -/
def ResetAnim.reset (eanim : ANIM_USE) : ANIM_USE :=
  { eanim with
    ctime := 0
    lastframe := -1
    flags := { eanim.flags with
               EA_PAUSED := false, EA_ANIMEND := false, EA_LOOP := false, EA_FORCEPLAY := false } }

/-- The call `ResetAnim(eanim)`; `none` is the null pointer, on which nothing is
done. -/
def ResetAnim (eanim : Option ANIM_USE) : Option ANIM_USE :=
  match eanim with
  | none => none
  | some eanim => some (ResetAnim.reset eanim)

/-- The call `ANIM_Set(au, anim)` with the draws `rnd` and at most `fuel` passes
of the alternate selection: nothing is done on a null state or a null clip;
otherwise the clip is set, an alternate is selected and the per-clip state is
reset. The outer `none` is a selection that does not return. -/
def ANIM_Set (animations : AnimTable) (rnd : Nat → ℚ) (fuel : Nat) (au : Option ANIM_USE)
    (anim : Option Nat) : Option (Option ANIM_USE) :=
  match au, anim with
  | some au, some h =>
    match ANIM_GetAltIdx rnd fuel (animations h) au.altidx_cur with
    | none => none
    | some idx =>
      let au := { au with cur_anim := some h, altidx_cur := idx }
      let au := if au.altidx_cur > (animations h).alt_nb then { au with altidx_cur := 0 } else au
      some (some
        { au with
          ctime := 0
          lastframe := -1
          flags := { au.flags with
                     EA_PAUSED := false, EA_ANIMEND := false, EA_LOOP := false
                     EA_FORCEPLAY := false } })
  | _, _ => some au

/-- Stores the frame time and the vertex count for later interpolation, unless
none of the four layers plays a clip. -/
def AcquireLastAnim (penv : PlayEnv) (io : Entity) : Entity :=
  if (io.animlayer.getD 0 default).cur_anim = none
      ∧ (io.animlayer.getD 1 default).cur_anim = none
      ∧ (io.animlayer.getD 2 default).cur_anim = none
      ∧ (io.animlayer.getD 3 default).cur_anim = none then io
  else { io with lastanimtime := penv.frame_time, nb_lastanimvertex := 1 }

/-- Declares the clip `eanim` of `io` finished: an NPC whose layer 0 plays it has
its movement zeroed. -/
def FinishAnim (penv : PlayEnv) (io : Option Entity) (eanim : Option Nat) : Option Entity :=
  match io, eanim with
  | some e, some h =>
    if (e.animlayer.getD 0 default).cur_anim = some h ∧ e.ioflags &&& penv.IO_NPC ≠ 0 then
      some { e with move := Vec3f.ZERO, lastmove := Vec3f.ZERO }
    else some e
  | _, _ => io

/-- The track `ah->anims[idx]`; `none` when there is no such track to read. -/
def ANIM_HANDLE.track (ah : ANIM_HANDLE) (idx : Int) : Option EERIE_ANIM :=
  if idx < 0 then none
  else
    match ah.anims[idx.toNat]? with
    | some (some t) => some t
    | _ => none

/-- The track `eanim->cur_anim->anims[eanim->altidx_cur]`. -/
def PrepareAnim.track (animations : AnimTable) (eanim : ANIM_USE) : Option EERIE_ANIM :=
  match eanim.cur_anim with
  | none => none
  | some h => (animations h).track eanim.altidx_cur

/-- The time increment after the tests of the pause flag and of the freeze flag. -/
def PrepareAnim.time (penv : PlayEnv) (eanim : ANIM_USE) (time : Nat) (io : Option Entity) : Nat :=
  let time := if eanim.flags.EA_PAUSED then 0 else time
  match io with
  | some e => if e.ioflags &&& penv.IO_FREEZESCRIPT ≠ 0 then 0 else time
  | none => time

/-- The statements of `PrepareAnim` from the clamp of the alternate index to the
clearing of `EA_ANIMEND`, for the increment `time` and the slot `ah` of the
current clip. -/
def PrepareAnim.advance (ah : ANIM_HANDLE) (eanim : ANIM_USE) (time : Nat) : ANIM_USE :=
  let eanim := if eanim.altidx_cur ≥ ah.alt_nb then { eanim with altidx_cur := 0 } else eanim
  let eanim :=
    if ¬ eanim.flags.EA_EXCONTROL then
      { eanim with ctime := wrapLong (eanim.ctime + (time : Int)) }
    else eanim
  { eanim with flags := { eanim.flags with EA_ANIMEND := false } }

/-- The statement `if((flags & EA_STOPEND) && ctime > anim_time) ctime = anim_time`.
The comparison is one of `float` values: `ctime` is converted to `float`, and the
duration is the `float` that the field holds. -/
def PrepareAnim.stopEnd (t : EERIE_ANIM) (eanim : ANIM_USE) : ANIM_USE :=
  if eanim.flags.EA_STOPEND = true ∧ floatOfLong eanim.ctime > roundFloat t.anim_time then
    { eanim with ctime := truncQ t.anim_time }
  else eanim

/-- The loop test: `EA_LOOP`, or an entity whose walk or run clip is the current one. -/
def PrepareAnim.isLooping (penv : PlayEnv) (eanim : ANIM_USE) (io : Option Entity) : Bool :=
  eanim.flags.EA_LOOP ||
    match io with
    | none => false
    | some e =>
      decide (eanim.cur_anim = e.anims.getD penv.ANIM_WALK none)
        || decide (eanim.cur_anim = e.anims.getD penv.ANIM_WALK2 none)
        || decide (eanim.cur_anim = e.anims.getD penv.ANIM_WALK3 none)
        || decide (eanim.cur_anim = e.anims.getD penv.ANIM_RUN none)
        || decide (eanim.cur_anim = e.anims.getD penv.ANIM_RUN2 none)
        || decide (eanim.cur_anim = e.anims.getD penv.ANIM_RUN3 none)

/-- The statements on a non-null `io` at a transition: the end-of-clip
notification, then the latch of the blend state. -/
def PrepareAnim.latch (penv : PlayEnv) (io : Option Entity) (cur : Option Nat) : Option Entity :=
  match FinishAnim penv io cur with
  | none => none
  | some e =>
    if e.lastanimtime ≠ 0 then some (AcquireLastAnim penv e)
    else some { e with lastanimtime := 1 }

/-- The record of the call `FinishAnim(io, cur)` that a tick makes when `io` is
not null. -/
def PrepareAnim.finishEvents (io : Option Entity) (cur : Option Nat) : List AnimEvent :=
  match io, cur with
  | some _, some h => [AnimEvent.FinishAnim h]
  | _, _ => []

/-- The transition to the queued clip `next` with the overflow `lost`: the
statements on `io` when it is not null, the switch of the clip, the re-roll of the
alternate index, the reset, and the adoption of the queued flags. -/
def PrepareAnim.switch (penv : PlayEnv) (animations : AnimTable) (rnd : Nat → ℚ) (fuel : Nat)
    (eanim : ANIM_USE) (next : Nat) (lost : Int) (io : Option Entity) :
    Option (ANIM_USE × Option Entity × List AnimEvent) :=
  let events := PrepareAnim.finishEvents io eanim.cur_anim
  let io := PrepareAnim.latch penv io eanim.cur_anim
  match ANIM_GetAltIdx rnd fuel (animations next) eanim.altidx_cur with
  | none => none
  | some idx =>
    let eanim := { eanim with cur_anim := some next, altidx_cur := idx, next_anim := none }
    let eanim := ResetAnim.reset eanim
    let eanim := { eanim with ctime := lost }
    let eanim := { eanim with flags := eanim.nextflags }
    some ({ eanim with flags := { eanim.flags with EA_ANIMEND := false } }, io, events)

/-- The end-of-clip part of `PrepareAnim`, from the loop test to the label `suite`,
for the track `t` of the current clip. The tests `ctime > anim_time` compare
`float` values, `ctime` being converted; the overflow of the looping branch,
`ctime - long(anim_time)`, is a difference of `long` values, that of the other
branch, `ctime - anim_time`, a difference of `float` values converted to `long`.
The outer `none` is an undefined outcome: a remainder by zero, or a selection of
the alternate that does not return. -/
def PrepareAnim.endOfClip (penv : PlayEnv) (animations : AnimTable) (rnd : Nat → ℚ) (fuel : Nat)
    (eanim : ANIM_USE) (t : EERIE_ANIM) (io : Option Entity) :
    Option (ANIM_USE × Option Entity × List AnimEvent) :=
  if PrepareAnim.isLooping penv eanim io = true then
    if floatOfLong eanim.ctime > roundFloat t.anim_time then
      let lost := eanim.ctime - truncQ t.anim_time
      match eanim.next_anim with
      | none =>
        let t' := truncQ t.anim_time
        if t' = 0 then none
        else
          some ({ eanim with ctime := Int.tmod eanim.ctime t' },
            FinishAnim penv io eanim.cur_anim, PrepareAnim.finishEvents io eanim.cur_anim)
      | some next => PrepareAnim.switch penv animations rnd fuel eanim next lost io
    else some (eanim, io, [])
  else if floatOfLong eanim.ctime > roundFloat t.anim_time then
    match io, eanim.next_anim with
    | some e, some next =>
      PrepareAnim.switch penv animations rnd fuel eanim next
        (truncQ (roundFloat (floatOfLong eanim.ctime - roundFloat t.anim_time))) (some e)
    | _, _ =>
      some ({ eanim with
              flags := { eanim.flags with EA_ANIMEND := true }
              ctime := truncQ t.anim_time }, io, [])
  else some (eanim, io, [])

/-- The frame `frames[n]` of a track. A track has `nb_key_frames` frames and the
loops of `PrepareAnim` stay below that count; an index outside the list reads the
zero record. -/
def PrepareAnim.frameAt (t : EERIE_ANIM) (n : Int) : EERIE_FRAME :=
  if n < 0 then default else t.frames.getD n.toNat default

/-- The block "Frame Sound Management" for the frame `fr`. -/
def PrepareAnim.sounds (t : EERIE_ANIM) (eanim : ANIM_USE) (time : Nat) (fr : Int)
    (position : Option Vec3f) : List AnimEvent :=
  if eanim.flags.EA_ANIMEND = false ∧ time ≠ 0 ∧ (PrepareAnim.frameAt t fr).sample ≠ -1
      ∧ eanim.lastframe ≠ fr then
    if eanim.lastframe < fr ∧ eanim.lastframe ≠ -1 then
      (List.range (fr - eanim.lastframe).toNat).map fun d =>
        AnimEvent.ARX_SOUND_PlayAnim
          (PrepareAnim.frameAt t (eanim.lastframe + 1 + (d : Int))).sample position
    else [AnimEvent.ARX_SOUND_PlayAnim (PrepareAnim.frameAt t fr).sample position]
  else []

/-- The block "Frame Flags Management" for the frame `fr`; `isPlayer` is the value
of `io == entities.player()`. -/
def PrepareAnim.steps (t : EERIE_ANIM) (eanim : ANIM_USE) (time : Nat) (fr : Int)
    (position : Option Vec3f) (isPlayer : Bool) : List AnimEvent :=
  if eanim.flags.EA_ANIMEND = false ∧ time ≠ 0 ∧ (PrepareAnim.frameAt t fr).flag > 0
      ∧ eanim.lastframe ≠ fr then
    if isPlayer = false then
      if eanim.lastframe < fr ∧ eanim.lastframe ≠ -1 then
        ((List.range (fr - eanim.lastframe).toNat).filter fun d =>
          decide ((PrepareAnim.frameAt t (eanim.lastframe + 1 + (d : Int))).flag = 9)).map
          fun _ => AnimEvent.ARX_NPC_NeedStepSound position
      else if (PrepareAnim.frameAt t fr).flag = 9 then
        [AnimEvent.ARX_NPC_NeedStepSound position]
      else []
    else []
  else []

/-- The loop `for(long i = 1; i < nb_key_frames; i++)` that finds the frame of the
time `tim`, with `n` iterations left. -/
def PrepareAnim.frameLoop (t : EERIE_ANIM) (eanim : ANIM_USE) (time : Nat)
    (position : Option Vec3f) (isPlayer : Bool) (tim : Int) :
    Nat → Int → ANIM_USE × List AnimEvent
  | 0, _ => (eanim, [])
  | n + 1, i =>
    let tcf := truncQ (PrepareAnim.frameAt t (i - 1)).time
    let tnf := truncQ (PrepareAnim.frameAt t i).time
    if tcf = tnf then (eanim, [])
    else if (tim < tnf ∧ tim ≥ tcf) ∨ (i = t.nb_key_frames - 1 ∧ tim = tnf) then
      let fr := i - 1
      let tim := tim - tcf
      let pour : ℚ := (tim : ℚ) / ((tnf : ℚ) - (tcf : ℚ))
      ({ eanim with lastframe := fr, fr := fr, pour := pour },
        PrepareAnim.sounds t eanim time fr position
          ++ PrepareAnim.steps t eanim time fr position isPlayer)
    else PrepareAnim.frameLoop t eanim time position isPlayer tim n (i + 1)

/-- The part of `PrepareAnim` after the label `suite`, for the track `t` of the
current clip: the frame and the blend ratio of the elapsed time, and the sound and
step events of the frames passed. -/
def PrepareAnim.resolve (t : EERIE_ANIM) (eanim : ANIM_USE) (time : Nat)
    (position : Option Vec3f) (isPlayer : Bool) : ANIM_USE × List AnimEvent :=
  let tim : Int :=
    if eanim.flags.EA_REVERSE then truncQ (t.anim_time - (eanim.ctime : ℚ)) else eanim.ctime
  PrepareAnim.frameLoop t { eanim with fr := t.nb_key_frames - 2, pour := 1 } time position
    isPlayer tim (t.nb_key_frames - 1).toNat 1

/-- What a tick leaves: the playback state, the entity, and the calls made. -/
structure PrepareResult where
  eanim : Option ANIM_USE
  io : Option Entity
  events : List AnimEvent

/-- One tick of playback: `PrepareAnim(eanim, time, io)` on the cache `animations`,
with the draws `rnd` and at most `fuel` passes of the alternate selection. The
playback state and the entity are passed and returned by value. The outer `none` is
an undefined outcome: a null current clip, a track that is not there, a remainder
by zero, or a selection that does not return. -/
def PrepareAnim (penv : PlayEnv) (animations : AnimTable) (rnd : Nat → ℚ) (fuel : Nat)
    (eanim : Option ANIM_USE) (time : Nat) (io : Option Entity) (isPlayer : Bool) :
    Option PrepareResult :=
  match eanim with
  | none => some { eanim := none, io := io, events := [] }
  | some eanim =>
    let time := PrepareAnim.time penv eanim time io
    match eanim.cur_anim with
    | none => none
    | some h =>
      let eanim := PrepareAnim.advance (animations h) eanim time
      match PrepareAnim.track animations eanim with
      | none => none
      | some t =>
        let eanim := PrepareAnim.stopEnd t eanim
        match PrepareAnim.endOfClip penv animations rnd fuel eanim t io with
        | none => none
        | some (eanim, io, events) =>
          match PrepareAnim.track animations eanim with
          | none => none
          | some t =>
            let r := PrepareAnim.resolve t eanim time (io.map fun e => e.pos) isPlayer
            some { eanim := some r.1, io := io, events := events ++ r.2 }

/-- Whether an event is a call of `FinishAnim`. -/
def AnimEvent.isFinish : AnimEvent → Bool
  | AnimEvent.FinishAnim _ => true
  | _ => false

/-- The alternate index after the clamp `if(altidx_cur >= alt_nb) altidx_cur = 0`. -/
def PrepareAnim.altidx (ah : ANIM_HANDLE) (eanim : ANIM_USE) : Int :=
  if eanim.altidx_cur ≥ ah.alt_nb then 0 else eanim.altidx_cur

/-- Example constants of playback. -/
def examplePlayEnv : PlayEnv :=
  { ANIM_WALK := 2, ANIM_WALK2 := 3, ANIM_WALK3 := 4, ANIM_RUN := 5, ANIM_RUN2 := 6
    ANIM_RUN3 := 7, IO_FREEZESCRIPT := 1, IO_NPC := 8, frame_time := 40 }

/-- A header-only buffer of the example layout: version 2014, one frame, no group,
no key frame. -/
def oneFrameClip : List Nat := [222, 7, 0, 0, 1, 0, 0, 0, 0, 0, 0, 0, 0, 0, 0, 0]

/-- The track the example decoder makes of `oneFrameClip`: its duration is
1000 / 24, not a whole number. -/
def oneFrameTrack : EERIE_ANIM := { anim_time := 125 / 3, nb_groups := 0, nb_key_frames := 0 }

/-- Example table for playback: slot 0 holds "walk" with two tracks of duration
1000, slot 1 holds "idle" with one track of duration 1000, slot 2 holds "nod" with
the track of `oneFrameClip`. -/
def playTable : AnimTable :=
  Function.update
    (Function.update walkTable 1
      { path := "idle", anims := [some emptyClipTrack], alt_nb := 1, locks := 1 })
    2 { path := "nod", anims := [some oneFrameTrack], alt_nb := 1, locks := 1 }

/-- Example entity that owns the playback states of the examples; none of its
locomotion clips is set. -/
def exampleOwner : Entity := { anims := [some 0, none], animlayer := [{ cur_anim := some 1 }] }

/-- The playback time `tim` of the frame search: the elapsed time, or with the
reverse flag the duration minus the elapsed time, converted to `long`. -/
def PrepareAnim.tim (t : EERIE_ANIM) (eanim : ANIM_USE) : Int :=
  if eanim.flags.EA_REVERSE then truncQ (t.anim_time - (eanim.ctime : ℚ)) else eanim.ctime

/-- The key frame time `(long)frames[n].time`. -/
def PrepareAnim.keyTime (t : EERIE_ANIM) (n : Int) : Int :=
  truncQ (PrepareAnim.frameAt t n).time

/-- The test of the frame loop on the pair of key frames `f`, `f + 1`:
`(tim < tnf && tim >= tcf) || (i == nb_key_frames - 1 && tim == tnf)` for
`i = f + 1`. -/
def PrepareAnim.bounds (t : EERIE_ANIM) (tim f : Int) : Prop :=
  (tim < PrepareAnim.keyTime t (f + 1) ∧ tim ≥ PrepareAnim.keyTime t f) ∨
    (f + 1 = t.nb_key_frames - 1 ∧ tim = PrepareAnim.keyTime t (f + 1))

/-- The control flow of the frame loop of `PrepareAnim` alone, with `n` iterations
left from the index `i`: the frame `i - 1` of the first pair that passes the test,
or `none` when the loop returns on a pair of equal times or runs out. -/
def PrepareAnim.scan (t : EERIE_ANIM) (tim : Int) : Nat → Int → Option Int
  | 0, _ => none
  | n + 1, i =>
    let tcf := truncQ (PrepareAnim.frameAt t (i - 1)).time
    let tnf := truncQ (PrepareAnim.frameAt t i).time
    if tcf = tnf then none
    else if (tim < tnf ∧ tim ≥ tcf) ∨ (i = t.nb_key_frames - 1 ∧ tim = tnf) then some (i - 1)
    else PrepareAnim.scan t tim n (i + 1)

/-- The track the example decoder makes of `twoFrameClip`: two key frames at the
times 0 and 500, the first with the footstep flag 9, the second with the sample 65. -/
def twoFrameTrack : EERIE_ANIM :=
  { anim_time := 1000, nb_groups := 1, nb_key_frames := 2
    frames :=
      [{ num_frame := 0, flag := 9, master_key_frame := 1, f_translate := 1, f_rotate := 1
         time := 0, translate := ⟨1, 2, 3⟩, quat := ⟨1, 0, 0, 0⟩, sample := -1 },
       { num_frame := 12, flag := 0, master_key_frame := 0, f_translate := 1, f_rotate := 1
         time := 500, translate := ⟨0, 0, 0⟩, quat := ⟨0, 0, 0, 0⟩, sample := 65 }]
    groups :=
      [{ key := 0, translate := ⟨0, 0, 0⟩, quat := ⟨1, 0, 0, 0⟩, zoom := ⟨0, 0, 0⟩ },
       { key := 0, translate := ⟨0, 0, 0⟩, quat := ⟨1, 0, 0, 0⟩, zoom := ⟨0, 0, 0⟩ }]
    voidgroups := [1] }

/-- Example track of duration 1000 with four key frames at the frames 0, 3, 6 and
9 (times 0, 125, 250, 375); only key frame 1 has a sample (7) and the footstep
flag 9. -/
def soundTrack : EERIE_ANIM :=
  { anim_time := 1000, nb_groups := 0, nb_key_frames := 4
    frames :=
      [{ num_frame := 0, time := 0, sample := -1, f_translate := 1, f_rotate := 1 },
       { num_frame := 3, time := 125, sample := 7, flag := 9, f_translate := 1, f_rotate := 1 },
       { num_frame := 6, time := 250, sample := -1, f_translate := 1, f_rotate := 1 },
       { num_frame := 9, time := 375, sample := -1, f_translate := 1, f_rotate := 1 }] }

/-- Example track of duration 1000 whose two key frames both have the time 0. -/
def flatTrack : EERIE_ANIM :=
  { anim_time := 1000, nb_groups := 0, nb_key_frames := 2
    frames :=
      [{ num_frame := 0, time := 0, sample := -1, f_translate := 1, f_rotate := 1 },
       { num_frame := 0, time := 0, sample := 7, flag := 9, f_translate := 1, f_rotate := 1 }] }

/-- Example table for the frame search: `playTable` with "step" (`twoFrameTrack`)
in slot 3, "talk" (`soundTrack`) in slot 4 and "flat" (`flatTrack`) in slot 5. -/
def frameTable : AnimTable :=
  Function.update
    (Function.update
      (Function.update playTable 3
        { path := "step", anims := [some twoFrameTrack], alt_nb := 1, locks := 1 })
      4 { path := "talk", anims := [some soundTrack], alt_nb := 1, locks := 1 })
    5 { path := "flat", anims := [some flatTrack], alt_nb := 1, locks := 1 }

/-- The value of `tot` in `ANIM_GetAltIdx` after its loop: the sum of the weights
`anim_power[min(i, 14)]` of the alternates of `ah`. -/
def ANIM_GetAltIdx.tot (ah : ANIM_HANDLE) : Int :=
  ANIM_GetAltIdx.totLoop (ah.alt_nb - 1).toNat 1 (anim_power_at 0)

/-- Every live slot (non-empty path) has at least one alternate, and each of its
`alt_nb` track entries is present. -/
def LiveTracks (t : AnimTable) : Prop :=
  ∀ i, (t i).path ≠ "" →
    1 ≤ (t i).alt_nb ∧ ∀ k : Nat, (k : Int) < (t i).alt_nb → ∃ e, (t i).anims[k]? = some (some e)

/-- A buffer of the example layout: version 2015, 24 frames, no group, three key
frames at the frames 0, 10 and 20. The first carries the rotation (w, x, y, z) =
(1, 0, 0, 0), the last the rotation (0, 3, 0, 0), the middle one none; none
carries a translation. -/
def spinClip : List Nat :=
  w32 2015 ++ w32 24 ++ w32 0 ++ w32 3 ++
  w32 0 ++ w32 0 ++ w32 0 ++ w32 1 ++ w32 0 ++ w32 1 ++ w32 0 ++ w32 0 ++
  List.replicate 8 0 ++ w32 1 ++ w32 0 ++ w32 0 ++ w32 0 ++
  [255, 255, 255, 255] ++ w32 0 ++
  w32 10 ++ w32 0 ++ w32 0 ++ w32 1 ++ w32 0 ++ w32 0 ++ w32 0 ++ w32 10 ++
  [255, 255, 255, 255] ++ w32 0 ++
  w32 20 ++ w32 0 ++ w32 0 ++ w32 1 ++ w32 0 ++ w32 1 ++ w32 0 ++ w32 20 ++
  List.replicate 8 0 ++ w32 0 ++ w32 3 ++ w32 0 ++ w32 0 ++
  [255, 255, 255, 255] ++ w32 0

/-! ## The sample names kept across a reset of the sound system -/

/-- What the push and pop of the sample names take from the sound system:
`audio::getSampleName` (the name of a sample, empty when it has none),
`audio::createSample` and `ARX_SOUND_IsEnabled`. -/
structure SoundEnv where
  getSampleName : Int → String
  createSample : String → Int
  ARX_SOUND_IsEnabled : Bool

/-- The file-scope variables `nbelems`, `elems` and `numbers`; `none` is a null
array. -/
structure AnimSamples where
  nbelems : Int := 0
  elems : Option (List String) := none
  numbers : Option (List Int) := none
  deriving DecidableEq, Repr, Inhabited

/-- Release of the recorded names: both arrays are null and the count is zero
afterwards. -/
def ARX_SOUND_FreeAnimSamples (_st : AnimSamples) : AnimSamples :=
  { nbelems := 0, elems := none, numbers := none }

/-- The key frame loop of `ARX_SOUND_PushAnimSamples` on the track `anim` from key
frame `k`, with `n` key frames left; the state is the counter `number` and the
recorded names. `none` is a read outside `frames`. -/
def ARX_SOUND_PushAnimSamples.frames (senv : SoundEnv) (anim : EERIE_ANIM) :
    Nat → Nat → Int × AnimSamples → Option (Int × AnimSamples)
  | 0, _, s => some s
  | n + 1, k, (number, st) =>
    let number := number + 1
    match anim.frames[k]? with
    | none => none
    | some f =>
      if f.sample ≠ -1 then
        let dest := senv.getSampleName f.sample
        if dest ≠ "" then
          ARX_SOUND_PushAnimSamples.frames senv anim n (k + 1)
            (number,
              { elems := some (st.elems.getD [] ++ [dest])
                numbers := some (st.numbers.getD [] ++ [number])
                nbelems := st.nbelems + 1 })
        else ARX_SOUND_PushAnimSamples.frames senv anim n (k + 1) (number, st)
      else ARX_SOUND_PushAnimSamples.frames senv anim n (k + 1) (number, st)

/-- The loop of `ARX_SOUND_PushAnimSamples` over the alternates of `ah` from `j`,
with `n` alternates left. `none` is a read of a missing track. -/
def ARX_SOUND_PushAnimSamples.alts (senv : SoundEnv) (ah : ANIM_HANDLE) :
    Nat → Nat → Int × AnimSamples → Option (Int × AnimSamples)
  | 0, _, s => some s
  | n + 1, j, s =>
    match ah.anims[j]? with
    | some (some anim) =>
      match ARX_SOUND_PushAnimSamples.frames senv anim anim.nb_key_frames.toNat 0 s with
      | none => none
      | some s => ARX_SOUND_PushAnimSamples.alts senv ah n (j + 1) s
    | _ => none

/-- The slot loop of `ARX_SOUND_PushAnimSamples` from slot `i`, with `n` slots
left. -/
def ARX_SOUND_PushAnimSamples.loop (senv : SoundEnv) (animations : AnimTable) :
    Nat → Nat → Int × AnimSamples → Option (Int × AnimSamples)
  | 0, _, s => some s
  | n + 1, i, s =>
    if (animations i).path ≠ "" then
      match ARX_SOUND_PushAnimSamples.alts senv (animations i) (animations i).alt_nb.toNat 0 s with
      | none => none
      | some s => ARX_SOUND_PushAnimSamples.loop senv animations n (i + 1) s
    else ARX_SOUND_PushAnimSamples.loop senv animations n (i + 1) s

/-- Record the name of every named sample of the cache, with the position of its
key frame in the traversal (slots, then alternates, then key frames; the first key
frame visited has the position 1). -/
def ARX_SOUND_PushAnimSamples (senv : SoundEnv) (animations : AnimTable) (st : AnimSamples) :
    Option AnimSamples :=
  (ARX_SOUND_PushAnimSamples.loop senv animations MAX_ANIMATIONS 0
    (0, ARX_SOUND_FreeAnimSamples st)).map fun s => s.2

/-- The key frame loop of `ARX_SOUND_PopAnimSamples` on the track `anim` from key
frame `k`, with `n` key frames left; the state is the pair of the counters `number`
and `curelem`. `none` is a read outside `numbers` or `elems`, or a write outside
`frames`. -/
def ARX_SOUND_PopAnimSamples.frames (senv : SoundEnv) (st : AnimSamples) :
    Nat → Nat → EERIE_ANIM → Int × Int → Option (EERIE_ANIM × (Int × Int))
  | 0, _, anim, s => some (anim, s)
  | n + 1, k, anim, (number, curelem) =>
    let number := number + 1
    match (if curelem < 0 then none else (st.numbers.getD [])[curelem.toNat]?) with
    | none => none
    | some m =>
      if number = m then
        match (st.elems.getD [])[curelem.toNat]? with
        | none => none
        | some name =>
          if k < anim.frames.length then
            ARX_SOUND_PopAnimSamples.frames senv st n (k + 1)
              { anim with
                frames := anim.frames.set k
                  { anim.frames.getD k default with sample := senv.createSample name } }
              (number, curelem + 1)
          else none
      else ARX_SOUND_PopAnimSamples.frames senv st n (k + 1) anim (number, curelem)

/-- The loop of `ARX_SOUND_PopAnimSamples` over the alternates of `ah` from `j`,
with `n` alternates left. -/
def ARX_SOUND_PopAnimSamples.alts (senv : SoundEnv) (st : AnimSamples) :
    Nat → Nat → ANIM_HANDLE → Int × Int → Option (ANIM_HANDLE × (Int × Int))
  | 0, _, ah, s => some (ah, s)
  | n + 1, j, ah, s =>
    match ah.anims[j]? with
    | some (some anim) =>
      match ARX_SOUND_PopAnimSamples.frames senv st anim.nb_key_frames.toNat 0 anim s with
      | none => none
      | some (anim, s) =>
        ARX_SOUND_PopAnimSamples.alts senv st n (j + 1)
          { ah with anims := ah.anims.set j (some anim) } s
    | _ => none

/-- The slot loop of `ARX_SOUND_PopAnimSamples` from slot `i`, with `n` slots
left. -/
def ARX_SOUND_PopAnimSamples.loop (senv : SoundEnv) (st : AnimSamples) :
    Nat → Nat → AnimTable → Int × Int → Option (AnimTable × (Int × Int))
  | 0, _, animations, s => some (animations, s)
  | n + 1, i, animations, s =>
    if (animations i).path ≠ "" then
      match ARX_SOUND_PopAnimSamples.alts senv st (animations i).alt_nb.toNat 0 (animations i) s with
      | none => none
      | some (ah, s) =>
        ARX_SOUND_PopAnimSamples.loop senv st n (i + 1) (Function.update animations i ah) s
    else ARX_SOUND_PopAnimSamples.loop senv st n (i + 1) animations s

/-- Create again the sample of every key frame whose position was recorded, then
release the recorded names; nothing is done when no name is recorded or the sound
system is disabled. `none` is an undefined outcome. -/
def ARX_SOUND_PopAnimSamples (senv : SoundEnv) (animations : AnimTable) (st : AnimSamples) :
    Option (AnimTable × AnimSamples) :=
  if st.elems = none ∨ senv.ARX_SOUND_IsEnabled = false then some (animations, st)
  else
    match ARX_SOUND_PopAnimSamples.loop senv st MAX_ANIMATIONS 0 animations (0, 0) with
    | none => none
    | some (animations, _) => some (animations, ARX_SOUND_FreeAnimSamples st)

/-- Example sound system, enabled: the sample 7 has the name "talk.wav", the sample
65 the name "step.wav", every other sample has none; creating "talk.wav" gives the
sample 107, creating "step.wav" the sample 165. -/
def exampleSound : SoundEnv where
  getSampleName := fun s => if s = 7 then "talk.wav" else if s = 65 then "step.wav" else ""
  createSample := fun name =>
    if name = "talk.wav" then 107 else if name = "step.wav" then 165 else -1
  ARX_SOUND_IsEnabled := true

/-- Example cache: slot 0 holds "talk" with the one track `soundTrack`, whose key
frame 1 has a named sample and is followed by two more key frames. -/
def talkTable : AnimTable :=
  Function.update emptyTable 0
    { path := "talk", anims := [some soundTrack], alt_nb := 1, locks := 1 }

/-- Example cache: slot 0 holds "step" with the one track `twoFrameTrack`, whose
last key frame has a named sample. -/
def stepTable : AnimTable :=
  Function.update emptyTable 0
    { path := "step", anims := [some twoFrameTrack], alt_nb := 1, locks := 1 }

/-- Every track held by a slot has a duration of at least 1. -/
def TrackDurations (t : AnimTable) : Prop :=
  ∀ i (k : Nat) e, (t i).anims[k]? = some (some e) → 1 ≤ e.anim_time

/-- A header-only buffer of the example layout: version 2014, 786432 frames, no
group, no key frame. -/
def longClip : List Nat := w32 2014 ++ w32 786432 ++ w32 0 ++ w32 0

/-- The track the example decoder makes of `longClip`: its duration
`786432 * 1000 / 24 = 32768000` is a whole number above `2 ^ 24` that a `float`
holds exactly. -/
def longTrack : EERIE_ANIM := { anim_time := 32768000, nb_groups := 0, nb_key_frames := 0 }

/-- Example table: `playTable` with "long" (`longTrack`) in slot 3. -/
def longTable : AnimTable :=
  Function.update playTable 3
    { path := "long", anims := [some longTrack], alt_nb := 1, locks := 1 }

/-! ## Lemmas on the slot loops -/

theorem GetHandle_loop_eq_none (t : AnimTable) (p : String) :
    ∀ n i, EERIE_ANIMMANAGER_GetHandle.loop t p n i = none ↔
      ∀ j, i ≤ j → j < i + n → (t j).path ≠ p := by
  intro n
  induction n with
  | zero =>
    intro i
    simp only [EERIE_ANIMMANAGER_GetHandle.loop, true_iff]
    intro j h1 h2
    omega
  | succ n ih =>
    intro i
    by_cases h : (t i).path = p
    · simp only [EERIE_ANIMMANAGER_GetHandle.loop, h, if_true]
      constructor
      · intro hh; cases hh
      · intro hall
        exact absurd h (hall i (le_refl i) (by omega))
    · simp only [EERIE_ANIMMANAGER_GetHandle.loop, h, if_false]
      rw [ih (i + 1)]
      constructor
      · intro hall j h1 h2
        by_cases hj : j = i
        · subst hj; exact h
        · exact hall j (by omega) (by omega)
      · intro hall j h1 h2
        exact hall j (by omega) (by omega)

theorem GetHandle_loop_eq_some (t : AnimTable) (p : String) :
    ∀ n i h, EERIE_ANIMMANAGER_GetHandle.loop t p n i = some h ↔
      (i ≤ h ∧ h < i + n ∧ (t h).path = p ∧ ∀ j, i ≤ j → j < h → (t j).path ≠ p) := by
  intro n
  induction n with
  | zero =>
    intro i h
    simp only [EERIE_ANIMMANAGER_GetHandle.loop]
    constructor
    · intro hh; cases hh
    · rintro ⟨h1, h2, -, -⟩; omega
  | succ n ih =>
    intro i h
    by_cases hi : (t i).path = p
    · simp only [EERIE_ANIMMANAGER_GetHandle.loop, hi, if_true, Option.some.injEq]
      constructor
      · intro e
        subst e
        exact ⟨le_refl _, by omega, hi, fun j h1 h2 => by omega⟩
      · rintro ⟨h1, -, -, h4⟩
        by_contra hne
        exact h4 i (le_refl i) (by omega) hi
    · simp only [EERIE_ANIMMANAGER_GetHandle.loop, hi, if_false]
      rw [ih (i + 1) h]
      constructor
      · rintro ⟨h1, h2, h3, h4⟩
        refine ⟨by omega, by omega, h3, fun j g1 g2 => ?_⟩
        by_cases hj : j = i
        · subst hj; exact hi
        · exact h4 j (by omega) g2
      · rintro ⟨h1, h2, h3, h4⟩
        have hne : h ≠ i := by
          intro e; subst e; exact hi h3
        exact ⟨by omega, by omega, h3, fun j g1 g2 => h4 j (by omega) g2⟩

theorem GetHandle_eq_none (t : AnimTable) (p : String) :
    EERIE_ANIMMANAGER_GetHandle t p = none ↔
      ∀ j, j < MAX_ANIMATIONS → (t j).path ≠ p := by
  unfold EERIE_ANIMMANAGER_GetHandle
  rw [GetHandle_loop_eq_none]
  constructor
  · intro h j hj; exact h j (Nat.zero_le j) (by omega)
  · intro h j _ hj; exact h j (by omega)

theorem GetHandle_eq_some (t : AnimTable) (p : String) (h : Nat) :
    EERIE_ANIMMANAGER_GetHandle t p = some h ↔
      (h < MAX_ANIMATIONS ∧ (t h).path = p ∧ ∀ j, j < h → (t j).path ≠ p) := by
  unfold EERIE_ANIMMANAGER_GetHandle
  rw [GetHandle_loop_eq_some]
  constructor
  · rintro ⟨-, h2, h3, h4⟩
    exact ⟨by omega, h3, fun j hj => h4 j (Nat.zero_le j) hj⟩
  · rintro ⟨h2, h3, h4⟩
    exact ⟨Nat.zero_le h, by omega, h3, fun j _ hj => h4 j hj⟩

/-- A slot with the wanted path below `MAX_ANIMATIONS` makes the lookup succeed. -/
theorem GetHandle_of_mem (t : AnimTable) (p : String) (i : Nat) (hi : i < MAX_ANIMATIONS)
    (hp : (t i).path = p) :
    ∃ h, h ≤ i ∧ EERIE_ANIMMANAGER_GetHandle t p = some h := by
  cases hg : EERIE_ANIMMANAGER_GetHandle t p with
  | none =>
    rw [GetHandle_eq_none] at hg
    exact absurd hp (hg i hi)
  | some h =>
    refine ⟨h, ?_, rfl⟩
    rw [GetHandle_eq_some] at hg
    by_contra hlt
    exact hg.2.2 i (by omega) hp

theorem PurgeUnused_loop_apply :
    ∀ n i (t : AnimTable) (j : Nat), EERIE_ANIMMANAGER_PurgeUnused.loop n i t j =
      if i ≤ j ∧ j < i + n ∧ (t j).path ≠ "" ∧ (t j).locks = 0 then
        { t j with anims := [], path := "" }
      else t j := by
  intro n
  induction n with
  | zero =>
    intro i t j
    have : ¬ (i ≤ j ∧ j < i + 0 ∧ (t j).path ≠ "" ∧ (t j).locks = 0) := by
      rintro ⟨h1, h2, -⟩; omega
    simp only [EERIE_ANIMMANAGER_PurgeUnused.loop, this, if_false]
  | succ n ih =>
    intro i t j
    unfold EERIE_ANIMMANAGER_PurgeUnused.loop
    by_cases hc : (t i).path ≠ "" ∧ (t i).locks = 0
    · rw [if_pos hc, ih]
      by_cases hj : j = i
      · subst hj
        have h1 : ¬ (j + 1 ≤ j ∧ j < j + 1 + n ∧
            (Function.update t j { t j with anims := [], path := "" } j).path ≠ "" ∧
            (Function.update t j { t j with anims := [], path := "" } j).locks = 0) := by
          rintro ⟨h, -⟩; omega
        have h2 : j ≤ j ∧ j < j + (n + 1) ∧ (t j).path ≠ "" ∧ (t j).locks = 0 :=
          ⟨le_refl j, by omega, hc.1, hc.2⟩
        rw [if_neg h1, if_pos h2, Function.update_same]
      · rw [Function.update_noteq hj]
        by_cases hr : i + 1 ≤ j ∧ j < i + 1 + n ∧ (t j).path ≠ "" ∧ (t j).locks = 0
        · have h2 : i ≤ j ∧ j < i + (n + 1) ∧ (t j).path ≠ "" ∧ (t j).locks = 0 :=
            ⟨by omega, by omega, hr.2.2.1, hr.2.2.2⟩
          rw [if_pos hr, if_pos h2]
        · have h2 : ¬ (i ≤ j ∧ j < i + (n + 1) ∧ (t j).path ≠ "" ∧ (t j).locks = 0) := by
            rintro ⟨g1, g2, g3, g4⟩
            exact hr ⟨by omega, by omega, g3, g4⟩
          rw [if_neg hr, if_neg h2]
    · rw [if_neg hc, ih]
      by_cases hj : j = i
      · subst hj
        have h1 : ¬ (j + 1 ≤ j ∧ j < j + 1 + n ∧ (t j).path ≠ "" ∧ (t j).locks = 0) := by
          rintro ⟨h, -⟩; omega
        have h2 : ¬ (j ≤ j ∧ j < j + (n + 1) ∧ (t j).path ≠ "" ∧ (t j).locks = 0) := by
          rintro ⟨-, -, g3, g4⟩; exact hc ⟨g3, g4⟩
        rw [if_neg h1, if_neg h2]
      · by_cases hr : i + 1 ≤ j ∧ j < i + 1 + n ∧ (t j).path ≠ "" ∧ (t j).locks = 0
        · have h2 : i ≤ j ∧ j < i + (n + 1) ∧ (t j).path ≠ "" ∧ (t j).locks = 0 :=
            ⟨by omega, by omega, hr.2.2.1, hr.2.2.2⟩
          rw [if_pos hr, if_pos h2]
        · have h2 : ¬ (i ≤ j ∧ j < i + (n + 1) ∧ (t j).path ≠ "" ∧ (t j).locks = 0) := by
            rintro ⟨g1, g2, g3, g4⟩
            exact hr ⟨by omega, by omega, g3, g4⟩
          rw [if_neg hr, if_neg h2]

/-- Slot `j` after `PurgeUnused`. -/
theorem PurgeUnused_apply (t : AnimTable) (j : Nat) :
    EERIE_ANIMMANAGER_PurgeUnused t j =
      if j < MAX_ANIMATIONS ∧ (t j).path ≠ "" ∧ (t j).locks = 0 then
        { t j with anims := [], path := "" }
      else t j := by
  unfold EERIE_ANIMMANAGER_PurgeUnused
  rw [PurgeUnused_loop_apply]
  by_cases h : j < MAX_ANIMATIONS ∧ (t j).path ≠ "" ∧ (t j).locks = 0
  · rw [if_pos h, if_pos ⟨Nat.zero_le j, by omega, h.2.1, h.2.2⟩]
  · rw [if_neg h, if_neg]
    rintro ⟨-, g2, g3, g4⟩
    exact h ⟨by omega, g3, g4⟩

/-- The lookup reads nothing but the paths. -/
theorem GetHandle_congr (t t' : AnimTable) (p : String)
    (hpath : ∀ j, (t' j).path = (t j).path) :
    EERIE_ANIMMANAGER_GetHandle t' p = EERIE_ANIMMANAGER_GetHandle t p := by
  unfold EERIE_ANIMMANAGER_GetHandle
  generalize MAX_ANIMATIONS = n
  generalize 0 = i
  induction n generalizing i with
  | zero => rfl
  | succ n ih =>
    simp only [EERIE_ANIMMANAGER_GetHandle.loop, hpath, ih]

theorem Load_loop_none (env : Env) (fuel : Nat) (p : String) :
    ∀ n i (t : AnimTable), (∀ j, i ≤ j → j < i + n → (t j).path ≠ "") →
      EERIE_ANIMMANAGER_Load_NoWarning.loop env fuel p n i t = some ⟨none, t, []⟩ := by
  intro n
  induction n with
  | zero => intro i t _; rfl
  | succ n ih =>
    intro i t hall
    unfold EERIE_ANIMMANAGER_Load_NoWarning.loop
    rw [if_pos (hall i (le_refl i) (by omega))]
    exact ih (i + 1) t (fun j h1 h2 => hall j (by omega) (by omega))

theorem Load_loop_first (env : Env) (fuel : Nat) (p : String) :
    ∀ n i (t : AnimTable) (h : Nat), i ≤ h → h < i + n → (t h).path = "" →
      (∀ j, i ≤ j → j < h → (t j).path ≠ "") →
      EERIE_ANIMMANAGER_Load_NoWarning.loop env fuel p n i t =
        EERIE_ANIMMANAGER_Load_NoWarning.slot env fuel p h t := by
  intro n
  induction n with
  | zero => intro i t h h1 h2; omega
  | succ n ih =>
    intro i t h h1 h2 h3 h4
    unfold EERIE_ANIMMANAGER_Load_NoWarning.loop
    by_cases hi : (t i).path ≠ ""
    · rw [if_pos hi]
      have hne : h ≠ i := by
        intro e; subst e; exact hi h3
      exact ih (i + 1) t h (by omega) (by omega) h3 (fun j g1 g2 => h4 j (by omega) g2)
    · rw [if_neg hi]
      have : h = i := by
        by_contra hne
        exact hi (h4 i (le_refl i) (by omega))
      subst this
      rfl

theorem realloc_set_last (anims : List (Option EERIE_ANIM)) (a : Int) (ha : 0 ≤ a)
    (hlen : anims.length = a.toNat) (x : Option EERIE_ANIM) :
    (realloc anims (a + 1).toNat).set ((a + 1).toNat - 1) x = anims ++ [x] := by
  have h1 : (a + 1).toNat = anims.length + 1 := by omega
  rw [h1]
  unfold realloc
  rw [List.take_of_length_le (by omega)]
  simp

theorem AddAltAnim_eq (env : Env) (t : AnimTable) (h : Nat) (path : String)
    (hp : (t h).path ≠ "") :
    EERIE_ANIMMANAGER_AddAltAnim env t (some h) path =
      match decodeFile env path with
      | none => none
      | some none => some (false, t, [path])
      | some (some temp) =>
        some (true,
          Function.update t h
            { t h with
              alt_nb := (t h).alt_nb + 1
              anims := (realloc (t h).anims ((t h).alt_nb + 1).toNat).set
                (((t h).alt_nb + 1).toNat - 1) (some temp) },
          [path]) := by
  unfold EERIE_ANIMMANAGER_AddAltAnim decodeFile
  simp only [if_neg hp]
  cases env.readAlloc path with
  | none => rfl
  | some adr =>
    cases TheaToEerie env adr with
    | none => rfl
    | some r =>
      cases r with
      | none => rfl
      | some e => rfl

theorem probePaths_succ (env : Env) (p : String) (c n : Nat) :
    probePaths env p c (n + 1) =
      env.append_basename p (toString c) :: probePaths env p (c + 1) n := by
  unfold probePaths
  rw [List.range_succ_eq_map]
  simp only [List.map_cons, List.map_map, Nat.add_zero, List.cons.injEq, true_and]
  apply List.map_congr_left
  intro k _
  simp only [Function.comp]
  congr 2
  omega

theorem altLoop_eq (env : Env) (p : String) (i : Nat) :
    ∀ fuel c (t : AnimTable) (reads : List String), (t i).path ≠ "" → 0 ≤ (t i).alt_nb →
      (t i).anims.length = (t i).alt_nb.toNat →
      EERIE_ANIMMANAGER_Load_NoWarning.altLoop env p i fuel c t reads =
        (probeAlts env p fuel c).map fun alts =>
          (Function.update t i
            { t i with
              alt_nb := (t i).alt_nb + (alts.length : Int)
              anims := (t i).anims ++ alts.map some },
            reads ++ probePaths env p c (alts.length + 1)) := by
  intro fuel
  induction fuel with
  | zero => intro c t reads _ _ _; rfl
  | succ fuel ih =>
    intro c t reads hp ha hlen
    unfold EERIE_ANIMMANAGER_Load_NoWarning.altLoop probeAlts
    simp only [AddAltAnim_eq env t i _ hp]
    cases hd : decodeFile env (env.append_basename p (toString c)) with
    | none => rfl
    | some r =>
      cases r with
      | none =>
        simp only [Option.map_some', List.length_nil, List.map_nil, Nat.cast_zero, add_zero,
          List.append_nil, zero_add, probePaths_succ]
        have : ({ t i with alt_nb := (t i).alt_nb, anims := (t i).anims } : ANIM_HANDLE) = t i := by
          cases t i; rfl
        rw [this, Function.update_eq_self]
        simp [probePaths]
      | some e =>
        simp only [realloc_set_last _ _ ha hlen]
        rw [ih]
        · simp only [Option.map_map, Function.update_same, Function.update_idem]
          congr 1
          funext alts
          simp only [Function.comp, List.length_cons, List.map_cons, Nat.cast_add, Nat.cast_one,
            List.append_assoc, List.singleton_append, probePaths_succ env p c (alts.length + 1),
            Prod.mk.injEq, and_true]
          rw [add_assoc, add_comm (1 : Int)]
        · simp only [Function.update_same]; exact hp
        · simp only [Function.update_same]; omega
        · simp only [Function.update_same, List.length_append, List.length_singleton]
          omega

theorem probeAlts_eq_some (env : Env) (p : String) :
    ∀ fuel c (alts : List EERIE_ANIM), probeAlts env p fuel c = some alts ↔
      (alts.length < fuel ∧
        (∀ k e, alts[k]? = some e →
          decodeFile env (env.append_basename p (toString (c + k))) = some (some e)) ∧
        decodeFile env (env.append_basename p (toString (c + alts.length))) = some none) := by
  intro fuel
  induction fuel with
  | zero =>
    intro c alts
    simp only [probeAlts]
    constructor
    · intro h; cases h
    · rintro ⟨h, -⟩; omega
  | succ fuel ih =>
    intro c alts
    unfold probeAlts
    cases hd : decodeFile env (env.append_basename p (toString c)) with
    | none =>
      constructor
      · intro h; cases h
      · rintro ⟨-, h2, h3⟩
        cases alts with
        | nil =>
          rw [List.length_nil, Nat.add_zero, hd] at h3
          cases h3
        | cons e rest =>
          have := h2 0 e (by simp)
          rw [Nat.add_zero, hd] at this
          cases this
    | some r =>
      cases r with
      | none =>
        constructor
        · intro h
          simp only [Option.some.injEq] at h
          subst h
          refine ⟨by simp, ?_, ?_⟩
          · intro k e hk
            simp at hk
          · rw [List.length_nil, Nat.add_zero]; exact hd
        · rintro ⟨-, h2, -⟩
          cases alts with
          | nil => rfl
          | cons e rest =>
            have := h2 0 e (by simp)
            rw [Nat.add_zero, hd] at this
            cases this
      | some e0 =>
        simp only [Option.map_eq_some']
        constructor
        · rintro ⟨rest, hrest, rfl⟩
          obtain ⟨g1, g2, g3⟩ := (ih (c + 1) rest).1 hrest
          refine ⟨by simp only [List.length_cons]; omega, ?_, ?_⟩
          · intro k e hk
            cases k with
            | zero =>
              simp only [List.getElem?_cons_zero, Option.some.injEq] at hk
              subst hk
              rw [Nat.add_zero]; exact hd
            | succ k =>
              simp only [List.getElem?_cons_succ] at hk
              have := g2 k e hk
              rw [show c + (k + 1) = c + 1 + k by omega]
              exact this
          · rw [List.length_cons, show c + (rest.length + 1) = c + 1 + rest.length by omega]
            exact g3
        · rintro ⟨h1, h2, h3⟩
          cases alts with
          | nil =>
            rw [List.length_nil, Nat.add_zero, hd] at h3
            cases h3
          | cons e rest =>
            have he := h2 0 e (by simp)
            rw [Nat.add_zero, hd] at he
            simp only [Option.some.injEq] at he
            subst he
            refine ⟨rest, ?_, rfl⟩
            rw [ih (c + 1) rest]
            refine ⟨by simp only [List.length_cons] at h1; omega, ?_, ?_⟩
            · intro k e hk
              have := h2 (k + 1) e (by simpa using hk)
              rw [show c + (k + 1) = c + 1 + k by omega] at this
              exact this
            · rw [List.length_cons, show c + (rest.length + 1) = c + 1 + rest.length by omega]
                at h3
              exact h3

theorem Load_slot_eq (env : Env) (fuel : Nat) (p : String) (i : Nat) (t : AnimTable)
    (adr : List Nat) (e0 : EERIE_ANIM) (hp : p ≠ "") (hr : env.readAlloc p = some adr)
    (hd : TheaToEerie env adr = some (some e0)) :
    EERIE_ANIMMANAGER_Load_NoWarning.slot env fuel p i t =
      (probeAlts env p fuel 2).map fun alts =>
        ⟨some i,
          Function.update t i
            { path := p, anims := some e0 :: alts.map some
              alt_nb := 1 + (alts.length : Int), locks := 1 },
          p :: probePaths env p 2 (alts.length + 1)⟩ := by
  unfold EERIE_ANIMMANAGER_Load_NoWarning.slot
  simp only [hr, hd]
  rw [altLoop_eq]
  · cases probeAlts env p fuel 2 with
    | none => rfl
    | some alts =>
      simp only [Option.map_some', Function.update_same, Function.update_idem,
        List.singleton_append]
  · simp only [Function.update_same]; exact hp
  · simp only [Function.update_same]; decide
  · simp only [Function.update_same]; rfl

theorem Load_slot_unreadable (env : Env) (fuel : Nat) (p : String) (i : Nat) (t : AnimTable)
    (hr : env.readAlloc p = none) :
    EERIE_ANIMMANAGER_Load_NoWarning.slot env fuel p i t = some ⟨none, t, [p]⟩ := by
  unfold EERIE_ANIMMANAGER_Load_NoWarning.slot
  simp only [hr]

theorem Load_slot_undecodable (env : Env) (fuel : Nat) (p : String) (i : Nat) (t : AnimTable)
    (adr : List Nat) (hr : env.readAlloc p = some adr) (hd : TheaToEerie env adr = some none) :
    EERIE_ANIMMANAGER_Load_NoWarning.slot env fuel p i t =
      some ⟨none, Function.update t i { t i with anims := [none], alt_nb := 1 }, [p]⟩ := by
  unfold EERIE_ANIMMANAGER_Load_NoWarning.slot
  simp only [hr, hd]

theorem Load_slot_undefined (env : Env) (fuel : Nat) (p : String) (i : Nat) (t : AnimTable)
    (adr : List Nat) (hr : env.readAlloc p = some adr) (hd : TheaToEerie env adr = none) :
    EERIE_ANIMMANAGER_Load_NoWarning.slot env fuel p i t = none := by
  unfold EERIE_ANIMMANAGER_Load_NoWarning.slot
  simp only [hr, hd]

/-- A `Load` of a path that some slot holds locks the first such slot. -/
theorem Load_of_GetHandle (env : Env) (fuel : Nat) (p : String) (t : AnimTable) (h : Nat)
    (hg : EERIE_ANIMMANAGER_GetHandle t p = some h) :
    EERIE_ANIMMANAGER_Load_NoWarning env fuel p t =
      some ⟨some h, Function.update t h { t h with locks := (t h).locks + 1 }, []⟩ := by
  unfold EERIE_ANIMMANAGER_Load_NoWarning
  rw [hg]

/-- A `Load` of a path no slot holds runs the loop body at the first free slot. -/
theorem Load_at_first_free (env : Env) (fuel : Nat) (p : String) (t : AnimTable) (f : Nat)
    (hnone : ∀ j, j < MAX_ANIMATIONS → (t j).path ≠ p) (hf : f < MAX_ANIMATIONS)
    (hfree : (t f).path = "") (hfirst : ∀ j, j < f → (t j).path ≠ "") :
    EERIE_ANIMMANAGER_Load_NoWarning env fuel p t =
      EERIE_ANIMMANAGER_Load_NoWarning.slot env fuel p f t := by
  unfold EERIE_ANIMMANAGER_Load_NoWarning
  rw [(GetHandle_eq_none t p).2 hnone]
  exact Load_loop_first env fuel p MAX_ANIMATIONS 0 t f (Nat.zero_le f) (by omega) hfree
    (fun j _ hj => hfirst j hj)

/-- A `Load` of a path no slot holds fails when no slot is free. -/
theorem Load_no_free (env : Env) (fuel : Nat) (p : String) (t : AnimTable)
    (hnone : ∀ j, j < MAX_ANIMATIONS → (t j).path ≠ p)
    (hfull : ∀ j, j < MAX_ANIMATIONS → (t j).path ≠ "") :
    EERIE_ANIMMANAGER_Load_NoWarning env fuel p t = some ⟨none, t, []⟩ := by
  unfold EERIE_ANIMMANAGER_Load_NoWarning
  rw [(GetHandle_eq_none t p).2 hnone]
  exact Load_loop_none env fuel p MAX_ANIMATIONS 0 t (fun j _ hj => hfull j (by omega))

/-- The first free slot, when there is a free slot. -/
theorem exists_first_free (t : AnimTable) (i : Nat) (hi : i < MAX_ANIMATIONS)
    (hfree : (t i).path = "") :
    ∃ f, f ≤ i ∧ (t f).path = "" ∧ ∀ j, j < f → (t j).path ≠ "" := by
  obtain ⟨f, hle, hg⟩ := GetHandle_of_mem t "" i hi hfree
  have := (GetHandle_eq_some t "" f).1 hg
  exact ⟨f, hle, this.2.1, this.2.2⟩

/-- A `Load` of a non-empty path that no slot holds, when it returns a handle: the
handle is the first free slot, now live under that path with one lock, its tracks
are the decode of the file followed by the decodes of the consecutive numbered
files up to the first that fails, and no other slot changed. -/
theorem Load_new_path (env : Env) (fuel : Nat) (t : AnimTable) (p : String) (r : LoadResult)
    (h : Nat) (hp : p ≠ "") (hnone : ∀ j, j < MAX_ANIMATIONS → (t j).path ≠ p)
    (hload : EERIE_ANIMMANAGER_Load_NoWarning env fuel p t = some r)
    (hh : r.handle = some h) :
    h < MAX_ANIMATIONS ∧ (t h).path = "" ∧ (∀ j, j < h → (t j).path ≠ "") ∧
      (r.animations h).path = p ∧ (r.animations h).locks = 1 ∧
      (∀ j, j ≠ h → r.animations j = t j) ∧
      ∃ (adr : List Nat) (e0 : EERIE_ANIM) (alts : List EERIE_ANIM), env.readAlloc p = some adr ∧ TheaToEerie env adr = some (some e0) ∧
        (r.animations h).anims = some e0 :: alts.map some ∧
        (r.animations h).alt_nb = 1 + (alts.length : Int) ∧
        alts.length < fuel ∧
        (∀ k e, alts[k]? = some e →
          decodeFile env (env.append_basename p (toString (2 + k))) = some (some e)) ∧
        decodeFile env (env.append_basename p (toString (2 + alts.length))) = some none := by
  by_cases hfull : ∀ j, j < MAX_ANIMATIONS → (t j).path ≠ ""
  · rw [Load_no_free env fuel p t hnone hfull] at hload
    simp only [Option.some.injEq] at hload
    subst hload
    cases hh
  · push_neg at hfull
    obtain ⟨i, hi, hfree⟩ := hfull
    obtain ⟨f, hfi, hf0, hfmin⟩ := exists_first_free t i hi hfree
    have hfM : f < MAX_ANIMATIONS := by omega
    rw [Load_at_first_free env fuel p t f hnone hfM hf0 hfmin] at hload
    cases hr : env.readAlloc p with
    | none =>
      rw [Load_slot_unreadable env fuel p f t hr] at hload
      simp only [Option.some.injEq] at hload
      subst hload
      cases hh
    | some adr =>
      cases hd : TheaToEerie env adr with
      | none =>
        rw [Load_slot_undefined env fuel p f t adr hr hd] at hload
        cases hload
      | some d =>
        cases d with
        | none =>
          rw [Load_slot_undecodable env fuel p f t adr hr hd] at hload
          simp only [Option.some.injEq] at hload
          subst hload
          cases hh
        | some e0 =>
          rw [Load_slot_eq env fuel p f t adr e0 hp hr hd] at hload
          cases hpa : probeAlts env p fuel 2 with
          | none =>
            rw [hpa] at hload
            cases hload
          | some alts =>
            rw [hpa] at hload
            simp only [Option.map_some', Option.some.injEq] at hload
            subst hload
            simp only [Option.some.injEq] at hh
            subst hh
            obtain ⟨g1, g2, g3⟩ := (probeAlts_eq_some env p fuel 2 alts).1 hpa
            refine ⟨hfM, hf0, hfmin, ?_, ?_, ?_, adr, e0, alts, rfl, hd, ?_, ?_, g1, g2, g3⟩
            · simp only [Function.update_same]
            · simp only [Function.update_same]
            · intro j hj
              simp only [Function.update_noteq hj]
            · simp only [Function.update_same]
            · simp only [Function.update_same]

/-- The track the example decoder makes of `emptyClip`. -/
theorem TheaToEerie_emptyClip (files : String → Option (List Nat)) :
    TheaToEerie (exampleEnv files) emptyClip =
      some (some emptyClipTrack) := by
  simp [TheaToEerie, view, exampleEnv, emptyClip, le32, wrapS32, allocStructZero,
    TheaToEerie.keyframeLoop, TheaToEerie.fillLoop, TheaToEerie.voidLoop, emptyClipTrack]
  norm_num

theorem TheaToEerie_oldClip (files : String → Option (List Nat)) :
    TheaToEerie (exampleEnv files) oldClip = some none := by
  simp [TheaToEerie, view, exampleEnv, oldClip, le32, wrapS32]

theorem slot_with_locks_self (s : ANIM_HANDLE) (l : Int) (hl : l = s.locks) :
    ({ s with locks := l } : ANIM_HANDLE) = s := by
  subst hl
  cases s
  rfl

theorem loadTimes_existing (env : Env) (fuel : Nat) (p : String) :
    ∀ n (t : AnimTable) (h : Nat), h < MAX_ANIMATIONS → (t h).path = p →
      (∀ j, j < h → (t j).path ≠ p) →
      loadTimes env fuel p n t =
        some (List.replicate n (some h),
          Function.update t h { t h with locks := (t h).locks + (n : Int) }) := by
  intro n
  induction n with
  | zero =>
    intro t h _ _ _
    simp only [loadTimes, List.replicate_zero, Nat.cast_zero, add_zero]
    rw [slot_with_locks_self _ _ rfl, Function.update_eq_self]
  | succ n ih =>
    intro t h hM hp hmin
    have hg : EERIE_ANIMMANAGER_GetHandle t p = some h :=
      (GetHandle_eq_some t p h).2 ⟨hM, hp, hmin⟩
    simp only [loadTimes, Load_of_GetHandle env fuel p t h hg]
    rw [ih _ h hM]
    · simp only [Option.map_some', Function.update_same, Function.update_idem,
        List.replicate_succ, Nat.cast_add, Nat.cast_one]
      rw [add_assoc, add_comm (1 : Int)]
    · simp only [Function.update_same]; exact hp
    · intro j hj
      rw [Function.update_noteq (by omega)]
      exact hmin j hj

theorem releaseTimes_eq (h : Nat) :
    ∀ n (t : AnimTable), 0 ≤ (t h).locks →
      releaseTimes (some h) n t =
        Function.update t h { t h with locks := max ((t h).locks - (n : Int)) 0 } := by
  intro n
  induction n with
  | zero =>
    intro t hl
    simp only [releaseTimes, Nat.cast_zero, sub_zero]
    rw [slot_with_locks_self _ _ (max_eq_left hl), Function.update_eq_self]
  | succ n ih =>
    intro t hl
    simp only [releaseTimes, EERIE_ANIMMANAGER_ReleaseHandle]
    rw [ih]
    · simp only [Function.update_same, Function.update_idem, Nat.cast_add, Nat.cast_one]
      have hm : max ((if (t h).locks - 1 < 0 then 0 else (t h).locks - 1) - (n : Int)) 0
          = max ((t h).locks - ((n : Int) + 1)) 0 := by
        split_ifs with hc
        · rw [max_eq_right (by omega), max_eq_right (by omega)]
        · rw [sub_sub, add_comm (1 : Int)]
      rw [hm]
    · simp only [Function.update_same]
      split_ifs with hc
      · exact le_refl 0
      · omega

/-- The example file system holds "walk" and "walk2" but no "walk3": the load of
"walk" into the start-up table fills slot 0 with two tracks. -/
theorem Load_walk_example :
    EERIE_ANIMMANAGER_Load_NoWarning (exampleEnv exampleFiles) 3 "walk" emptyTable =
      some ⟨some 0, walkTable, ["walk", "walk2", "walk3"]⟩ := by
  rw [Load_at_first_free (exampleEnv exampleFiles) 3 "walk" emptyTable 0
    (fun j _ => by simp only [emptyTable]; decide) (by decide) rfl (fun j hj => by omega)]
  rw [Load_slot_eq (exampleEnv exampleFiles) 3 "walk" 0 emptyTable emptyClip
    emptyClipTrack (by decide)
    (by simp [exampleEnv, exampleFiles]) (TheaToEerie_emptyClip exampleFiles)]
  have hpa : probeAlts (exampleEnv exampleFiles) "walk" 3 2
      = some [emptyClipTrack] := by
    rw [probeAlts_eq_some]
    refine ⟨by simp, ?_, ?_⟩
    · intro k e hk
      cases k with
      | zero =>
        simp only [List.getElem?_cons_zero, Option.some.injEq] at hk
        subst hk
        have : (exampleEnv exampleFiles).append_basename "walk" (toString (2 + 0)) = "walk2" := by
          decide
        rw [this]
        simp only [decodeFile, exampleEnv, exampleFiles]
        simp only [show ("walk2" = "walk") = False by decide, if_false, if_true]
        exact TheaToEerie_emptyClip exampleFiles
      | succ k => simp at hk
    · have : (exampleEnv exampleFiles).append_basename "walk"
          (toString (2 + [emptyClipTrack].length)) = "walk3" := by
        decide
      rw [this]
      simp [decodeFile, exampleEnv, exampleFiles]
  rw [hpa]
  simp only [Option.map_some', List.map_cons, List.map_nil, List.length_singleton,
    Nat.cast_one, probePaths_succ, Option.some.injEq, LoadResult.mk.injEq, true_and]
  refine ⟨rfl, ?_⟩
  simp only [probePaths, exampleEnv, List.range_zero, List.map_nil]
  decide

/-- Every outcome of `Load`: the path was held and the slot is locked once more
(A); no handle is returned and the table is as before, or differs at the first
free slot by a one-entry array holding `NULL` (B); or the first free slot was
filled (C). -/
theorem Load_cases (env : Env) (fuel : Nat) (p : String) (t : AnimTable) (r : LoadResult)
    (hload : EERIE_ANIMMANAGER_Load_NoWarning env fuel p t = some r) :
    (∃ h, h < MAX_ANIMATIONS ∧ (t h).path = p ∧ r.handle = some h ∧
        r.animations = Function.update t h { t h with locks := (t h).locks + 1 }) ∨
      ((∀ j, j < MAX_ANIMATIONS → (t j).path ≠ p) ∧ r.handle = none ∧
        (r.animations = t ∨
          ∃ f, f < MAX_ANIMATIONS ∧ (t f).path = "" ∧
            r.animations = Function.update t f { t f with anims := [none], alt_nb := 1 })) ∨
      ((∀ j, j < MAX_ANIMATIONS → (t j).path ≠ p) ∧ p ≠ "" ∧
        ∃ f, f < MAX_ANIMATIONS ∧ (t f).path = "" ∧ (∀ j, j < f → (t j).path ≠ "") ∧
          r.handle = some f ∧
          ∃ (e0 : EERIE_ANIM) (alts : List EERIE_ANIM), r.animations = Function.update t f
            { path := p, anims := some e0 :: alts.map some
              alt_nb := 1 + (alts.length : Int), locks := 1 }) := by
  cases hg : EERIE_ANIMMANAGER_GetHandle t p with
  | some h =>
    left
    rw [Load_of_GetHandle env fuel p t h hg] at hload
    simp only [Option.some.injEq] at hload
    subst hload
    have := (GetHandle_eq_some t p h).1 hg
    exact ⟨h, this.1, this.2.1, rfl, rfl⟩
  | none =>
    right
    have hnone := (GetHandle_eq_none t p).1 hg
    by_cases hfull : ∀ j, j < MAX_ANIMATIONS → (t j).path ≠ ""
    · rw [Load_no_free env fuel p t hnone hfull] at hload
      simp only [Option.some.injEq] at hload
      subst hload
      exact Or.inl ⟨hnone, rfl, Or.inl rfl⟩
    · push_neg at hfull
      obtain ⟨i, hi, hfree⟩ := hfull
      obtain ⟨f, hfi, hf0, hfmin⟩ := exists_first_free t i hi hfree
      have hfM : f < MAX_ANIMATIONS := by omega
      have hp : p ≠ "" := by
        intro e
        subst e
        exact hnone f hfM hf0
      rw [Load_at_first_free env fuel p t f hnone hfM hf0 hfmin] at hload
      cases hr : env.readAlloc p with
      | none =>
        rw [Load_slot_unreadable env fuel p f t hr] at hload
        simp only [Option.some.injEq] at hload
        subst hload
        exact Or.inl ⟨hnone, rfl, Or.inl rfl⟩
      | some adr =>
        cases hd : TheaToEerie env adr with
        | none =>
          rw [Load_slot_undefined env fuel p f t adr hr hd] at hload
          cases hload
        | some d =>
          cases d with
          | none =>
            rw [Load_slot_undecodable env fuel p f t adr hr hd] at hload
            simp only [Option.some.injEq] at hload
            subst hload
            exact Or.inl ⟨hnone, rfl, Or.inr ⟨f, hfM, hf0, rfl⟩⟩
          | some e0 =>
            rw [Load_slot_eq env fuel p f t adr e0 hp hr hd] at hload
            cases hpa : probeAlts env p fuel 2 with
            | none =>
              rw [hpa] at hload
              cases hload
            | some alts =>
              rw [hpa] at hload
              simp only [Option.map_some', Option.some.injEq] at hload
              subst hload
              exact Or.inr ⟨hnone, hp, f, hfM, hf0, hfmin, rfl, e0, alts, rfl⟩

/-- After a `Load`, every slot has the path it had, except that one free slot may
have taken a path that no slot held. -/
theorem Load_paths (env : Env) (fuel : Nat) (p : String) (t : AnimTable) (r : LoadResult)
    (hload : EERIE_ANIMMANAGER_Load_NoWarning env fuel p t = some r) :
    (∀ j, (r.animations j).path = (t j).path) ∨
      ((∀ j, j < MAX_ANIMATIONS → (t j).path ≠ p) ∧ p ≠ "" ∧
        ∃ f, f < MAX_ANIMATIONS ∧ (t f).path = "" ∧ (r.animations f).path = p ∧
          ∀ j, j ≠ f → (r.animations j).path = (t j).path) := by
  rcases Load_cases env fuel p t r hload with
    ⟨h, -, -, -, ht⟩ | ⟨-, -, ht | ⟨f, -, -, ht⟩⟩ | ⟨hnone, hp, f, hfM, hf0, -, -, e0, alts, ht⟩
  · left
    intro j
    rw [ht]
    by_cases hj : j = h
    · subst hj; rw [Function.update_same]
    · rw [Function.update_noteq hj]
  · left
    intro j
    rw [ht]
  · left
    intro j
    rw [ht]
    by_cases hj : j = f
    · subst hj; rw [Function.update_same]
    · rw [Function.update_noteq hj]
  · right
    refine ⟨hnone, hp, f, hfM, hf0, ?_, ?_⟩
    · rw [ht, Function.update_same]
    · intro j hj
      rw [ht, Function.update_noteq hj]

theorem UniquePaths_of_cleared (t t' : AnimTable)
    (hpaths : ∀ j, (t' j).path = (t j).path ∨ (t' j).path = "") (hu : UniquePaths t) :
    UniquePaths t' := by
  intro i j hi hj hne heq
  have h1 : (t' i).path = (t i).path := by
    rcases hpaths i with h | h
    · exact h
    · exact absurd h hne
  have h2 : (t' j).path = (t j).path := by
    rcases hpaths j with h | h
    · exact h
    · rw [heq] at hne; exact absurd h hne
  exact hu i j hi hj (by rw [← h1]; exact hne) (by rw [← h1, ← h2]; exact heq)

theorem UniquePaths_Load (env : Env) (fuel : Nat) (p : String) (t : AnimTable) (r : LoadResult)
    (hload : EERIE_ANIMMANAGER_Load_NoWarning env fuel p t = some r) (hu : UniquePaths t) :
    UniquePaths r.animations := by
  rcases Load_paths env fuel p t r hload with hsame | ⟨hnone, hp, f, hfM, hf0, hfp, hother⟩
  · exact UniquePaths_of_cleared t r.animations (fun j => Or.inl (hsame j)) hu
  · intro i j hi hj hne heq
    by_cases hif : i = f
    · by_cases hjf : j = f
      · rw [hif, hjf]
      · exfalso
        rw [hif, hfp, hother j hjf] at heq
        exact hnone j hj heq.symm
    · by_cases hjf : j = f
      · exfalso
        rw [hjf, hfp, hother i hif] at heq
        exact hnone i hi heq
      · rw [hother i hif] at hne heq
        rw [hother j hjf] at heq
        exact hu i j hi hj hne heq

theorem ReleaseHandle_path (t : AnimTable) (anim : Option Nat) (j : Nat) :
    (EERIE_ANIMMANAGER_ReleaseHandle t anim j).path = (t j).path := by
  cases anim with
  | none => rfl
  | some h =>
    simp only [EERIE_ANIMMANAGER_ReleaseHandle]
    by_cases hj : j = h
    · subst hj; rw [Function.update_same]
    · rw [Function.update_noteq hj]

theorem Clear_path (t : AnimTable) (i j : Nat) :
    (EERIE_ANIMMANAGER_Clear t i j).path = (t j).path ∨
      (EERIE_ANIMMANAGER_Clear t i j).path = "" := by
  simp only [EERIE_ANIMMANAGER_Clear]
  by_cases hj : j = i
  · subst hj; right; rw [Function.update_same]
  · left; rw [Function.update_noteq hj]

theorem ClearAll_loop_path :
    ∀ n i (t : AnimTable) (j : Nat),
      (EERIE_ANIMMANAGER_ClearAll.loop n i t j).path = (t j).path ∨
        (EERIE_ANIMMANAGER_ClearAll.loop n i t j).path = "" := by
  intro n
  induction n with
  | zero => intro i t j; left; rfl
  | succ n ih =>
    intro i t j
    unfold EERIE_ANIMMANAGER_ClearAll.loop
    split_ifs with hc
    · rcases ih (i + 1) (EERIE_ANIMMANAGER_Clear t i) j with h | h
      · rcases Clear_path t i j with g | g
        · left; rw [h, g]
        · right; rw [h, g]
      · right; exact h
    · exact ih (i + 1) t j

theorem releaseAnims_path (l : List (Option Nat)) :
    ∀ (t : AnimTable) (j : Nat),
      (EERIE_ANIMMANAGER_ReloadAll.releaseAnims t l j).path = (t j).path := by
  induction l with
  | nil => intro t j; rfl
  | cons a rest ih =>
    intro t j
    simp only [EERIE_ANIMMANAGER_ReloadAll.releaseAnims]
    rw [ih, ReleaseHandle_path]

theorem entityLoop_path (es : List (Option Entity)) :
    ∀ (t : AnimTable) (j : Nat),
      ((EERIE_ANIMMANAGER_ReloadAll.entityLoop t es).1 j).path = (t j).path := by
  induction es with
  | nil => intro t j; rfl
  | cons e rest ih =>
    intro t j
    cases e with
    | none =>
      simp only [EERIE_ANIMMANAGER_ReloadAll.entityLoop]
      exact ih t j
    | some e =>
      simp only [EERIE_ANIMMANAGER_ReloadAll.entityLoop, EERIE_ANIMMANAGER_ReloadAll.entity]
      rw [ih, releaseAnims_path]

theorem entityLoop_entities (es : List (Option Entity)) :
    ∀ (t : AnimTable),
      (EERIE_ANIMMANAGER_ReloadAll.entityLoop t es).2 =
        es.map (Option.map fun e =>
          { e with
            anims := e.anims.map fun _ => none
            animlayer := e.animlayer.map fun _ => {} }) := by
  induction es with
  | nil => intro t; rfl
  | cons e rest ih =>
    intro t
    cases e with
    | none =>
      simp only [EERIE_ANIMMANAGER_ReloadAll.entityLoop, List.map_cons, Option.map_none']
      rw [ih]
    | some e =>
      simp only [EERIE_ANIMMANAGER_ReloadAll.entityLoop, EERIE_ANIMMANAGER_ReloadAll.entity,
        List.map_cons, Option.map_some']
      rw [ih]

theorem UniquePaths_ReloadAll_loop (env : Env) (fuel : Nat) :
    ∀ n i (t t' : AnimTable), UniquePaths t →
      EERIE_ANIMMANAGER_ReloadAll.loop env fuel n i t = some t' → UniquePaths t' := by
  intro n
  induction n with
  | zero =>
    intro i t t' hu h
    simp only [EERIE_ANIMMANAGER_ReloadAll.loop, Option.some.injEq] at h
    subst h
    exact hu
  | succ n ih =>
    intro i t t' hu h
    unfold EERIE_ANIMMANAGER_ReloadAll.loop at h
    split_ifs at h with hc
    · simp only [EERIE_ANIMMANAGER_Load] at h
      cases hl : EERIE_ANIMMANAGER_Load_NoWarning env fuel (t i).path
          (EERIE_ANIMMANAGER_Clear t i) with
      | none => rw [hl] at h; cases h
      | some r =>
        rw [hl] at h
        exact ih (i + 1) r.animations t'
          (UniquePaths_Load env fuel _ _ r hl
            (UniquePaths_of_cleared t _ (Clear_path t i) hu)) h
    · exact ih (i + 1) t t' hu h

theorem probeAlts_defined (env : Env) (p : String) :
    ∀ n fuel c, n < fuel →
      (∀ k, k < n → ∃ e,
        decodeFile env (env.append_basename p (toString (c + k))) = some (some e)) →
      decodeFile env (env.append_basename p (toString (c + n))) = some none →
      ∃ alts, probeAlts env p fuel c = some alts := by
  intro n
  induction n with
  | zero =>
    intro fuel c hf _ hstop
    obtain ⟨f, rfl⟩ : ∃ f, fuel = f + 1 := ⟨fuel - 1, by omega⟩
    rw [Nat.add_zero] at hstop
    exact ⟨[], by simp only [probeAlts, hstop]⟩
  | succ n ih =>
    intro fuel c hf hok hstop
    obtain ⟨f, rfl⟩ : ∃ f, fuel = f + 1 := ⟨fuel - 1, by omega⟩
    obtain ⟨e, he⟩ := hok 0 (by omega)
    rw [Nat.add_zero] at he
    obtain ⟨alts, ha⟩ := ih f (c + 1) (by omega)
      (fun k hk => by
        obtain ⟨e', he'⟩ := hok (k + 1) (by omega)
        exact ⟨e', by rw [show c + 1 + k = c + (k + 1) by omega]; exact he'⟩)
      (by rw [show c + 1 + n = c + (n + 1) by omega]; exact hstop)
    exact ⟨e :: alts, by simp only [probeAlts, he, ha, Option.map_some']⟩

theorem Clear_apply (t : AnimTable) (i j : Nat) :
    EERIE_ANIMMANAGER_Clear t i j =
      if j = i then { t i with anims := [], path := "" } else t j := by
  simp only [EERIE_ANIMMANAGER_Clear]
  by_cases hj : j = i
  · subst hj; rw [Function.update_same, if_pos rfl]
  · rw [Function.update_noteq hj, if_neg hj]

theorem ReloadAll_loop_spec (env : Env) (fuel : Nat) (t0 : AnimTable)
    (hfiles : ∀ p, p ≠ "" → (∃ j, j < MAX_ANIMATIONS ∧ (t0 j).path = p) →
      ∃ (adr : List Nat) (e0 : EERIE_ANIM) (alts : List EERIE_ANIM),
        env.readAlloc p = some adr ∧ TheaToEerie env adr = some (some e0) ∧
        probeAlts env p fuel 2 = some alts) :
    ∀ n i (t : AnimTable), i + n = MAX_ANIMATIONS →
      (∀ p, p ≠ "" → ((∃ j, j < MAX_ANIMATIONS ∧ (t j).path = p) ↔
        ∃ j, j < MAX_ANIMATIONS ∧ (t0 j).path = p)) →
      (∀ j, j < i → (t j).path ≠ "" → (t j).locks = 1) →
      (∀ j, j < i → (t j).path ≠ "" →
        ∀ k, i ≤ k → k < MAX_ANIMATIONS → (t k).path ≠ (t j).path) →
      ∃ t', EERIE_ANIMMANAGER_ReloadAll.loop env fuel n i t = some t' ∧
        (∀ p, p ≠ "" → ((∃ j, j < MAX_ANIMATIONS ∧ (t' j).path = p) ↔
          ∃ j, j < MAX_ANIMATIONS ∧ (t0 j).path = p)) ∧
        (∀ j, j < MAX_ANIMATIONS → (t' j).path ≠ "" → (t' j).locks = 1) := by
  intro n
  induction n with
  | zero =>
    intro i t hin ha hb _
    refine ⟨t, rfl, ha, fun j hj => hb j (by omega)⟩
  | succ n ih =>
    intro i t hin ha hb hc
    have hi : i < MAX_ANIMATIONS := by omega
    unfold EERIE_ANIMMANAGER_ReloadAll.loop
    by_cases hlive : (t i).path ≠ ""
    · rw [if_pos hlive]
      simp only [EERIE_ANIMMANAGER_Load]
      have hci : (EERIE_ANIMMANAGER_Clear t i i).path = "" := by
        rw [Clear_apply, if_pos rfl]
      have hcj : ∀ j, j ≠ i → EERIE_ANIMMANAGER_Clear t i j = t j := by
        intro j hj
        rw [Clear_apply, if_neg hj]
      cases hg : EERIE_ANIMMANAGER_GetHandle (EERIE_ANIMMANAGER_Clear t i) (t i).path with
      | some h =>
        obtain ⟨hM, hhp, -⟩ := (GetHandle_eq_some _ _ h).1 hg
        have hhi : h ≠ i := by
          intro e
          rw [e, hci] at hhp
          exact hlive hhp.symm
        rw [hcj h hhi] at hhp
        have hgt : i < h := by
          by_contra hle
          have hlt : h < i := by omega
          exact hc h hlt (by rw [hhp]; exact hlive) i (le_refl i) hi hhp.symm
        rw [Load_of_GetHandle env fuel _ _ h hg]
        have hpath : ∀ j, (Function.update (EERIE_ANIMMANAGER_Clear t i) h
            { EERIE_ANIMMANAGER_Clear t i h with
              locks := (EERIE_ANIMMANAGER_Clear t i h).locks + 1 } j).path
            = if j = i then "" else (t j).path := by
          intro j
          by_cases hj : j = h
          · subst hj
            rw [Function.update_same, if_neg hhi, hcj j hhi]
          · rw [Function.update_noteq hj, Clear_apply]
            split_ifs <;> rfl
        apply ih (i + 1) _ (by omega)
        · intro q hq
          rw [← ha q hq]
          constructor
          · rintro ⟨j, hj, hjq⟩
            rw [hpath] at hjq
            split_ifs at hjq with hji
            · exact absurd hjq.symm hq
            · exact ⟨j, hj, hjq⟩
          · rintro ⟨j, hj, hjq⟩
            by_cases hji : j = i
            · refine ⟨h, hM, ?_⟩
              rw [hpath, if_neg hhi, hhp, ← hjq, hji]
            · exact ⟨j, hj, by rw [hpath, if_neg hji]; exact hjq⟩
        · intro j hj hne
          rw [hpath] at hne
          split_ifs at hne with hji
          · exact absurd rfl hne
          · have hjh : j ≠ h := by omega
            show (Function.update (EERIE_ANIMMANAGER_Clear t i) h _ j).locks = 1
            rw [Function.update_noteq hjh, hcj j hji]
            exact hb j (by omega) hne
        · intro j hj hne k hk hkM
          rw [hpath] at hne
          rw [hpath, hpath]
          split_ifs at hne with hji
          · exact absurd rfl hne
          · rw [if_neg hji, if_neg (by omega)]
            exact hc j (by omega) hne k (by omega) hkM
      | none =>
        have hnone := (GetHandle_eq_none _ _).1 hg
        obtain ⟨f, hfi, hf0, hfmin⟩ := exists_first_free (EERIE_ANIMMANAGER_Clear t i) i hi hci
        have hfM : f < MAX_ANIMATIONS := by omega
        obtain ⟨adr, e0, alts, hr, hd, hpa⟩ :=
          hfiles (t i).path hlive ((ha _ hlive).1 ⟨i, hi, rfl⟩)
        rw [Load_at_first_free env fuel _ _ f hnone hfM hf0 hfmin,
          Load_slot_eq env fuel _ f _ adr e0 hlive hr hd, hpa]
        simp only [Option.map_some']
        have hpath : ∀ j, (Function.update (EERIE_ANIMMANAGER_Clear t i) f
            ({ path := (t i).path, anims := some e0 :: alts.map some
               alt_nb := 1 + (alts.length : Int), locks := 1 } : ANIM_HANDLE) j).path
            = if j = f then (t i).path else if j = i then "" else (t j).path := by
          intro j
          by_cases hj : j = f
          · subst hj
            rw [Function.update_same, if_pos rfl]
          · rw [Function.update_noteq hj, if_neg hj, Clear_apply]
            split_ifs <;> rfl
        have hnone' : ∀ k, k < MAX_ANIMATIONS → k ≠ i → (t k).path ≠ (t i).path := by
          intro k hk hki
          have := hnone k hk
          rwa [hcj k hki] at this
        apply ih (i + 1) _ (by omega)
        · intro q hq
          rw [← ha q hq]
          constructor
          · rintro ⟨j, hj, hjq⟩
            rw [hpath] at hjq
            split_ifs at hjq with hjf hji
            · exact ⟨i, hi, hjq⟩
            · exact absurd hjq.symm hq
            · exact ⟨j, hj, hjq⟩
          · rintro ⟨j, hj, hjq⟩
            by_cases hqp : q = (t i).path
            · exact ⟨f, hfM, by rw [hpath, if_pos rfl, hqp]⟩
            · have hji : j ≠ i := by
                intro e
                rw [e] at hjq
                exact hqp hjq.symm
              have hjf : j ≠ f := by
                intro e
                rw [← e, hcj j hji, hjq] at hf0
                exact hq hf0
              exact ⟨j, hj, by rw [hpath, if_neg hjf, if_neg hji]; exact hjq⟩
        · intro j hj hne
          rw [hpath] at hne
          by_cases hjf : j = f
          · show (Function.update (EERIE_ANIMMANAGER_Clear t i) f _ j).locks = 1
            rw [hjf, Function.update_same]
          · rw [if_neg hjf] at hne
            split_ifs at hne with hji
            · exact absurd rfl hne
            · show (Function.update (EERIE_ANIMMANAGER_Clear t i) f _ j).locks = 1
              rw [Function.update_noteq hjf, hcj j hji]
              exact hb j (by omega) hne
        · intro j hj hne k hk hkM
          rw [hpath] at hne
          rw [hpath, hpath, if_neg (show k ≠ f by omega), if_neg (show k ≠ i by omega)]
          by_cases hjf : j = f
          · rw [if_pos hjf]
            exact hnone' k hkM (by omega)
          · rw [if_neg hjf] at hne ⊢
            split_ifs at hne with hji
            · exact absurd rfl hne
            · rw [if_neg hji]
              exact hc j (by omega) hne k (by omega) hkM
    · rw [if_neg hlive]
      push_neg at hlive
      apply ih (i + 1) t (by omega) ha
      · intro j hj hne
        by_cases hji : j = i
        · rw [hji] at hne; exact absurd hlive hne
        · exact hb j (by omega) hne
      · intro j hj hne k hk hkM
        by_cases hji : j = i
        · rw [hji] at hne; exact absurd hlive hne
        · exact hc j (by omega) hne k (by omega) hkM

theorem example_walk_files :
    (∃ (adr : List Nat) (e : EERIE_ANIM),
        (exampleEnv exampleFiles).readAlloc "walk" = some adr ∧
        TheaToEerie (exampleEnv exampleFiles) adr = some (some e)) ∧
      ∃ n, n < 3 ∧
        (∀ k, k < n → ∃ e, decodeFile (exampleEnv exampleFiles)
          ((exampleEnv exampleFiles).append_basename "walk" (toString (2 + k)))
            = some (some e)) ∧
        decodeFile (exampleEnv exampleFiles)
          ((exampleEnv exampleFiles).append_basename "walk" (toString (2 + n))) = some none := by
  refine ⟨⟨emptyClip, emptyClipTrack, by simp [exampleEnv, exampleFiles],
    TheaToEerie_emptyClip exampleFiles⟩, 1, by decide, ?_, ?_⟩
  · intro k hk
    obtain rfl : k = 0 := by omega
    refine ⟨emptyClipTrack, ?_⟩
    have : (exampleEnv exampleFiles).append_basename "walk" (toString (2 + 0)) = "walk2" := by
      decide
    rw [this]
    simp only [decodeFile, exampleEnv, exampleFiles]
    simp only [show ("walk2" = "walk") = False by decide, if_false, if_true]
    exact TheaToEerie_emptyClip exampleFiles
  · have : (exampleEnv exampleFiles).append_basename "walk" (toString (2 + 1)) = "walk3" := by
      decide
    rw [this]
    simp [decodeFile, exampleEnv, exampleFiles]

theorem walkTable_live (i : Nat) (hne : (walkTable i).path ≠ "") :
    (walkTable i).path = "walk" := by
  by_cases hi : i = 0
  · subst hi
    simp only [walkTable, Function.update_same]
  · simp only [walkTable, Function.update_noteq hi, emptyTable] at hne
    exact absurd rfl hne

theorem keyframe_counts (env : Env) (adr : List Nat) (th : THEA_HEADER) (i : Nat)
    (eerie : EERIE_ANIM) (pos : Nat) (e' : EERIE_ANIM) (pos' : Nat)
    (h : TheaToEerie.keyframe env adr th i eerie pos = some (e', pos')) :
    e'.nb_key_frames = eerie.nb_key_frames ∧ e'.nb_groups = eerie.nb_groups := by
  unfold TheaToEerie.keyframe at h
  cases h1 : TheaToEerie.readKeyframe env adr th pos with
  | none => simp only [h1] at h; cases h
  | some x1 =>
    obtain ⟨tkf, p1⟩ := x1
    simp only [h1] at h
    cases h2 : checked_range_cast_short tkf.key_orient with
    | none => simp only [h2] at h; cases h
    | some f_rotate =>
      cases h3 : checked_range_cast_short tkf.key_move with
      | none => simp only [h2, h3] at h; cases h
      | some f_translate =>
        simp only [h2, h3] at h
        generalize TheaToEerie.readMove env adr tkf _ p1 = m at h
        cases m with
        | none => cases h
        | some x4 =>
          obtain ⟨fr4, p4⟩ := x4
          simp only at h
          cases h5 : TheaToEerie.readOrient env adr tkf fr4 p4 with
          | none => simp only [h5] at h; cases h
          | some x5 =>
            obtain ⟨fr5, p5⟩ := x5
            simp only [h5] at h
            generalize TheaToEerie.groupLoop env adr th i th.nb_groups.toNat 0 eerie.groups _ = g
              at h
            cases g with
            | none => cases h
            | some x6 =>
              obtain ⟨groups, p6⟩ := x6
              simp only at h
              cases h7 : TheaToEerie.readSample env adr fr5 p6 with
              | none => simp only [h7] at h; cases h
              | some x7 =>
                obtain ⟨fr7, p7⟩ := x7
                simp only [h7, Option.some.injEq, Prod.mk.injEq] at h
                obtain ⟨rfl, -⟩ := h
                exact ⟨rfl, rfl⟩

theorem keyframeLoop_counts (env : Env) (adr : List Nat) (th : THEA_HEADER) :
    ∀ n i (eerie : EERIE_ANIM) (pos : Nat) (e' : EERIE_ANIM) (pos' : Nat),
      TheaToEerie.keyframeLoop env adr th n i eerie pos = some (e', pos') →
      e'.nb_key_frames = eerie.nb_key_frames ∧ e'.nb_groups = eerie.nb_groups := by
  intro n
  induction n with
  | zero =>
    intro i eerie pos e' pos' h
    simp only [TheaToEerie.keyframeLoop, Option.some.injEq, Prod.mk.injEq] at h
    obtain ⟨rfl, -⟩ := h
    exact ⟨rfl, rfl⟩
  | succ n ih =>
    intro i eerie pos e' pos' h
    unfold TheaToEerie.keyframeLoop at h
    split at h
    · cases h
    · rename_i e1 p1 hk
      obtain ⟨h1, h2⟩ := keyframe_counts env adr th i eerie pos e1 p1 hk
      obtain ⟨h3, h4⟩ := ih (i + 1) e1 p1 e' pos' h
      exact ⟨h3.trans h1, h4.trans h2⟩

theorem fillTranslate_counts (th : THEA_HEADER) (i : Nat) (eerie : EERIE_ANIM) :
    (TheaToEerie.fillTranslate th i eerie).nb_key_frames = eerie.nb_key_frames ∧
      (TheaToEerie.fillTranslate th i eerie).nb_groups = eerie.nb_groups := by
  unfold TheaToEerie.fillTranslate
  dsimp only
  split_ifs <;> exact ⟨rfl, rfl⟩

theorem fillRotate_counts (th : THEA_HEADER) (i : Nat) (eerie : EERIE_ANIM) :
    (TheaToEerie.fillRotate th i eerie).nb_key_frames = eerie.nb_key_frames ∧
      (TheaToEerie.fillRotate th i eerie).nb_groups = eerie.nb_groups := by
  unfold TheaToEerie.fillRotate
  dsimp only
  split_ifs <;> exact ⟨rfl, rfl⟩

theorem fillLoop_counts (th : THEA_HEADER) :
    ∀ n i (eerie : EERIE_ANIM),
      (TheaToEerie.fillLoop th n i eerie).nb_key_frames = eerie.nb_key_frames ∧
        (TheaToEerie.fillLoop th n i eerie).nb_groups = eerie.nb_groups := by
  intro n
  induction n with
  | zero => intro i eerie; exact ⟨rfl, rfl⟩
  | succ n ih =>
    intro i eerie
    unfold TheaToEerie.fillLoop
    obtain ⟨h1, h2⟩ := ih (i + 1) (TheaToEerie.fillRotate th i (TheaToEerie.fillTranslate th i eerie))
    obtain ⟨h3, h4⟩ := fillRotate_counts th i (TheaToEerie.fillTranslate th i eerie)
    obtain ⟨h5, h6⟩ := fillTranslate_counts th i eerie
    exact ⟨h1.trans (h3.trans h5), h2.trans (h4.trans h6)⟩

theorem voidLoop_counts :
    ∀ n i (eerie : EERIE_ANIM),
      (TheaToEerie.voidLoop n i eerie).nb_key_frames = eerie.nb_key_frames ∧
        (TheaToEerie.voidLoop n i eerie).nb_groups = eerie.nb_groups := by
  intro n
  induction n with
  | zero => intro i eerie; exact ⟨rfl, rfl⟩
  | succ n ih =>
    intro i eerie
    unfold TheaToEerie.voidLoop
    split_ifs
    · obtain ⟨h1, h2⟩ := ih (i + 1) { eerie with voidgroups := eerie.voidgroups.set i 1 }
      exact ⟨h1, h2⟩
    · exact ih (i + 1) eerie

/-- The decoder on a buffer that holds a whole header: `NULL` below version 2014,
otherwise undefined or a track with the declared key frame and group counts. -/
theorem TheaToEerie_cases (env : Env) (adr : List Nat) (th : THEA_HEADER)
    (hth : theaHeader env adr = some th) :
    (th.version < 2014 → TheaToEerie env adr = some none) ∧
      (2014 ≤ th.version → ∀ r, TheaToEerie env adr = some r →
        ∃ e, r = some e ∧ e.nb_key_frames = th.nb_key_frames ∧ e.nb_groups = th.nb_groups) := by
  unfold theaHeader at hth
  simp only [Option.map_eq_some'] at hth
  obtain ⟨b, hb, rfl⟩ := hth
  constructor
  · intro hv
    unfold TheaToEerie
    simp only [hb, if_pos hv]
  · intro hv r hr
    unfold TheaToEerie at hr
    simp only [hb, if_neg (not_lt.mpr hv)] at hr
    split at hr
    · rename_i frames groups voidgroups _ _ _
      split at hr
      · cases hr
      · rename_i e1 p1 hk
        simp only [Option.some.injEq] at hr
        subst hr
        obtain ⟨h1, h2⟩ := keyframeLoop_counts env adr _ _ _ _ _ e1 p1 hk
        refine ⟨_, rfl, ?_, ?_⟩
        · simp only
          rw [(voidLoop_counts _ _ _).1]
          simp only
          rw [(fillLoop_counts _ _ _ _).1, h1]
        · simp only
          rw [(voidLoop_counts _ _ _).2]
          simp only
          rw [(fillLoop_counts _ _ _ _).2, h2]
    · cases hr

set_option maxRecDepth 100000 in
theorem twoFrameClip_header :
    theaHeader (exampleEnv exampleFiles) twoFrameClip =
      some { version := 2015, nb_frames := 24, nb_groups := 1, nb_key_frames := 2 } := by
  decide

set_option maxRecDepth 100000 in
theorem twoFrameClip_defined :
    (TheaToEerie (exampleEnv exampleFiles) twoFrameClip).isSome = true := by
  decide

/-- A read that stays inside the buffer is not affected by bytes appended to it. -/
theorem view_append (adr extra : List Nat) (pos size : Nat) (b : List Nat)
    (h : view adr pos size = some b) : view (adr ++ extra) pos size = some b := by
  unfold view at h ⊢
  split_ifs at h with hle
  simp only [Option.some.injEq] at h
  rw [if_pos (by rw [List.length_append]; omega)]
  rw [List.drop_append_of_le_length (by omega),
    List.take_append_of_le_length (by rw [List.length_drop]; omega), h]

theorem readKeyframe_append (env : Env) (adr extra : List Nat) (th : THEA_HEADER) (pos : Nat)
    (x : THEA_KEYFRAME_2015 × Nat) (h : TheaToEerie.readKeyframe env adr th pos = some x) :
    TheaToEerie.readKeyframe env (adr ++ extra) th pos = some x := by
  unfold TheaToEerie.readKeyframe at h ⊢
  split_ifs at h ⊢
  · simp only [Option.map_eq_some'] at h ⊢
    obtain ⟨b, hb, hx⟩ := h
    exact ⟨b, view_append adr extra _ _ b hb, hx⟩
  · simp only [Option.map_eq_some'] at h ⊢
    obtain ⟨b, hb, hx⟩ := h
    exact ⟨b, view_append adr extra _ _ b hb, hx⟩

theorem readMove_append (env : Env) (adr extra : List Nat) (tkf : THEA_KEYFRAME_2015)
    (fr : EERIE_FRAME) (pos : Nat) (x : EERIE_FRAME × Nat)
    (h : TheaToEerie.readMove env adr tkf fr pos = some x) :
    TheaToEerie.readMove env (adr ++ extra) tkf fr pos = some x := by
  unfold TheaToEerie.readMove at h ⊢
  split_ifs at h ⊢
  · simp only [Option.map_eq_some'] at h ⊢
    obtain ⟨b, hb, hx⟩ := h
    exact ⟨b, view_append adr extra _ _ b hb, hx⟩
  · exact h

theorem readOrient_append (env : Env) (adr extra : List Nat) (tkf : THEA_KEYFRAME_2015)
    (fr : EERIE_FRAME) (pos : Nat) (x : EERIE_FRAME × Nat)
    (h : TheaToEerie.readOrient env adr tkf fr pos = some x) :
    TheaToEerie.readOrient env (adr ++ extra) tkf fr pos = some x := by
  unfold TheaToEerie.readOrient at h ⊢
  split_ifs at h ⊢
  · simp only [Option.map_eq_some'] at h ⊢
    obtain ⟨b, hb, hx⟩ := h
    exact ⟨b, view_append adr extra _ _ b hb, hx⟩
  · exact h

theorem readSample_append (env : Env) (adr extra : List Nat) (fr : EERIE_FRAME) (pos : Nat)
    (x : EERIE_FRAME × Nat) (h : TheaToEerie.readSample env adr fr pos = some x) :
    TheaToEerie.readSample env (adr ++ extra) fr pos = some x := by
  unfold TheaToEerie.readSample at h ⊢
  cases hw : view adr pos 4 with
  | none => simp only [hw] at h; cases h
  | some w =>
    simp only [hw] at h
    simp only [view_append adr extra pos 4 w hw]
    split_ifs at h ⊢
    · simp only [Option.map_eq_some'] at h ⊢
      obtain ⟨b, hb, hx⟩ := h
      exact ⟨b, view_append adr extra _ _ b hb, hx⟩
    · exact h

theorem groupLoop_append (env : Env) (adr extra : List Nat) (th : THEA_HEADER) (i : Nat) :
    ∀ n j (groups : List EERIE_GROUP) (pos : Nat) (x : List EERIE_GROUP × Nat),
      TheaToEerie.groupLoop env adr th i n j groups pos = some x →
      TheaToEerie.groupLoop env (adr ++ extra) th i n j groups pos = some x := by
  intro n
  induction n with
  | zero => intro j groups pos x h; exact h
  | succ n ih =>
    intro j groups pos x h
    unfold TheaToEerie.groupLoop at h ⊢
    cases hv : view adr pos env.sizeof_THEO_GROUPANIM with
    | none => simp only [hv] at h; cases h
    | some b =>
      simp only [hv] at h
      simp only [view_append adr extra _ _ b hv]
      exact ih _ _ _ _ h

theorem keyframe_append (env : Env) (adr extra : List Nat) (th : THEA_HEADER) (i : Nat)
    (eerie : EERIE_ANIM) (pos : Nat) (x : EERIE_ANIM × Nat)
    (h : TheaToEerie.keyframe env adr th i eerie pos = some x) :
    TheaToEerie.keyframe env (adr ++ extra) th i eerie pos = some x := by
  unfold TheaToEerie.keyframe at h ⊢
  cases h1 : TheaToEerie.readKeyframe env adr th pos with
  | none => simp only [h1] at h; cases h
  | some x1 =>
    obtain ⟨tkf, p1⟩ := x1
    simp only [h1] at h
    simp only [readKeyframe_append env adr extra th pos _ h1]
    cases h2 : checked_range_cast_short tkf.key_orient with
    | none => simp only [h2] at h; cases h
    | some f_rotate =>
      cases h3 : checked_range_cast_short tkf.key_move with
      | none => simp only [h2, h3] at h; cases h
      | some f_translate =>
        simp only [h2, h3] at h ⊢
        cases h4 : TheaToEerie.readMove env adr tkf
            { eerie.frames.getD i default with
              master_key_frame := tkf.master_key_frame
              num_frame := tkf.num_frame
              f_rotate := f_rotate
              f_translate := f_translate
              time := ((wrapS32 (tkf.num_frame * 1000) : Int) : ℚ) * (1 / 24)
              flag := tkf.flag_frame } p1 with
        | none => simp only [h4] at h; cases h
        | some x4 =>
          obtain ⟨fr4, p4⟩ := x4
          simp only [h4] at h
          simp only [readMove_append env adr extra tkf _ p1 _ h4]
          cases h5 : TheaToEerie.readOrient env adr tkf fr4 p4 with
          | none => simp only [h5] at h; cases h
          | some x5 =>
            obtain ⟨fr5, p5⟩ := x5
            simp only [h5] at h
            simp only [readOrient_append env adr extra tkf _ p4 _ h5]
            cases h6 : TheaToEerie.groupLoop env adr th i th.nb_groups.toNat 0 eerie.groups
                (if tkf.key_morph ≠ 0 then p5 + 16 else p5) with
            | none => simp only [h6] at h; cases h
            | some x6 =>
              obtain ⟨groups, p6⟩ := x6
              simp only [h6] at h
              simp only [groupLoop_append env adr extra th i _ _ _ _ _ h6]
              cases h7 : TheaToEerie.readSample env adr fr5 p6 with
              | none => simp only [h7] at h; cases h
              | some x7 =>
                obtain ⟨fr7, p7⟩ := x7
                simp only [h7] at h
                simp only [readSample_append env adr extra fr5 p6 _ h7]
                exact h

theorem keyframeLoop_append (env : Env) (adr extra : List Nat) (th : THEA_HEADER) :
    ∀ n i (eerie : EERIE_ANIM) (pos : Nat) (x : EERIE_ANIM × Nat),
      TheaToEerie.keyframeLoop env adr th n i eerie pos = some x →
      TheaToEerie.keyframeLoop env (adr ++ extra) th n i eerie pos = some x := by
  intro n
  induction n with
  | zero => intro i eerie pos x h; exact h
  | succ n ih =>
    intro i eerie pos x h
    unfold TheaToEerie.keyframeLoop at h ⊢
    cases hk : TheaToEerie.keyframe env adr th i eerie pos with
    | none => simp only [hk] at h; cases h
    | some y =>
      obtain ⟨e1, p1⟩ := y
      simp only [hk] at h
      simp only [keyframe_append env adr extra th i eerie pos _ hk]
      exact ih _ _ _ _ h

/-- Being long enough is monotone: when every read of the decoder stays inside
`adr`, the decoder gives the same result on any buffer that extends `adr`. -/
theorem TheaToEerie_append (env : Env) (adr extra : List Nat) (r : Option EERIE_ANIM)
    (h : TheaToEerie env adr = some r) : TheaToEerie env (adr ++ extra) = some r := by
  unfold TheaToEerie at h ⊢
  cases hb : view adr 0 env.sizeof_THEA_HEADER with
  | none => simp only [hb] at h; cases h
  | some b =>
    simp only [hb] at h
    simp only [view_append adr extra _ _ b hb]
    by_cases hv : (env.as_THEA_HEADER b).version < 2014
    · simp only [if_pos hv] at h ⊢
      exact h
    · simp only [if_neg hv] at h ⊢
      split at h
      · rename_i frames groups voidgroups _ _ _
        split at h
        · cases h
        · rename_i e1 p1 hk
          simp only [keyframeLoop_append env adr extra _ _ _ _ _ _ hk]
          exact h
      · cases h

theorem TheaToEerie_eq_post (env : Env) (adr : List Nat) :
    TheaToEerie env adr =
      match view adr 0 env.sizeof_THEA_HEADER with
      | none => none
      | some b =>
        if (env.as_THEA_HEADER b).version < 2014 then some none
        else
          match TheaToEerie.alloc (env.as_THEA_HEADER b) with
          | none => none
          | some e0 =>
            match TheaToEerie.keyframeLoop env adr (env.as_THEA_HEADER b)
                (env.as_THEA_HEADER b).nb_key_frames.toNat 0 e0 env.sizeof_THEA_HEADER with
            | none => none
            | some (e1, _) => some (some (TheaToEerie.post (env.as_THEA_HEADER b) e1)) := by
  unfold TheaToEerie TheaToEerie.alloc
  cases view adr 0 env.sizeof_THEA_HEADER with
  | none => rfl
  | some b =>
    simp only
    by_cases hv : (env.as_THEA_HEADER b).version < 2014
    · simp only [if_pos hv]
    · simp only [if_neg hv]
      cases (allocStructZero (env.as_THEA_HEADER b).nb_key_frames : Option (List EERIE_FRAME)) with
        | none => rfl
        | some frames =>
          cases (allocStructZero ((env.as_THEA_HEADER b).nb_key_frames *
              (env.as_THEA_HEADER b).nb_groups) : Option (List EERIE_GROUP)) with
          | none => rfl
          | some groups =>
            cases (allocStructZero (env.as_THEA_HEADER b).nb_groups : Option (List Nat)) with
            | none => rfl
            | some voidgroups => rfl

theorem groupLoop_eq (env : Env) (adr : List Nat) (th : THEA_HEADER) (i : Nat) :
    ∀ n j (groups : List EERIE_GROUP) (pos : Nat),
      TheaToEerie.groupLoop env adr th i n j groups pos =
        (TheaToEerie.readGroups env adr n pos).map fun x =>
          (TheaToEerie.storeGroups th.nb_groups.toNat i x.1 j groups, x.2) := by
  intro n
  induction n with
  | zero => intro j groups pos; rfl
  | succ n ih =>
    intro j groups pos
    unfold TheaToEerie.groupLoop TheaToEerie.readGroups
    cases view adr pos env.sizeof_THEO_GROUPANIM with
    | none => rfl
    | some b =>
      simp only [ih]
      cases TheaToEerie.readGroups env adr n (pos + env.sizeof_THEO_GROUPANIM) with
      | none => rfl
      | some x => rfl

theorem checked_range_cast_short_eq (v w : Int) (h : checked_range_cast_short v = some w) :
    w = v := by
  unfold checked_range_cast_short at h
  split_ifs at h
  simp only [Option.some.injEq] at h
  exact h.symm

theorem keyframe_eq (env : Env) (adr : List Nat) (th : THEA_HEADER) (i : Nat)
    (eerie : EERIE_ANIM) (pos : Nat) :
    TheaToEerie.keyframe env adr th i eerie pos =
      match TheaToEerie.readKeyframe env adr th pos with
      | none => none
      | some (tkf, _) =>
        match checked_range_cast_short tkf.key_orient,
            checked_range_cast_short tkf.key_move with
        | some _, some _ =>
          (TheaToEerie.read env adr th pos).map fun x =>
            (TheaToEerie.store env th i x.1 eerie, x.2)
        | _, _ => none := by
  unfold TheaToEerie.keyframe TheaToEerie.read
  cases h1 : TheaToEerie.readKeyframe env adr th pos with
  | none => rfl
  | some x1 =>
    obtain ⟨tkf, p1⟩ := x1
    simp only
    cases h2 : checked_range_cast_short tkf.key_orient with
    | none => rfl
    | some f_rotate =>
      cases h3 : checked_range_cast_short tkf.key_move with
      | none => rfl
      | some f_translate =>
        have e2 := checked_range_cast_short_eq _ _ h2
        have e3 := checked_range_cast_short_eq _ _ h3
        subst e2 e3
        simp only [TheaToEerie.readMove, TheaToEerie.readOrient, TheaToEerie.readSample,
          groupLoop_eq, TheaToEerie.store, TheaToEerie.frameOf]
        by_cases hm : tkf.key_move ≠ 0
        · simp only [if_pos hm]
          cases view adr p1 env.sizeof_THEA_KEYMOVE with
          | none => rfl
          | some bm =>
            simp only [Option.map_some']
            by_cases ho : tkf.key_orient ≠ 0
            · simp only [if_pos ho]
              cases view adr (p1 + env.sizeof_THEA_KEYMOVE + 8) env.sizeof_ArxQuat with
              | none => rfl
              | some bq =>
                simp only [Option.map_some']
                cases TheaToEerie.readGroups env adr th.nb_groups.toNat
                    (if tkf.key_morph ≠ 0 then
                      p1 + env.sizeof_THEA_KEYMOVE + 8 + env.sizeof_ArxQuat + 16
                    else p1 + env.sizeof_THEA_KEYMOVE + 8 + env.sizeof_ArxQuat) with
                | none => rfl
                | some g =>
                  obtain ⟨gs, p6⟩ := g
                  simp only [Option.map_some']
                  cases view adr p6 4 with
                  | none => rfl
                  | some w =>
                    simp only
                    by_cases hs : env.as_s32 w ≠ -1
                    · simp only [if_pos hs]
                      cases view adr (p6 + 4) env.sizeof_THEA_SAMPLE with
                      | none => rfl
                      | some bs => simp only [Option.map_some']
                    · simp only [if_neg hs, Option.map_some']
            · simp only [if_neg ho]
              cases TheaToEerie.readGroups env adr th.nb_groups.toNat
                  (if tkf.key_morph ≠ 0 then p1 + env.sizeof_THEA_KEYMOVE + 16
                  else p1 + env.sizeof_THEA_KEYMOVE) with
              | none => rfl
              | some g =>
                obtain ⟨gs, p6⟩ := g
                simp only [Option.map_some']
                cases view adr p6 4 with
                | none => rfl
                | some w =>
                  simp only
                  by_cases hs : env.as_s32 w ≠ -1
                  · simp only [if_pos hs]
                    cases view adr (p6 + 4) env.sizeof_THEA_SAMPLE with
                    | none => rfl
                    | some bs => simp only [Option.map_some']
                  · simp only [if_neg hs, Option.map_some']
        · simp only [if_neg hm]
          by_cases ho : tkf.key_orient ≠ 0
          · simp only [if_pos ho]
            cases view adr (p1 + 8) env.sizeof_ArxQuat with
            | none => rfl
            | some bq =>
              simp only [Option.map_some']
              cases TheaToEerie.readGroups env adr th.nb_groups.toNat
                  (if tkf.key_morph ≠ 0 then p1 + 8 + env.sizeof_ArxQuat + 16
                  else p1 + 8 + env.sizeof_ArxQuat) with
              | none => rfl
              | some g =>
                obtain ⟨gs, p6⟩ := g
                simp only [Option.map_some']
                cases view adr p6 4 with
                | none => rfl
                | some w =>
                  simp only
                  by_cases hs : env.as_s32 w ≠ -1
                  · simp only [if_pos hs]
                    cases view adr (p6 + 4) env.sizeof_THEA_SAMPLE with
                    | none => rfl
                    | some bs => simp only [Option.map_some']
                  · simp only [if_neg hs, Option.map_some']
          · simp only [if_neg ho]
            cases TheaToEerie.readGroups env adr th.nb_groups.toNat
                (if tkf.key_morph ≠ 0 then p1 + 16 else p1) with
            | none => rfl
            | some g =>
              obtain ⟨gs, p6⟩ := g
              simp only [Option.map_some']
              cases view adr p6 4 with
              | none => rfl
              | some w =>
                simp only
                by_cases hs : env.as_s32 w ≠ -1
                · simp only [if_pos hs]
                  cases view adr (p6 + 4) env.sizeof_THEA_SAMPLE with
                  | none => rfl
                  | some bs => simp only [Option.map_some']
                · simp only [if_neg hs, Option.map_some']

theorem getD_set_ne {α : Type} (l : List α) (i j : Nat) (a d : α) (h : i ≠ j) :
    (l.set i a).getD j d = l.getD j d := by
  simp [List.getD_eq_getElem?_getD, List.getElem?_set_ne h]

theorem getD_set_eq {α : Type} (l : List α) (i : Nat) (a d : α) (h : i < l.length) :
    (l.set i a).getD i d = a := by
  simp [List.getD_eq_getElem?_getD, List.getElem?_set_self, h]

theorem idx_inj (G g g' i i' : Nat) (hg : g < G) (hg' : g' < G)
    (h : g + i * G = g' + i' * G) : i = i' ∧ g = g' := by
  have hG : 0 < G := by omega
  have h1 : (g + i * G) / G = i := by
    rw [Nat.add_mul_div_right _ _ hG, Nat.div_eq_of_lt hg, Nat.zero_add]
  have h2 : (g' + i' * G) / G = i' := by
    rw [Nat.add_mul_div_right _ _ hG, Nat.div_eq_of_lt hg', Nat.zero_add]
  have hi : i = i' := by rw [← h1, ← h2, h]
  subst hi
  exact ⟨rfl, by omega⟩

theorem storeGroups_length (G i : Nat) :
    ∀ (recs : List THEO_GROUPANIM) (j : Nat) (groups : List EERIE_GROUP),
      (TheaToEerie.storeGroups G i recs j groups).length = groups.length := by
  intro recs
  induction recs with
  | nil => intro j groups; rfl
  | cons tga rest ih =>
    intro j groups
    simp only [TheaToEerie.storeGroups, ih, List.length_set]

theorem storeGroups_getD_other (G i : Nat) (d : EERIE_GROUP) :
    ∀ (recs : List THEO_GROUPANIM) (j : Nat) (groups : List EERIE_GROUP) (idx : Nat),
      (∀ m, m < recs.length → idx ≠ j + m + i * G) →
      (TheaToEerie.storeGroups G i recs j groups).getD idx d = groups.getD idx d := by
  intro recs
  induction recs with
  | nil => intro j groups idx _; rfl
  | cons tga rest ih =>
    intro j groups idx h
    simp only [TheaToEerie.storeGroups]
    rw [ih (j + 1) _ idx (fun m hm => by
      have := h (m + 1) (by simp only [List.length_cons]; omega)
      omega)]
    have h0 := h 0 (by simp only [List.length_cons]; omega)
    exact getD_set_ne _ _ _ _ _ (by omega)

theorem storeGroups_getD_at (G i : Nat) (d : EERIE_GROUP) :
    ∀ (recs : List THEO_GROUPANIM) (j : Nat) (groups : List EERIE_GROUP) (m : Nat)
      (tga : THEO_GROUPANIM), recs[m]? = some tga → j + m + i * G < groups.length →
      (TheaToEerie.storeGroups G i recs j groups).getD (j + m + i * G) d
        = TheaToEerie.groupOf tga := by
  intro recs
  induction recs with
  | nil => intro j groups m tga h; simp at h
  | cons r rest ih =>
    intro j groups m tga h hlt
    simp only [TheaToEerie.storeGroups]
    cases m with
    | zero =>
      simp only [List.getElem?_cons_zero, Option.some.injEq] at h
      subst h
      rw [storeGroups_getD_other G i d rest (j + 1) _ (j + 0 + i * G) (fun m _ => by omega)]
      exact getD_set_eq _ _ _ _ (by omega)
    | succ m =>
      simp only [List.getElem?_cons_succ] at h
      have := ih (j + 1) (groups.set (j + i * G) (TheaToEerie.groupOf r)) m tga h
        (by rw [List.length_set]; omega)
      rw [show j + (m + 1) + i * G = j + 1 + m + i * G by omega]
      exact this

theorem readGroups_length (env : Env) (adr : List Nat) :
    ∀ n pos (recs : List THEO_GROUPANIM) (pos' : Nat),
      TheaToEerie.readGroups env adr n pos = some (recs, pos') → recs.length = n := by
  intro n
  induction n with
  | zero =>
    intro pos recs pos' h
    simp only [TheaToEerie.readGroups, Option.some.injEq, Prod.mk.injEq] at h
    rw [← h.1]; rfl
  | succ n ih =>
    intro pos recs pos' h
    unfold TheaToEerie.readGroups at h
    cases hv : view adr pos env.sizeof_THEO_GROUPANIM with
    | none => simp only [hv] at h; cases h
    | some b =>
      simp only [hv] at h
      cases hr : TheaToEerie.readGroups env adr n (pos + env.sizeof_THEO_GROUPANIM) with
      | none => simp only [hr] at h; cases h
      | some x =>
        obtain ⟨rest, p⟩ := x
        simp only [hr, Option.some.injEq, Prod.mk.injEq] at h
        rw [← h.1, List.length_cons, ih _ rest p hr]

/-- The reads of one key frame hold one group record per group. -/
theorem read_groups_length (env : Env) (adr : List Nat) (th : THEA_HEADER) (pos : Nat)
    (r : KeyframeRead) (pos' : Nat) (h : TheaToEerie.read env adr th pos = some (r, pos')) :
    r.groups.length = th.nb_groups.toNat := by
  unfold TheaToEerie.read at h
  cases h1 : TheaToEerie.readKeyframe env adr th pos with
  | none => simp only [h1] at h; cases h
  | some x1 =>
    obtain ⟨tkf, p1⟩ := x1
    simp only [h1] at h
    split at h
    · cases h
    · split at h
      · cases h
      · split at h
        · cases h
        · rename_i gs p6 hg
          split at h
          · cases h
          · split at h
            · cases h
            · simp only [Option.some.injEq, Prod.mk.injEq] at h
              rw [← h.1]
              exact readGroups_length env adr _ _ gs p6 hg

theorem keyframe_inv (env : Env) (adr : List Nat) (th : THEA_HEADER) (i : Nat)
    (eerie : EERIE_ANIM) (pos : Nat) (e' : EERIE_ANIM) (pos' : Nat)
    (h : TheaToEerie.keyframe env adr th i eerie pos = some (e', pos')) :
    ∃ r, TheaToEerie.read env adr th pos = some (r, pos') ∧
      e' = TheaToEerie.store env th i r eerie := by
  rw [keyframe_eq] at h
  cases h1 : TheaToEerie.readKeyframe env adr th pos with
  | none => simp only [h1] at h; cases h
  | some x1 =>
    obtain ⟨tkf, p1⟩ := x1
    simp only [h1] at h
    split at h
    · simp only [Option.map_eq_some', Prod.mk.injEq] at h
      obtain ⟨⟨r, p⟩, hr, he, hp⟩ := h
      simp only at he hp
      subst hp
      exact ⟨r, hr, he.symm⟩
    · cases h

theorem keyframeLoop_inv (env : Env) (adr : List Nat) (th : THEA_HEADER) :
    ∀ n i (eerie : EERIE_ANIM) (pos : Nat) (e' : EERIE_ANIM) (pos' : Nat),
      TheaToEerie.keyframeLoop env adr th n i eerie pos = some (e', pos') →
      ∃ recs, TheaToEerie.readAll env adr th n pos = some recs ∧ recs.length = n ∧
        (∀ r, r ∈ recs → r.groups.length = th.nb_groups.toNat) ∧
        e' = TheaToEerie.storeAll env th i recs eerie := by
  intro n
  induction n with
  | zero =>
    intro i eerie pos e' pos' h
    simp only [TheaToEerie.keyframeLoop, Option.some.injEq, Prod.mk.injEq] at h
    exact ⟨[], rfl, rfl, fun r hr => by simp at hr, h.1.symm⟩
  | succ n ih =>
    intro i eerie pos e' pos' h
    unfold TheaToEerie.keyframeLoop at h
    cases hk : TheaToEerie.keyframe env adr th i eerie pos with
    | none => simp only [hk] at h; cases h
    | some x =>
      obtain ⟨e1, p1⟩ := x
      simp only [hk] at h
      obtain ⟨r, hr, he1⟩ := keyframe_inv env adr th i eerie pos e1 p1 hk
      obtain ⟨rest, hrest, hlen, hg, he'⟩ := ih (i + 1) e1 p1 e' pos' h
      refine ⟨r :: rest, ?_, by simp only [List.length_cons, hlen], ?_, ?_⟩
      · simp only [TheaToEerie.readAll, hr, hrest]
      · intro r' hr'
        simp only [List.mem_cons] at hr'
        rcases hr' with rfl | hr'
        · exact read_groups_length env adr th pos r' p1 hr
        · exact hg r' hr'
      · rw [he', he1]; rfl

theorem storeAll_counts (env : Env) (th : THEA_HEADER) :
    ∀ (recs : List KeyframeRead) (i : Nat) (eerie : EERIE_ANIM),
      (TheaToEerie.storeAll env th i recs eerie).nb_key_frames = eerie.nb_key_frames ∧
      (TheaToEerie.storeAll env th i recs eerie).nb_groups = eerie.nb_groups ∧
      (TheaToEerie.storeAll env th i recs eerie).voidgroups = eerie.voidgroups ∧
      (TheaToEerie.storeAll env th i recs eerie).frames.length = eerie.frames.length ∧
      (TheaToEerie.storeAll env th i recs eerie).groups.length = eerie.groups.length := by
  intro recs
  induction recs with
  | nil => intro i eerie; exact ⟨rfl, rfl, rfl, rfl, rfl⟩
  | cons r rest ih =>
    intro i eerie
    obtain ⟨h1, h2, h3, h4, h5⟩ := ih (i + 1) (TheaToEerie.store env th i r eerie)
    simp only [TheaToEerie.storeAll]
    refine ⟨h1, h2, h3, ?_, ?_⟩
    · rw [h4]; simp only [TheaToEerie.store, List.length_set]
    · rw [h5]; simp only [TheaToEerie.store, storeGroups_length]

theorem storeAll_frames_other (env : Env) (th : THEA_HEADER) (d : EERIE_FRAME) :
    ∀ (recs : List KeyframeRead) (i : Nat) (eerie : EERIE_ANIM) (x : Nat),
      (x < i ∨ i + recs.length ≤ x) →
      (TheaToEerie.storeAll env th i recs eerie).frames.getD x d = eerie.frames.getD x d := by
  intro recs
  induction recs with
  | nil => intro i eerie x _; rfl
  | cons r rest ih =>
    intro i eerie x hx
    simp only [TheaToEerie.storeAll]
    rw [ih (i + 1) _ x (by simp only [List.length_cons] at hx; omega)]
    simp only [TheaToEerie.store]
    exact getD_set_ne _ _ _ _ _ (by simp only [List.length_cons] at hx; omega)

theorem storeAll_frames_at (env : Env) (th : THEA_HEADER) :
    ∀ (recs : List KeyframeRead) (i : Nat) (eerie : EERIE_ANIM) (k : Nat) (r : KeyframeRead),
      recs[k]? = some r → i + k < eerie.frames.length →
      (TheaToEerie.storeAll env th i recs eerie).frames.getD (i + k) default =
        TheaToEerie.frameOf env r (eerie.frames.getD (i + k) default) := by
  intro recs
  induction recs with
  | nil => intro i eerie k r h; simp at h
  | cons r0 rest ih =>
    intro i eerie k r h hlt
    simp only [TheaToEerie.storeAll]
    cases k with
    | zero =>
      simp only [List.getElem?_cons_zero, Option.some.injEq] at h
      subst h
      rw [storeAll_frames_other env th default rest (i + 1) _ (i + 0) (Or.inl (by omega))]
      simp only [TheaToEerie.store, Nat.add_zero]
      exact getD_set_eq _ _ _ _ (by omega)
    | succ k =>
      simp only [List.getElem?_cons_succ] at h
      have := ih (i + 1) (TheaToEerie.store env th i r0 eerie) k r h
        (by simp only [TheaToEerie.store, List.length_set]; omega)
      rw [show i + (k + 1) = i + 1 + k by omega, this]
      simp only [TheaToEerie.store]
      rw [getD_set_ne _ _ _ _ _ (by omega)]

theorem storeAll_groups_other (env : Env) (th : THEA_HEADER) (d : EERIE_GROUP) :
    ∀ (recs : List KeyframeRead) (i : Nat) (eerie : EERIE_ANIM) (idx : Nat),
      (∀ r, r ∈ recs → r.groups.length = th.nb_groups.toNat) →
      (∀ k g, k < recs.length → g < th.nb_groups.toNat →
        idx ≠ g + (i + k) * th.nb_groups.toNat) →
      (TheaToEerie.storeAll env th i recs eerie).groups.getD idx d = eerie.groups.getD idx d := by
  intro recs
  induction recs with
  | nil => intro i eerie idx _ _; rfl
  | cons r rest ih =>
    intro i eerie idx hlen hne
    simp only [TheaToEerie.storeAll]
    rw [ih (i + 1) _ idx (fun r' hr' => hlen r' (List.mem_cons_of_mem _ hr'))
      (fun k g hk hg => by
        have := hne (k + 1) g (by simp only [List.length_cons]; omega) hg
        rw [show i + 1 + k = i + (k + 1) by omega]
        exact this)]
    simp only [TheaToEerie.store]
    apply storeGroups_getD_other
    intro m hm
    have := hne 0 m (by simp only [List.length_cons]; omega)
      (by rw [← hlen r (List.mem_cons_self _ _)]; exact hm)
    simpa using this

theorem storeAll_groups_at (env : Env) (th : THEA_HEADER) :
    ∀ (recs : List KeyframeRead) (i : Nat) (eerie : EERIE_ANIM) (k g : Nat) (r : KeyframeRead)
      (tga : THEO_GROUPANIM),
      (∀ r, r ∈ recs → r.groups.length = th.nb_groups.toNat) →
      recs[k]? = some r → r.groups[g]? = some tga →
      g + (i + k) * th.nb_groups.toNat < eerie.groups.length →
      (TheaToEerie.storeAll env th i recs eerie).groups.getD
          (g + (i + k) * th.nb_groups.toNat) default = TheaToEerie.groupOf tga := by
  intro recs
  induction recs with
  | nil => intro i eerie k g r tga _ h; simp at h
  | cons r0 rest ih =>
    intro i eerie k g r tga hlen h hg hlt
    simp only [TheaToEerie.storeAll]
    cases k with
    | zero =>
      simp only [List.getElem?_cons_zero, Option.some.injEq] at h
      subst h
      have hgG : g < th.nb_groups.toNat := by
        rw [← hlen r0 (List.mem_cons_self _ _)]
        exact (List.getElem?_eq_some_iff.1 hg).1
      rw [storeAll_groups_other env th default rest (i + 1) _ _
        (fun r' hr' => hlen r' (List.mem_cons_of_mem _ hr'))
        (fun k' g' _ hg' hEq => by
          have := (idx_inj _ g g' (i + 0) (i + 1 + k') hgG hg' hEq).1
          omega)]
      simp only [TheaToEerie.store, Nat.add_zero]
      have := storeGroups_getD_at th.nb_groups.toNat i default r0.groups 0 eerie.groups g tga hg
        (by simpa using hlt)
      simpa using this
    | succ k =>
      simp only [List.getElem?_cons_succ] at h
      have := ih (i + 1) (TheaToEerie.store env th i r0 eerie) k g r tga
        (fun r' hr' => hlen r' (List.mem_cons_of_mem _ hr')) h hg
        (by
          simp only [TheaToEerie.store, storeGroups_length]
          rw [show i + 1 + k = i + (k + 1) by omega]
          exact hlt)
      rw [show i + (k + 1) = i + 1 + k by omega]
      exact this

theorem getD_set {α : Type} (l : List α) (i x : Nat) (a d : α) :
    (l.set i a).getD x d = if i = x ∧ i < l.length then a else l.getD x d := by
  by_cases h : i = x
  · subst h
    by_cases hl : i < l.length
    · rw [if_pos ⟨rfl, hl⟩]
      exact getD_set_eq l i a d hl
    · rw [if_neg (fun hh => hl hh.2)]
      simp only [List.getD_eq_getElem?_getD]
      rw [List.getElem?_eq_none (by rw [List.length_set]; omega),
        List.getElem?_eq_none (by omega)]
  · rw [if_neg (fun hh => h hh.1)]
    exact getD_set_ne l i x a d h

theorem alloc_inv (th : THEA_HEADER) (e0 : EERIE_ANIM) (h : TheaToEerie.alloc th = some e0) :
    0 ≤ th.nb_key_frames ∧ 0 ≤ th.nb_groups ∧
      e0 = { nb_groups := th.nb_groups, nb_key_frames := th.nb_key_frames
             frames := List.replicate th.nb_key_frames.toNat default
             groups := List.replicate (th.nb_key_frames * th.nb_groups).toNat default
             voidgroups := List.replicate th.nb_groups.toNat default
             anim_time := 0 } := by
  unfold TheaToEerie.alloc allocStructZero at h
  by_cases h1 : th.nb_key_frames < 0
  · simp only [if_pos h1] at h
    cases h
  · by_cases h2 : th.nb_key_frames * th.nb_groups < 0
    · simp only [if_neg h1, if_pos h2] at h
      cases h
    · by_cases h3 : th.nb_groups < 0
      · simp only [if_neg h1, if_neg h2, if_pos h3] at h
        cases h
      · simp only [if_neg h1, if_neg h2, if_neg h3, Option.some.injEq] at h
        exact ⟨by omega, by omega, h.symm⟩

/-- A decoded track is the post-processing of the track in which the reads of the
key frames were stored, one after the other, starting from the zeroed allocation. -/
theorem TheaToEerie_decoded (env : Env) (adr : List Nat) (th : THEA_HEADER) (e : EERIE_ANIM)
    (hth : theaHeader env adr = some th) (hdec : TheaToEerie env adr = some (some e)) :
    ∃ e0 recs, TheaToEerie.alloc th = some e0 ∧ keyframeReads env adr th = some recs ∧
      recs.length = th.nb_key_frames.toNat ∧
      (∀ r, r ∈ recs → r.groups.length = th.nb_groups.toNat) ∧
      e = TheaToEerie.post th (TheaToEerie.storeAll env th 0 recs e0) := by
  unfold theaHeader at hth
  simp only [Option.map_eq_some'] at hth
  obtain ⟨b, hb, rfl⟩ := hth
  rw [TheaToEerie_eq_post] at hdec
  simp only [hb] at hdec
  by_cases hv : (env.as_THEA_HEADER b).version < 2014
  · simp only [if_pos hv, Option.some.injEq] at hdec
    cases hdec
  · simp only [if_neg hv] at hdec
    cases ha : TheaToEerie.alloc (env.as_THEA_HEADER b) with
    | none => simp only [ha] at hdec; cases hdec
    | some e0 =>
      simp only [ha] at hdec
      cases hk : TheaToEerie.keyframeLoop env adr (env.as_THEA_HEADER b)
          (env.as_THEA_HEADER b).nb_key_frames.toNat 0 e0 env.sizeof_THEA_HEADER with
      | none => simp only [hk] at hdec; cases hdec
      | some x =>
        obtain ⟨e1, p1⟩ := x
        simp only [hk, Option.some.injEq] at hdec
        obtain ⟨recs, hr, hlen, hg, he1⟩ := keyframeLoop_inv env adr _ _ _ _ _ e1 p1 hk
        exact ⟨e0, recs, rfl, hr, hlen, hg, by rw [← hdec, he1]⟩

theorem sameRecord_refl (a : EERIE_FRAME) : a.sameRecord a :=
  ⟨rfl, rfl, rfl, rfl, rfl, rfl, rfl⟩

theorem sameRecord_trans {a b c : EERIE_FRAME} (h1 : a.sameRecord b) (h2 : b.sameRecord c) :
    a.sameRecord c := by
  obtain ⟨a1, a2, a3, a4, a5, a6, a7⟩ := h1
  obtain ⟨b1, b2, b3, b4, b5, b6, b7⟩ := h2
  exact ⟨a1.trans b1, a2.trans b2, a3.trans b3, a4.trans b4, a5.trans b5, a6.trans b6,
    a7.trans b7⟩

theorem scanBack_congr (l l' : List EERIE_FRAME) (flag : EERIE_FRAME → Int)
    (h : ∀ k, flag (l.getD k default) = flag (l'.getD k default)) :
    ∀ k, TheaToEerie.scanBack l flag k = TheaToEerie.scanBack l' flag k := by
  intro k
  induction k with
  | zero => simp only [TheaToEerie.scanBack, h]
  | succ k ih => simp only [TheaToEerie.scanBack, h, ih]

theorem scanFwd_congr (l l' : List EERIE_FRAME) (flag : EERIE_FRAME → Int)
    (h : ∀ k, flag (l.getD k default) = flag (l'.getD k default)) :
    ∀ n j, TheaToEerie.scanFwd l flag n j = TheaToEerie.scanFwd l' flag n j := by
  intro n
  induction n with
  | zero => intro j; rfl
  | succ n ih => intro j; simp only [TheaToEerie.scanFwd, h, ih]

theorem scanBack_none (l : List EERIE_FRAME) (flag : EERIE_FRAME → Int) :
    ∀ k, (∀ k', k' ≤ k → flag (l.getD k' default) = 0) → TheaToEerie.scanBack l flag k = -1 := by
  intro k
  induction k with
  | zero =>
    intro h
    simp only [TheaToEerie.scanBack, h 0 (le_refl 0), if_true]
  | succ k ih =>
    intro h
    simp only [TheaToEerie.scanBack, h (k + 1) (le_refl _), if_true]
    exact ih (fun k' hk' => h k' (by omega))

theorem scanFwd_none (l : List EERIE_FRAME) (flag : EERIE_FRAME → Int) :
    ∀ n j, (∀ j', j ≤ j' → j' < j + n → flag (l.getD j' default) = 0) →
      TheaToEerie.scanFwd l flag n j = j + n := by
  intro n
  induction n with
  | zero => intro j _; rfl
  | succ n ih =>
    intro j h
    simp only [TheaToEerie.scanFwd, h j (le_refl j) (by omega), if_true]
    rw [ih (j + 1) (fun j' h1 h2 => h j' (by omega) (by omega))]
    omega

theorem fillTranslate_rest (th : THEA_HEADER) (i : Nat) (e : EERIE_ANIM) :
    (TheaToEerie.fillTranslate th i e).nb_key_frames = e.nb_key_frames ∧
      (TheaToEerie.fillTranslate th i e).nb_groups = e.nb_groups ∧
      (TheaToEerie.fillTranslate th i e).groups = e.groups ∧
      (TheaToEerie.fillTranslate th i e).voidgroups = e.voidgroups := by
  unfold TheaToEerie.fillTranslate
  dsimp only
  split_ifs <;> exact ⟨rfl, rfl, rfl, rfl⟩

theorem fillRotate_rest (th : THEA_HEADER) (i : Nat) (e : EERIE_ANIM) :
    (TheaToEerie.fillRotate th i e).nb_key_frames = e.nb_key_frames ∧
      (TheaToEerie.fillRotate th i e).nb_groups = e.nb_groups ∧
      (TheaToEerie.fillRotate th i e).groups = e.groups ∧
      (TheaToEerie.fillRotate th i e).voidgroups = e.voidgroups := by
  unfold TheaToEerie.fillRotate
  dsimp only
  split_ifs <;> exact ⟨rfl, rfl, rfl, rfl⟩

theorem fillTranslate_frames (th : THEA_HEADER) (i : Nat) (e : EERIE_ANIM) :
    (TheaToEerie.fillTranslate th i e).frames = e.frames ∨
      ((e.frames.getD i default).f_translate = 0 ∧ TheaToEerie.fillsTranslate th i e ∧
        ∃ v, (TheaToEerie.fillTranslate th i e).frames =
          e.frames.set i { e.frames.getD i default with translate := v }) := by
  unfold TheaToEerie.fillTranslate TheaToEerie.fillsTranslate
  dsimp only
  split_ifs with h1 h2
  · exact Or.inr ⟨h1, h2, _, rfl⟩
  · exact Or.inl rfl
  · exact Or.inl rfl

theorem fillRotate_frames (th : THEA_HEADER) (i : Nat) (e : EERIE_ANIM) :
    (TheaToEerie.fillRotate th i e).frames = e.frames ∨
      ((e.frames.getD i default).f_rotate = 0 ∧ TheaToEerie.fillsRotate th i e ∧
        ∃ q, (TheaToEerie.fillRotate th i e).frames =
          e.frames.set i { e.frames.getD i default with quat := q }) := by
  unfold TheaToEerie.fillRotate TheaToEerie.fillsRotate
  dsimp only
  split_ifs with h1 h2
  · exact Or.inr ⟨h1, h2, _, rfl⟩
  · exact Or.inl rfl
  · exact Or.inl rfl

theorem fillTranslate_getD (th : THEA_HEADER) (i : Nat) (e : EERIE_ANIM) (x : Nat) :
    ((TheaToEerie.fillTranslate th i e).frames.getD x default).sameRecord
        (e.frames.getD x default) ∧
      ((TheaToEerie.fillTranslate th i e).frames.getD x default).quat
        = (e.frames.getD x default).quat ∧
      (x ≠ i → (TheaToEerie.fillTranslate th i e).frames.getD x default
        = e.frames.getD x default) ∧
      ((e.frames.getD x default).f_translate ≠ 0 →
        (TheaToEerie.fillTranslate th i e).frames.getD x default = e.frames.getD x default) ∧
      (¬ TheaToEerie.fillsTranslate th i e →
        (TheaToEerie.fillTranslate th i e).frames.getD x default = e.frames.getD x default) := by
  rcases fillTranslate_frames th i e with h | ⟨h0, hc, v, h⟩
  · rw [h]
    exact ⟨sameRecord_refl _, rfl, fun _ => rfl, fun _ => rfl, fun _ => rfl⟩
  · rw [h, getD_set]
    by_cases hx : i = x ∧ i < e.frames.length
    · rw [if_pos hx]
      obtain ⟨rfl, -⟩ := hx
      exact ⟨⟨rfl, rfl, rfl, rfl, rfl, rfl, rfl⟩, rfl, fun hh => absurd rfl hh,
        fun hh => absurd h0 hh, fun hh => absurd hc hh⟩
    · rw [if_neg hx]
      exact ⟨sameRecord_refl _, rfl, fun _ => rfl, fun _ => rfl, fun _ => rfl⟩

theorem fillRotate_getD (th : THEA_HEADER) (i : Nat) (e : EERIE_ANIM) (x : Nat) :
    ((TheaToEerie.fillRotate th i e).frames.getD x default).sameRecord
        (e.frames.getD x default) ∧
      ((TheaToEerie.fillRotate th i e).frames.getD x default).translate
        = (e.frames.getD x default).translate ∧
      (x ≠ i → (TheaToEerie.fillRotate th i e).frames.getD x default
        = e.frames.getD x default) ∧
      ((e.frames.getD x default).f_rotate ≠ 0 →
        (TheaToEerie.fillRotate th i e).frames.getD x default = e.frames.getD x default) ∧
      (¬ TheaToEerie.fillsRotate th i e →
        (TheaToEerie.fillRotate th i e).frames.getD x default = e.frames.getD x default) := by
  rcases fillRotate_frames th i e with h | ⟨h0, hc, q, h⟩
  · rw [h]
    exact ⟨sameRecord_refl _, rfl, fun _ => rfl, fun _ => rfl, fun _ => rfl⟩
  · rw [h, getD_set]
    by_cases hx : i = x ∧ i < e.frames.length
    · rw [if_pos hx]
      obtain ⟨rfl, -⟩ := hx
      exact ⟨⟨rfl, rfl, rfl, rfl, rfl, rfl, rfl⟩, rfl, fun hh => absurd rfl hh,
        fun hh => absurd h0 hh, fun hh => absurd hc hh⟩
    · rw [if_neg hx]
      exact ⟨sameRecord_refl _, rfl, fun _ => rfl, fun _ => rfl, fun _ => rfl⟩

theorem fillsRotate_congr (th : THEA_HEADER) (i : Nat) (e e' : EERIE_ANIM)
    (h : ∀ k, (e'.frames.getD k default).f_rotate = (e.frames.getD k default).f_rotate) :
    TheaToEerie.fillsRotate th i e' ↔ TheaToEerie.fillsRotate th i e := by
  unfold TheaToEerie.fillsRotate
  rw [scanFwd_congr e'.frames e.frames (fun f => f.f_rotate) h,
    scanBack_congr e'.frames e.frames (fun f => f.f_rotate) h]

theorem fillsTranslate_congr (th : THEA_HEADER) (i : Nat) (e e' : EERIE_ANIM)
    (h : ∀ k, (e'.frames.getD k default).f_translate = (e.frames.getD k default).f_translate) :
    TheaToEerie.fillsTranslate th i e' ↔ TheaToEerie.fillsTranslate th i e := by
  unfold TheaToEerie.fillsTranslate
  rw [scanFwd_congr e'.frames e.frames (fun f => f.f_translate) h,
    scanBack_congr e'.frames e.frames (fun f => f.f_translate) h]

theorem fillStep_getD (th : THEA_HEADER) (i : Nat) (e : EERIE_ANIM) (x : Nat) :
    ((TheaToEerie.fillRotate th i (TheaToEerie.fillTranslate th i e)).frames.getD x
        default).sameRecord (e.frames.getD x default) ∧
      (x ≠ i → (TheaToEerie.fillRotate th i (TheaToEerie.fillTranslate th i e)).frames.getD x
        default = e.frames.getD x default) ∧
      ((e.frames.getD x default).f_translate ≠ 0 →
        ((TheaToEerie.fillRotate th i (TheaToEerie.fillTranslate th i e)).frames.getD x
          default).translate = (e.frames.getD x default).translate) ∧
      ((e.frames.getD x default).f_rotate ≠ 0 →
        ((TheaToEerie.fillRotate th i (TheaToEerie.fillTranslate th i e)).frames.getD x
          default).quat = (e.frames.getD x default).quat) ∧
      (¬ TheaToEerie.fillsTranslate th i e →
        ((TheaToEerie.fillRotate th i (TheaToEerie.fillTranslate th i e)).frames.getD x
          default).translate = (e.frames.getD x default).translate) ∧
      (¬ TheaToEerie.fillsRotate th i e →
        ((TheaToEerie.fillRotate th i (TheaToEerie.fillTranslate th i e)).frames.getD x
          default).quat = (e.frames.getD x default).quat) := by
  obtain ⟨t1, t2, t3, t4, t5⟩ := fillTranslate_getD th i e x
  obtain ⟨r1, r2, r3, r4, r5⟩ := fillRotate_getD th i (TheaToEerie.fillTranslate th i e) x
  refine ⟨sameRecord_trans r1 t1, ?_, ?_, ?_, ?_, ?_⟩
  · intro hx
    rw [r3 hx, t3 hx]
  · intro h
    rw [r2, t4 h]
  · intro h
    have hm : ((TheaToEerie.fillTranslate th i e).frames.getD x default).f_rotate ≠ 0 := by
      rw [t1.2.2.2.2.1]
      exact h
    rw [r4 hm, t2]
  · intro h
    rw [r2, t5 h]
  · intro h
    have hc : ¬ TheaToEerie.fillsRotate th i (TheaToEerie.fillTranslate th i e) := by
      rw [fillsRotate_congr th i e (TheaToEerie.fillTranslate th i e)
        (fun k => (fillTranslate_getD th i e k).1.2.2.2.2.1)]
      exact h
    rw [r5 hc, t2]

theorem fillLoop_rest (th : THEA_HEADER) :
    ∀ n i (e : EERIE_ANIM),
      (TheaToEerie.fillLoop th n i e).groups = e.groups ∧
        (TheaToEerie.fillLoop th n i e).voidgroups = e.voidgroups := by
  intro n
  induction n with
  | zero => intro i e; exact ⟨rfl, rfl⟩
  | succ n ih =>
    intro i e
    simp only [TheaToEerie.fillLoop]
    obtain ⟨h1, h2⟩ := ih (i + 1) (TheaToEerie.fillRotate th i (TheaToEerie.fillTranslate th i e))
    obtain ⟨-, -, r3, r4⟩ := fillRotate_rest th i (TheaToEerie.fillTranslate th i e)
    obtain ⟨-, -, t3, t4⟩ := fillTranslate_rest th i e
    exact ⟨h1.trans (r3.trans t3), h2.trans (r4.trans t4)⟩

theorem fillLoop_frames_length (th : THEA_HEADER) :
    ∀ n i (e : EERIE_ANIM), (TheaToEerie.fillLoop th n i e).frames.length = e.frames.length := by
  intro n
  induction n with
  | zero => intro i e; rfl
  | succ n ih =>
    intro i e
    simp only [TheaToEerie.fillLoop]
    rw [ih]
    have hr : (TheaToEerie.fillRotate th i (TheaToEerie.fillTranslate th i e)).frames.length
        = (TheaToEerie.fillTranslate th i e).frames.length := by
      rcases fillRotate_frames th i (TheaToEerie.fillTranslate th i e) with h | ⟨-, -, q, h⟩
      · rw [h]
      · rw [h, List.length_set]
    have ht : (TheaToEerie.fillTranslate th i e).frames.length = e.frames.length := by
      rcases fillTranslate_frames th i e with h | ⟨-, -, q, h⟩
      · rw [h]
      · rw [h, List.length_set]
    rw [hr, ht]

theorem not_fillsTranslate_of_none (th : THEA_HEADER) (i : Nat) (e : EERIE_ANIM)
    (h : (∀ k, k ≤ i → (e.frames.getD k default).f_translate = 0) ∨
      (∀ j, i ≤ j → j < th.nb_key_frames.toNat → (e.frames.getD j default).f_translate = 0)) :
    ¬ TheaToEerie.fillsTranslate th i e := by
  unfold TheaToEerie.fillsTranslate
  rcases h with h | h
  · rw [scanBack_none e.frames (fun f => f.f_translate) i h]
    intro hh
    omega
  · rw [scanFwd_none e.frames (fun f => f.f_translate) (th.nb_key_frames.toNat - i) i
      (fun j h1 h2 => h j h1 (by omega))]
    intro hh
    omega

theorem not_fillsRotate_of_none (th : THEA_HEADER) (i : Nat) (e : EERIE_ANIM)
    (h : (∀ k, k ≤ i → (e.frames.getD k default).f_rotate = 0) ∨
      (∀ j, i ≤ j → j < th.nb_key_frames.toNat → (e.frames.getD j default).f_rotate = 0)) :
    ¬ TheaToEerie.fillsRotate th i e := by
  unfold TheaToEerie.fillsRotate
  rcases h with h | h
  · rw [scanBack_none e.frames (fun f => f.f_rotate) i h]
    intro hh
    omega
  · rw [scanFwd_none e.frames (fun f => f.f_rotate) (th.nb_key_frames.toNat - i) i
      (fun j h1 h2 => h j h1 (by omega))]
    intro hh
    omega

/-- What the gap-fill loop does to the frame at index `x`: every field other than
the translation and the rotation stays, a frame outside the range of the loop
stays, an authored translation or rotation stays, and so does the translation or
rotation of a frame with no authored value on one of its sides. -/
theorem fillLoop_getD (th : THEA_HEADER) :
    ∀ n i (e : EERIE_ANIM) (x : Nat),
      ((TheaToEerie.fillLoop th n i e).frames.getD x default).sameRecord
          (e.frames.getD x default) ∧
      ((x < i ∨ i + n ≤ x) →
        (TheaToEerie.fillLoop th n i e).frames.getD x default = e.frames.getD x default) ∧
      ((e.frames.getD x default).f_translate ≠ 0 →
        ((TheaToEerie.fillLoop th n i e).frames.getD x default).translate
          = (e.frames.getD x default).translate) ∧
      ((e.frames.getD x default).f_rotate ≠ 0 →
        ((TheaToEerie.fillLoop th n i e).frames.getD x default).quat
          = (e.frames.getD x default).quat) ∧
      (((∀ k, k ≤ x → (e.frames.getD k default).f_translate = 0) ∨
          (∀ j, x ≤ j → j < th.nb_key_frames.toNat →
            (e.frames.getD j default).f_translate = 0)) →
        ((TheaToEerie.fillLoop th n i e).frames.getD x default).translate
          = (e.frames.getD x default).translate) ∧
      (((∀ k, k ≤ x → (e.frames.getD k default).f_rotate = 0) ∨
          (∀ j, x ≤ j → j < th.nb_key_frames.toNat →
            (e.frames.getD j default).f_rotate = 0)) →
        ((TheaToEerie.fillLoop th n i e).frames.getD x default).quat
          = (e.frames.getD x default).quat) := by
  intro n
  induction n with
  | zero =>
    intro i e x
    exact ⟨sameRecord_refl _, fun _ => rfl, fun _ => rfl, fun _ => rfl, fun _ => rfl,
      fun _ => rfl⟩
  | succ n ih =>
    intro i e x
    simp only [TheaToEerie.fillLoop]
    obtain ⟨a1, a2, a3, a4, a5, a6⟩ :=
      ih (i + 1) (TheaToEerie.fillRotate th i (TheaToEerie.fillTranslate th i e)) x
    obtain ⟨s1, s2, s3, s4, s5, s6⟩ := fillStep_getD th i e x
    have hT : ∀ k, ((TheaToEerie.fillRotate th i (TheaToEerie.fillTranslate th i e)).frames.getD k
        default).f_translate = (e.frames.getD k default).f_translate :=
      fun k => (fillStep_getD th i e k).1.2.2.2.1
    have hR : ∀ k, ((TheaToEerie.fillRotate th i (TheaToEerie.fillTranslate th i e)).frames.getD k
        default).f_rotate = (e.frames.getD k default).f_rotate :=
      fun k => (fillStep_getD th i e k).1.2.2.2.2.1
    refine ⟨sameRecord_trans a1 s1, ?_, ?_, ?_, ?_, ?_⟩
    · intro hx
      rw [a2 (by omega), s2 (by omega)]
    · intro h
      rw [a3 (by rw [hT]; exact h), s3 h]
    · intro h
      rw [a4 (by rw [hR]; exact h), s4 h]
    · intro h
      have h' : (∀ k, k ≤ x → ((TheaToEerie.fillRotate th i
            (TheaToEerie.fillTranslate th i e)).frames.getD k default).f_translate = 0) ∨
          (∀ j, x ≤ j → j < th.nb_key_frames.toNat → ((TheaToEerie.fillRotate th i
            (TheaToEerie.fillTranslate th i e)).frames.getD j default).f_translate = 0) := by
        rcases h with h | h
        · exact Or.inl (fun k hk => by rw [hT]; exact h k hk)
        · exact Or.inr (fun j h1 h2 => by rw [hT]; exact h j h1 h2)
      rw [a5 h']
      by_cases hx : x = i
      · subst hx
        exact s5 (not_fillsTranslate_of_none th x e h)
      · rw [s2 hx]
    · intro h
      have h' : (∀ k, k ≤ x → ((TheaToEerie.fillRotate th i
            (TheaToEerie.fillTranslate th i e)).frames.getD k default).f_rotate = 0) ∨
          (∀ j, x ≤ j → j < th.nb_key_frames.toNat → ((TheaToEerie.fillRotate th i
            (TheaToEerie.fillTranslate th i e)).frames.getD j default).f_rotate = 0) := by
        rcases h with h | h
        · exact Or.inl (fun k hk => by rw [hR]; exact h k hk)
        · exact Or.inr (fun j h1 h2 => by rw [hR]; exact h j h1 h2)
      rw [a6 h']
      by_cases hx : x = i
      · subst hx
        exact s6 (not_fillsRotate_of_none th x e h)
      · rw [s2 hx]

theorem groupOf_isVoid (tga : THEO_GROUPANIM) :
    (TheaToEerie.groupOf tga).isVoid ↔ tga.isVoid := by
  unfold EERIE_GROUP.isVoid THEO_GROUPANIM.isVoid TheaToEerie.groupOf
  dsimp only
  have hq : (tga.Quaternion.x = 0 ∧ tga.Quaternion.y = 0 ∧ tga.Quaternion.z = 0 ∧
      tga.Quaternion.w = 1) ↔ tga.Quaternion = { w := 1, x := 0, y := 0, z := 0 } := by
    cases tga.Quaternion with
    | mk w x y z =>
      simp only [ArxQuat.mk.injEq]
      constructor
      · rintro ⟨h1, h2, h3, h4⟩
        exact ⟨h4, h1, h2, h3⟩
      · rintro ⟨h4, h1, h2, h3⟩
        exact ⟨h1, h2, h3, h4⟩
  rw [← hq]
  constructor
  · rintro ⟨h1, h2, h3, h4, h5, h6⟩
    exact ⟨⟨h1, h2, h3, h4⟩, h5, h6⟩
  · rintro ⟨⟨h1, h2, h3, h4⟩, h5, h6⟩
    exact ⟨h1, h2, h3, h4, h5, h6⟩

theorem voidScan_iff (e : EERIE_ANIM) (i : Nat) :
    ∀ n j, TheaToEerie.voidScan e i n j = true ↔
      ∀ f, j ≤ f → f < j + n → (e.groups.getD (i + f * e.nb_groups.toNat) default).isVoid := by
  intro n
  induction n with
  | zero =>
    intro j
    simp only [TheaToEerie.voidScan, true_iff]
    intro f h1 h2
    omega
  | succ n ih =>
    intro j
    unfold TheaToEerie.voidScan
    dsimp only
    by_cases hc : (e.groups.getD (i + j * e.nb_groups.toNat) default).isVoid
    · have hn : ¬ ((e.groups.getD (i + j * e.nb_groups.toNat) default).quat.x ≠ 0 ∨
          (e.groups.getD (i + j * e.nb_groups.toNat) default).quat.y ≠ 0 ∨
          (e.groups.getD (i + j * e.nb_groups.toNat) default).quat.z ≠ 0 ∨
          (e.groups.getD (i + j * e.nb_groups.toNat) default).quat.w ≠ 1 ∨
          (e.groups.getD (i + j * e.nb_groups.toNat) default).translate ≠ Vec3f.ZERO ∨
          (e.groups.getD (i + j * e.nb_groups.toNat) default).zoom ≠ Vec3f.ZERO) := by
        obtain ⟨h1, h2, h3, h4, h5, h6⟩ := hc
        rintro (h | h | h | h | h | h)
        · exact h h1
        · exact h h2
        · exact h h3
        · exact h h4
        · exact h h5
        · exact h h6
      rw [if_neg hn, ih (j + 1)]
      constructor
      · intro h f h1 h2
        by_cases hf : f = j
        · subst hf
          exact hc
        · exact h f (by omega) (by omega)
      · intro h f h1 h2
        exact h f (by omega) (by omega)
    · have hp : ((e.groups.getD (i + j * e.nb_groups.toNat) default).quat.x ≠ 0 ∨
          (e.groups.getD (i + j * e.nb_groups.toNat) default).quat.y ≠ 0 ∨
          (e.groups.getD (i + j * e.nb_groups.toNat) default).quat.z ≠ 0 ∨
          (e.groups.getD (i + j * e.nb_groups.toNat) default).quat.w ≠ 1 ∨
          (e.groups.getD (i + j * e.nb_groups.toNat) default).translate ≠ Vec3f.ZERO ∨
          (e.groups.getD (i + j * e.nb_groups.toNat) default).zoom ≠ Vec3f.ZERO) := by
        by_contra hh
        simp only [not_or, not_not] at hh
        exact hc hh
      rw [if_pos hp]
      constructor
      · intro h
        cases h
      · intro h
        exact absurd (h j (le_refl j) (by omega)) hc

theorem voidScan_congr (e e' : EERIE_ANIM) (hg : e'.groups = e.groups)
    (hn : e'.nb_groups = e.nb_groups) (i n j : Nat) :
    TheaToEerie.voidScan e' i n j = TheaToEerie.voidScan e i n j := by
  have h := voidScan_iff e i n j
  have h' := voidScan_iff e' i n j
  rw [hg, hn] at h'
  cases h1 : TheaToEerie.voidScan e' i n j with
  | true => exact (h.2 (h'.1 h1)).symm
  | false =>
    cases h2 : TheaToEerie.voidScan e i n j with
    | false => rfl
    | true =>
      rw [h'.2 (h.1 h2)] at h1
      cases h1

theorem voidLoop_rest :
    ∀ n i (e : EERIE_ANIM),
      (TheaToEerie.voidLoop n i e).frames = e.frames ∧
        (TheaToEerie.voidLoop n i e).groups = e.groups ∧
        (TheaToEerie.voidLoop n i e).voidgroups.length = e.voidgroups.length ∧
        (TheaToEerie.voidLoop n i e).anim_time = e.anim_time := by
  intro n
  induction n with
  | zero => intro i e; exact ⟨rfl, rfl, rfl, rfl⟩
  | succ n ih =>
    intro i e
    simp only [TheaToEerie.voidLoop]
    by_cases hs : TheaToEerie.voidScan e i e.nb_key_frames.toNat 0 = true
    · simp only [hs, if_true]
      obtain ⟨h1, h2, h3, h4⟩ := ih (i + 1) { e with voidgroups := e.voidgroups.set i 1 }
      exact ⟨h1, h2, by rw [h3, List.length_set], h4⟩
    · simp only [hs]
      exact ih (i + 1) e

/-- The marker of group `g` after the void-group pass over the groups `i`, ...,
`i + n - 1`: set when it was set before, or when the pass visited the group and no
key frame moves it. -/
theorem voidLoop_getD :
    ∀ n i (e : EERIE_ANIM) (g : Nat),
      (TheaToEerie.voidLoop n i e).voidgroups.getD g 0 = 1 ↔
        (e.voidgroups.getD g 0 = 1 ∨
          (i ≤ g ∧ g < i + n ∧ g < e.voidgroups.length ∧
            TheaToEerie.voidScan e g e.nb_key_frames.toNat 0 = true)) := by
  intro n
  induction n with
  | zero =>
    intro i e g
    simp only [TheaToEerie.voidLoop]
    constructor
    · intro h
      exact Or.inl h
    · rintro (h | ⟨h1, h2, -, -⟩)
      · exact h
      · omega
  | succ n ih =>
    intro i e g
    simp only [TheaToEerie.voidLoop]
    by_cases hs : TheaToEerie.voidScan e i e.nb_key_frames.toNat 0 = true
    · simp only [hs, if_true]
      rw [ih (i + 1) { e with voidgroups := e.voidgroups.set i 1 } g]
      rw [voidScan_congr e { e with voidgroups := e.voidgroups.set i 1 } rfl rfl]
      simp only [List.length_set]
      rw [getD_set]
      constructor
      · rintro (h | ⟨h1, h2, h3, h4⟩)
        · by_cases hx : i = g ∧ i < e.voidgroups.length
          · obtain ⟨rfl, hl⟩ := hx
            exact Or.inr ⟨le_refl _, by omega, hl, hs⟩
          · rw [if_neg hx] at h
            exact Or.inl h
        · exact Or.inr ⟨by omega, by omega, h3, h4⟩
      · rintro (h | ⟨h1, h2, h3, h4⟩)
        · by_cases hx : i = g ∧ i < e.voidgroups.length
          · rw [if_pos hx]
            exact Or.inl rfl
          · rw [if_neg hx]
            exact Or.inl h
        · by_cases hx : i = g
          · subst hx
            rw [if_pos ⟨rfl, h3⟩]
            exact Or.inl rfl
          · exact Or.inr ⟨by omega, by omega, h3, h4⟩
    · rw [if_neg hs, ih (i + 1) e g]
      constructor
      · rintro (h | ⟨h1, h2, h3, h4⟩)
        · exact Or.inl h
        · exact Or.inr ⟨by omega, by omega, h3, h4⟩
      · rintro (h | ⟨h1, h2, h3, h4⟩)
        · exact Or.inl h
        · by_cases hx : i = g
          · subst hx
            exact absurd h4 hs
          · exact Or.inr ⟨by omega, by omega, h3, h4⟩

theorem post_anim_time (th : THEA_HEADER) (e : EERIE_ANIM) :
    (TheaToEerie.post th e).anim_time =
      if (th.nb_frames : ℚ) * 1000 * (1 / 24) < 1 then 1 else (th.nb_frames : ℚ) * 1000 * (1 / 24) :=
  rfl

theorem post_frames (th : THEA_HEADER) (e : EERIE_ANIM) :
    (TheaToEerie.post th e).frames =
      (TheaToEerie.fillLoop th th.nb_key_frames.toNat 0 e).frames.map
        fun f => { f with f_translate := 1, f_rotate := 1 } := by
  unfold TheaToEerie.post
  dsimp only
  rw [(voidLoop_rest _ _ _).1]

theorem post_frames_getD (th : THEA_HEADER) (e : EERIE_ANIM) (x : Nat) :
    ((TheaToEerie.post th e).frames.getD x default).translate =
        ((TheaToEerie.fillLoop th th.nb_key_frames.toNat 0 e).frames.getD x default).translate ∧
      ((TheaToEerie.post th e).frames.getD x default).quat =
        ((TheaToEerie.fillLoop th th.nb_key_frames.toNat 0 e).frames.getD x default).quat ∧
      ((TheaToEerie.post th e).frames.getD x default).time =
        ((TheaToEerie.fillLoop th th.nb_key_frames.toNat 0 e).frames.getD x default).time := by
  rw [post_frames]
  simp only [List.getD_eq_getElem?_getD, List.getElem?_map]
  cases (TheaToEerie.fillLoop th th.nb_key_frames.toNat 0 e).frames[x]? with
  | none => exact ⟨rfl, rfl, rfl⟩
  | some f => exact ⟨rfl, rfl, rfl⟩

theorem post_frames_length (th : THEA_HEADER) (e : EERIE_ANIM) :
    (TheaToEerie.post th e).frames.length = e.frames.length := by
  rw [post_frames, List.length_map, fillLoop_frames_length]

theorem post_voidgroups (th : THEA_HEADER) (e : EERIE_ANIM) (g : Nat) :
    (TheaToEerie.post th e).voidgroups.getD g 0 = 1 ↔
      (e.voidgroups.getD g 0 = 1 ∨
        (g < e.nb_groups.toNat ∧ g < e.voidgroups.length ∧
          ∀ f, f < e.nb_key_frames.toNat →
            (e.groups.getD (g + f * e.nb_groups.toNat) default).isVoid)) := by
  unfold TheaToEerie.post
  dsimp only
  rw [voidLoop_getD]
  simp only [(fillLoop_rest th _ _ e).2, (fillLoop_counts th _ _ e).2]
  rw [voidScan_iff]
  simp only [(fillLoop_rest th _ _ e).1, (fillLoop_counts th _ _ e).1,
    (fillLoop_counts th _ _ e).2]
  constructor
  · rintro (h | ⟨-, h2, h3, h4⟩)
    · exact Or.inl h
    · exact Or.inr ⟨by omega, h3, fun f hf => h4 f (by omega) (by omega)⟩
  · rintro (h | ⟨h2, h3, h4⟩)
    · exact Or.inl h
    · exact Or.inr ⟨by omega, by omega, h3, fun f _ hf => h4 f (by omega)⟩

theorem read_flags (env : Env) (adr : List Nat) (th : THEA_HEADER) (pos : Nat)
    (r : KeyframeRead) (pos' : Nat) (h : TheaToEerie.read env adr th pos = some (r, pos')) :
    (r.move = none ↔ r.tkf2015.key_move = 0) ∧ (r.quat = none ↔ r.tkf2015.key_orient = 0) := by
  unfold TheaToEerie.read at h
  cases h1 : TheaToEerie.readKeyframe env adr th pos with
  | none => simp only [h1] at h; cases h
  | some x1 =>
    obtain ⟨tkf, p1⟩ := x1
    simp only [h1] at h
    split at h
    · cases h
    · rename_i move p2 hm
      have hmove : move = none ↔ tkf.key_move = 0 := by
        by_cases hc : tkf.key_move ≠ 0
        · simp only [if_pos hc, Option.map_eq_some', Prod.mk.injEq] at hm
          obtain ⟨b, -, hb, -⟩ := hm
          rw [← hb]
          exact ⟨fun hh => (by cases hh), fun hh => absurd hh hc⟩
        · simp only [if_neg hc, Option.some.injEq, Prod.mk.injEq] at hm
          rw [← hm.1]
          exact ⟨fun _ => not_not.1 hc, fun _ => rfl⟩
      split at h
      · cases h
      · rename_i quat p3 hq
        have hquat : quat = none ↔ tkf.key_orient = 0 := by
          by_cases hc : tkf.key_orient ≠ 0
          · simp only [if_pos hc, Option.map_eq_some', Prod.mk.injEq] at hq
            obtain ⟨b, -, hb, -⟩ := hq
            rw [← hb]
            exact ⟨fun hh => (by cases hh), fun hh => absurd hh hc⟩
          · simp only [if_neg hc, Option.some.injEq, Prod.mk.injEq] at hq
            rw [← hq.1]
            exact ⟨fun _ => not_not.1 hc, fun _ => rfl⟩
        split at h
        · cases h
        · split at h
          · cases h
          · split at h
            · cases h
            · simp only [Option.some.injEq, Prod.mk.injEq] at h
              rw [← h.1]
              exact ⟨hmove, hquat⟩

theorem readAll_flags (env : Env) (adr : List Nat) (th : THEA_HEADER) :
    ∀ n pos (recs : List KeyframeRead), TheaToEerie.readAll env adr th n pos = some recs →
      ∀ r, r ∈ recs →
        (r.move = none ↔ r.tkf2015.key_move = 0) ∧ (r.quat = none ↔ r.tkf2015.key_orient = 0) := by
  intro n
  induction n with
  | zero =>
    intro pos recs h r hr
    simp only [TheaToEerie.readAll, Option.some.injEq] at h
    subst h
    simp at hr
  | succ n ih =>
    intro pos recs h r hr
    unfold TheaToEerie.readAll at h
    cases h1 : TheaToEerie.read env adr th pos with
    | none => simp only [h1] at h; cases h
    | some x =>
      obtain ⟨r0, p⟩ := x
      simp only [h1] at h
      cases h2 : TheaToEerie.readAll env adr th n p with
      | none => simp only [h2] at h; cases h
      | some rest =>
        simp only [h2, Option.some.injEq] at h
        subst h
        rcases List.mem_cons.1 hr with hh | hh
        · subst hh
          exact read_flags env adr th pos r p h1
        · exact ih p rest h2 r hh

theorem getD_replicate {α : Type} (n i : Nat) (d : α) : (List.replicate n d).getD i d = d := by
  simp only [List.getD_eq_getElem?_getD, List.getElem?_replicate]
  split_ifs <;> rfl

theorem getElem?_of_getD {α : Type} (l : List α) (i : Nat) (d : α) (h : i < l.length) :
    l[i]? = some (l.getD i d) := by
  rw [List.getD_eq_getElem?_getD, List.getElem?_eq_getElem h]
  rfl

/-- The decoded track in terms of the reads of the key frames of the buffer. -/
theorem TheaToEerie_decoded_reads (env : Env) (adr : List Nat) (th : THEA_HEADER)
    (e : EERIE_ANIM) (recs : List KeyframeRead)
    (hth : theaHeader env adr = some th) (hdec : TheaToEerie env adr = some (some e))
    (hrecs : keyframeReads env adr th = some recs) :
    ∃ e0, TheaToEerie.alloc th = some e0 ∧
      recs.length = th.nb_key_frames.toNat ∧
      (∀ r, r ∈ recs → r.groups.length = th.nb_groups.toNat) ∧
      (∀ r, r ∈ recs →
        (r.move = none ↔ r.tkf2015.key_move = 0) ∧ (r.quat = none ↔ r.tkf2015.key_orient = 0)) ∧
      e = TheaToEerie.post th (TheaToEerie.storeAll env th 0 recs e0) := by
  obtain ⟨e0, recs', h0, hr, hlen, hg, he⟩ := TheaToEerie_decoded env adr th e hth hdec
  rw [hrecs] at hr
  cases hr
  exact ⟨e0, h0, hlen, hg, readAll_flags env adr th _ _ recs hrecs, he⟩

/-- The frame that the key frame loop leaves at index `i`. -/
theorem stored_frame (env : Env) (th : THEA_HEADER) (e0 : EERIE_ANIM)
    (recs : List KeyframeRead) (h0 : TheaToEerie.alloc th = some e0)
    (hlen : recs.length = th.nb_key_frames.toNat) (i : Nat) :
    (TheaToEerie.storeAll env th 0 recs e0).frames.length = recs.length ∧
      (∀ r, recs[i]? = some r →
        (TheaToEerie.storeAll env th 0 recs e0).frames.getD i default
          = TheaToEerie.frameOf env r default) ∧
      (recs.length ≤ i →
        (TheaToEerie.storeAll env th 0 recs e0).frames.getD i default = default) := by
  obtain ⟨hk, hg, rfl⟩ := alloc_inv th e0 h0
  refine ⟨?_, ?_, ?_⟩
  · rw [(storeAll_counts env th recs 0 _).2.2.2.1, List.length_replicate, hlen]
  · intro r hr
    have hi : i < recs.length := by
      rcases Nat.lt_or_ge i recs.length with h | h
      · exact h
      · rw [List.getElem?_eq_none h] at hr
        cases hr
    have h := storeAll_frames_at env th recs 0
      { nb_groups := th.nb_groups, nb_key_frames := th.nb_key_frames
        frames := List.replicate th.nb_key_frames.toNat default
        groups := List.replicate (th.nb_key_frames * th.nb_groups).toNat default
        voidgroups := List.replicate th.nb_groups.toNat default
        anim_time := 0 } i r hr (by
          simp only [List.length_replicate]
          omega)
    simp only [Nat.zero_add] at h
    rw [h, getD_replicate]
  · intro hi
    rw [storeAll_frames_other env th default recs 0 _ i (Or.inr (by omega))]
    exact getD_replicate _ _ _

/-- The group transform that the key frame loop leaves for group `g` of key frame `f`. -/
theorem stored_group (env : Env) (th : THEA_HEADER) (e0 : EERIE_ANIM)
    (recs : List KeyframeRead) (h0 : TheaToEerie.alloc th = some e0)
    (hlen : recs.length = th.nb_key_frames.toNat)
    (hgr : ∀ r, r ∈ recs → r.groups.length = th.nb_groups.toNat)
    (f g : Nat) (r : KeyframeRead) (tga : THEO_GROUPANIM)
    (hr : recs[f]? = some r) (ht : r.groups[g]? = some tga) :
    (TheaToEerie.storeAll env th 0 recs e0).groups.getD (g + f * th.nb_groups.toNat) default
      = TheaToEerie.groupOf tga := by
  obtain ⟨hk, hg, rfl⟩ := alloc_inv th e0 h0
  have hf : f < recs.length := by
    rcases Nat.lt_or_ge f recs.length with h | h
    · exact h
    · rw [List.getElem?_eq_none h] at hr
      cases hr
  have hg' : g < r.groups.length := by
    rcases Nat.lt_or_ge g r.groups.length with h | h
    · exact h
    · rw [List.getElem?_eq_none h] at ht
      cases ht
  have hrm : r ∈ recs := List.mem_iff_getElem?.2 ⟨f, hr⟩
  rw [hgr r hrm] at hg'
  have h := storeAll_groups_at env th recs 0
    { nb_groups := th.nb_groups, nb_key_frames := th.nb_key_frames
      frames := List.replicate th.nb_key_frames.toNat default
      groups := List.replicate (th.nb_key_frames * th.nb_groups).toNat default
      voidgroups := List.replicate th.nb_groups.toNat default
      anim_time := 0 } f g r tga hgr hr ht (by
        simp only [List.length_replicate]
        have h1 : (th.nb_key_frames * th.nb_groups).toNat
            = th.nb_key_frames.toNat * th.nb_groups.toNat := by
          apply Int.ofNat_inj.1
          rw [Int.toNat_of_nonneg (mul_nonneg hk hg)]
          push_cast
          rw [Int.toNat_of_nonneg hk, Int.toNat_of_nonneg hg]
        rw [h1, Nat.zero_add]
        calc g + f * th.nb_groups.toNat
            < th.nb_groups.toNat + f * th.nb_groups.toNat := by omega
          _ = (f + 1) * th.nb_groups.toNat := by ring
          _ ≤ th.nb_key_frames.toNat * th.nb_groups.toNat :=
            Nat.mul_le_mul_right _ (by omega))
  simp only [Nat.zero_add] at h
  exact h

set_option maxRecDepth 100000 in
theorem twoFrameClip_reads :
    keyframeReads (exampleEnv exampleFiles) twoFrameClip twoFrameHeader =
      some [{ tkf2015 := { num_frame := 0, flag_frame := 9, master_key_frame := 1, key_frame := 1
                           key_move := 1, key_orient := 1, key_morph := 0, time_frame := 0 }
              move := some { x := 1, y := 2, z := 3 }
              quat := some { w := 1, x := 0, y := 0, z := 0 }
              groups := [{ key_group := 0, Quaternion := { w := 1, x := 0, y := 0, z := 0 }
                           translate := { x := 0, y := 0, z := 0 }
                           zoom := { x := 0, y := 0, z := 0 } }]
              sample := none },
            { tkf2015 := { num_frame := 12, flag_frame := 0, master_key_frame := 0, key_frame := 1
                           key_move := 0, key_orient := 0, key_morph := 0, time_frame := 7 }
              move := none
              quat := none
              groups := [{ key_group := 0, Quaternion := { w := 1, x := 0, y := 0, z := 0 }
                           translate := { x := 0, y := 0, z := 0 }
                           zoom := { x := 0, y := 0, z := 0 } }]
              sample := some { sample_name := [65, 66, 67, 68], sample_size := 3 } }] := by
  decide

theorem twoFrameClip_decodes :
    ∃ e, TheaToEerie (exampleEnv exampleFiles) twoFrameClip = some (some e) := by
  have h := twoFrameClip_defined
  cases hr : TheaToEerie (exampleEnv exampleFiles) twoFrameClip with
  | none => rw [hr] at h; cases h
  | some r =>
    obtain ⟨e, he, -⟩ := (TheaToEerie_cases _ _ _ twoFrameClip_header).2 (by decide) r hr
    exact ⟨e, by rw [he]⟩

theorem decoded_anim_time (env : Env) (adr : List Nat) (th : THEA_HEADER) (e : EERIE_ANIM)
    (hth : theaHeader env adr = some th) (hdec : TheaToEerie env adr = some (some e)) :
    e.anim_time = max ((th.nb_frames : ℚ) * 1000 / 24) 1 := by
  obtain ⟨e0, recs, -, -, -, -, he⟩ := TheaToEerie_decoded env adr th e hth hdec
  rw [he, post_anim_time]
  have ha : (th.nb_frames : ℚ) * 1000 * (1 / 24) = (th.nb_frames : ℚ) * 1000 / 24 := by ring
  rw [ha]
  by_cases h : (th.nb_frames : ℚ) * 1000 / 24 < 1
  · rw [if_pos h, max_eq_right (le_of_lt h)]
  · rw [if_neg h, max_eq_left (not_lt.1 h)]

theorem decoded_frames_length (env : Env) (adr : List Nat) (th : THEA_HEADER)
    (e : EERIE_ANIM) (recs : List KeyframeRead)
    (hth : theaHeader env adr = some th) (hdec : TheaToEerie env adr = some (some e))
    (hrecs : keyframeReads env adr th = some recs) :
    e.frames.length = recs.length := by
  obtain ⟨e0, h0, hlen, -, -, he⟩ := TheaToEerie_decoded_reads env adr th e recs hth hdec hrecs
  rw [he, post_frames_length, (stored_frame env th e0 recs h0 hlen 0).1]

theorem decoded_frame_time (env : Env) (adr : List Nat) (th : THEA_HEADER)
    (e : EERIE_ANIM) (recs : List KeyframeRead)
    (hth : theaHeader env adr = some th) (hdec : TheaToEerie env adr = some (some e))
    (hrecs : keyframeReads env adr th = some recs) (i : Nat) (r : KeyframeRead)
    (hi : recs[i]? = some r) :
    (e.frames.getD i default).time
      = ((wrapS32 (r.tkf2015.num_frame * 1000) : Int) : ℚ) * (1 / 24) := by
  obtain ⟨e0, h0, hlen, -, -, he⟩ := TheaToEerie_decoded_reads env adr th e recs hth hdec hrecs
  rw [he, (post_frames_getD th _ i).2.2, (fillLoop_getD th _ 0 _ i).1.2.2.2.2.2.1,
    (stored_frame env th e0 recs h0 hlen i).2.1 r hi]
  rfl

theorem stored_flags (env : Env) (th : THEA_HEADER) (e0 : EERIE_ANIM)
    (recs : List KeyframeRead) (h0 : TheaToEerie.alloc th = some e0)
    (hlen : recs.length = th.nb_key_frames.toNat)
    (hfl : ∀ r, r ∈ recs →
      (r.move = none ↔ r.tkf2015.key_move = 0) ∧ (r.quat = none ↔ r.tkf2015.key_orient = 0))
    (k : Nat) (r : KeyframeRead) (hk : recs[k]? = some r) :
    (((TheaToEerie.storeAll env th 0 recs e0).frames.getD k default).f_translate = 0
        ↔ r.move = none) ∧
      (((TheaToEerie.storeAll env th 0 recs e0).frames.getD k default).f_rotate = 0
        ↔ r.quat = none) := by
  rw [(stored_frame env th e0 recs h0 hlen k).2.1 r hk]
  have h := hfl r (List.mem_iff_getElem?.2 ⟨k, hk⟩)
  exact ⟨h.1.symm, h.2.symm⟩

theorem decoded_frame_authored (env : Env) (adr : List Nat) (th : THEA_HEADER)
    (e : EERIE_ANIM) (recs : List KeyframeRead)
    (hth : theaHeader env adr = some th) (hdec : TheaToEerie env adr = some (some e))
    (hrecs : keyframeReads env adr th = some recs) (i : Nat) (r : KeyframeRead)
    (hi : recs[i]? = some r) :
    (∀ v, r.move = some v → (e.frames.getD i default).translate = v) ∧
      (∀ q, r.quat = some q → (e.frames.getD i default).quat = q) := by
  obtain ⟨e0, h0, hlen, -, hfl, he⟩ := TheaToEerie_decoded_reads env adr th e recs hth hdec hrecs
  have hf := stored_flags env th e0 recs h0 hlen hfl i r hi
  have hs := (stored_frame env th e0 recs h0 hlen i).2.1 r hi
  constructor
  · intro v hv
    have hne : ((TheaToEerie.storeAll env th 0 recs e0).frames.getD i default).f_translate ≠ 0 := by
      intro hh
      rw [hf.1.1 hh] at hv
      cases hv
    rw [he, (post_frames_getD th _ i).1, (fillLoop_getD th _ 0 _ i).2.2.1 hne, hs]
    simp only [TheaToEerie.frameOf, hv]
  · intro q hq
    have hne : ((TheaToEerie.storeAll env th 0 recs e0).frames.getD i default).f_rotate ≠ 0 := by
      intro hh
      rw [hf.2.1 hh] at hq
      cases hq
    rw [he, (post_frames_getD th _ i).2.1, (fillLoop_getD th _ 0 _ i).2.2.2.1 hne, hs]
    simp only [TheaToEerie.frameOf, hq]

theorem getElem?_some_of_lt {α : Type} (l : List α) (i : Nat) (h : i < l.length) :
    ∃ a, l[i]? = some a :=
  ⟨l[i], List.getElem?_eq_getElem h⟩

theorem lt_length_of_getElem? {α : Type} (l : List α) (i : Nat) (a : α) (h : l[i]? = some a) :
    i < l.length := by
  rcases Nat.lt_or_ge i l.length with hh | hh
  · exact hh
  · rw [List.getElem?_eq_none hh] at h
    cases h

theorem decoded_frame_default (env : Env) (adr : List Nat) (th : THEA_HEADER)
    (e : EERIE_ANIM) (recs : List KeyframeRead)
    (hth : theaHeader env adr = some th) (hdec : TheaToEerie env adr = some (some e))
    (hrecs : keyframeReads env adr th = some recs) (i : Nat) (r : KeyframeRead)
    (hi : recs[i]? = some r) :
    (r.move = none →
        ((∀ k r', k < i → recs[k]? = some r' → r'.move = none) ∨
          (∀ j r', i < j → recs[j]? = some r' → r'.move = none)) →
        (e.frames.getD i default).translate = Vec3f.ZERO) ∧
      (r.quat = none →
        ((∀ k r', k < i → recs[k]? = some r' → r'.quat = none) ∨
          (∀ j r', i < j → recs[j]? = some r' → r'.quat = none)) →
        (e.frames.getD i default).quat = { w := 0, x := 0, y := 0, z := 0 }) := by
  obtain ⟨e0, h0, hlen, -, hfl, he⟩ := TheaToEerie_decoded_reads env adr th e recs hth hdec hrecs
  have hs := (stored_frame env th e0 recs h0 hlen i).2.1 r hi
  have hil := lt_length_of_getElem? recs i r hi
  constructor
  · intro hm hside
    have hside' : (∀ k, k ≤ i →
          ((TheaToEerie.storeAll env th 0 recs e0).frames.getD k default).f_translate = 0) ∨
        (∀ j, i ≤ j → j < th.nb_key_frames.toNat →
          ((TheaToEerie.storeAll env th 0 recs e0).frames.getD j default).f_translate = 0) := by
      rcases hside with h | h
      · left
        intro k hk
        obtain ⟨r', hr'⟩ := getElem?_some_of_lt recs k (by omega)
        rw [(stored_flags env th e0 recs h0 hlen hfl k r' hr').1]
        by_cases hki : k = i
        · subst hki
          rw [hi] at hr'
          cases hr'
          exact hm
        · exact h k r' (by omega) hr'
      · right
        intro j hj hjN
        obtain ⟨r', hr'⟩ := getElem?_some_of_lt recs j (by omega)
        rw [(stored_flags env th e0 recs h0 hlen hfl j r' hr').1]
        by_cases hji : j = i
        · subst hji
          rw [hi] at hr'
          cases hr'
          exact hm
        · exact h j r' (by omega) hr'
    rw [he, (post_frames_getD th _ i).1, (fillLoop_getD th _ 0 _ i).2.2.2.2.1 hside', hs]
    simp only [TheaToEerie.frameOf, hm]
    rfl
  · intro hm hside
    have hside' : (∀ k, k ≤ i →
          ((TheaToEerie.storeAll env th 0 recs e0).frames.getD k default).f_rotate = 0) ∨
        (∀ j, i ≤ j → j < th.nb_key_frames.toNat →
          ((TheaToEerie.storeAll env th 0 recs e0).frames.getD j default).f_rotate = 0) := by
      rcases hside with h | h
      · left
        intro k hk
        obtain ⟨r', hr'⟩ := getElem?_some_of_lt recs k (by omega)
        rw [(stored_flags env th e0 recs h0 hlen hfl k r' hr').2]
        by_cases hki : k = i
        · subst hki
          rw [hi] at hr'
          cases hr'
          exact hm
        · exact h k r' (by omega) hr'
      · right
        intro j hj hjN
        obtain ⟨r', hr'⟩ := getElem?_some_of_lt recs j (by omega)
        rw [(stored_flags env th e0 recs h0 hlen hfl j r' hr').2]
        by_cases hji : j = i
        · subst hji
          rw [hi] at hr'
          cases hr'
          exact hm
        · exact h j r' (by omega) hr'
    rw [he, (post_frames_getD th _ i).2.1, (fillLoop_getD th _ 0 _ i).2.2.2.2.2 hside', hs]
    simp only [TheaToEerie.frameOf, hm]
    rfl

theorem decoded_voidgroup (env : Env) (adr : List Nat) (th : THEA_HEADER)
    (e : EERIE_ANIM) (recs : List KeyframeRead)
    (hth : theaHeader env adr = some th) (hdec : TheaToEerie env adr = some (some e))
    (hrecs : keyframeReads env adr th = some recs) (g : Nat) (hg : g < th.nb_groups.toNat) :
    e.voidgroups.getD g 0 = 1 ↔
      ∀ (f : Nat) (r : KeyframeRead) (tga : THEO_GROUPANIM),
        recs[f]? = some r → r.groups[g]? = some tga → tga.isVoid := by
  obtain ⟨e0, h0, hlen, hgr, -, he⟩ := TheaToEerie_decoded_reads env adr th e recs hth hdec hrecs
  have hc := storeAll_counts env th recs 0 e0
  obtain ⟨hk, hG, he0⟩ := alloc_inv th e0 h0
  have hv : (TheaToEerie.storeAll env th 0 recs e0).voidgroups
      = List.replicate th.nb_groups.toNat 0 := by
    rw [hc.2.2.1, he0]
    rfl
  have hnk : (TheaToEerie.storeAll env th 0 recs e0).nb_key_frames = th.nb_key_frames := by
    rw [hc.1, he0]
  have hng : (TheaToEerie.storeAll env th 0 recs e0).nb_groups = th.nb_groups := by
    rw [hc.2.1, he0]
  subst he
  rw [post_voidgroups, hv, hnk, hng, getD_replicate, List.length_replicate]
  constructor
  · rintro (h | ⟨-, -, h⟩)
    · cases h
    · intro f r tga hr ht
      have hf := lt_length_of_getElem? recs f r hr
      have := h f (by omega)
      rw [stored_group env th e0 recs h0 hlen hgr f g r tga hr ht] at this
      exact (groupOf_isVoid tga).1 this
  · intro h
    refine Or.inr ⟨hg, hg, ?_⟩
    intro f hf
    obtain ⟨r, hr⟩ := getElem?_some_of_lt recs f (by omega)
    have hrm : r ∈ recs := List.mem_iff_getElem?.2 ⟨f, hr⟩
    obtain ⟨tga, ht⟩ := getElem?_some_of_lt r.groups g (by rw [hgr r hrm]; exact hg)
    rw [stored_group env th e0 recs h0 hlen hgr f g r tga hr ht]
    exact (groupOf_isVoid tga).2 (h f r tga hr ht)

set_option maxRecDepth 100000 in
theorem threeFrameClip_header :
    theaHeader (exampleEnv exampleFiles) threeFrameClip = some threeFrameHeader := by
  decide

set_option maxRecDepth 100000 in
theorem threeFrameClip_defined :
    (TheaToEerie (exampleEnv exampleFiles) threeFrameClip).isSome = true := by
  decide

set_option maxRecDepth 100000 in
theorem threeFrameClip_reads :
    keyframeReads (exampleEnv exampleFiles) threeFrameClip threeFrameHeader =
      some [{ tkf2015 := { num_frame := 0, flag_frame := 0, master_key_frame := 0, key_frame := 1
                           key_move := 1, key_orient := 0, key_morph := 0, time_frame := 0 }
              move := some { x := 0, y := 0, z := 0 }
              quat := none, groups := [], sample := none },
            { tkf2015 := { num_frame := 10, flag_frame := 0, master_key_frame := 0, key_frame := 1
                           key_move := 0, key_orient := 0, key_morph := 0, time_frame := 10 }
              move := none
              quat := none, groups := [], sample := none },
            { tkf2015 := { num_frame := 20, flag_frame := 0, master_key_frame := 0, key_frame := 1
                           key_move := 1, key_orient := 0, key_morph := 0, time_frame := 20 }
              move := some { x := 10, y := 0, z := 0 }
              quat := none, groups := [], sample := none }] := by
  decide

theorem threeFrameClip_decodes :
    ∃ e, TheaToEerie (exampleEnv exampleFiles) threeFrameClip = some (some e) := by
  have h := threeFrameClip_defined
  cases hr : TheaToEerie (exampleEnv exampleFiles) threeFrameClip with
  | none => rw [hr] at h; cases h
  | some r =>
    obtain ⟨e, he, -⟩ := (TheaToEerie_cases _ _ _ threeFrameClip_header).2 (by decide) r hr
    exact ⟨e, by rw [he]⟩

theorem threeFrameClip_frames (e : EERIE_ANIM)
    (he : TheaToEerie (exampleEnv exampleFiles) threeFrameClip = some (some e)) :
    e.frames.map (fun f => (f.time, f.translate))
      = [(0, ⟨0, 0, 0⟩), (1250 / 3, ⟨10 / 3, 0, 0⟩), (2500 / 3, ⟨10, 0, 0⟩)] := by
  obtain ⟨e0, h0, -, -, -, rfl⟩ := TheaToEerie_decoded_reads _ _ _ e _ threeFrameClip_header he
    threeFrameClip_reads
  obtain ⟨-, -, rfl⟩ := alloc_inv _ e0 h0
  rw [post_frames]
  simp [threeFrameHeader, TheaToEerie.storeAll, TheaToEerie.store, TheaToEerie.frameOf,
    TheaToEerie.storeGroups, TheaToEerie.fillLoop, TheaToEerie.fillTranslate,
    TheaToEerie.fillRotate, TheaToEerie.scanBack, TheaToEerie.scanFwd, GetTimeBetweenKeyFrames,
    wrapS32, Vec3f.scale, Vec3f.add, List.replicate, List.range, List.range.loop]
  norm_num

theorem pass_some (rnd : Nat → ℚ) (tot old : Int) :
    ∀ n i d (r : Int) (d' : Nat), ANIM_GetAltIdx.pass rnd tot old n i d = (some r, d') →
      i ≤ r ∧ r < i + n ∧ r ≠ old := by
  intro n
  induction n with
  | zero =>
    intro i d r d' h
    simp only [ANIM_GetAltIdx.pass, Prod.mk.injEq] at h
    cases h.1
  | succ n ih =>
    intro i d r d' h
    unfold ANIM_GetAltIdx.pass at h
    dsimp only at h
    by_cases hc : rnd d * (tot : ℚ) < (anim_power_at i : ℚ) ∧ i ≠ old
    · rw [if_pos hc] at h
      simp only [Prod.mk.injEq, Option.some.injEq] at h
      obtain ⟨rfl, -⟩ := h
      refine ⟨le_refl _, ?_, hc.2⟩
      push_cast
      omega
    · rw [if_neg hc] at h
      obtain ⟨h1, h2, h3⟩ := ih (i + 1) (d + 1) r d' h
      refine ⟨by omega, ?_, h3⟩
      push_cast
      omega

theorem retry_some (rnd : Nat → ℚ) (alt_nb tot old : Int) :
    ∀ fuel d (r : Int), ANIM_GetAltIdx.retry rnd alt_nb tot old fuel d = some r →
      0 ≤ r ∧ r < (alt_nb.toNat : Int) ∧ r ≠ old := by
  intro fuel
  induction fuel with
  | zero =>
    intro d r h
    simp only [ANIM_GetAltIdx.retry] at h
    cases h
  | succ fuel ih =>
    intro d r h
    unfold ANIM_GetAltIdx.retry at h
    cases hp : ANIM_GetAltIdx.pass rnd tot old alt_nb.toNat 0 d with
    | mk o d' =>
      cases o with
      | none =>
        simp only [hp] at h
        exact ih d' r h
      | some i =>
        simp only [hp, Option.some.injEq] at h
        subst h
        obtain ⟨h1, h2, h3⟩ := pass_some rnd tot old _ _ _ _ _ hp
        exact ⟨h1, by omega, h3⟩

/-- The selection of an alternate: with one alternate it returns 0 whatever the
draws are; otherwise every index it returns is an index of the handle other than
`old`. -/
theorem ANIM_GetAltIdx_spec (rnd : Nat → ℚ) (fuel : Nat) (ah : ANIM_HANDLE) (old : Int) :
    (ah.alt_nb = 1 → ANIM_GetAltIdx rnd fuel ah old = some 0) ∧
      (∀ r, ANIM_GetAltIdx rnd fuel ah old = some r →
        0 ≤ r ∧ r < ah.alt_nb ∧ (ah.alt_nb ≠ 1 → r ≠ old)) := by
  constructor
  · intro h
    simp only [ANIM_GetAltIdx, h, if_true]
  · intro r h
    unfold ANIM_GetAltIdx at h
    by_cases h1 : ah.alt_nb = 1
    · rw [if_pos h1] at h
      cases h
      exact ⟨le_refl 0, by omega, fun hh => absurd h1 hh⟩
    · rw [if_neg h1] at h
      obtain ⟨a, b, c⟩ := retry_some rnd _ _ old fuel 0 r h
      exact ⟨a, by omega, fun _ => c⟩

theorem ANIM_GetAltIdx_zero_draws :
    ANIM_GetAltIdx (fun _ => 0) 1 { alt_nb := 2 } 0 = some 1 := by
  simp [ANIM_GetAltIdx, ANIM_GetAltIdx.retry, ANIM_GetAltIdx.pass, ANIM_GetAltIdx.totLoop,
    anim_power_at, anim_power]

theorem roundHalfEven_intCast (k : Int) : roundHalfEven (k : ℚ) = k := by
  unfold roundHalfEven
  rw [Int.floor_intCast, sub_self, if_pos (by norm_num)]

theorem roundHalfEven_floor (m : ℚ) : ⌊m⌋ ≤ roundHalfEven m ∧ roundHalfEven m ≤ ⌊m⌋ + 1 := by
  unfold roundHalfEven
  split_ifs <;> constructor <;> omega

theorem roundHalfEven_mono (x y : ℚ) (h : x ≤ y) : roundHalfEven x ≤ roundHalfEven y := by
  have hf : ⌊x⌋ ≤ ⌊y⌋ := Int.floor_mono h
  rcases lt_or_eq_of_le hf with hlt | heq
  · exact le_trans (roundHalfEven_floor x).2 (le_trans (by omega) (roundHalfEven_floor y).1)
  · unfold roundHalfEven
    rw [heq]
    have hxy : x - (⌊y⌋ : ℚ) ≤ y - (⌊y⌋ : ℚ) := by linarith
    split_ifs <;> first | omega | (exfalso; linarith)

theorem roundFloat_zero : roundFloat 0 = 0 := by
  unfold roundFloat
  rw [if_pos rfl]

theorem roundFloat_neg (q : ℚ) : roundFloat (-q) = -roundFloat q := by
  unfold roundFloat
  by_cases h0 : q = 0
  · subst h0
    simp
  · rw [if_neg (neg_ne_zero.2 h0), if_neg h0, abs_neg]
    rcases lt_or_gt_of_ne h0 with hneg | hpos
    · rw [if_neg (by linarith), if_pos hneg]
      ring
    · rw [if_pos (by linarith), if_neg (by linarith)]
      ring

theorem roundFloat_of_pos (q : ℚ) (h : 0 < q) :
    roundFloat q = ((roundHalfEven (q / (2 : ℚ) ^ (Int.log 2 q - 23)) : Int) : ℚ)
      * (2 : ℚ) ^ (Int.log 2 q - 23) := by
  unfold roundFloat
  rw [if_neg (ne_of_gt h), if_neg (not_lt.2 (le_of_lt h)), abs_of_pos h, one_mul]

theorem log_bounds (q : ℚ) (h : 0 < q) :
    (2 : ℚ) ^ Int.log 2 q ≤ q ∧ q < (2 : ℚ) ^ (Int.log 2 q + 1) := by
  have h1 := Int.zpow_log_le_self (b := 2) (r := q) (by norm_num) h
  have h2 := Int.lt_zpow_succ_log_self (b := 2) (by norm_num) q
  constructor
  · exact_mod_cast h1
  · exact_mod_cast h2

theorem log_eq_of_bounds (q : ℚ) (e : Int) (h1 : (2 : ℚ) ^ e ≤ q) (h2 : q < (2 : ℚ) ^ (e + 1)) :
    Int.log 2 q = e := by
  have hq : 0 < q := lt_of_lt_of_le (zpow_pos (by norm_num) e) h1
  have a : e ≤ Int.log 2 q :=
    (Int.zpow_le_iff_le_log (b := 2) (by norm_num) hq).1 (by exact_mod_cast h1)
  have b : Int.log 2 q < e + 1 :=
    (Int.lt_zpow_iff_log_lt (b := 2) (by norm_num) hq).1 (by exact_mod_cast h2)
  omega

theorem significand_bounds (q : ℚ) (h : 0 < q) :
    ((2 ^ 23 : Int) : ℚ) ≤ q / (2 : ℚ) ^ (Int.log 2 q - 23) ∧
      q / (2 : ℚ) ^ (Int.log 2 q - 23) ≤ ((2 ^ 24 : Int) : ℚ) := by
  obtain ⟨h1, h2⟩ := log_bounds q h
  have hu : (0 : ℚ) < (2 : ℚ) ^ (Int.log 2 q - 23) := zpow_pos (by norm_num) _
  have e1 : (2 : ℚ) ^ Int.log 2 q = 2 ^ 23 * (2 : ℚ) ^ (Int.log 2 q - 23) := by
    rw [show ((2 : ℚ) ^ 23) = (2 : ℚ) ^ (23 : Int) by norm_cast, ← zpow_add₀ (by norm_num)]
    congr 1
    omega
  have e2 : (2 : ℚ) ^ (Int.log 2 q + 1) = 2 ^ 24 * (2 : ℚ) ^ (Int.log 2 q - 23) := by
    rw [show ((2 : ℚ) ^ 24) = (2 : ℚ) ^ (24 : Int) by norm_cast, ← zpow_add₀ (by norm_num)]
    congr 1
    omega
  constructor
  · rw [le_div_iff₀ hu, show (((2 ^ 23 : Int) : ℚ)) = 2 ^ 23 by norm_num, ← e1]
    exact h1
  · rw [div_le_iff₀ hu, show (((2 ^ 24 : Int) : ℚ)) = 2 ^ 24 by norm_num, ← e2]
    exact le_of_lt h2

theorem roundFloat_bounds (q : ℚ) (h : 0 < q) :
    (2 : ℚ) ^ Int.log 2 q ≤ roundFloat q ∧ roundFloat q ≤ (2 : ℚ) ^ (Int.log 2 q + 1) := by
  obtain ⟨s1, s2⟩ := significand_bounds q h
  have hu : (0 : ℚ) < (2 : ℚ) ^ (Int.log 2 q - 23) := zpow_pos (by norm_num) _
  have r1 : (2 ^ 23 : Int) ≤ roundHalfEven (q / (2 : ℚ) ^ (Int.log 2 q - 23)) := by
    have := roundHalfEven_mono _ _ s1
    rwa [roundHalfEven_intCast] at this
  have r2 : roundHalfEven (q / (2 : ℚ) ^ (Int.log 2 q - 23)) ≤ (2 ^ 24 : Int) := by
    have := roundHalfEven_mono _ _ s2
    rwa [roundHalfEven_intCast] at this
  have e1 : (2 : ℚ) ^ Int.log 2 q = 2 ^ 23 * (2 : ℚ) ^ (Int.log 2 q - 23) := by
    rw [show ((2 : ℚ) ^ 23) = (2 : ℚ) ^ (23 : Int) by norm_cast, ← zpow_add₀ (by norm_num)]
    congr 1
    omega
  have e2 : (2 : ℚ) ^ (Int.log 2 q + 1) = 2 ^ 24 * (2 : ℚ) ^ (Int.log 2 q - 23) := by
    rw [show ((2 : ℚ) ^ 24) = (2 : ℚ) ^ (24 : Int) by norm_cast, ← zpow_add₀ (by norm_num)]
    congr 1
    omega
  rw [roundFloat_of_pos q h, e1, e2]
  constructor
  · apply mul_le_mul_of_nonneg_right _ (le_of_lt hu)
    exact_mod_cast r1
  · apply mul_le_mul_of_nonneg_right _ (le_of_lt hu)
    exact_mod_cast r2

theorem roundFloat_pos (q : ℚ) (h : 0 < q) : 0 < roundFloat q :=
  lt_of_lt_of_le (zpow_pos (by norm_num) _) (roundFloat_bounds q h).1

theorem roundFloat_mono_pos (x y : ℚ) (hx : 0 < x) (hxy : x ≤ y) :
    roundFloat x ≤ roundFloat y := by
  have hy : 0 < y := lt_of_lt_of_le hx hxy
  have hl : Int.log 2 x ≤ Int.log 2 y := Int.log_mono_right hx hxy
  rcases lt_or_eq_of_le hl with hlt | heq
  · refine le_trans (roundFloat_bounds x hx).2 (le_trans ?_ (roundFloat_bounds y hy).1)
    exact zpow_le_zpow_right₀ (by norm_num) (by omega)
  · rw [roundFloat_of_pos x hx, roundFloat_of_pos y hy, heq]
    have hu : (0 : ℚ) < (2 : ℚ) ^ (Int.log 2 y - 23) := zpow_pos (by norm_num) _
    apply mul_le_mul_of_nonneg_right _ (le_of_lt hu)
    have := roundHalfEven_mono (x / (2 : ℚ) ^ (Int.log 2 y - 23))
      (y / (2 : ℚ) ^ (Int.log 2 y - 23)) (div_le_div_of_nonneg_right hxy (le_of_lt hu))
    exact_mod_cast this

theorem roundFloat_mono (x y : ℚ) (hxy : x ≤ y) : roundFloat x ≤ roundFloat y := by
  rcases lt_trichotomy x 0 with hx | hx | hx
  · rcases lt_trichotomy y 0 with hy | hy | hy
    · have := roundFloat_mono_pos (-y) (-x) (by linarith) (by linarith)
      rw [roundFloat_neg, roundFloat_neg] at this
      linarith
    · subst hy
      have := roundFloat_pos (-x) (by linarith)
      rw [roundFloat_neg] at this
      rw [roundFloat_zero]
      linarith
    · have h1 := roundFloat_pos (-x) (by linarith)
      rw [roundFloat_neg] at h1
      have h2 := roundFloat_pos y hy
      linarith
  · subst hx
    rcases lt_or_eq_of_le hxy with hy | hy
    · rw [roundFloat_zero]
      exact le_of_lt (roundFloat_pos y hy)
    · rw [← hy]
  · exact roundFloat_mono_pos x y hx hxy

theorem roundFloat_of_bounds (q : ℚ) (e : Int) (h1 : (2 : ℚ) ^ e ≤ q)
    (h2 : q < (2 : ℚ) ^ (e + 1)) :
    roundFloat q = ((roundHalfEven (q / (2 : ℚ) ^ (e - 23)) : Int) : ℚ) * (2 : ℚ) ^ (e - 23) := by
  have hq : 0 < q := lt_of_lt_of_le (zpow_pos (by norm_num) e) h1
  rw [roundFloat_of_pos q hq, log_eq_of_bounds q e h1 h2]

theorem roundFloat_exact (q : ℚ) (h : 0 < q) (k : Int)
    (hk : q / (2 : ℚ) ^ (Int.log 2 q - 23) = (k : ℚ)) : roundFloat q = q := by
  have hu : (0 : ℚ) < (2 : ℚ) ^ (Int.log 2 q - 23) := zpow_pos (by norm_num) _
  rw [roundFloat_of_pos q h, hk, roundHalfEven_intCast, ← hk, div_mul_cancel₀ _ (ne_of_gt hu)]

theorem roundFloat_natCast_small (n : Nat) (hn : n ≤ 2 ^ 24) : roundFloat (n : ℚ) = n := by
  rcases Nat.eq_zero_or_pos n with h0 | hpos
  · subst h0
    simp [roundFloat_zero]
  have hq : (0 : ℚ) < (n : ℚ) := by exact_mod_cast hpos
  obtain ⟨l1, l2⟩ := log_bounds (n : ℚ) hq
  have hle : Int.log 2 (n : ℚ) ≤ 24 := by
    have : Int.log 2 (n : ℚ) ≤ Int.log 2 ((2 : ℚ) ^ (24 : Int)) :=
      Int.log_mono_right hq (by
        have h2 : (n : ℚ) ≤ 2 ^ 24 := by exact_mod_cast hn
        have h3 : (2 : ℚ) ^ (24 : Int) = 2 ^ 24 := by norm_cast
        rw [h3]
        exact h2)
    rwa [show ((2 : ℚ) ^ (24 : Int)) = (((2 : Nat) : ℚ)) ^ (24 : Int) by norm_cast,
      Int.log_zpow (by norm_num)] at this
  have hge : 0 ≤ Int.log 2 (n : ℚ) := by
    rw [Int.log_natCast]
    exact Int.natCast_nonneg _
  rcases lt_or_eq_of_le hle with hlt | heq
  · -- the unit in the last place is 1 / 2 ^ j for a natural j
    obtain ⟨j, hj⟩ : ∃ j : Nat, Int.log 2 (n : ℚ) - 23 = -(j : Int) :=
      ⟨(23 - Int.log 2 (n : ℚ)).toNat, by omega⟩
    refine roundFloat_exact _ hq ((n : Int) * 2 ^ j) ?_
    rw [hj, zpow_neg, zpow_natCast]
    push_cast
    field_simp
  · -- the value is 2 ^ 24 itself
    have hn24 : (n : ℚ) = 2 ^ 24 := by
      have h1 : (2 : ℚ) ^ (24 : Int) ≤ (n : ℚ) := by rw [← heq]; exact l1
      have h2 : (n : ℚ) ≤ 2 ^ 24 := by exact_mod_cast hn
      have h3 : (2 : ℚ) ^ (24 : Int) = 2 ^ 24 := by norm_cast
      linarith
    refine roundFloat_exact _ hq (2 ^ 23) ?_
    rw [heq, hn24]
    norm_num

theorem roundFloat_intCast_small (n : Int) (hn : |n| ≤ 2 ^ 24) : roundFloat (n : ℚ) = n := by
  rcases le_or_lt 0 n with h0 | h0
  · obtain ⟨k, rfl⟩ := Int.eq_ofNat_of_zero_le h0
    rw [abs_of_nonneg h0] at hn
    have := roundFloat_natCast_small k (by exact_mod_cast hn)
    simpa using this
  · obtain ⟨k, hk⟩ := Int.eq_ofNat_of_zero_le (show 0 ≤ -n by omega)
    have hkn : k ≤ 2 ^ 24 := by
      rw [abs_of_neg h0] at hn
      have : (k : Int) ≤ 2 ^ 24 := by omega
      exact_mod_cast this
    have h1 := roundFloat_natCast_small k hkn
    have h2 : (n : ℚ) = -((k : ℚ)) := by
      have : (n : ℚ) = -(((-n : Int)) : ℚ) := by push_cast; ring
      rw [this, hk]
      simp
    rw [h2, roundFloat_neg, h1]

theorem floatOfLong_small (n : Int) (hn : |n| ≤ 2 ^ 24) : floatOfLong n = n :=
  roundFloat_intCast_small n hn

theorem floatOfLong_mono (n : Int) (a : ℚ) (h : (n : ℚ) ≤ a) :
    floatOfLong n ≤ roundFloat a := roundFloat_mono _ _ h

theorem not_over_float (n : Int) (a : ℚ) (h : ¬ ((n : ℚ) > a)) :
    ¬ (floatOfLong n > roundFloat a) :=
  not_lt.2 (floatOfLong_mono n a (not_lt.1 h))

theorem over_of_small (n k : Int) (a : ℚ) (hn : |n| ≤ 2 ^ 24) (hk : |k| ≤ 2 ^ 24)
    (ha : a ≤ (k : ℚ)) (hkn : k < n) : floatOfLong n > roundFloat a := by
  have h1 : roundFloat a ≤ (k : ℚ) := by
    have := roundFloat_mono a (k : ℚ) ha
    rwa [roundFloat_intCast_small k hk] at this
  rw [floatOfLong_small n hn]
  have h2 : (k : ℚ) < (n : ℚ) := by exact_mod_cast hkn
  exact lt_of_le_of_lt h1 h2

theorem floatOfLong_example : floatOfLong 32768001 = 32768000 := by
  unfold floatOfLong
  rw [roundFloat_of_bounds _ 24 (by norm_num) (by norm_num)]
  have hm : roundHalfEven (((32768001 : Int) : ℚ) / (2 : ℚ) ^ ((24 : Int) - 23)) = 16384000 := by
    have hf : ⌊((32768001 : Int) : ℚ) / (2 : ℚ) ^ ((24 : Int) - 23)⌋ = 16384000 := by
      rw [Int.floor_eq_iff]
      norm_num
    unfold roundHalfEven
    rw [hf]
    norm_num
  rw [hm]
  norm_num

theorem wrapLong_id (x : Int) (h1 : -(2 ^ 63) ≤ x) (h2 : x < 2 ^ 63) : wrapLong x = x := by
  unfold wrapLong
  omega

theorem truncQ_intCast (n : Int) : truncQ (n : ℚ) = n := by
  unfold truncQ
  rw [Rat.num_intCast, Rat.den_intCast]
  simp

theorem truncQ_nonneg (q : ℚ) (h : 0 ≤ q) : truncQ q = ⌊q⌋ := by
  unfold truncQ
  rw [Rat.floor_def, Int.tdiv_eq_ediv (Rat.num_nonneg.2 h) (Int.ofNat_nonneg _)]

theorem advance_cur_anim (ah : ANIM_HANDLE) (u : ANIM_USE) (time : Nat) :
    (PrepareAnim.advance ah u time).cur_anim = u.cur_anim := by
  unfold PrepareAnim.advance
  dsimp only
  split_ifs <;> rfl

theorem advance_next_anim (ah : ANIM_HANDLE) (u : ANIM_USE) (time : Nat) :
    (PrepareAnim.advance ah u time).next_anim = u.next_anim := by
  unfold PrepareAnim.advance
  dsimp only
  split_ifs <;> rfl

theorem advance_nextflags (ah : ANIM_HANDLE) (u : ANIM_USE) (time : Nat) :
    (PrepareAnim.advance ah u time).nextflags = u.nextflags := by
  unfold PrepareAnim.advance
  dsimp only
  split_ifs <;> rfl

theorem advance_flags (ah : ANIM_HANDLE) (u : ANIM_USE) (time : Nat) :
    (PrepareAnim.advance ah u time).flags = { u.flags with EA_ANIMEND := false } := by
  unfold PrepareAnim.advance
  dsimp only
  split_ifs <;> rfl

theorem advance_altidx_cur (ah : ANIM_HANDLE) (u : ANIM_USE) (time : Nat) :
    (PrepareAnim.advance ah u time).altidx_cur = PrepareAnim.altidx ah u := by
  unfold PrepareAnim.advance PrepareAnim.altidx
  dsimp only
  split_ifs <;> rfl

theorem advance_ctime (ah : ANIM_HANDLE) (u : ANIM_USE) (time : Nat) :
    (PrepareAnim.advance ah u time).ctime =
      if u.flags.EA_EXCONTROL = true then u.ctime else wrapLong (u.ctime + (time : Int)) := by
  unfold PrepareAnim.advance
  dsimp only
  split_ifs <;> rfl

theorem advance_track (animations : AnimTable) (h : Nat) (u : ANIM_USE) (time : Nat)
    (hcur : u.cur_anim = some h) :
    PrepareAnim.track animations (PrepareAnim.advance (animations h) u time)
      = (animations h).track (PrepareAnim.altidx (animations h) u) := by
  unfold PrepareAnim.track
  rw [advance_cur_anim, hcur, advance_altidx_cur]

theorem isLooping_congr (penv : PlayEnv) (u u' : ANIM_USE) (io : Option Entity)
    (h1 : u'.flags.EA_LOOP = u.flags.EA_LOOP) (h2 : u'.cur_anim = u.cur_anim) :
    PrepareAnim.isLooping penv u' io = PrepareAnim.isLooping penv u io := by
  unfold PrepareAnim.isLooping
  rw [h1, h2]

theorem stopEnd_of_clear (t : EERIE_ANIM) (u : ANIM_USE) (h : u.flags.EA_STOPEND = false) :
    PrepareAnim.stopEnd t u = u := by
  unfold PrepareAnim.stopEnd
  rw [if_neg]
  rw [h]
  intro hh
  cases hh.1

theorem time_of_running (penv : PlayEnv) (u : ANIM_USE) (time : Nat) (io : Option Entity)
    (hp : u.flags.EA_PAUSED = false)
    (hf : ∀ e, io = some e → e.ioflags &&& penv.IO_FREEZESCRIPT = 0) :
    PrepareAnim.time penv u time io = time := by
  unfold PrepareAnim.time
  cases io with
  | none => simp [hp]
  | some e => simp [hp, hf e rfl]

theorem frameLoop_fields (t : EERIE_ANIM) (u : ANIM_USE) (time : Nat)
    (position : Option Vec3f) (isPlayer : Bool) (tim : Int) :
    ∀ n i,
      (PrepareAnim.frameLoop t u time position isPlayer tim n i).1.ctime = u.ctime ∧
      (PrepareAnim.frameLoop t u time position isPlayer tim n i).1.flags = u.flags ∧
      (PrepareAnim.frameLoop t u time position isPlayer tim n i).1.nextflags = u.nextflags ∧
      (PrepareAnim.frameLoop t u time position isPlayer tim n i).1.cur_anim = u.cur_anim ∧
      (PrepareAnim.frameLoop t u time position isPlayer tim n i).1.next_anim = u.next_anim ∧
      (PrepareAnim.frameLoop t u time position isPlayer tim n i).1.altidx_cur = u.altidx_cur ∧
      (PrepareAnim.frameLoop t u time position isPlayer tim n i).2.filter AnimEvent.isFinish
        = [] := by
  intro n
  induction n with
  | zero => intro i; exact ⟨rfl, rfl, rfl, rfl, rfl, rfl, rfl⟩
  | succ n ih =>
    intro i
    unfold PrepareAnim.frameLoop
    dsimp only
    by_cases h1 : truncQ (PrepareAnim.frameAt t (i - 1)).time = truncQ (PrepareAnim.frameAt t i).time
    · rw [if_pos h1]
      exact ⟨rfl, rfl, rfl, rfl, rfl, rfl, rfl⟩
    · rw [if_neg h1]
      by_cases h2 : (tim < truncQ (PrepareAnim.frameAt t i).time
            ∧ tim ≥ truncQ (PrepareAnim.frameAt t (i - 1)).time)
          ∨ (i = t.nb_key_frames - 1 ∧ tim = truncQ (PrepareAnim.frameAt t i).time)
      · rw [if_pos h2]
        refine ⟨rfl, rfl, rfl, rfl, rfl, rfl, ?_⟩
        dsimp only
        rw [List.filter_append, List.append_eq_nil]
        constructor
        · rw [List.filter_eq_nil_iff]
          intro ev hev
          unfold PrepareAnim.sounds at hev
          split_ifs at hev
          · simp only [List.mem_map] at hev
            obtain ⟨d, -, rfl⟩ := hev
            simp [AnimEvent.isFinish]
          · simp only [List.mem_singleton] at hev
            subst hev
            simp [AnimEvent.isFinish]
          · simp at hev
        · rw [List.filter_eq_nil_iff]
          intro ev hev
          unfold PrepareAnim.steps at hev
          split_ifs at hev
          · simp only [List.mem_map] at hev
            obtain ⟨d, -, rfl⟩ := hev
            simp [AnimEvent.isFinish]
          · simp only [List.mem_singleton] at hev
            subst hev
            simp [AnimEvent.isFinish]
          · simp at hev
          · simp at hev
          · simp at hev
      · rw [if_neg h2]
        exact ih (i + 1)

theorem resolve_fields (t : EERIE_ANIM) (u : ANIM_USE) (time : Nat)
    (position : Option Vec3f) (isPlayer : Bool) :
    (PrepareAnim.resolve t u time position isPlayer).1.ctime = u.ctime ∧
      (PrepareAnim.resolve t u time position isPlayer).1.flags = u.flags ∧
      (PrepareAnim.resolve t u time position isPlayer).1.nextflags = u.nextflags ∧
      (PrepareAnim.resolve t u time position isPlayer).1.cur_anim = u.cur_anim ∧
      (PrepareAnim.resolve t u time position isPlayer).1.next_anim = u.next_anim ∧
      (PrepareAnim.resolve t u time position isPlayer).1.altidx_cur = u.altidx_cur ∧
      (PrepareAnim.resolve t u time position isPlayer).2.filter AnimEvent.isFinish = [] := by
  unfold PrepareAnim.resolve
  exact frameLoop_fields t _ time position isPlayer _ _ 1

/-- A tick on a playback state with a current clip, in terms of its parts. -/
theorem PrepareAnim_of_endOfClip (penv : PlayEnv) (animations : AnimTable) (rnd : Nat → ℚ)
    (fuel : Nat) (u : ANIM_USE) (time : Nat) (io : Option Entity) (isPlayer : Bool) (h : Nat)
    (t t1 : EERIE_ANIM) (u1 : ANIM_USE) (io1 : Option Entity) (ev1 : List AnimEvent)
    (hcur : u.cur_anim = some h)
    (htrack : (animations h).track (PrepareAnim.altidx (animations h) u) = some t)
    (hend : PrepareAnim.endOfClip penv animations rnd fuel
      (PrepareAnim.stopEnd t
        (PrepareAnim.advance (animations h) u (PrepareAnim.time penv u time io))) t io
      = some (u1, io1, ev1))
    (htrack1 : PrepareAnim.track animations u1 = some t1) :
    ∃ r u', PrepareAnim penv animations rnd fuel (some u) time io isPlayer = some r ∧
      r.eanim = some u' ∧ r.io = io1 ∧
      u'.ctime = u1.ctime ∧ u'.flags = u1.flags ∧ u'.nextflags = u1.nextflags ∧
      u'.cur_anim = u1.cur_anim ∧ u'.next_anim = u1.next_anim ∧
      u'.altidx_cur = u1.altidx_cur ∧
      r.events.filter AnimEvent.isFinish = ev1.filter AnimEvent.isFinish := by
  have ht := advance_track animations h u (PrepareAnim.time penv u time io) hcur
  rw [htrack] at ht
  obtain ⟨f1, f2, f3, f4, f5, f6, f7⟩ := resolve_fields t1 u1 (PrepareAnim.time penv u time io)
    (io1.map fun e => e.pos) isPlayer
  refine ⟨{ eanim := some (PrepareAnim.resolve t1 u1 (PrepareAnim.time penv u time io)
              (io1.map fun e => e.pos) isPlayer).1
            io := io1
            events := ev1 ++ (PrepareAnim.resolve t1 u1 (PrepareAnim.time penv u time io)
              (io1.map fun e => e.pos) isPlayer).2 },
    (PrepareAnim.resolve t1 u1 (PrepareAnim.time penv u time io)
      (io1.map fun e => e.pos) isPlayer).1, ?_, rfl, rfl, f1, f2, f3, f4, f5, f6, ?_⟩
  · simp only [PrepareAnim, hcur, ht, hend, htrack1]
  · dsimp only
    rw [List.filter_append, f7, List.append_nil]

theorem finishEvents_filter (io : Option Entity) (cur : Option Nat) :
    (PrepareAnim.finishEvents io cur).filter AnimEvent.isFinish
      = PrepareAnim.finishEvents io cur := by
  cases io <;> cases cur <;> rfl

theorem track_congr (animations : AnimTable) (u u' : ANIM_USE)
    (h1 : u'.cur_anim = u.cur_anim) (h2 : u'.altidx_cur = u.altidx_cur) :
    PrepareAnim.track animations u' = PrepareAnim.track animations u := by
  unfold PrepareAnim.track
  rw [h1, h2]

/-- The tick of a clip that ends: not looping, past the end of the track, and no
transition to make (no entity, or no queued clip). -/
theorem PrepareAnim_non_looping_end (penv : PlayEnv) (animations : AnimTable) (rnd : Nat → ℚ)
    (fuel : Nat) (u : ANIM_USE) (time : Nat) (io : Option Entity) (isPlayer : Bool) (h : Nat)
    (t : EERIE_ANIM)
    (hcur : u.cur_anim = some h)
    (htrack : (animations h).track (PrepareAnim.altidx (animations h) u) = some t)
    (hstop : u.flags.EA_STOPEND = false)
    (hloop : PrepareAnim.isLooping penv u io = false)
    (hover : floatOfLong (PrepareAnim.advance (animations h) u
      (PrepareAnim.time penv u time io)).ctime > roundFloat t.anim_time)
    (hnone : io = none ∨ u.next_anim = none) :
    ∃ r u', PrepareAnim penv animations rnd fuel (some u) time io isPlayer = some r ∧
      r.eanim = some u' ∧ r.io = io ∧
      u'.ctime = truncQ t.anim_time ∧
      u'.flags = { u.flags with EA_ANIMEND := true } ∧
      u'.cur_anim = some h ∧ u'.next_anim = u.next_anim ∧
      r.events.filter AnimEvent.isFinish = [] := by
  have hs : PrepareAnim.stopEnd t (PrepareAnim.advance (animations h) u
      (PrepareAnim.time penv u time io))
      = PrepareAnim.advance (animations h) u (PrepareAnim.time penv u time io) :=
    stopEnd_of_clear t _ (by rw [advance_flags]; exact hstop)
  have hl : PrepareAnim.isLooping penv (PrepareAnim.advance (animations h) u
      (PrepareAnim.time penv u time io)) io = false := by
    rw [isLooping_congr penv u _ io (by rw [advance_flags]) (advance_cur_anim _ _ _)]
    exact hloop
  have hnone' : io = none ∨ (PrepareAnim.advance (animations h) u
      (PrepareAnim.time penv u time io)).next_anim = none := by
    rw [advance_next_anim]
    exact hnone
  have hend : PrepareAnim.endOfClip penv animations rnd fuel
      (PrepareAnim.stopEnd t (PrepareAnim.advance (animations h) u
        (PrepareAnim.time penv u time io))) t io
      = some ({ PrepareAnim.advance (animations h) u (PrepareAnim.time penv u time io) with
                flags := { (PrepareAnim.advance (animations h) u
                  (PrepareAnim.time penv u time io)).flags with EA_ANIMEND := true }
                ctime := truncQ t.anim_time }, io, []) := by
    rw [hs]
    unfold PrepareAnim.endOfClip
    rw [hl]
    simp only [Bool.false_eq_true, if_false, if_pos hover]
    rcases hnone' with h1 | h1
    · subst h1
      rfl
    · rw [h1]
      cases io <;> rfl
  have htr : PrepareAnim.track animations
      { PrepareAnim.advance (animations h) u (PrepareAnim.time penv u time io) with
        flags := { (PrepareAnim.advance (animations h) u
          (PrepareAnim.time penv u time io)).flags with EA_ANIMEND := true }
        ctime := truncQ t.anim_time } = some t := by
    refine (track_congr animations (PrepareAnim.advance (animations h) u
      (PrepareAnim.time penv u time io)) _ rfl rfl).trans ?_
    rw [advance_track animations h u _ hcur]
    exact htrack
  obtain ⟨r, u', hr, he, hio, h1, h2, -, h4, h5, -, h7⟩ :=
    PrepareAnim_of_endOfClip penv animations rnd fuel u time io isPlayer h t t _ _ _
      hcur htrack hend htr
  refine ⟨r, u', hr, he, hio, h1, ?_, ?_, ?_, h7⟩
  · rw [h2]
    dsimp only
    rw [advance_flags]
  · rw [h4]
    dsimp only
    rw [advance_cur_anim, hcur]
  · rw [h5]
    dsimp only
    rw [advance_next_anim]

/-- The tick of a looping clip that passes the end of the track with no clip
queued. -/
theorem PrepareAnim_looping_wrap (penv : PlayEnv) (animations : AnimTable) (rnd : Nat → ℚ)
    (fuel : Nat) (u : ANIM_USE) (time : Nat) (io : Option Entity) (isPlayer : Bool) (h : Nat)
    (t : EERIE_ANIM)
    (hcur : u.cur_anim = some h)
    (htrack : (animations h).track (PrepareAnim.altidx (animations h) u) = some t)
    (hstop : u.flags.EA_STOPEND = false)
    (hloop : PrepareAnim.isLooping penv u io = true)
    (hover : floatOfLong (PrepareAnim.advance (animations h) u
      (PrepareAnim.time penv u time io)).ctime > roundFloat t.anim_time)
    (hnext : u.next_anim = none)
    (ht0 : truncQ t.anim_time ≠ 0) :
    ∃ r u', PrepareAnim penv animations rnd fuel (some u) time io isPlayer = some r ∧
      r.eanim = some u' ∧ r.io = FinishAnim penv io (some h) ∧
      u'.ctime = Int.tmod (PrepareAnim.advance (animations h) u
        (PrepareAnim.time penv u time io)).ctime (truncQ t.anim_time) ∧
      u'.flags = { u.flags with EA_ANIMEND := false } ∧
      u'.cur_anim = some h ∧ u'.next_anim = none ∧
      r.events.filter AnimEvent.isFinish
        = PrepareAnim.finishEvents io (some h) := by
  have hs : PrepareAnim.stopEnd t (PrepareAnim.advance (animations h) u
      (PrepareAnim.time penv u time io))
      = PrepareAnim.advance (animations h) u (PrepareAnim.time penv u time io) :=
    stopEnd_of_clear t _ (by rw [advance_flags]; exact hstop)
  have hl : PrepareAnim.isLooping penv (PrepareAnim.advance (animations h) u
      (PrepareAnim.time penv u time io)) io = true := by
    rw [isLooping_congr penv u _ io (by rw [advance_flags]) (advance_cur_anim _ _ _)]
    exact hloop
  have hend : PrepareAnim.endOfClip penv animations rnd fuel
      (PrepareAnim.stopEnd t (PrepareAnim.advance (animations h) u
        (PrepareAnim.time penv u time io))) t io
      = some ({ PrepareAnim.advance (animations h) u (PrepareAnim.time penv u time io) with
                ctime := Int.tmod (PrepareAnim.advance (animations h) u
                  (PrepareAnim.time penv u time io)).ctime (truncQ t.anim_time) },
              FinishAnim penv io (some h),
              PrepareAnim.finishEvents io (some h)) := by
    rw [hs]
    unfold PrepareAnim.endOfClip
    rw [hl]
    simp only [if_true, if_pos hover, advance_next_anim, hnext, if_neg ht0, advance_cur_anim,
      hcur]
  have htr : PrepareAnim.track animations
      { PrepareAnim.advance (animations h) u (PrepareAnim.time penv u time io) with
        ctime := Int.tmod (PrepareAnim.advance (animations h) u
          (PrepareAnim.time penv u time io)).ctime (truncQ t.anim_time) } = some t := by
    refine (track_congr animations (PrepareAnim.advance (animations h) u
      (PrepareAnim.time penv u time io)) _ rfl rfl).trans ?_
    rw [advance_track animations h u _ hcur]
    exact htrack
  obtain ⟨r, u', hr, he, hio, h1, h2, -, h4, h5, -, h7⟩ :=
    PrepareAnim_of_endOfClip penv animations rnd fuel u time io isPlayer h t t _ _ _
      hcur htrack hend htr
  refine ⟨r, u', hr, he, hio, h1, ?_, ?_, ?_, ?_⟩
  · rw [h2]
    dsimp only
    rw [advance_flags]
  · rw [h4]
    dsimp only
    rw [advance_cur_anim, hcur]
  · rw [h5]
    dsimp only
    rw [advance_next_anim, hnext]
  · rw [h7]
    exact finishEvents_filter io (some h)

/-- The tick that switches to the queued clip: past the end of the track, a clip
queued, and either a looping clip or an entity; the selection of the alternate
returns `idx` and the queued clip has a track at that index. -/
theorem PrepareAnim_switch (penv : PlayEnv) (animations : AnimTable) (rnd : Nat → ℚ)
    (fuel : Nat) (u : ANIM_USE) (time : Nat) (io : Option Entity) (isPlayer : Bool)
    (h next : Nat) (t t' : EERIE_ANIM) (idx : Int)
    (hcur : u.cur_anim = some h)
    (htrack : (animations h).track (PrepareAnim.altidx (animations h) u) = some t)
    (hstop : u.flags.EA_STOPEND = false)
    (hover : floatOfLong (PrepareAnim.advance (animations h) u
      (PrepareAnim.time penv u time io)).ctime > roundFloat t.anim_time)
    (hnext : u.next_anim = some next)
    (hbranch : PrepareAnim.isLooping penv u io = true ∨ ∃ e, io = some e)
    (hidx : ANIM_GetAltIdx rnd fuel (animations next) (PrepareAnim.altidx (animations h) u)
      = some idx)
    (htrack' : (animations next).track idx = some t') :
    ∃ r u', PrepareAnim penv animations rnd fuel (some u) time io isPlayer = some r ∧
      r.eanim = some u' ∧ r.io = PrepareAnim.latch penv io (some h) ∧
      u'.ctime = (if PrepareAnim.isLooping penv u io = true then
          (PrepareAnim.advance (animations h) u (PrepareAnim.time penv u time io)).ctime
            - truncQ t.anim_time
        else truncQ (roundFloat (floatOfLong (PrepareAnim.advance (animations h) u
          (PrepareAnim.time penv u time io)).ctime - roundFloat t.anim_time))) ∧
      u'.flags = { u.nextflags with EA_ANIMEND := false } ∧
      u'.cur_anim = some next ∧ u'.next_anim = none ∧ u'.altidx_cur = idx ∧
      r.events.filter AnimEvent.isFinish
        = PrepareAnim.finishEvents io (some h) := by
  have hs : PrepareAnim.stopEnd t (PrepareAnim.advance (animations h) u
      (PrepareAnim.time penv u time io))
      = PrepareAnim.advance (animations h) u (PrepareAnim.time penv u time io) :=
    stopEnd_of_clear t _ (by rw [advance_flags]; exact hstop)
  have hl : PrepareAnim.isLooping penv (PrepareAnim.advance (animations h) u
      (PrepareAnim.time penv u time io)) io = PrepareAnim.isLooping penv u io :=
    isLooping_congr penv u _ io (by rw [advance_flags]) (advance_cur_anim _ _ _)
  have hsw : ∀ lost, PrepareAnim.switch penv animations rnd fuel
      (PrepareAnim.advance (animations h) u (PrepareAnim.time penv u time io)) next lost io
      = some ({ next_anim := none, cur_anim := some next, altidx_cur := idx, ctime := lost
                flags := { u.nextflags with EA_ANIMEND := false }
                nextflags := u.nextflags
                lastframe := -1
                pour := (PrepareAnim.advance (animations h) u
                  (PrepareAnim.time penv u time io)).pour
                fr := (PrepareAnim.advance (animations h) u
                  (PrepareAnim.time penv u time io)).fr },
              PrepareAnim.latch penv io (some h),
              PrepareAnim.finishEvents io (some h)) := by
    intro lost
    unfold PrepareAnim.switch
    simp only [advance_altidx_cur, hidx, advance_cur_anim, hcur, ResetAnim.reset, advance_nextflags]
  have hend : PrepareAnim.endOfClip penv animations rnd fuel
      (PrepareAnim.stopEnd t (PrepareAnim.advance (animations h) u
        (PrepareAnim.time penv u time io))) t io
      = some ({ next_anim := none, cur_anim := some next, altidx_cur := idx
                ctime := (if PrepareAnim.isLooping penv u io = true then
                    (PrepareAnim.advance (animations h) u (PrepareAnim.time penv u time io)).ctime
                      - truncQ t.anim_time
                  else truncQ (roundFloat (floatOfLong (PrepareAnim.advance (animations h) u
                    (PrepareAnim.time penv u time io)).ctime - roundFloat t.anim_time)))
                flags := { u.nextflags with EA_ANIMEND := false }
                nextflags := u.nextflags
                lastframe := -1
                pour := (PrepareAnim.advance (animations h) u
                  (PrepareAnim.time penv u time io)).pour
                fr := (PrepareAnim.advance (animations h) u
                  (PrepareAnim.time penv u time io)).fr },
              PrepareAnim.latch penv io (some h),
              PrepareAnim.finishEvents io (some h)) := by
    rw [hs]
    unfold PrepareAnim.endOfClip
    rw [hl]
    by_cases hlo : PrepareAnim.isLooping penv u io = true
    · simp only [hlo, if_true, if_pos hover, advance_next_anim, hnext]
      exact hsw _
    · rcases hbranch with hb | ⟨e, rfl⟩
      · exact absurd hb hlo
      · simp only [hlo, if_false, if_pos hover, advance_next_anim, hnext]
        exact hsw _
  have htr : PrepareAnim.track animations
      { next_anim := none, cur_anim := some next, altidx_cur := idx
        ctime := (if PrepareAnim.isLooping penv u io = true then
            (PrepareAnim.advance (animations h) u (PrepareAnim.time penv u time io)).ctime
              - truncQ t.anim_time
          else truncQ (roundFloat (floatOfLong (PrepareAnim.advance (animations h) u
            (PrepareAnim.time penv u time io)).ctime - roundFloat t.anim_time)))
        flags := { u.nextflags with EA_ANIMEND := false }
        nextflags := u.nextflags
        lastframe := -1
        pour := (PrepareAnim.advance (animations h) u (PrepareAnim.time penv u time io)).pour
        fr := (PrepareAnim.advance (animations h) u (PrepareAnim.time penv u time io)).fr }
      = some t' := htrack'
  obtain ⟨r, u', hr, he, hio, h1, h2, -, h4, h5, h6, h7⟩ :=
    PrepareAnim_of_endOfClip penv animations rnd fuel u time io isPlayer h t t' _ _ _
      hcur htrack hend htr
  exact ⟨r, u', hr, he, hio, h1, h2, h4, h5, h6, h7.trans (finishEvents_filter io (some h))⟩

theorem TheaToEerie_oneFrameClip (files : String → Option (List Nat)) :
    TheaToEerie (exampleEnv files) oneFrameClip = some (some oneFrameTrack) := by
  simp [TheaToEerie, view, exampleEnv, oneFrameClip, le32, wrapS32, allocStructZero,
    TheaToEerie.keyframeLoop, TheaToEerie.fillLoop, TheaToEerie.voidLoop, oneFrameTrack]
  norm_num

/-- The advanced elapsed time of a state that is neither paused, nor frozen, nor
driven from outside: the sum `ctime + time` in `long` arithmetic. -/
theorem advance_ctime_running (penv : PlayEnv) (ah : ANIM_HANDLE) (u : ANIM_USE) (time : Nat)
    (io : Option Entity)
    (hp : u.flags.EA_PAUSED = false)
    (hf : ∀ e, io = some e → e.ioflags &&& penv.IO_FREEZESCRIPT = 0)
    (hex : u.flags.EA_EXCONTROL = false) :
    (PrepareAnim.advance ah u (PrepareAnim.time penv u time io)).ctime
      = wrapLong (u.ctime + (time : Int)) := by
  rw [advance_ctime, time_of_running penv u time io hp hf, hex]
  simp

theorem floor_oneFrameTrack : ⌊oneFrameTrack.anim_time⌋ = 41 := by
  rw [Int.floor_eq_iff]
  norm_num [oneFrameTrack]

theorem nod_tick :
    ∃ r u', PrepareAnim examplePlayEnv playTable (fun _ => 0) 0 (some { cur_anim := some 2 }) 100
        none false = some r ∧ r.eanim = some u' ∧ u'.ctime = 41 := by
  obtain ⟨r, u', hr, he, -, hc, -⟩ := PrepareAnim_non_looping_end examplePlayEnv playTable
    (fun _ => 0) 0 { cur_anim := some 2 } 100 none false 2 oneFrameTrack rfl rfl rfl rfl
    (by
      rw [advance_ctime_running examplePlayEnv _ _ _ none rfl (fun e he => by cases he) rfl]
      norm_num [wrapLong, oneFrameTrack]
      exact over_of_small 100 42 _ (by norm_num) (by norm_num) (by norm_num) (by norm_num))
    (Or.inl rfl)
  refine ⟨r, u', hr, he, ?_⟩
  rw [hc, truncQ_nonneg _ (by norm_num [oneFrameTrack]), floor_oneFrameTrack]

theorem idle_to_walk_tick_without_entity :
    ∃ r u', PrepareAnim examplePlayEnv playTable (fun _ => 0) 1
        (some { cur_anim := some 1, next_anim := some 0 }) 1500 none false = some r ∧
      r.eanim = some u' ∧ u'.cur_anim = some 1 ∧ u'.next_anim = some 0 ∧
      u'.flags.EA_ANIMEND = true := by
  obtain ⟨r, u', hr, he, -, -, hf, hc, hn, -⟩ := PrepareAnim_non_looping_end examplePlayEnv
    playTable (fun _ => 0) 1 { cur_anim := some 1, next_anim := some 0 } 1500 none false 1
    emptyClipTrack rfl rfl rfl rfl
    (by
      rw [advance_ctime_running examplePlayEnv _ _ _ none rfl (fun e he => by cases he) rfl]
      norm_num [wrapLong, emptyClipTrack]
      exact over_of_small 1500 1000 _ (by norm_num) (by norm_num) (by norm_num) (by norm_num))
    (Or.inl rfl)
  refine ⟨r, u', hr, he, hc, hn, ?_⟩
  rw [hf]

theorem walk_roll :
    ANIM_GetAltIdx (fun _ => 0) 1 (playTable 0) 0 = some 1 := by
  have h : playTable 0 = { path := "walk", anims := [some emptyClipTrack, some emptyClipTrack]
                           alt_nb := 2, locks := 1 } := rfl
  rw [h]
  simp [ANIM_GetAltIdx, ANIM_GetAltIdx.retry, ANIM_GetAltIdx.pass, ANIM_GetAltIdx.totLoop,
    anim_power_at, anim_power]

/-- A tick on a playback state with a current clip: its result in terms of the
state, the entity and the events at the label `suite`. -/
theorem PrepareAnim_eq_of_endOfClip (penv : PlayEnv) (animations : AnimTable) (rnd : Nat → ℚ)
    (fuel : Nat) (u : ANIM_USE) (time : Nat) (io : Option Entity) (isPlayer : Bool) (h : Nat)
    (t t1 : EERIE_ANIM) (u1 : ANIM_USE) (io1 : Option Entity) (ev1 : List AnimEvent)
    (hcur : u.cur_anim = some h)
    (htrack : (animations h).track (PrepareAnim.altidx (animations h) u) = some t)
    (hend : PrepareAnim.endOfClip penv animations rnd fuel
      (PrepareAnim.stopEnd t
        (PrepareAnim.advance (animations h) u (PrepareAnim.time penv u time io))) t io
      = some (u1, io1, ev1))
    (htrack1 : PrepareAnim.track animations u1 = some t1) :
    PrepareAnim penv animations rnd fuel (some u) time io isPlayer =
      some { eanim := some (PrepareAnim.resolve t1 u1 (PrepareAnim.time penv u time io)
                (io1.map fun e => e.pos) isPlayer).1
             io := io1
             events := ev1 ++ (PrepareAnim.resolve t1 u1 (PrepareAnim.time penv u time io)
                (io1.map fun e => e.pos) isPlayer).2 } := by
  have ht := advance_track animations h u (PrepareAnim.time penv u time io) hcur
  rw [htrack] at ht
  simp only [PrepareAnim, hcur, ht, hend, htrack1]

/-- Every tick on a non-null playback state that has a defined outcome went
through the stages of `PrepareAnim`. -/
theorem PrepareAnim_inv (penv : PlayEnv) (animations : AnimTable) (rnd : Nat → ℚ)
    (fuel : Nat) (u : ANIM_USE) (time : Nat) (io : Option Entity) (isPlayer : Bool)
    (r : PrepareResult)
    (hr : PrepareAnim penv animations rnd fuel (some u) time io isPlayer = some r) :
    ∃ h t u1 io1 ev1 t1, u.cur_anim = some h ∧
      (animations h).track (PrepareAnim.altidx (animations h) u) = some t ∧
      PrepareAnim.endOfClip penv animations rnd fuel
        (PrepareAnim.stopEnd t
          (PrepareAnim.advance (animations h) u (PrepareAnim.time penv u time io))) t io
        = some (u1, io1, ev1) ∧
      PrepareAnim.track animations u1 = some t1 := by
  unfold PrepareAnim at hr
  dsimp only at hr
  cases hcur : u.cur_anim with
  | none => simp only [hcur] at hr; cases hr
  | some h =>
    simp only [hcur] at hr
    have ht := advance_track animations h u (PrepareAnim.time penv u time io) hcur
    cases htr : (animations h).track (PrepareAnim.altidx (animations h) u) with
    | none =>
      rw [htr] at ht
      simp only [ht] at hr
      cases hr
    | some t =>
      rw [htr] at ht
      simp only [ht] at hr
      cases hend : PrepareAnim.endOfClip penv animations rnd fuel
          (PrepareAnim.stopEnd t
            (PrepareAnim.advance (animations h) u (PrepareAnim.time penv u time io))) t io with
      | none => simp only [hend] at hr; cases hr
      | some x =>
        obtain ⟨u1, io1, ev1⟩ := x
        simp only [hend] at hr
        cases ht1 : PrepareAnim.track animations u1 with
        | none => simp only [ht1] at hr; cases hr
        | some t1 => exact ⟨h, t, u1, io1, ev1, t1, rfl, htr, hend, ht1⟩

theorem resolve_eq_frameLoop (t : EERIE_ANIM) (u : ANIM_USE) (time : Nat)
    (position : Option Vec3f) (isPlayer : Bool) :
    PrepareAnim.resolve t u time position isPlayer =
      PrepareAnim.frameLoop t { u with fr := t.nb_key_frames - 2, pour := 1 } time position
        isPlayer (PrepareAnim.tim t u) (t.nb_key_frames - 1).toNat 1 := rfl

theorem frameLoop_of_scan_none (t : EERIE_ANIM) (u : ANIM_USE) (time : Nat)
    (position : Option Vec3f) (isPlayer : Bool) (tim : Int) :
    ∀ n i, PrepareAnim.scan t tim n i = none →
      PrepareAnim.frameLoop t u time position isPlayer tim n i = (u, []) := by
  intro n
  induction n with
  | zero => intro i _; rfl
  | succ n ih =>
    intro i h
    unfold PrepareAnim.scan at h
    unfold PrepareAnim.frameLoop
    dsimp only at h ⊢
    by_cases h1 : truncQ (PrepareAnim.frameAt t (i - 1)).time = truncQ (PrepareAnim.frameAt t i).time
    · rw [if_pos h1]
    · rw [if_neg h1] at h ⊢
      by_cases h2 : (tim < truncQ (PrepareAnim.frameAt t i).time
            ∧ tim ≥ truncQ (PrepareAnim.frameAt t (i - 1)).time)
          ∨ (i = t.nb_key_frames - 1 ∧ tim = truncQ (PrepareAnim.frameAt t i).time)
      · rw [if_pos h2] at h
        cases h
      · rw [if_neg h2] at h ⊢
        exact ih (i + 1) h

theorem frameLoop_of_scan_some (t : EERIE_ANIM) (u : ANIM_USE) (time : Nat)
    (position : Option Vec3f) (isPlayer : Bool) (tim : Int) :
    ∀ n i fr, PrepareAnim.scan t tim n i = some fr →
      PrepareAnim.frameLoop t u time position isPlayer tim n i =
        ({ u with
           lastframe := fr, fr := fr
           pour := ((tim - PrepareAnim.keyTime t fr : Int) : ℚ)
             / (((PrepareAnim.keyTime t (fr + 1) : Int) : ℚ)
               - ((PrepareAnim.keyTime t fr : Int) : ℚ)) },
          PrepareAnim.sounds t u time fr position
            ++ PrepareAnim.steps t u time fr position isPlayer) := by
  intro n
  induction n with
  | zero => intro i fr h; cases h
  | succ n ih =>
    intro i fr h
    unfold PrepareAnim.scan at h
    unfold PrepareAnim.frameLoop
    dsimp only at h ⊢
    by_cases h1 : truncQ (PrepareAnim.frameAt t (i - 1)).time = truncQ (PrepareAnim.frameAt t i).time
    · rw [if_pos h1] at h
      cases h
    · rw [if_neg h1] at h ⊢
      by_cases h2 : (tim < truncQ (PrepareAnim.frameAt t i).time
            ∧ tim ≥ truncQ (PrepareAnim.frameAt t (i - 1)).time)
          ∨ (i = t.nb_key_frames - 1 ∧ tim = truncQ (PrepareAnim.frameAt t i).time)
      · rw [if_pos h2] at h ⊢
        simp only [Option.some.injEq] at h
        subst h
        unfold PrepareAnim.keyTime
        rw [sub_add_cancel]
      · rw [if_neg h2] at h ⊢
        exact ih (i + 1) fr h

/-- What the scan of the frame loop selects: the first pair, in order, that passes
the test, no pair before it having equal times. -/
theorem scan_some_spec (t : EERIE_ANIM) (tim : Int) :
    ∀ n i fr, PrepareAnim.scan t tim n i = some fr →
      i - 1 ≤ fr ∧ fr < i - 1 + (n : Int) ∧
      PrepareAnim.keyTime t fr ≠ PrepareAnim.keyTime t (fr + 1) ∧
      PrepareAnim.bounds t tim fr ∧
      ∀ f, i - 1 ≤ f → f < fr →
        PrepareAnim.keyTime t f ≠ PrepareAnim.keyTime t (f + 1) ∧ ¬ PrepareAnim.bounds t tim f := by
  intro n
  induction n with
  | zero => intro i fr h; cases h
  | succ n ih =>
    intro i fr h
    unfold PrepareAnim.scan at h
    dsimp only at h
    by_cases h1 : truncQ (PrepareAnim.frameAt t (i - 1)).time = truncQ (PrepareAnim.frameAt t i).time
    · rw [if_pos h1] at h
      cases h
    · rw [if_neg h1] at h
      by_cases h2 : (tim < truncQ (PrepareAnim.frameAt t i).time
            ∧ tim ≥ truncQ (PrepareAnim.frameAt t (i - 1)).time)
          ∨ (i = t.nb_key_frames - 1 ∧ tim = truncQ (PrepareAnim.frameAt t i).time)
      · rw [if_pos h2] at h
        simp only [Option.some.injEq] at h
        subst h
        refine ⟨le_refl _, by push_cast; omega, ?_, ?_, ?_⟩
        · unfold PrepareAnim.keyTime
          rw [sub_add_cancel]
          exact h1
        · unfold PrepareAnim.bounds PrepareAnim.keyTime
          rw [sub_add_cancel]
          exact h2
        · intro f hf1 hf2
          omega
      · rw [if_neg h2] at h
        obtain ⟨a1, a2, a3, a4, a5⟩ := ih (i + 1) fr h
        refine ⟨by omega, by push_cast; omega, a3, a4, ?_⟩
        intro f hf1 hf2
        by_cases hfi : f = i - 1
        · subst hfi
          constructor
          · unfold PrepareAnim.keyTime
            rw [sub_add_cancel]
            exact h1
          · unfold PrepareAnim.bounds PrepareAnim.keyTime
            rw [sub_add_cancel]
            exact h2
        · exact a5 f (by omega) hf2

/-- The scan selects nothing when it meets a pair of equal times before a pair that
passes the test. -/
theorem scan_none_of_equal (t : EERIE_ANIM) (tim : Int) :
    ∀ (n : Nat) (i j : Int), i - 1 ≤ j → j < i - 1 + (n : Int) →
      PrepareAnim.keyTime t j = PrepareAnim.keyTime t (j + 1) →
      (∀ f, i - 1 ≤ f → f < j → ¬ PrepareAnim.bounds t tim f) →
      PrepareAnim.scan t tim n i = none := by
  intro n
  induction n with
  | zero =>
    intro i j h1 h2
    push_cast at h2
    omega
  | succ n ih =>
    intro i j hj1 hj2 heq hno
    unfold PrepareAnim.scan
    dsimp only
    by_cases h1 : truncQ (PrepareAnim.frameAt t (i - 1)).time = truncQ (PrepareAnim.frameAt t i).time
    · rw [if_pos h1]
    · rw [if_neg h1]
      have hji : j ≠ i - 1 := by
        intro hh
        subst hh
        unfold PrepareAnim.keyTime at heq
        rw [sub_add_cancel] at heq
        exact h1 heq
      have h2 : ¬ ((tim < truncQ (PrepareAnim.frameAt t i).time
            ∧ tim ≥ truncQ (PrepareAnim.frameAt t (i - 1)).time)
          ∨ (i = t.nb_key_frames - 1 ∧ tim = truncQ (PrepareAnim.frameAt t i).time)) := by
        have := hno (i - 1) (le_refl _) (by omega)
        unfold PrepareAnim.bounds PrepareAnim.keyTime at this
        rw [sub_add_cancel] at this
        exact this
      rw [if_neg h2]
      exact ih (i + 1) j (by omega) (by push_cast at hj2 ⊢; omega) heq
        (fun f hf1 hf2 => hno f (by omega) hf2)

theorem advance_lastframe (ah : ANIM_HANDLE) (u : ANIM_USE) (time : Nat) :
    (PrepareAnim.advance ah u time).lastframe = u.lastframe := by
  unfold PrepareAnim.advance
  dsimp only
  split_ifs <;> rfl

theorem stopEnd_fields (t : EERIE_ANIM) (u : ANIM_USE) :
    (PrepareAnim.stopEnd t u).lastframe = u.lastframe ∧
      (PrepareAnim.stopEnd t u).flags = u.flags ∧
      (PrepareAnim.stopEnd t u).cur_anim = u.cur_anim ∧
      (PrepareAnim.stopEnd t u).next_anim = u.next_anim ∧
      (PrepareAnim.stopEnd t u).altidx_cur = u.altidx_cur ∧
      (PrepareAnim.stopEnd t u).nextflags = u.nextflags := by
  unfold PrepareAnim.stopEnd
  split_ifs <;> exact ⟨rfl, rfl, rfl, rfl, rfl, rfl⟩

theorem advance_ctime_zero (ah : ANIM_HANDLE) (u : ANIM_USE)
    (h1 : -(2 ^ 63) ≤ u.ctime) (h2 : u.ctime < 2 ^ 63) :
    (PrepareAnim.advance ah u 0).ctime = u.ctime := by
  rw [advance_ctime]
  split_ifs
  · rfl
  · rw [Nat.cast_zero, add_zero, wrapLong_id _ h1 h2]

/-- Before the end of the track the end-of-clip part changes nothing. -/
theorem endOfClip_before_end_float (penv : PlayEnv) (animations : AnimTable) (rnd : Nat → ℚ)
    (fuel : Nat) (a : ANIM_USE) (t : EERIE_ANIM) (io : Option Entity)
    (h : ¬ (floatOfLong a.ctime > roundFloat t.anim_time)) :
    PrepareAnim.endOfClip penv animations rnd fuel a t io = some (a, io, []) := by
  unfold PrepareAnim.endOfClip
  split_ifs <;> rfl

/-- Before the end of the track, also in the exact comparison, the end-of-clip part
changes nothing. -/
theorem endOfClip_before_end (penv : PlayEnv) (animations : AnimTable) (rnd : Nat → ℚ)
    (fuel : Nat) (a : ANIM_USE) (t : EERIE_ANIM) (io : Option Entity)
    (h : ¬ ((a.ctime : ℚ) > t.anim_time)) :
    PrepareAnim.endOfClip penv animations rnd fuel a t io = some (a, io, []) :=
  endOfClip_before_end_float penv animations rnd fuel a t io (not_over_float _ _ h)

theorem switch_lastframe (penv : PlayEnv) (animations : AnimTable) (rnd : Nat → ℚ)
    (fuel : Nat) (a : ANIM_USE) (next : Nat) (lost : Int) (io : Option Entity)
    (u1 : ANIM_USE) (io1 : Option Entity) (ev1 : List AnimEvent)
    (h : PrepareAnim.switch penv animations rnd fuel a next lost io = some (u1, io1, ev1)) :
    u1.lastframe = -1 ∧ ev1 = PrepareAnim.finishEvents io a.cur_anim := by
  unfold PrepareAnim.switch at h
  dsimp only at h
  cases hi : ANIM_GetAltIdx rnd fuel (animations next) a.altidx_cur with
  | none => simp only [hi] at h; cases h
  | some idx =>
    simp only [hi, Option.some.injEq, Prod.mk.injEq] at h
    obtain ⟨h1, -, h3⟩ := h
    subst h1
    exact ⟨rfl, h3.symm⟩

/-- The end-of-clip part leaves the last evaluated frame as it was, or resets it
to -1 in a transition; the only call it makes is `FinishAnim`. -/
theorem endOfClip_lastframe (penv : PlayEnv) (animations : AnimTable) (rnd : Nat → ℚ)
    (fuel : Nat) (a : ANIM_USE) (t : EERIE_ANIM) (io : Option Entity)
    (u1 : ANIM_USE) (io1 : Option Entity) (ev1 : List AnimEvent)
    (h : PrepareAnim.endOfClip penv animations rnd fuel a t io = some (u1, io1, ev1)) :
    (u1.lastframe = a.lastframe ∨ u1.lastframe = -1) ∧
      (ev1 = [] ∨ ev1 = PrepareAnim.finishEvents io a.cur_anim) := by
  unfold PrepareAnim.endOfClip at h
  by_cases hl : PrepareAnim.isLooping penv a io = true
  · rw [if_pos hl] at h
    by_cases ho : floatOfLong a.ctime > roundFloat t.anim_time
    · rw [if_pos ho] at h
      dsimp only at h
      cases hn : a.next_anim with
      | none =>
        simp only [hn] at h
        by_cases h0 : truncQ t.anim_time = 0
        · rw [if_pos h0] at h
          cases h
        · rw [if_neg h0] at h
          simp only [Option.some.injEq, Prod.mk.injEq] at h
          obtain ⟨h1, -, h3⟩ := h
          subst h1
          exact ⟨Or.inl rfl, Or.inr h3.symm⟩
      | some next =>
        simp only [hn] at h
        obtain ⟨h1, h2⟩ := switch_lastframe penv animations rnd fuel a next _ io u1 io1 ev1 h
        exact ⟨Or.inr h1, Or.inr h2⟩
    · rw [if_neg ho] at h
      simp only [Option.some.injEq, Prod.mk.injEq] at h
      obtain ⟨h1, -, h3⟩ := h
      subst h1
      exact ⟨Or.inl rfl, Or.inl h3.symm⟩
  · rw [if_neg hl] at h
    by_cases ho : floatOfLong a.ctime > roundFloat t.anim_time
    · rw [if_pos ho] at h
      cases hio : io with
      | none =>
        simp only [hio, Option.some.injEq, Prod.mk.injEq] at h
        obtain ⟨h1, -, h3⟩ := h
        subst h1
        exact ⟨Or.inl rfl, Or.inl h3.symm⟩
      | some e =>
        cases hn : a.next_anim with
        | none =>
          simp only [hio, hn, Option.some.injEq, Prod.mk.injEq] at h
          obtain ⟨h1, -, h3⟩ := h
          subst h1
          exact ⟨Or.inl rfl, Or.inl h3.symm⟩
        | some next =>
          simp only [hio, hn] at h
          obtain ⟨h1, h2⟩ := switch_lastframe penv animations rnd fuel a next _ (some e)
            u1 io1 ev1 h
          exact ⟨Or.inr h1, Or.inr h2⟩
    · rw [if_neg ho] at h
      simp only [Option.some.injEq, Prod.mk.injEq] at h
      obtain ⟨h1, -, h3⟩ := h
      subst h1
      exact ⟨Or.inl rfl, Or.inl h3.symm⟩

theorem finishEvents_all (io : Option Entity) (cur : Option Nat) :
    (PrepareAnim.finishEvents io cur).filter (fun ev => !ev.isFinish) = [] := by
  cases io <;> cases cur <;> rfl

theorem endOfClip_events (penv : PlayEnv) (animations : AnimTable) (rnd : Nat → ℚ)
    (fuel : Nat) (a : ANIM_USE) (t : EERIE_ANIM) (io : Option Entity)
    (u1 : ANIM_USE) (io1 : Option Entity) (ev1 : List AnimEvent)
    (h : PrepareAnim.endOfClip penv animations rnd fuel a t io = some (u1, io1, ev1)) :
    ev1.filter (fun ev => !ev.isFinish) = [] := by
  rcases (endOfClip_lastframe penv animations rnd fuel a t io u1 io1 ev1 h).2 with h1 | h1
  · rw [h1]
    rfl
  · rw [h1]
    exact finishEvents_all io a.cur_anim

theorem sounds_of_time_zero (t : EERIE_ANIM) (u : ANIM_USE) (fr : Int)
    (position : Option Vec3f) : PrepareAnim.sounds t u 0 fr position = [] := by
  unfold PrepareAnim.sounds
  rw [if_neg]
  intro h
  exact h.2.1 rfl

theorem steps_of_time_zero (t : EERIE_ANIM) (u : ANIM_USE) (fr : Int)
    (position : Option Vec3f) (isPlayer : Bool) :
    PrepareAnim.steps t u 0 fr position isPlayer = [] := by
  unfold PrepareAnim.steps
  rw [if_neg]
  intro h
  exact h.2.1 rfl

theorem resolve_scan_none (t : EERIE_ANIM) (u : ANIM_USE) (time : Nat)
    (position : Option Vec3f) (isPlayer : Bool)
    (h : PrepareAnim.scan t (PrepareAnim.tim t u) (t.nb_key_frames - 1).toNat 1 = none) :
    PrepareAnim.resolve t u time position isPlayer
      = ({ u with fr := t.nb_key_frames - 2, pour := 1 }, []) := by
  rw [resolve_eq_frameLoop]
  exact frameLoop_of_scan_none t _ time position isPlayer _ _ 1 h

theorem sounds_congr (t : EERIE_ANIM) (u u' : ANIM_USE) (time : Nat) (fr : Int)
    (position : Option Vec3f) (h1 : u'.flags = u.flags) (h2 : u'.lastframe = u.lastframe) :
    PrepareAnim.sounds t u' time fr position = PrepareAnim.sounds t u time fr position := by
  unfold PrepareAnim.sounds
  rw [h1, h2]

theorem steps_congr (t : EERIE_ANIM) (u u' : ANIM_USE) (time : Nat) (fr : Int)
    (position : Option Vec3f) (isPlayer : Bool) (h1 : u'.flags = u.flags)
    (h2 : u'.lastframe = u.lastframe) :
    PrepareAnim.steps t u' time fr position isPlayer
      = PrepareAnim.steps t u time fr position isPlayer := by
  unfold PrepareAnim.steps
  rw [h1, h2]

theorem resolve_scan_some (t : EERIE_ANIM) (u : ANIM_USE) (time : Nat)
    (position : Option Vec3f) (isPlayer : Bool) (fr : Int)
    (h : PrepareAnim.scan t (PrepareAnim.tim t u) (t.nb_key_frames - 1).toNat 1 = some fr) :
    PrepareAnim.resolve t u time position isPlayer
      = ({ u with
           lastframe := fr, fr := fr
           pour := ((PrepareAnim.tim t u - PrepareAnim.keyTime t fr : Int) : ℚ)
             / (((PrepareAnim.keyTime t (fr + 1) : Int) : ℚ)
               - ((PrepareAnim.keyTime t fr : Int) : ℚ)) },
          PrepareAnim.sounds t u time fr position
            ++ PrepareAnim.steps t u time fr position isPlayer) := by
  rw [resolve_eq_frameLoop, frameLoop_of_scan_some t _ time position isPlayer _ _ 1 fr h]
  rfl

theorem resolve_events_of_time_zero (t : EERIE_ANIM) (u : ANIM_USE)
    (position : Option Vec3f) (isPlayer : Bool) :
    (PrepareAnim.resolve t u 0 position isPlayer).2 = [] := by
  cases hs : PrepareAnim.scan t (PrepareAnim.tim t u) (t.nb_key_frames - 1).toNat 1 with
  | none => rw [resolve_scan_none t u 0 position isPlayer hs]
  | some fr =>
    rw [resolve_scan_some t u 0 position isPlayer fr hs]
    dsimp only
    rw [sounds_of_time_zero, steps_of_time_zero]
    rfl

theorem time_of_stopped (penv : PlayEnv) (u : ANIM_USE) (time : Nat) (io : Option Entity)
    (h : u.flags.EA_PAUSED = true ∨ ∃ e, io = some e ∧ e.ioflags &&& penv.IO_FREEZESCRIPT ≠ 0) :
    PrepareAnim.time penv u time io = 0 := by
  unfold PrepareAnim.time
  rcases h with h | ⟨e, rfl, he⟩
  · cases io with
    | none => simp [h]
    | some e => simp [h]
  · simp [he]

theorem time_zero (penv : PlayEnv) (u : ANIM_USE) (io : Option Entity) :
    PrepareAnim.time penv u 0 io = 0 := by
  unfold PrepareAnim.time
  cases io with
  | none => simp
  | some e => simp

theorem TheaToEerie_twoFrameClip :
    TheaToEerie (exampleEnv exampleFiles) twoFrameClip = some (some twoFrameTrack) := by
  obtain ⟨e, he⟩ := twoFrameClip_decodes
  rw [he]
  obtain ⟨e0, h0, -, -, -, rfl⟩ := TheaToEerie_decoded_reads _ _ _ e _ twoFrameClip_header he
    twoFrameClip_reads
  obtain ⟨-, -, rfl⟩ := alloc_inv _ e0 h0
  simp [twoFrameHeader, TheaToEerie.post, TheaToEerie.storeAll, TheaToEerie.store,
    TheaToEerie.frameOf, TheaToEerie.storeGroups, TheaToEerie.groupOf, TheaToEerie.fillLoop,
    TheaToEerie.fillTranslate, TheaToEerie.fillRotate, TheaToEerie.scanBack,
    TheaToEerie.scanFwd, TheaToEerie.voidLoop, TheaToEerie.voidScan, GetTimeBetweenKeyFrames,
    wrapS32, Vec3f.scale, Vec3f.add, Vec3f.ZERO, List.replicate, twoFrameTrack, exampleEnv]
  norm_num
  exact ⟨rfl, rfl⟩

theorem stopEnd_of_not_over_float (t : EERIE_ANIM) (u : ANIM_USE)
    (h : ¬ (floatOfLong u.ctime > roundFloat t.anim_time)) : PrepareAnim.stopEnd t u = u := by
  unfold PrepareAnim.stopEnd
  rw [if_neg]
  intro hh
  exact h hh.2

theorem stopEnd_of_not_over (t : EERIE_ANIM) (u : ANIM_USE)
    (h : ¬ ((u.ctime : ℚ) > t.anim_time)) : PrepareAnim.stopEnd t u = u :=
  stopEnd_of_not_over_float t u (not_over_float _ _ h)

/-- A tick that stays before the end of the track: the state after the time
advance goes to the frame search as it is, and no call is made before it. -/
theorem endOfClip_plain (penv : PlayEnv) (animations : AnimTable) (rnd : Nat → ℚ)
    (fuel : Nat) (a : ANIM_USE) (t : EERIE_ANIM) (io : Option Entity)
    (h : ¬ ((a.ctime : ℚ) > t.anim_time)) :
    PrepareAnim.endOfClip penv animations rnd fuel (PrepareAnim.stopEnd t a) t io
      = some (a, io, []) := by
  rw [stopEnd_of_not_over t a h]
  exact endOfClip_before_end penv animations rnd fuel a t io h

theorem endOfClip_plain_float (penv : PlayEnv) (animations : AnimTable) (rnd : Nat → ℚ)
    (fuel : Nat) (a : ANIM_USE) (t : EERIE_ANIM) (io : Option Entity)
    (h : ¬ (floatOfLong a.ctime > roundFloat t.anim_time)) :
    PrepareAnim.endOfClip penv animations rnd fuel (PrepareAnim.stopEnd t a) t io
      = some (a, io, []) := by
  rw [stopEnd_of_not_over_float t a h]
  exact endOfClip_before_end_float penv animations rnd fuel a t io h

theorem track_advance (animations : AnimTable) (h : Nat) (u : ANIM_USE) (time : Nat)
    (t : EERIE_ANIM) (hcur : u.cur_anim = some h)
    (htrack : (animations h).track (PrepareAnim.altidx (animations h) u) = some t) :
    PrepareAnim.track animations (PrepareAnim.advance (animations h) u time) = some t := by
  rw [advance_track animations h u time hcur]
  exact htrack

theorem tim_advance_forward (penv : PlayEnv) (ah : ANIM_HANDLE) (u : ANIM_USE) (time : Nat)
    (io : Option Entity) (t : EERIE_ANIM)
    (hp : u.flags.EA_PAUSED = false)
    (hf : ∀ e, io = some e → e.ioflags &&& penv.IO_FREEZESCRIPT = 0)
    (hex : u.flags.EA_EXCONTROL = false) (hrev : u.flags.EA_REVERSE = false) :
    PrepareAnim.tim t (PrepareAnim.advance ah u (PrepareAnim.time penv u time io))
      = wrapLong (u.ctime + (time : Int)) := by
  unfold PrepareAnim.tim
  rw [advance_flags, advance_ctime_running penv ah u time io hp hf hex]
  simp [hrev]

/-- The transition of the end-of-clip part: past the end of the track with a clip
queued, for a looping clip or with an entity. -/
theorem endOfClip_switch (penv : PlayEnv) (animations : AnimTable) (rnd : Nat → ℚ)
    (fuel : Nat) (a : ANIM_USE) (t : EERIE_ANIM) (io : Option Entity) (h next : Nat)
    (idx : Int)
    (hcur : a.cur_anim = some h) (hnext : a.next_anim = some next)
    (hover : floatOfLong a.ctime > roundFloat t.anim_time)
    (hbranch : PrepareAnim.isLooping penv a io = true ∨ ∃ e, io = some e)
    (hidx : ANIM_GetAltIdx rnd fuel (animations next) a.altidx_cur = some idx) :
    PrepareAnim.endOfClip penv animations rnd fuel a t io =
      some ({ next_anim := none, cur_anim := some next, altidx_cur := idx
              ctime := (if PrepareAnim.isLooping penv a io = true then
                  a.ctime - truncQ t.anim_time
                else truncQ (roundFloat (floatOfLong a.ctime - roundFloat t.anim_time)))
              flags := { a.nextflags with EA_ANIMEND := false }
              nextflags := a.nextflags
              lastframe := -1
              pour := a.pour
              fr := a.fr },
            PrepareAnim.latch penv io (some h), PrepareAnim.finishEvents io (some h)) := by
  have hsw : ∀ lost, PrepareAnim.switch penv animations rnd fuel a next lost io
      = some ({ next_anim := none, cur_anim := some next, altidx_cur := idx, ctime := lost
                flags := { a.nextflags with EA_ANIMEND := false }
                nextflags := a.nextflags
                lastframe := -1
                pour := a.pour
                fr := a.fr },
              PrepareAnim.latch penv io (some h), PrepareAnim.finishEvents io (some h)) := by
    intro lost
    unfold PrepareAnim.switch
    simp only [hidx, hcur, ResetAnim.reset]
  unfold PrepareAnim.endOfClip
  by_cases hlo : PrepareAnim.isLooping penv a io = true
  · simp only [hlo, if_true, if_pos hover, hnext]
    exact hsw _
  · rcases hbranch with hb | ⟨e, rfl⟩
    · exact absurd hb hlo
    · simp only [hlo, if_false, if_pos hover, hnext]
      exact hsw _

theorem mem_sounds (t : EERIE_ANIM) (u : ANIM_USE) (time : Nat) (fr : Int)
    (position : Option Vec3f) (ev : AnimEvent)
    (h : ev ∈ PrepareAnim.sounds t u time fr position) :
    u.flags.EA_ANIMEND = false ∧ time ≠ 0 ∧ u.lastframe ≠ fr := by
  unfold PrepareAnim.sounds at h
  by_cases hc : u.flags.EA_ANIMEND = false ∧ time ≠ 0 ∧ (PrepareAnim.frameAt t fr).sample ≠ -1
      ∧ u.lastframe ≠ fr
  · exact ⟨hc.1, hc.2.1, hc.2.2.2⟩
  · rw [if_neg hc] at h
    simp at h

theorem mem_steps (t : EERIE_ANIM) (u : ANIM_USE) (time : Nat) (fr : Int)
    (position : Option Vec3f) (isPlayer : Bool) (ev : AnimEvent)
    (h : ev ∈ PrepareAnim.steps t u time fr position isPlayer) :
    u.flags.EA_ANIMEND = false ∧ time ≠ 0 ∧ u.lastframe ≠ fr := by
  unfold PrepareAnim.steps at h
  by_cases hc : u.flags.EA_ANIMEND = false ∧ time ≠ 0 ∧ (PrepareAnim.frameAt t fr).flag > 0
      ∧ u.lastframe ≠ fr
  · exact ⟨hc.1, hc.2.1, hc.2.2.2⟩
  · rw [if_neg hc] at h
    simp at h

/-- The sound block when frames were skipped: nothing unless the frame `fr` itself
has a sample, and then one call per frame after the last evaluated one, in order. -/
theorem sounds_replay (t : EERIE_ANIM) (u : ANIM_USE) (time : Nat) (fr : Int)
    (position : Option Vec3f) (he : u.flags.EA_ANIMEND = false) (ht : time ≠ 0)
    (h0 : 0 ≤ u.lastframe) (hlt : u.lastframe < fr) :
    PrepareAnim.sounds t u time fr position =
      if (PrepareAnim.frameAt t fr).sample ≠ -1 then
        (List.range (fr - u.lastframe).toNat).map fun d =>
          AnimEvent.ARX_SOUND_PlayAnim
            (PrepareAnim.frameAt t (u.lastframe + 1 + (d : Int))).sample position
      else [] := by
  unfold PrepareAnim.sounds
  by_cases hs : (PrepareAnim.frameAt t fr).sample ≠ -1
  · rw [if_pos ⟨he, ht, hs, by omega⟩, if_pos ⟨hlt, by omega⟩, if_pos hs]
  · rw [if_neg (fun hh => hs hh.2.2.1), if_neg hs]

/-- The sound block on a first evaluation or a move backward: the sound of the
frame `fr` alone, if it has one. -/
theorem sounds_single (t : EERIE_ANIM) (u : ANIM_USE) (time : Nat) (fr : Int)
    (position : Option Vec3f) (he : u.flags.EA_ANIMEND = false) (ht : time ≠ 0)
    (hne : u.lastframe ≠ fr) (hl : u.lastframe = -1 ∨ fr < u.lastframe) :
    PrepareAnim.sounds t u time fr position =
      if (PrepareAnim.frameAt t fr).sample ≠ -1 then
        [AnimEvent.ARX_SOUND_PlayAnim (PrepareAnim.frameAt t fr).sample position]
      else [] := by
  unfold PrepareAnim.sounds
  have hn : ¬ (u.lastframe < fr ∧ u.lastframe ≠ -1) := by
    intro hh
    omega
  by_cases hs : (PrepareAnim.frameAt t fr).sample ≠ -1
  · rw [if_pos ⟨he, ht, hs, hne⟩, if_neg hn, if_pos hs]
  · rw [if_neg (fun hh => hs hh.2.2.1), if_neg hs]

/-- The footstep block when frames were skipped, for an owner that is not the
player: nothing unless the flag of the frame `fr` itself is positive, and then one
request per frame with the flag 9 after the last evaluated one. -/
theorem steps_replay (t : EERIE_ANIM) (u : ANIM_USE) (time : Nat) (fr : Int)
    (position : Option Vec3f) (he : u.flags.EA_ANIMEND = false) (ht : time ≠ 0)
    (h0 : 0 ≤ u.lastframe) (hlt : u.lastframe < fr) :
    PrepareAnim.steps t u time fr position false =
      if (PrepareAnim.frameAt t fr).flag > 0 then
        ((List.range (fr - u.lastframe).toNat).filter fun d =>
          decide ((PrepareAnim.frameAt t (u.lastframe + 1 + (d : Int))).flag = 9)).map
          fun _ => AnimEvent.ARX_NPC_NeedStepSound position
      else [] := by
  unfold PrepareAnim.steps
  by_cases hs : (PrepareAnim.frameAt t fr).flag > 0
  · rw [if_pos ⟨he, ht, hs, by omega⟩, if_pos rfl, if_pos ⟨hlt, by omega⟩, if_pos hs]
  · rw [if_neg (fun hh => hs hh.2.2.1), if_neg hs]

/-- The footstep block on a first evaluation or a move backward, for an owner that
is not the player: one request if the flag of the frame `fr` is 9. -/
theorem steps_single (t : EERIE_ANIM) (u : ANIM_USE) (time : Nat) (fr : Int)
    (position : Option Vec3f) (he : u.flags.EA_ANIMEND = false) (ht : time ≠ 0)
    (hne : u.lastframe ≠ fr) (hl : u.lastframe = -1 ∨ fr < u.lastframe) :
    PrepareAnim.steps t u time fr position false =
      if (PrepareAnim.frameAt t fr).flag = 9 then
        [AnimEvent.ARX_NPC_NeedStepSound position]
      else [] := by
  unfold PrepareAnim.steps
  have hn : ¬ (u.lastframe < fr ∧ u.lastframe ≠ -1) := by
    intro hh
    omega
  by_cases hs : (PrepareAnim.frameAt t fr).flag = 9
  · rw [if_pos ⟨he, ht, by omega, hne⟩, if_pos rfl, if_neg hn, if_pos hs]
  · by_cases hp : (PrepareAnim.frameAt t fr).flag > 0
    · rw [if_pos ⟨he, ht, hp, hne⟩, if_pos rfl, if_neg hn, if_neg hs]
    · rw [if_neg (fun hh => hp hh.2.2.1), if_neg hs]

theorem time_ne_zero (penv : PlayEnv) (u : ANIM_USE) (time : Nat) (io : Option Entity)
    (h : PrepareAnim.time penv u time io ≠ 0) :
    time ≠ 0 ∧ u.flags.EA_PAUSED = false ∧
      ∀ e, io = some e → e.ioflags &&& penv.IO_FREEZESCRIPT = 0 := by
  refine ⟨?_, ?_, ?_⟩
  · intro h0
    subst h0
    exact h (time_zero penv u io)
  · cases hp : u.flags.EA_PAUSED with
    | false => rfl
    | true => exact absurd (time_of_stopped penv u time io (Or.inl hp)) h
  · intro e he
    by_contra hf
    exact h (time_of_stopped penv u time io (Or.inr ⟨e, he, hf⟩))

theorem talk_skip_tick :
    ∃ r u', PrepareAnim examplePlayEnv frameTable (fun _ => 0) 0
        (some { cur_anim := some 4, lastframe := 0, ctime := 50 }) 250 (some exampleOwner)
        false = some r ∧
      r.eanim = some u' ∧ u'.lastframe = 2 ∧ r.events = [] := by
  have hrun : ∀ e, some exampleOwner = some e →
      e.ioflags &&& examplePlayEnv.IO_FREEZESCRIPT = 0 := by
    intro e he
    cases he
    rfl
  have htime : PrepareAnim.time examplePlayEnv { cur_anim := some 4, lastframe := 0, ctime := 50 }
      250 (some exampleOwner) = 250 := time_of_running _ _ _ _ rfl hrun
  have htim : PrepareAnim.tim soundTrack (PrepareAnim.advance (frameTable 4)
      { cur_anim := some 4, lastframe := 0, ctime := 50 }
      (PrepareAnim.time examplePlayEnv { cur_anim := some 4, lastframe := 0, ctime := 50 } 250
        (some exampleOwner))) = 300 := by
    rw [tim_advance_forward examplePlayEnv _ _ _ (some exampleOwner) _ rfl hrun rfl rfl]
    norm_num [wrapLong]
  have hno : ¬ (((PrepareAnim.advance (frameTable 4)
      { cur_anim := some 4, lastframe := 0, ctime := 50 }
      (PrepareAnim.time examplePlayEnv { cur_anim := some 4, lastframe := 0, ctime := 50 } 250
        (some exampleOwner))).ctime : ℚ) > soundTrack.anim_time) := by
    rw [advance_ctime_running examplePlayEnv _ _ _ (some exampleOwner) rfl hrun rfl]
    norm_num [wrapLong, soundTrack]
  have hsel : PrepareAnim.scan soundTrack (PrepareAnim.tim soundTrack
      (PrepareAnim.advance (frameTable 4) { cur_anim := some 4, lastframe := 0, ctime := 50 }
        (PrepareAnim.time examplePlayEnv { cur_anim := some 4, lastframe := 0, ctime := 50 } 250
          (some exampleOwner)))) (soundTrack.nb_key_frames - 1).toNat 1 = some 2 := by
    rw [htim]
    simp [PrepareAnim.scan, PrepareAnim.frameAt, soundTrack, truncQ]
  have hr := PrepareAnim_eq_of_endOfClip examplePlayEnv frameTable (fun _ => 0) 0
    { cur_anim := some 4, lastframe := 0, ctime := 50 } 250 (some exampleOwner) false 4
    soundTrack soundTrack _ (some exampleOwner) [] rfl rfl
    (endOfClip_plain examplePlayEnv frameTable (fun _ => 0) 0 _ soundTrack _ hno)
    (track_advance frameTable 4 _ _ soundTrack rfl rfl)
  rw [resolve_scan_some _ _ _ _ _ 2 hsel] at hr
  refine ⟨_, _, hr, rfl, rfl, ?_⟩
  simp [PrepareAnim.sounds, PrepareAnim.steps, PrepareAnim.frameAt, soundTrack]

theorem step_after_switch_tick :
    ∃ r u', PrepareAnim examplePlayEnv frameTable (fun _ => 0) 0
        (some { cur_anim := some 1, next_anim := some 3, lastframe := 0
                flags := { EA_LOOP := true } }) 1100 (some exampleOwner) false = some r ∧
      r.eanim = some u' ∧ u'.lastframe = 0 ∧ u'.cur_anim = some 3 ∧
      r.events = [AnimEvent.FinishAnim 1, AnimEvent.ARX_NPC_NeedStepSound (some {})] := by
  have hrun : ∀ e, some exampleOwner = some e →
      e.ioflags &&& examplePlayEnv.IO_FREEZESCRIPT = 0 := by
    intro e he
    cases he
    rfl
  have htime : PrepareAnim.time examplePlayEnv
      { cur_anim := some 1, next_anim := some 3, lastframe := 0, flags := { EA_LOOP := true } }
      1100 (some exampleOwner) = 1100 := time_of_running _ _ _ _ rfl hrun
  have hct : (PrepareAnim.advance (frameTable 1)
      { cur_anim := some 1, next_anim := some 3, lastframe := 0, flags := { EA_LOOP := true } }
      1100).ctime = 1100 := by
    rw [← htime, advance_ctime_running examplePlayEnv _ _ _ (some exampleOwner) rfl hrun rfl]
    norm_num [wrapLong]
  have hloop : PrepareAnim.isLooping examplePlayEnv (PrepareAnim.advance (frameTable 1)
      { cur_anim := some 1, next_anim := some 3, lastframe := 0, flags := { EA_LOOP := true } }
      1100) (some exampleOwner) = true := by
    rw [isLooping_congr examplePlayEnv
      { cur_anim := some 1, next_anim := some 3, lastframe := 0, flags := { EA_LOOP := true } }
      _ _ (by rw [advance_flags]) (advance_cur_anim _ _ _)]
    rfl
  have hend := endOfClip_switch examplePlayEnv frameTable (fun _ => 0) 0
    (PrepareAnim.advance (frameTable 1)
      { cur_anim := some 1, next_anim := some 3, lastframe := 0, flags := { EA_LOOP := true } }
      1100) emptyClipTrack (some exampleOwner) 1 3 0
    (by rw [advance_cur_anim]) (by rw [advance_next_anim])
    (by
      rw [hct]
      norm_num [emptyClipTrack]
      exact over_of_small 1100 1000 _ (by norm_num) (by norm_num) (by norm_num) (by norm_num))
    (Or.inl hloop)
    ((ANIM_GetAltIdx_spec _ _ _ _).1 rfl)
  rw [hloop, if_pos rfl, hct, advance_nextflags] at hend
  have hs : PrepareAnim.stopEnd emptyClipTrack (PrepareAnim.advance (frameTable 1)
      { cur_anim := some 1, next_anim := some 3, lastframe := 0, flags := { EA_LOOP := true } }
      1100) = PrepareAnim.advance (frameTable 1)
      { cur_anim := some 1, next_anim := some 3, lastframe := 0, flags := { EA_LOOP := true } }
      1100 := stopEnd_of_clear _ _ (by rw [advance_flags])
  have hr := PrepareAnim_eq_of_endOfClip examplePlayEnv frameTable (fun _ => 0) 0
    { cur_anim := some 1, next_anim := some 3, lastframe := 0, flags := { EA_LOOP := true } }
    1100 (some exampleOwner) false 1 emptyClipTrack twoFrameTrack _ _ _ rfl rfl
    (by rw [htime, hs]; exact hend) (by rfl)
  have htr : truncQ emptyClipTrack.anim_time = 1000 := by simp [truncQ, emptyClipTrack]
  rw [htr] at hr
  have hsel : PrepareAnim.scan twoFrameTrack (1100 - 1000)
      (twoFrameTrack.nb_key_frames - 1).toNat 1 = some 0 := by
    simp [PrepareAnim.scan, PrepareAnim.frameAt, twoFrameTrack, truncQ]
  rw [resolve_scan_some _ _ _ _ _ 0 hsel, htime] at hr
  refine ⟨_, _, hr, rfl, rfl, rfl, ?_⟩
  simp [PrepareAnim.sounds, PrepareAnim.steps, PrepareAnim.frameAt, twoFrameTrack,
    PrepareAnim.finishEvents, PrepareAnim.latch, FinishAnim, exampleOwner, examplePlayEnv,
    AcquireLastAnim]

theorem pass_none (rnd : Nat → ℚ) (tot old : Int) :
    ∀ (n : Nat) (i : Int) (d : Nat),
      (∀ k : Nat, k < n →
        ¬ (rnd (d + k) * (tot : ℚ) < (anim_power_at (i + k) : ℚ) ∧ i + (k : Int) ≠ old)) →
      ANIM_GetAltIdx.pass rnd tot old n i d = (none, d + n) := by
  intro n
  induction n with
  | zero => intro i d _; rfl
  | succ n ih =>
    intro i d h
    have h0 := h 0 (by omega)
    simp only [Nat.add_zero, Nat.cast_zero, add_zero] at h0
    unfold ANIM_GetAltIdx.pass
    simp only
    rw [if_neg h0, ih (i + 1) (d + 1)]
    · rw [show d + 1 + n = d + (n + 1) by omega]
    · intro k hk
      have := h (k + 1) (by omega)
      rw [show d + 1 + k = d + (k + 1) by omega,
        show i + 1 + (k : Int) = i + ((k + 1 : Nat) : Int) by push_cast; ring]
      exact this

theorem pass_first (rnd : Nat → ℚ) (tot old : Int) :
    ∀ (n : Nat) (i : Int) (d k : Nat), k < n →
      (∀ m : Nat, m < k →
        ¬ (rnd (d + m) * (tot : ℚ) < (anim_power_at (i + m) : ℚ) ∧ i + (m : Int) ≠ old)) →
      (rnd (d + k) * (tot : ℚ) < (anim_power_at (i + k) : ℚ) ∧ i + (k : Int) ≠ old) →
      ANIM_GetAltIdx.pass rnd tot old n i d = (some (i + k), d + k + 1) := by
  intro n
  induction n with
  | zero => intro i d k hk; omega
  | succ n ih =>
    intro i d k hk hbefore hacc
    unfold ANIM_GetAltIdx.pass
    simp only
    cases k with
    | zero =>
      simp only [Nat.add_zero, Nat.cast_zero, add_zero] at hacc ⊢
      rw [if_pos hacc]
    | succ k =>
      have h0 := hbefore 0 (by omega)
      simp only [Nat.add_zero, Nat.cast_zero, add_zero] at h0
      rw [if_neg h0, ih (i + 1) (d + 1) k (by omega)]
      · rw [show i + 1 + (k : Int) = i + ((k + 1 : Nat) : Int) by push_cast; ring,
          show d + 1 + k + 1 = d + (k + 1) + 1 by omega]
      · intro m hm
        have := hbefore (m + 1) (by omega)
        rw [show d + 1 + m = d + (m + 1) by omega,
          show i + 1 + (m : Int) = i + ((m + 1 : Nat) : Int) by push_cast; ring]
        exact this
      · rw [show d + 1 + k = d + (k + 1) by omega,
          show i + 1 + (k : Int) = i + ((k + 1 : Nat) : Int) by push_cast; ring]
        exact hacc

theorem retry_none (rnd : Nat → ℚ) (alt_nb tot old : Int)
    (h : ∀ (d k : Nat), k < alt_nb.toNat →
      ¬ (rnd d * (tot : ℚ) < (anim_power_at k : ℚ) ∧ (k : Int) ≠ old)) :
    ∀ fuel d, ANIM_GetAltIdx.retry rnd alt_nb tot old fuel d = none := by
  intro fuel
  induction fuel with
  | zero => intro d; rfl
  | succ fuel ih =>
    intro d
    unfold ANIM_GetAltIdx.retry
    rw [pass_none rnd tot old alt_nb.toNat 0 d
      (fun k hk => by rw [zero_add]; exact h (d + k) k hk)]
    exact ih _

theorem ANIM_GetAltIdx_of_many (rnd : Nat → ℚ) (fuel : Nat) (ah : ANIM_HANDLE) (old : Int)
    (hN : ah.alt_nb ≠ 1) :
    ANIM_GetAltIdx rnd fuel ah old =
      ANIM_GetAltIdx.retry rnd ah.alt_nb (ANIM_GetAltIdx.tot ah) old fuel 0 := by
  unfold ANIM_GetAltIdx ANIM_GetAltIdx.tot
  rw [if_neg hN]

theorem tot_two : ANIM_GetAltIdx.tot { alt_nb := 2 } = 120 := by decide

theorem LiveTracks_of_kept (t t' : AnimTable)
    (hkept : ∀ j, (t' j).path = "" ∨
      ((t' j).path = (t j).path ∧ (t' j).alt_nb = (t j).alt_nb ∧ (t' j).anims = (t j).anims))
    (hl : LiveTracks t) : LiveTracks t' := by
  intro i hi
  rcases hkept i with h | ⟨hp, ha, hs⟩
  · exact absurd h hi
  · rw [ha, hs]
    exact hl i (by rw [← hp]; exact hi)

theorem LiveTracks_empty : LiveTracks emptyTable := by
  intro i hi
  exact absurd rfl hi

theorem LiveTracks_ReleaseHandle (t : AnimTable) (anim : Option Nat) (hl : LiveTracks t) :
    LiveTracks (EERIE_ANIMMANAGER_ReleaseHandle t anim) := by
  refine LiveTracks_of_kept t _ (fun j => Or.inr ?_) hl
  cases anim with
  | none => exact ⟨rfl, rfl, rfl⟩
  | some h =>
    simp only [EERIE_ANIMMANAGER_ReleaseHandle]
    by_cases hj : j = h
    · subst hj; rw [Function.update_same]; exact ⟨rfl, rfl, rfl⟩
    · rw [Function.update_noteq hj]; exact ⟨rfl, rfl, rfl⟩

theorem LiveTracks_Clear (t : AnimTable) (i : Nat) (hl : LiveTracks t) :
    LiveTracks (EERIE_ANIMMANAGER_Clear t i) := by
  refine LiveTracks_of_kept t _ (fun j => ?_) hl
  rw [Clear_apply]
  by_cases hj : j = i
  · left; rw [if_pos hj]
  · right; rw [if_neg hj]; exact ⟨rfl, rfl, rfl⟩

theorem LiveTracks_PurgeUnused (t : AnimTable) (hl : LiveTracks t) :
    LiveTracks (EERIE_ANIMMANAGER_PurgeUnused t) := by
  refine LiveTracks_of_kept t _ (fun j => ?_) hl
  rw [PurgeUnused_apply]
  split_ifs with hc
  · left; rfl
  · right; exact ⟨rfl, rfl, rfl⟩

theorem LiveTracks_ClearAll_loop :
    ∀ n i (t : AnimTable), LiveTracks t → LiveTracks (EERIE_ANIMMANAGER_ClearAll.loop n i t) := by
  intro n
  induction n with
  | zero => intro i t hl; exact hl
  | succ n ih =>
    intro i t hl
    unfold EERIE_ANIMMANAGER_ClearAll.loop
    split_ifs with hc
    · exact ih _ _ (LiveTracks_Clear t i hl)
    · exact ih _ _ hl

theorem LiveTracks_releaseAnims (l : List (Option Nat)) :
    ∀ (t : AnimTable), LiveTracks t →
      LiveTracks (EERIE_ANIMMANAGER_ReloadAll.releaseAnims t l) := by
  induction l with
  | nil => intro t hl; exact hl
  | cons a rest ih =>
    intro t hl
    simp only [EERIE_ANIMMANAGER_ReloadAll.releaseAnims]
    exact ih _ (LiveTracks_ReleaseHandle t a hl)

theorem LiveTracks_entityLoop (es : List (Option Entity)) :
    ∀ (t : AnimTable), LiveTracks t →
      LiveTracks (EERIE_ANIMMANAGER_ReloadAll.entityLoop t es).1 := by
  induction es with
  | nil => intro t hl; exact hl
  | cons e rest ih =>
    intro t hl
    cases e with
    | none =>
      simp only [EERIE_ANIMMANAGER_ReloadAll.entityLoop]
      exact ih t hl
    | some e =>
      simp only [EERIE_ANIMMANAGER_ReloadAll.entityLoop, EERIE_ANIMMANAGER_ReloadAll.entity]
      exact ih _ (LiveTracks_releaseAnims _ t hl)

theorem LiveTracks_Load (env : Env) (fuel : Nat) (p : String) (t : AnimTable) (r : LoadResult)
    (hload : EERIE_ANIMMANAGER_Load_NoWarning env fuel p t = some r) (hl : LiveTracks t) :
    LiveTracks r.animations := by
  rcases Load_cases env fuel p t r hload with
    ⟨h, -, -, -, hr⟩ | ⟨-, -, hr | ⟨f, -, hf, hr⟩⟩ | ⟨-, hp, f, -, hf, -, -, e0, alts, hr⟩
  · rw [hr]
    refine LiveTracks_of_kept t _ (fun j => Or.inr ?_) hl
    by_cases hj : j = h
    · subst hj; rw [Function.update_same]; exact ⟨rfl, rfl, rfl⟩
    · rw [Function.update_noteq hj]; exact ⟨rfl, rfl, rfl⟩
  · rw [hr]; exact hl
  · rw [hr]
    refine LiveTracks_of_kept t _ (fun j => ?_) hl
    by_cases hj : j = f
    · subst hj; left; rw [Function.update_same]; exact hf
    · right; rw [Function.update_noteq hj]; exact ⟨rfl, rfl, rfl⟩
  · rw [hr]
    intro i hi
    by_cases hj : i = f
    · subst hj
      rw [Function.update_same]
      refine ⟨by simp only; omega, fun k hk => ?_⟩
      simp only at hk ⊢
      cases k with
      | zero => exact ⟨e0, by simp⟩
      | succ k =>
        have hk' : k < alts.length := by push_cast at hk; omega
        refine ⟨alts[k], ?_⟩
        rw [List.getElem?_cons_succ, List.getElem?_map, List.getElem?_eq_getElem hk']
        rfl
    · rw [Function.update_noteq hj] at hi ⊢
      exact hl i hi

theorem LiveTracks_ReloadAll_loop (env : Env) (fuel : Nat) :
    ∀ n i (t t' : AnimTable), LiveTracks t →
      EERIE_ANIMMANAGER_ReloadAll.loop env fuel n i t = some t' → LiveTracks t' := by
  intro n
  induction n with
  | zero =>
    intro i t t' hl h
    simp only [EERIE_ANIMMANAGER_ReloadAll.loop, Option.some.injEq] at h
    subst h
    exact hl
  | succ n ih =>
    intro i t t' hl h
    unfold EERIE_ANIMMANAGER_ReloadAll.loop at h
    split_ifs at h with hc
    · simp only [EERIE_ANIMMANAGER_Load] at h
      cases hld : EERIE_ANIMMANAGER_Load_NoWarning env fuel (t i).path
          (EERIE_ANIMMANAGER_Clear t i) with
      | none => rw [hld] at h; cases h
      | some r =>
        rw [hld] at h
        exact ih (i + 1) r.animations t'
          (LiveTracks_Load env fuel _ _ r hld (LiveTracks_Clear t i hl)) h
    · exact ih (i + 1) t t' hl h

theorem LiveTracks_of_Reachable (t : AnimTable) (hr : Reachable t) : LiveTracks t := by
  induction hr with
  | init => exact LiveTracks_empty
  | load env fuel path t r _ hload ih => exact LiveTracks_Load env fuel path t r hload ih
  | release t anim _ ih => exact LiveTracks_ReleaseHandle t anim ih
  | purge t _ ih => exact LiveTracks_PurgeUnused t ih
  | clear t i _ _ ih => exact LiveTracks_Clear t i ih
  | clearAll t _ ih => exact LiveTracks_ClearAll_loop _ _ t ih
  | reloadAll env fuel t entities r _ hre ih =>
    simp only [EERIE_ANIMMANAGER_ReloadAll, Option.map_eq_some'] at hre
    obtain ⟨t', hloop, rfl⟩ := hre
    exact LiveTracks_ReloadAll_loop env fuel _ _ _ t' (LiveTracks_entityLoop entities t ih) hloop

theorem track_of_present (ah : ANIM_HANDLE) (r : Int) (e : EERIE_ANIM) (h0 : 0 ≤ r)
    (he : ah.anims[r.toNat]? = some (some e)) : ah.track r = some e := by
  unfold ANIM_HANDLE.track
  rw [if_neg (by omega), he]

theorem ANIM_GetAltIdx_no_alternates (rnd : Nat → ℚ) (fuel : Nat) (ah : ANIM_HANDLE) (old : Int)
    (h0 : ah.alt_nb = 0) : ANIM_GetAltIdx rnd fuel ah old = none := by
  rw [ANIM_GetAltIdx_of_many _ _ _ _ (by omega)]
  exact retry_none rnd _ _ old (fun d k hk => by rw [h0] at hk; simp at hk) fuel 0

theorem walkTable_select :
    ANIM_GetAltIdx (fun _ => 0) 1 (walkTable 0) 0 = some 1 := by
  have h : walkTable 0 = { path := "walk", anims := [some emptyClipTrack, some emptyClipTrack]
                           alt_nb := 2, locks := 1 } := rfl
  rw [h]
  simp [ANIM_GetAltIdx, ANIM_GetAltIdx.retry, ANIM_GetAltIdx.pass, ANIM_GetAltIdx.totLoop,
    anim_power_at, anim_power]

theorem fillLoop_split (th : THEA_HEADER) :
    ∀ a b i (e : EERIE_ANIM),
      TheaToEerie.fillLoop th (a + b) i e
        = TheaToEerie.fillLoop th b (i + a) (TheaToEerie.fillLoop th a i e) := by
  intro a
  induction a with
  | zero => intro b i e; simp only [Nat.zero_add, Nat.add_zero, TheaToEerie.fillLoop]
  | succ a ih =>
    intro b i e
    rw [show a + 1 + b = (a + b) + 1 by omega]
    simp only [TheaToEerie.fillLoop]
    rw [ih, show i + 1 + a = i + (a + 1) by omega]

theorem scanBack_eq (l : List EERIE_FRAME) (flag : EERIE_FRAME → Int) (k : Nat)
    (hk : flag (l.getD k default) ≠ 0) :
    ∀ x, k ≤ x → (∀ m, k < m → m ≤ x → flag (l.getD m default) = 0) →
      TheaToEerie.scanBack l flag x = (k : Int) := by
  intro x
  induction x with
  | zero =>
    intro hkx _
    have : k = 0 := by omega
    subst this
    simp only [TheaToEerie.scanBack]
    rw [if_neg hk]
    rfl
  | succ x ih =>
    intro hkx hz
    simp only [TheaToEerie.scanBack]
    by_cases hkeq : k = x + 1
    · subst hkeq
      rw [if_neg hk]
    · rw [if_pos (hz (x + 1) (by omega) (by omega))]
      exact ih (by omega) (fun m hm1 hm2 => hz m hm1 (by omega))

theorem scanFwd_eq (l : List EERIE_FRAME) (flag : EERIE_FRAME → Int) (j : Nat)
    (hj : flag (l.getD j default) ≠ 0) :
    ∀ n x, x ≤ j → j < x + n → (∀ m, x ≤ m → m < j → flag (l.getD m default) = 0) →
      TheaToEerie.scanFwd l flag n x = j := by
  intro n
  induction n with
  | zero => intro x h1 h2; omega
  | succ n ih =>
    intro x h1 h2 hz
    simp only [TheaToEerie.scanFwd]
    by_cases hjx : j = x
    · subst hjx
      rw [if_neg hj]
    · rw [if_pos (hz x (by omega) (by omega))]
      exact ih (x + 1) (by omega) (by omega) (fun m hm1 hm2 => hz m (by omega) hm2)

theorem GetTimeBetweenKeyFrames_congr (ea ea' : EERIE_ANIM)
    (ht : ∀ x, (ea'.frames.getD x default).time = (ea.frames.getD x default).time)
    (hn : ea'.nb_key_frames = ea.nb_key_frames) (f1 f2 : Int) :
    GetTimeBetweenKeyFrames ea' f1 f2 = GetTimeBetweenKeyFrames ea f1 f2 := by
  unfold GetTimeBetweenKeyFrames
  rw [hn]
  simp only [ht]

theorem fillRotate_at (th : THEA_HEADER) (x k j : Nat) (e : EERIE_ANIM)
    (hflag : (e.frames.getD x default).f_rotate = 0)
    (hk : TheaToEerie.scanBack e.frames (fun f => f.f_rotate) x = (k : Int))
    (hj : TheaToEerie.scanFwd e.frames (fun f => f.f_rotate) (th.nb_key_frames.toNat - x) x = j)
    (hjN : (j : Int) < th.nb_key_frames) (hx : x < e.frames.length) :
    ((TheaToEerie.fillRotate th x e).frames.getD x default).quat =
      { w := (e.frames.getD j default).quat.w
            * (GetTimeBetweenKeyFrames e k x
              * (1 / (GetTimeBetweenKeyFrames e k x + GetTimeBetweenKeyFrames e x j)))
          + (e.frames.getD k default).quat.w
            * (GetTimeBetweenKeyFrames e x j
              * (1 / (GetTimeBetweenKeyFrames e k x + GetTimeBetweenKeyFrames e x j)))
        x := (e.frames.getD j default).quat.x
            * (GetTimeBetweenKeyFrames e k x
              * (1 / (GetTimeBetweenKeyFrames e k x + GetTimeBetweenKeyFrames e x j)))
          + (e.frames.getD k default).quat.x
            * (GetTimeBetweenKeyFrames e x j
              * (1 / (GetTimeBetweenKeyFrames e k x + GetTimeBetweenKeyFrames e x j)))
        y := (e.frames.getD j default).quat.y
            * (GetTimeBetweenKeyFrames e k x
              * (1 / (GetTimeBetweenKeyFrames e k x + GetTimeBetweenKeyFrames e x j)))
          + (e.frames.getD k default).quat.y
            * (GetTimeBetweenKeyFrames e x j
              * (1 / (GetTimeBetweenKeyFrames e k x + GetTimeBetweenKeyFrames e x j)))
        z := (e.frames.getD j default).quat.z
            * (GetTimeBetweenKeyFrames e k x
              * (1 / (GetTimeBetweenKeyFrames e k x + GetTimeBetweenKeyFrames e x j)))
          + (e.frames.getD k default).quat.z
            * (GetTimeBetweenKeyFrames e x j
              * (1 / (GetTimeBetweenKeyFrames e k x + GetTimeBetweenKeyFrames e x j))) } := by
  unfold TheaToEerie.fillRotate
  rw [if_pos hflag]
  simp only [hk, hj]
  rw [if_pos ⟨hjN, by omega⟩]
  simp only [Int.toNat_ofNat, List.getD_eq_getElem?_getD, List.getElem?_set_self hx,
    Option.getD_some]

theorem fillTranslate_at (th : THEA_HEADER) (x k j : Nat) (e : EERIE_ANIM)
    (hflag : (e.frames.getD x default).f_translate = 0)
    (hk : TheaToEerie.scanBack e.frames (fun f => f.f_translate) x = (k : Int))
    (hj : TheaToEerie.scanFwd e.frames (fun f => f.f_translate)
      (th.nb_key_frames.toNat - x) x = j)
    (hjN : (j : Int) < th.nb_key_frames) (hx : x < e.frames.length) :
    ((TheaToEerie.fillTranslate th x e).frames.getD x default).translate =
      ((e.frames.getD j default).translate.scale
          (GetTimeBetweenKeyFrames e k x
            * (1 / (GetTimeBetweenKeyFrames e k x + GetTimeBetweenKeyFrames e x j)))).add
        ((e.frames.getD k default).translate.scale
          (GetTimeBetweenKeyFrames e x j
            * (1 / (GetTimeBetweenKeyFrames e k x + GetTimeBetweenKeyFrames e x j)))) := by
  unfold TheaToEerie.fillTranslate
  rw [if_pos hflag]
  simp only [hk, hj]
  rw [if_pos ⟨hjN, by omega⟩]
  simp only [Int.toNat_ofNat, List.getD_eq_getElem?_getD, List.getElem?_set_self hx,
    Option.getD_some]

theorem fillLoop_before (th : THEA_HEADER) (x : Nat) (e : EERIE_ANIM) :
    (∀ y, (((TheaToEerie.fillTranslate th x (TheaToEerie.fillLoop th x 0 e)).frames.getD y
        default).sameRecord (e.frames.getD y default))) ∧
      (∀ y, ((TheaToEerie.fillLoop th x 0 e).frames.getD y default).sameRecord
        (e.frames.getD y default)) ∧
      (TheaToEerie.fillTranslate th x (TheaToEerie.fillLoop th x 0 e)).nb_key_frames
        = e.nb_key_frames ∧
      (TheaToEerie.fillLoop th x 0 e).nb_key_frames = e.nb_key_frames ∧
      (TheaToEerie.fillTranslate th x (TheaToEerie.fillLoop th x 0 e)).frames.length
        = e.frames.length ∧
      (TheaToEerie.fillLoop th x 0 e).frames.length = e.frames.length := by
  have h1 : ∀ y, ((TheaToEerie.fillLoop th x 0 e).frames.getD y default).sameRecord
      (e.frames.getD y default) := fun y => (fillLoop_getD th x 0 e y).1
  have h2 : ∀ y, ((TheaToEerie.fillTranslate th x (TheaToEerie.fillLoop th x 0 e)).frames.getD y
      default).sameRecord ((TheaToEerie.fillLoop th x 0 e).frames.getD y default) :=
    fun y => (fillTranslate_getD th x _ y).1
  refine ⟨fun y => ?_, h1, ?_, (fillLoop_counts th x 0 e).1, ?_, fillLoop_frames_length th x 0 e⟩
  · obtain ⟨a1, a2, a3, a4, a5, a6, a7⟩ := h1 y
    obtain ⟨b1, b2, b3, b4, b5, b6, b7⟩ := h2 y
    exact ⟨b1.trans a1, b2.trans a2, b3.trans a3, b4.trans a4, b5.trans a5, b6.trans a6,
      b7.trans a7⟩
  · rw [(fillTranslate_counts th x _).1, (fillLoop_counts th x 0 e).1]
  · rw [← fillLoop_frames_length th x 0 e]
    rcases fillTranslate_frames th x (TheaToEerie.fillLoop th x 0 e) with h | ⟨-, -, v, h⟩
    · rw [h]
    · rw [h, List.length_set]

theorem fillLoop_at (th : THEA_HEADER) (n x : Nat) (e : EERIE_ANIM) (hxn : x < n) (y : Nat)
    (hy : y ≤ x) :
    (TheaToEerie.fillLoop th n 0 e).frames.getD y default
      = (TheaToEerie.fillRotate th x
          (TheaToEerie.fillTranslate th x (TheaToEerie.fillLoop th x 0 e))).frames.getD y
          default := by
  obtain ⟨b, rfl⟩ : ∃ b, n = x + (b + 1) := ⟨n - x - 1, by omega⟩
  rw [fillLoop_split, Nat.zero_add]
  simp only [TheaToEerie.fillLoop]
  exact (fillLoop_getD th b (x + 1) _ y).2.1 (Or.inl (by omega))

theorem fillLoop_rotate_at (th : THEA_HEADER) (n x k j : Nat) (e : EERIE_ANIM)
    (hxn : x < n) (hx : x < e.frames.length)
    (hflag : (e.frames.getD x default).f_rotate = 0)
    (hkx : k < x) (hkf : (e.frames.getD k default).f_rotate ≠ 0)
    (hkz : ∀ m, k < m → m < x → (e.frames.getD m default).f_rotate = 0)
    (hxj : x < j) (hjN : j < th.nb_key_frames.toNat)
    (hjf : (e.frames.getD j default).f_rotate ≠ 0)
    (hjz : ∀ m, x < m → m < j → (e.frames.getD m default).f_rotate = 0) :
    ((TheaToEerie.fillLoop th n 0 e).frames.getD x default).quat =
      { w := (e.frames.getD j default).quat.w
            * (GetTimeBetweenKeyFrames e k x
              * (1 / (GetTimeBetweenKeyFrames e k x + GetTimeBetweenKeyFrames e x j)))
          + (e.frames.getD k default).quat.w
            * (GetTimeBetweenKeyFrames e x j
              * (1 / (GetTimeBetweenKeyFrames e k x + GetTimeBetweenKeyFrames e x j)))
        x := (e.frames.getD j default).quat.x
            * (GetTimeBetweenKeyFrames e k x
              * (1 / (GetTimeBetweenKeyFrames e k x + GetTimeBetweenKeyFrames e x j)))
          + (e.frames.getD k default).quat.x
            * (GetTimeBetweenKeyFrames e x j
              * (1 / (GetTimeBetweenKeyFrames e k x + GetTimeBetweenKeyFrames e x j)))
        y := (e.frames.getD j default).quat.y
            * (GetTimeBetweenKeyFrames e k x
              * (1 / (GetTimeBetweenKeyFrames e k x + GetTimeBetweenKeyFrames e x j)))
          + (e.frames.getD k default).quat.y
            * (GetTimeBetweenKeyFrames e x j
              * (1 / (GetTimeBetweenKeyFrames e k x + GetTimeBetweenKeyFrames e x j)))
        z := (e.frames.getD j default).quat.z
            * (GetTimeBetweenKeyFrames e k x
              * (1 / (GetTimeBetweenKeyFrames e k x + GetTimeBetweenKeyFrames e x j)))
          + (e.frames.getD k default).quat.z
            * (GetTimeBetweenKeyFrames e x j
              * (1 / (GetTimeBetweenKeyFrames e k x + GetTimeBetweenKeyFrames e x j))) } := by
  obtain ⟨hrec2, hrec1, hn2, -, hl2, -⟩ := fillLoop_before th x e
  have hfl : ∀ y, (fun f : EERIE_FRAME => f.f_rotate)
      ((TheaToEerie.fillTranslate th x (TheaToEerie.fillLoop th x 0 e)).frames.getD y default)
      = (fun f : EERIE_FRAME => f.f_rotate) (e.frames.getD y default) :=
    fun y => (hrec2 y).2.2.2.2.1
  have hT : ∀ f1 f2, GetTimeBetweenKeyFrames
      (TheaToEerie.fillTranslate th x (TheaToEerie.fillLoop th x 0 e)) f1 f2
      = GetTimeBetweenKeyFrames e f1 f2 :=
    GetTimeBetweenKeyFrames_congr e _ (fun y => (hrec2 y).2.2.2.2.2.1) hn2
  have hq : ∀ y, (e.frames.getD y default).f_rotate ≠ 0 →
      ((TheaToEerie.fillTranslate th x (TheaToEerie.fillLoop th x 0 e)).frames.getD y
        default).quat = (e.frames.getD y default).quat := by
    intro y hne
    rw [(fillTranslate_getD th x _ y).2.1]
    exact (fillLoop_getD th x 0 e y).2.2.2.1 hne
  rw [fillLoop_at th n x e hxn x (le_refl x),
    fillRotate_at th x k j _ ((hfl x).trans hflag)
      (by
        rw [scanBack_congr _ e.frames _ hfl]
        exact scanBack_eq e.frames _ k hkf x (by omega) (fun m h1 h2 => by
          by_cases hm : m = x
          · rw [hm]; exact hflag
          · exact hkz m h1 (by omega)))
      (by
        rw [scanFwd_congr _ e.frames _ hfl]
        exact scanFwd_eq e.frames _ j hjf _ x (by omega) (by omega) (fun m h1 h2 => by
          by_cases hm : m = x
          · rw [hm]; exact hflag
          · exact hjz m (by omega) h2))
      (by omega) (by rw [hl2]; exact hx)]
  simp only [hT, hq j hjf, hq k hkf]

theorem fillLoop_translate_at (th : THEA_HEADER) (n x k j : Nat) (e : EERIE_ANIM)
    (hxn : x < n) (hx : x < e.frames.length)
    (hflag : (e.frames.getD x default).f_translate = 0)
    (hkx : k < x) (hkf : (e.frames.getD k default).f_translate ≠ 0)
    (hkz : ∀ m, k < m → m < x → (e.frames.getD m default).f_translate = 0)
    (hxj : x < j) (hjN : j < th.nb_key_frames.toNat)
    (hjf : (e.frames.getD j default).f_translate ≠ 0)
    (hjz : ∀ m, x < m → m < j → (e.frames.getD m default).f_translate = 0) :
    ((TheaToEerie.fillLoop th n 0 e).frames.getD x default).translate =
      ((e.frames.getD j default).translate.scale
          (GetTimeBetweenKeyFrames e k x
            * (1 / (GetTimeBetweenKeyFrames e k x + GetTimeBetweenKeyFrames e x j)))).add
        ((e.frames.getD k default).translate.scale
          (GetTimeBetweenKeyFrames e x j
            * (1 / (GetTimeBetweenKeyFrames e k x + GetTimeBetweenKeyFrames e x j)))) := by
  obtain ⟨-, hrec1, -, hn1, -, hl1⟩ := fillLoop_before th x e
  have hfl : ∀ y, (fun f : EERIE_FRAME => f.f_translate)
      ((TheaToEerie.fillLoop th x 0 e).frames.getD y default)
      = (fun f : EERIE_FRAME => f.f_translate) (e.frames.getD y default) :=
    fun y => (hrec1 y).2.2.2.1
  have hT : ∀ f1 f2, GetTimeBetweenKeyFrames (TheaToEerie.fillLoop th x 0 e) f1 f2
      = GetTimeBetweenKeyFrames e f1 f2 :=
    GetTimeBetweenKeyFrames_congr e _ (fun y => (hrec1 y).2.2.2.2.2.1) hn1
  have hq : ∀ y, (e.frames.getD y default).f_translate ≠ 0 →
      ((TheaToEerie.fillLoop th x 0 e).frames.getD y default).translate
        = (e.frames.getD y default).translate :=
    fun y hne => (fillLoop_getD th x 0 e y).2.2.1 hne
  rw [fillLoop_at th n x e hxn x (le_refl x), (fillRotate_getD th x _ x).2.1,
    fillTranslate_at th x k j _ ((hfl x).trans hflag)
      (by
        rw [scanBack_congr _ e.frames _ hfl]
        exact scanBack_eq e.frames _ k hkf x (by omega) (fun m h1 h2 => by
          by_cases hm : m = x
          · rw [hm]; exact hflag
          · exact hkz m h1 (by omega)))
      (by
        rw [scanFwd_congr _ e.frames _ hfl]
        exact scanFwd_eq e.frames _ j hjf _ x (by omega) (by omega) (fun m h1 h2 => by
          by_cases hm : m = x
          · rw [hm]; exact hflag
          · exact hjz m (by omega) h2))
      (by omega) (by rw [hl1]; exact hx)]
  simp only [hT, hq j hjf, hq k hkf]

theorem post_nb_key_frames (th : THEA_HEADER) (e : EERIE_ANIM) :
    (TheaToEerie.post th e).nb_key_frames = e.nb_key_frames := by
  unfold TheaToEerie.post
  dsimp only
  rw [(voidLoop_counts _ _ _).1]
  exact (fillLoop_counts th _ 0 e).1

theorem decoded_times (env : Env) (th : THEA_HEADER)
    (e e0 : EERIE_ANIM) (recs : List KeyframeRead)
    (he : e = TheaToEerie.post th (TheaToEerie.storeAll env th 0 recs e0)) (f1 f2 : Int) :
    GetTimeBetweenKeyFrames (TheaToEerie.storeAll env th 0 recs e0) f1 f2
      = GetTimeBetweenKeyFrames e f1 f2 := by
  refine (GetTimeBetweenKeyFrames_congr _ e (fun x => ?_) ?_ f1 f2).symm
  · rw [he, (post_frames_getD th _ x).2.2]
    exact (fillLoop_getD th _ 0 _ x).1.2.2.2.2.2.1
  · rw [he, post_nb_key_frames]

theorem decoded_rotation_fill (env : Env) (adr : List Nat) (th : THEA_HEADER) (e : EERIE_ANIM)
    (recs : List KeyframeRead) (i k j : Nat) (ri rk rj : KeyframeRead) (qk qj : ArxQuat)
    (hth : theaHeader env adr = some th) (hdec : TheaToEerie env adr = some (some e))
    (hrecs : keyframeReads env adr th = some recs)
    (hi : recs[i]? = some ri) (hk : recs[k]? = some rk) (hj : recs[j]? = some rj)
    (hnone : ri.quat = none) (hki : k < i) (hqk : rk.quat = some qk)
    (hkz : ∀ m r, k < m → m < i → recs[m]? = some r → r.quat = none)
    (hij : i < j) (hqj : rj.quat = some qj)
    (hjz : ∀ m r, i < m → m < j → recs[m]? = some r → r.quat = none) :
    (e.frames.getD i default).quat =
      { w := qj.w * (GetTimeBetweenKeyFrames e k i
              * (1 / (GetTimeBetweenKeyFrames e k i + GetTimeBetweenKeyFrames e i j)))
          + qk.w * (GetTimeBetweenKeyFrames e i j
              * (1 / (GetTimeBetweenKeyFrames e k i + GetTimeBetweenKeyFrames e i j)))
        x := qj.x * (GetTimeBetweenKeyFrames e k i
              * (1 / (GetTimeBetweenKeyFrames e k i + GetTimeBetweenKeyFrames e i j)))
          + qk.x * (GetTimeBetweenKeyFrames e i j
              * (1 / (GetTimeBetweenKeyFrames e k i + GetTimeBetweenKeyFrames e i j)))
        y := qj.y * (GetTimeBetweenKeyFrames e k i
              * (1 / (GetTimeBetweenKeyFrames e k i + GetTimeBetweenKeyFrames e i j)))
          + qk.y * (GetTimeBetweenKeyFrames e i j
              * (1 / (GetTimeBetweenKeyFrames e k i + GetTimeBetweenKeyFrames e i j)))
        z := qj.z * (GetTimeBetweenKeyFrames e k i
              * (1 / (GetTimeBetweenKeyFrames e k i + GetTimeBetweenKeyFrames e i j)))
          + qk.z * (GetTimeBetweenKeyFrames e i j
              * (1 / (GetTimeBetweenKeyFrames e k i + GetTimeBetweenKeyFrames e i j))) } := by
  obtain ⟨e0, h0, hlen, -, hfl, he⟩ := TheaToEerie_decoded_reads env adr th e recs hth hdec hrecs
  have hflags := stored_flags env th e0 recs h0 hlen hfl
  have hstored := fun x => stored_frame env th e0 recs h0 hlen x
  have hiN := lt_length_of_getElem? recs i ri hi
  have hjN := lt_length_of_getElem? recs j rj hj
  have hzero : ∀ m, m < recs.length → (∀ r, recs[m]? = some r → r.quat = none) →
      ((TheaToEerie.storeAll env th 0 recs e0).frames.getD m default).f_rotate = 0 := by
    intro m hm hr
    have hg : recs[m]? = some recs[m] := List.getElem?_eq_getElem hm
    exact (hflags m _ hg).2.2 (hr _ hg)
  have hne : ∀ m r q, recs[m]? = some r → r.quat = some q →
      ((TheaToEerie.storeAll env th 0 recs e0).frames.getD m default).f_rotate ≠ 0 ∧
      ((TheaToEerie.storeAll env th 0 recs e0).frames.getD m default).quat = q := by
    intro m r q hm hq
    refine ⟨fun hh => ?_, ?_⟩
    · rw [(hflags m r hm).2.1 hh] at hq
      cases hq
    · rw [(hstored m).2.1 r hm]
      simp only [TheaToEerie.frameOf, hq]
  have hmain := fillLoop_rotate_at th th.nb_key_frames.toNat i k j
    (TheaToEerie.storeAll env th 0 recs e0) (by omega) (by rw [(hstored 0).1]; exact hiN)
    (hzero i hiN (fun r hr => by rw [hi] at hr; cases hr; exact hnone))
    hki (hne k rk qk hk hqk).1
    (fun m h1 h2 => hzero m (by omega) (fun r hr => hkz m r h1 h2 hr))
    hij (by omega) (hne j rj qj hj hqj).1
    (fun m h1 h2 => hzero m (by omega) (fun r hr => hjz m r h1 h2 hr))
  rw [(hne k rk qk hk hqk).2, (hne j rj qj hj hqj).2] at hmain
  simp only [decoded_times env th e e0 recs he] at hmain
  rw [← hmain, he, (post_frames_getD th _ i).2.1]

theorem decoded_translation_fill (env : Env) (adr : List Nat) (th : THEA_HEADER)
    (e : EERIE_ANIM)
    (recs : List KeyframeRead) (i k j : Nat) (ri rk rj : KeyframeRead) (vk vj : Vec3f)
    (hth : theaHeader env adr = some th) (hdec : TheaToEerie env adr = some (some e))
    (hrecs : keyframeReads env adr th = some recs)
    (hi : recs[i]? = some ri) (hk : recs[k]? = some rk) (hj : recs[j]? = some rj)
    (hnone : ri.move = none) (hki : k < i) (hvk : rk.move = some vk)
    (hkz : ∀ m r, k < m → m < i → recs[m]? = some r → r.move = none)
    (hij : i < j) (hvj : rj.move = some vj)
    (hjz : ∀ m r, i < m → m < j → recs[m]? = some r → r.move = none) :
    (e.frames.getD i default).translate =
      (vj.scale (GetTimeBetweenKeyFrames e k i
          * (1 / (GetTimeBetweenKeyFrames e k i + GetTimeBetweenKeyFrames e i j)))).add
        (vk.scale (GetTimeBetweenKeyFrames e i j
          * (1 / (GetTimeBetweenKeyFrames e k i + GetTimeBetweenKeyFrames e i j)))) := by
  obtain ⟨e0, h0, hlen, -, hfl, he⟩ := TheaToEerie_decoded_reads env adr th e recs hth hdec hrecs
  have hflags := stored_flags env th e0 recs h0 hlen hfl
  have hstored := fun x => stored_frame env th e0 recs h0 hlen x
  have hiN := lt_length_of_getElem? recs i ri hi
  have hjN := lt_length_of_getElem? recs j rj hj
  have hzero : ∀ m, m < recs.length → (∀ r, recs[m]? = some r → r.move = none) →
      ((TheaToEerie.storeAll env th 0 recs e0).frames.getD m default).f_translate = 0 := by
    intro m hm hr
    have hg : recs[m]? = some recs[m] := List.getElem?_eq_getElem hm
    exact (hflags m _ hg).1.2 (hr _ hg)
  have hne : ∀ m r v, recs[m]? = some r → r.move = some v →
      ((TheaToEerie.storeAll env th 0 recs e0).frames.getD m default).f_translate ≠ 0 ∧
      ((TheaToEerie.storeAll env th 0 recs e0).frames.getD m default).translate = v := by
    intro m r v hm hv
    refine ⟨fun hh => ?_, ?_⟩
    · rw [(hflags m r hm).1.1 hh] at hv
      cases hv
    · rw [(hstored m).2.1 r hm]
      simp only [TheaToEerie.frameOf, hv]
  have hmain := fillLoop_translate_at th th.nb_key_frames.toNat i k j
    (TheaToEerie.storeAll env th 0 recs e0) (by omega) (by rw [(hstored 0).1]; exact hiN)
    (hzero i hiN (fun r hr => by rw [hi] at hr; cases hr; exact hnone))
    hki (hne k rk vk hk hvk).1
    (fun m h1 h2 => hzero m (by omega) (fun r hr => hkz m r h1 h2 hr))
    hij (by omega) (hne j rj vj hj hvj).1
    (fun m h1 h2 => hzero m (by omega) (fun r hr => hjz m r h1 h2 hr))
  rw [(hne k rk vk hk hvk).2, (hne j rj vj hj hvj).2] at hmain
  simp only [decoded_times env th e e0 recs he] at hmain
  rw [← hmain, he, (post_frames_getD th _ i).1]

set_option maxRecDepth 100000 in
theorem spinClip_header :
    theaHeader (exampleEnv exampleFiles) spinClip = some threeFrameHeader := by
  decide

set_option maxRecDepth 100000 in
theorem spinClip_defined :
    (TheaToEerie (exampleEnv exampleFiles) spinClip).isSome = true := by
  decide

set_option maxRecDepth 100000 in
theorem spinClip_reads :
    keyframeReads (exampleEnv exampleFiles) spinClip threeFrameHeader =
      some [{ tkf2015 := { num_frame := 0, flag_frame := 0, master_key_frame := 0, key_frame := 1
                           key_move := 0, key_orient := 1, key_morph := 0, time_frame := 0 }
              move := none
              quat := some { w := 1, x := 0, y := 0, z := 0 }, groups := [], sample := none },
            { tkf2015 := { num_frame := 10, flag_frame := 0, master_key_frame := 0, key_frame := 1
                           key_move := 0, key_orient := 0, key_morph := 0, time_frame := 10 }
              move := none
              quat := none, groups := [], sample := none },
            { tkf2015 := { num_frame := 20, flag_frame := 0, master_key_frame := 0, key_frame := 1
                           key_move := 0, key_orient := 1, key_morph := 0, time_frame := 20 }
              move := none
              quat := some { w := 0, x := 3, y := 0, z := 0 }, groups := []
              sample := none }] := by
  decide

theorem spinClip_decodes :
    ∃ e, TheaToEerie (exampleEnv exampleFiles) spinClip = some (some e) := by
  have h := spinClip_defined
  cases hr : TheaToEerie (exampleEnv exampleFiles) spinClip with
  | none => rw [hr] at h; cases h
  | some r =>
    obtain ⟨e, he, -⟩ := (TheaToEerie_cases _ _ _ spinClip_header).2 (by decide) r hr
    exact ⟨e, by rw [he]⟩

theorem spinClip_weights (e : EERIE_ANIM)
    (he : TheaToEerie (exampleEnv exampleFiles) spinClip = some (some e)) :
    GetTimeBetweenKeyFrames e ((0 : Nat) : Int) ((1 : Nat) : Int) = 1250 / 3 ∧
      GetTimeBetweenKeyFrames e ((1 : Nat) : Int) ((2 : Nat) : Int) = 2500 / 3 := by
  obtain ⟨e', he', hn, -⟩ := (TheaToEerie_cases _ _ _ spinClip_header).2 (by decide) _ he
  cases he'
  have h1 := decoded_frame_time _ _ _ e _ spinClip_header he spinClip_reads 1 _ rfl
  have h2 := decoded_frame_time _ _ _ e _ spinClip_header he spinClip_reads 2 _ rfl
  simp only [List.getElem_cons_succ, List.getElem_cons_zero] at h1 h2
  unfold GetTimeBetweenKeyFrames
  rw [hn]
  constructor
  · rw [if_neg (by decide)]
    simp only [Nat.cast_zero, Nat.cast_one, Int.toNat_zero, Int.toNat_one, List.range,
      List.range.loop, List.foldl, h1]
    norm_num [wrapS32]
  · rw [if_neg (by decide)]
    simp only [Nat.cast_ofNat, Nat.cast_one, Int.toNat_ofNat, Int.toNat_one, List.range,
      List.range.loop, List.foldl, h2]
    norm_num [wrapS32]

theorem Push_loop_free (senv : SoundEnv) (animations : AnimTable) :
    ∀ n i (s : Int × AnimSamples), (∀ j, i ≤ j → (animations j).path = "") →
      ARX_SOUND_PushAnimSamples.loop senv animations n i s = some s := by
  intro n
  induction n with
  | zero => intro i s _; rfl
  | succ n ih =>
    intro i s h
    unfold ARX_SOUND_PushAnimSamples.loop
    rw [if_neg (by rw [h i (le_refl i)]; exact fun hh => hh rfl)]
    exact ih (i + 1) s (fun j hj => h j (by omega))

theorem Pop_loop_free (senv : SoundEnv) (st : AnimSamples) :
    ∀ n i (animations : AnimTable) (s : Int × Int),
      (∀ j, i ≤ j → (animations j).path = "") →
      ARX_SOUND_PopAnimSamples.loop senv st n i animations s = some (animations, s) := by
  intro n
  induction n with
  | zero => intro i animations s _; rfl
  | succ n ih =>
    intro i animations s h
    unfold ARX_SOUND_PopAnimSamples.loop
    rw [if_neg (by rw [h i (le_refl i)]; exact fun hh => hh rfl)]
    exact ih (i + 1) animations s (fun j hj => h j (by omega))

theorem talkTable_push :
    ARX_SOUND_PushAnimSamples exampleSound talkTable {} =
      some { nbelems := 1, elems := some ["talk.wav"], numbers := some [2] } := by
  unfold ARX_SOUND_PushAnimSamples
  rw [show MAX_ANIMATIONS = 899 + 1 from rfl]
  unfold ARX_SOUND_PushAnimSamples.loop
  have h0 : talkTable 0
      = { path := "talk", anims := [some soundTrack], alt_nb := 1, locks := 1 } := rfl
  rw [if_pos (by rw [h0]; decide), h0]
  have ha : ARX_SOUND_PushAnimSamples.alts exampleSound
      { path := "talk", anims := [some soundTrack], alt_nb := 1, locks := 1 }
      (1 : Int).toNat 0 (0, ARX_SOUND_FreeAnimSamples {})
      = some (4, { nbelems := 1, elems := some ["talk.wav"], numbers := some [2] }) := by
    decide
  simp only [ha]
  rw [Push_loop_free exampleSound talkTable 899 1 _ (fun j hj => by
    simp only [talkTable, Function.update_noteq (show j ≠ 0 by omega), emptyTable])]
  rfl

theorem talkTable_pop :
    ARX_SOUND_PopAnimSamples exampleSound talkTable
      { nbelems := 1, elems := some ["talk.wav"], numbers := some [2] } = none := by
  unfold ARX_SOUND_PopAnimSamples
  rw [if_neg (by decide), show MAX_ANIMATIONS = 899 + 1 from rfl]
  unfold ARX_SOUND_PopAnimSamples.loop
  have h0 : talkTable 0
      = { path := "talk", anims := [some soundTrack], alt_nb := 1, locks := 1 } := rfl
  rw [if_pos (by rw [h0]; decide), h0]
  have ha : ARX_SOUND_PopAnimSamples.alts exampleSound
      { nbelems := 1, elems := some ["talk.wav"], numbers := some [2] }
      (1 : Int).toNat 0
      { path := "talk", anims := [some soundTrack], alt_nb := 1, locks := 1 } (0, 0)
      = none := by
    decide
  simp only [ha]
theorem stepTable_push :
    ARX_SOUND_PushAnimSamples exampleSound stepTable {} =
      some { nbelems := 1, elems := some ["step.wav"], numbers := some [2] } := by
  unfold ARX_SOUND_PushAnimSamples
  rw [show MAX_ANIMATIONS = 899 + 1 from rfl]
  unfold ARX_SOUND_PushAnimSamples.loop
  have h0 : stepTable 0
      = { path := "step", anims := [some twoFrameTrack], alt_nb := 1, locks := 1 } := rfl
  rw [if_pos (by rw [h0]; decide), h0]
  have ha : ARX_SOUND_PushAnimSamples.alts exampleSound
      { path := "step", anims := [some twoFrameTrack], alt_nb := 1, locks := 1 }
      (1 : Int).toNat 0 (0, ARX_SOUND_FreeAnimSamples {})
      = some (2, { nbelems := 1, elems := some ["step.wav"], numbers := some [2] }) := by
    decide
  simp only [ha]
  rw [Push_loop_free exampleSound stepTable 899 1 _ (fun j hj => by
    simp only [stepTable, Function.update_noteq (show j ≠ 0 by omega), emptyTable])]
  rfl

theorem stepTable_pop :
    ∃ t', ARX_SOUND_PopAnimSamples exampleSound stepTable
        { nbelems := 1, elems := some ["step.wav"], numbers := some [2] } = some (t', {}) ∧
      (t' 0).anims = [some { twoFrameTrack with
        frames := twoFrameTrack.frames.set 1
          { twoFrameTrack.frames.getD 1 default with sample := 165 } }] := by
  unfold ARX_SOUND_PopAnimSamples
  rw [if_neg (by decide), show MAX_ANIMATIONS = 899 + 1 from rfl]
  unfold ARX_SOUND_PopAnimSamples.loop
  have h0 : stepTable 0
      = { path := "step", anims := [some twoFrameTrack], alt_nb := 1, locks := 1 } := rfl
  rw [if_pos (by rw [h0]; decide), h0]
  have ha : ARX_SOUND_PopAnimSamples.alts exampleSound
      { nbelems := 1, elems := some ["step.wav"], numbers := some [2] }
      (1 : Int).toNat 0
      { path := "step", anims := [some twoFrameTrack], alt_nb := 1, locks := 1 } (0, 0)
      = some ({ path := "step", anims := [some { twoFrameTrack with
                  frames := twoFrameTrack.frames.set 1
                    { twoFrameTrack.frames.getD 1 default with sample := 165 } }]
                alt_nb := 1, locks := 1 }, (2, 1)) := by
    rfl
  simp only [ha]
  rw [Pop_loop_free exampleSound _ 899 1 _ _ (fun j hj => by
    rw [Function.update_noteq (show j ≠ 0 by omega)]
    simp only [stepTable, Function.update_noteq (show j ≠ 0 by omega), emptyTable])]
  refine ⟨_, rfl, ?_⟩
  rw [Function.update_same]

theorem TheaToEerie_duration (env : Env) (adr : List Nat) (e : EERIE_ANIM)
    (hdec : TheaToEerie env adr = some (some e)) : 1 ≤ e.anim_time := by
  cases hv : view adr 0 env.sizeof_THEA_HEADER with
  | none =>
    unfold TheaToEerie at hdec
    rw [hv] at hdec
    cases hdec
  | some b =>
    have hth : theaHeader env adr = some (env.as_THEA_HEADER b) := by
      unfold theaHeader
      rw [hv]
      rfl
    rw [decoded_anim_time env adr _ e hth hdec]
    exact le_max_right _ _

theorem decodeFile_duration (env : Env) (path : String) (e : EERIE_ANIM)
    (hdec : decodeFile env path = some (some e)) : 1 ≤ e.anim_time := by
  unfold decodeFile at hdec
  cases hr : env.readAlloc path with
  | none => rw [hr] at hdec; cases hdec
  | some adr =>
    rw [hr] at hdec
    exact TheaToEerie_duration env adr e hdec

theorem TrackDurations_of_kept (t t' : AnimTable)
    (hkept : ∀ j, (t' j).anims = (t j).anims ∨ (t' j).anims = [] ∨ (t' j).anims = [none])
    (hd : TrackDurations t) : TrackDurations t' := by
  intro i k e he
  rcases hkept i with h | h | h
  · rw [h] at he
    exact hd i k e he
  · rw [h] at he
    simp at he
  · rw [h] at he
    cases k with
    | zero => simp at he
    | succ k => simp at he

theorem TrackDurations_empty : TrackDurations emptyTable := by
  intro i k e he
  simp [emptyTable] at he

theorem TrackDurations_ReleaseHandle (t : AnimTable) (anim : Option Nat)
    (hd : TrackDurations t) : TrackDurations (EERIE_ANIMMANAGER_ReleaseHandle t anim) := by
  refine TrackDurations_of_kept t _ (fun j => Or.inl ?_) hd
  cases anim with
  | none => rfl
  | some h =>
    simp only [EERIE_ANIMMANAGER_ReleaseHandle]
    by_cases hj : j = h
    · subst hj; rw [Function.update_same]
    · rw [Function.update_noteq hj]

theorem TrackDurations_Clear (t : AnimTable) (i : Nat) (hd : TrackDurations t) :
    TrackDurations (EERIE_ANIMMANAGER_Clear t i) := by
  refine TrackDurations_of_kept t _ (fun j => ?_) hd
  rw [Clear_apply]
  by_cases hj : j = i
  · right; left; rw [if_pos hj]
  · left; rw [if_neg hj]

theorem TrackDurations_PurgeUnused (t : AnimTable) (hd : TrackDurations t) :
    TrackDurations (EERIE_ANIMMANAGER_PurgeUnused t) := by
  refine TrackDurations_of_kept t _ (fun j => ?_) hd
  rw [PurgeUnused_apply]
  split_ifs with hc
  · right; left; rfl
  · left; rfl

theorem TrackDurations_ClearAll_loop :
    ∀ n i (t : AnimTable), TrackDurations t →
      TrackDurations (EERIE_ANIMMANAGER_ClearAll.loop n i t) := by
  intro n
  induction n with
  | zero => intro i t hd; exact hd
  | succ n ih =>
    intro i t hd
    unfold EERIE_ANIMMANAGER_ClearAll.loop
    split_ifs with hc
    · exact ih _ _ (TrackDurations_Clear t i hd)
    · exact ih _ _ hd

theorem TrackDurations_releaseAnims (l : List (Option Nat)) :
    ∀ (t : AnimTable), TrackDurations t →
      TrackDurations (EERIE_ANIMMANAGER_ReloadAll.releaseAnims t l) := by
  induction l with
  | nil => intro t hd; exact hd
  | cons a rest ih =>
    intro t hd
    simp only [EERIE_ANIMMANAGER_ReloadAll.releaseAnims]
    exact ih _ (TrackDurations_ReleaseHandle t a hd)

theorem TrackDurations_entityLoop (es : List (Option Entity)) :
    ∀ (t : AnimTable), TrackDurations t →
      TrackDurations (EERIE_ANIMMANAGER_ReloadAll.entityLoop t es).1 := by
  induction es with
  | nil => intro t hd; exact hd
  | cons e rest ih =>
    intro t hd
    cases e with
    | none =>
      simp only [EERIE_ANIMMANAGER_ReloadAll.entityLoop]
      exact ih t hd
    | some e =>
      simp only [EERIE_ANIMMANAGER_ReloadAll.entityLoop, EERIE_ANIMMANAGER_ReloadAll.entity]
      exact ih _ (TrackDurations_releaseAnims _ t hd)

theorem TrackDurations_Load (env : Env) (fuel : Nat) (p : String) (t : AnimTable)
    (r : LoadResult)
    (hload : EERIE_ANIMMANAGER_Load_NoWarning env fuel p t = some r) (hd : TrackDurations t) :
    TrackDurations r.animations := by
  rcases Load_cases env fuel p t r hload with
    ⟨h, -, -, -, hr⟩ | ⟨-, -, hr | ⟨f, -, hf, hr⟩⟩ | ⟨hnone, hp, f, -, -, -, hh, -⟩
  · rw [hr]
    refine TrackDurations_of_kept t _ (fun j => Or.inl ?_) hd
    by_cases hj : j = h
    · subst hj; rw [Function.update_same]
    · rw [Function.update_noteq hj]
  · rw [hr]; exact hd
  · rw [hr]
    refine TrackDurations_of_kept t _ (fun j => ?_) hd
    by_cases hj : j = f
    · subst hj; right; right; rw [Function.update_same]
    · left; rw [Function.update_noteq hj]
  · obtain ⟨-, -, -, -, -, hother, adr, e0, alts, -, hd0, hanims, -, -, halts, -⟩ :=
      Load_new_path env fuel t p r f hp hnone hload hh
    intro i k e he
    by_cases hj : i = f
    · subst hj
      rw [hanims] at he
      cases k with
      | zero =>
        simp only [List.getElem?_cons_zero, Option.some.injEq] at he
        subst he
        exact TheaToEerie_duration env adr _ hd0
      | succ k =>
        rw [List.getElem?_cons_succ, List.getElem?_map] at he
        cases ha : alts[k]? with
        | none => rw [ha] at he; cases he
        | some a =>
          rw [ha] at he
          simp only [Option.map_some', Option.some.injEq] at he
          subst he
          exact decodeFile_duration env _ _ (halts k a ha)
    · rw [hother i hj] at he
      exact hd i k e he

theorem TrackDurations_ReloadAll_loop (env : Env) (fuel : Nat) :
    ∀ n i (t t' : AnimTable), TrackDurations t →
      EERIE_ANIMMANAGER_ReloadAll.loop env fuel n i t = some t' → TrackDurations t' := by
  intro n
  induction n with
  | zero =>
    intro i t t' hd h
    simp only [EERIE_ANIMMANAGER_ReloadAll.loop, Option.some.injEq] at h
    subst h
    exact hd
  | succ n ih =>
    intro i t t' hd h
    unfold EERIE_ANIMMANAGER_ReloadAll.loop at h
    split_ifs at h with hc
    · simp only [EERIE_ANIMMANAGER_Load] at h
      cases hld : EERIE_ANIMMANAGER_Load_NoWarning env fuel (t i).path
          (EERIE_ANIMMANAGER_Clear t i) with
      | none => rw [hld] at h; cases h
      | some r =>
        rw [hld] at h
        exact ih (i + 1) r.animations t'
          (TrackDurations_Load env fuel _ _ r hld (TrackDurations_Clear t i hd)) h
    · exact ih (i + 1) t t' hd h

theorem TrackDurations_of_Reachable (t : AnimTable) (hr : Reachable t) : TrackDurations t := by
  induction hr with
  | init => exact TrackDurations_empty
  | load env fuel path t r _ hload ih => exact TrackDurations_Load env fuel path t r hload ih
  | release t anim _ ih => exact TrackDurations_ReleaseHandle t anim ih
  | purge t _ ih => exact TrackDurations_PurgeUnused t ih
  | clear t i _ _ ih => exact TrackDurations_Clear t i ih
  | clearAll t _ ih => exact TrackDurations_ClearAll_loop _ _ t ih
  | reloadAll env fuel t entities r _ hre ih =>
    simp only [EERIE_ANIMMANAGER_ReloadAll, Option.map_eq_some'] at hre
    obtain ⟨t', hloop, rfl⟩ := hre
    exact TrackDurations_ReloadAll_loop env fuel _ _ _ t'
      (TrackDurations_entityLoop entities t ih) hloop

theorem track_duration (t : AnimTable) (hd : TrackDurations t) (h : Nat) (idx : Int)
    (e : EERIE_ANIM) (he : (t h).track idx = some e) : 1 ≤ e.anim_time := by
  unfold ANIM_HANDLE.track at he
  split_ifs at he with hneg
  cases hk : (t h).anims[idx.toNat]? with
  | none => rw [hk] at he; cases he
  | some o =>
    rw [hk] at he
    cases o with
    | none => cases he
    | some e' =>
      simp only [Option.some.injEq] at he
      subst he
      exact hd h idx.toNat e' hk

theorem truncQ_le (q : ℚ) (h : 0 ≤ q) : ((truncQ q : Int) : ℚ) ≤ q := by
  rw [truncQ_nonneg q h]
  exact Int.floor_le q

theorem stopEnd_le (t : EERIE_ANIM) (a : ANIM_USE) (hstop : a.flags.EA_STOPEND = true)
    (hdur : 0 ≤ t.anim_time) :
    floatOfLong (PrepareAnim.stopEnd t a).ctime ≤ roundFloat t.anim_time ∧
      (PrepareAnim.stopEnd t a).ctime
        = if floatOfLong a.ctime > roundFloat t.anim_time then truncQ t.anim_time
          else a.ctime := by
  unfold PrepareAnim.stopEnd
  by_cases hover : floatOfLong a.ctime > roundFloat t.anim_time
  · rw [if_pos ⟨hstop, hover⟩, if_pos hover]
    exact ⟨floatOfLong_mono _ _ (truncQ_le t.anim_time hdur), rfl⟩
  · rw [if_neg (fun hh => hover hh.2), if_neg hover]
    exact ⟨not_lt.1 hover, rfl⟩

/-- A tick whose advanced elapsed time, as a `float`, does not exceed the duration:
the state after the time advance goes to the frame search as it is. -/
theorem PrepareAnim_before_end_float (penv : PlayEnv) (animations : AnimTable) (rnd : Nat → ℚ)
    (fuel : Nat) (u : ANIM_USE) (time : Nat) (io : Option Entity) (isPlayer : Bool) (h : Nat)
    (t : EERIE_ANIM)
    (hcur : u.cur_anim = some h)
    (htrack : (animations h).track (PrepareAnim.altidx (animations h) u) = some t)
    (hno : ¬ (floatOfLong (PrepareAnim.advance (animations h) u
      (PrepareAnim.time penv u time io)).ctime > roundFloat t.anim_time)) :
    ∃ r u', PrepareAnim penv animations rnd fuel (some u) time io isPlayer = some r ∧
      r.eanim = some u' ∧ r.io = io ∧
      u'.ctime = (PrepareAnim.advance (animations h) u (PrepareAnim.time penv u time io)).ctime ∧
      u'.flags = { u.flags with EA_ANIMEND := false } ∧
      u'.cur_anim = u.cur_anim ∧ u'.next_anim = u.next_anim ∧
      r.events.filter AnimEvent.isFinish = [] := by
  have hend := endOfClip_plain_float penv animations rnd fuel
    (PrepareAnim.advance (animations h) u (PrepareAnim.time penv u time io)) t io hno
  have hr := PrepareAnim_eq_of_endOfClip penv animations rnd fuel u time io isPlayer h t t
    _ io [] hcur htrack hend (track_advance animations h u _ t hcur htrack)
  obtain ⟨f1, f2, -, f4, f5, -, f7⟩ := resolve_fields t
    (PrepareAnim.advance (animations h) u (PrepareAnim.time penv u time io))
    (PrepareAnim.time penv u time io) (io.map fun e => e.pos) isPlayer
  refine ⟨_, _, hr, rfl, rfl, ?_, ?_, ?_, ?_, ?_⟩
  · show (PrepareAnim.resolve t _ _ _ isPlayer).1.ctime = _
    rw [f1]
  · show (PrepareAnim.resolve t _ _ _ isPlayer).1.flags = _
    rw [f2, advance_flags]
  · show (PrepareAnim.resolve t _ _ _ isPlayer).1.cur_anim = _
    rw [f4, advance_cur_anim]
  · show (PrepareAnim.resolve t _ _ _ isPlayer).1.next_anim = _
    rw [f5, advance_next_anim]
  · show ([] ++ (PrepareAnim.resolve t _ _ _ isPlayer).2).filter AnimEvent.isFinish = []
    rw [List.nil_append]
    exact f7

/-- The tick of a playback state with the stop-at-end flag, on a track whose
duration is not negative. -/
theorem PrepareAnim_stop_at_end (penv : PlayEnv) (animations : AnimTable) (rnd : Nat → ℚ)
    (fuel : Nat) (u : ANIM_USE) (time : Nat) (io : Option Entity) (isPlayer : Bool) (h : Nat)
    (t : EERIE_ANIM)
    (hcur : u.cur_anim = some h)
    (htrack : (animations h).track (PrepareAnim.altidx (animations h) u) = some t)
    (hstop : u.flags.EA_STOPEND = true) (hdur : 0 ≤ t.anim_time) :
    ∃ r u', PrepareAnim penv animations rnd fuel (some u) time io isPlayer = some r ∧
      r.eanim = some u' ∧ r.io = io ∧
      floatOfLong u'.ctime ≤ roundFloat t.anim_time ∧
      u'.ctime =
        (if floatOfLong (PrepareAnim.advance (animations h) u
            (PrepareAnim.time penv u time io)).ctime > roundFloat t.anim_time then
          truncQ t.anim_time
          else (PrepareAnim.advance (animations h) u (PrepareAnim.time penv u time io)).ctime) ∧
      u'.flags = { u.flags with EA_ANIMEND := false } ∧
      u'.cur_anim = u.cur_anim ∧ u'.next_anim = u.next_anim ∧
      r.events.filter AnimEvent.isFinish = [] := by
  have hstop' : (PrepareAnim.advance (animations h) u
      (PrepareAnim.time penv u time io)).flags.EA_STOPEND = true := by
    rw [advance_flags]
    exact hstop
  obtain ⟨hle, hct⟩ := stopEnd_le t _ hstop' hdur
  obtain ⟨-, sfl, scur, snext, salt, -⟩ := stopEnd_fields t
    (PrepareAnim.advance (animations h) u (PrepareAnim.time penv u time io))
  have hend := endOfClip_before_end_float penv animations rnd fuel
    (PrepareAnim.stopEnd t
      (PrepareAnim.advance (animations h) u (PrepareAnim.time penv u time io))) t io
    (not_lt.2 hle)
  have htrack1 : PrepareAnim.track animations (PrepareAnim.stopEnd t
      (PrepareAnim.advance (animations h) u (PrepareAnim.time penv u time io))) = some t :=
    (track_congr animations _ _ scur salt).trans (track_advance animations h u _ t hcur htrack)
  have hr := PrepareAnim_eq_of_endOfClip penv animations rnd fuel u time io isPlayer h t t
    _ io [] hcur htrack hend htrack1
  obtain ⟨f1, f2, -, f4, f5, -, f7⟩ := resolve_fields t
    (PrepareAnim.stopEnd t
      (PrepareAnim.advance (animations h) u (PrepareAnim.time penv u time io)))
    (PrepareAnim.time penv u time io) (io.map fun e => e.pos) isPlayer
  refine ⟨_, _, hr, rfl, rfl, ?_, ?_, ?_, ?_, ?_, ?_⟩
  · show floatOfLong (PrepareAnim.resolve t _ _ _ isPlayer).1.ctime ≤ roundFloat t.anim_time
    rw [f1]
    exact hle
  · show (PrepareAnim.resolve t _ _ _ isPlayer).1.ctime = _
    rw [f1]
    exact hct
  · show (PrepareAnim.resolve t _ _ _ isPlayer).1.flags = _
    rw [f2, sfl, advance_flags]
  · show (PrepareAnim.resolve t _ _ _ isPlayer).1.cur_anim = _
    rw [f4, scur, advance_cur_anim]
  · show (PrepareAnim.resolve t _ _ _ isPlayer).1.next_anim = _
    rw [f5, snext, advance_next_anim]
  · show ([] ++ (PrepareAnim.resolve t _ _ _ isPlayer).2).filter AnimEvent.isFinish = []
    rw [List.nil_append]
    exact f7

theorem TheaToEerie_longClip (files : String → Option (List Nat)) :
    TheaToEerie (exampleEnv files) longClip = some (some longTrack) := by
  simp [TheaToEerie, view, exampleEnv, longClip, w32, le32, wrapS32, allocStructZero,
    TheaToEerie.keyframeLoop, TheaToEerie.fillLoop, TheaToEerie.voidLoop, longTrack]
  norm_num

theorem roundFloat_longTrack : roundFloat longTrack.anim_time = 32768000 := by
  have h : longTrack.anim_time = 32768000 := rfl
  rw [h, roundFloat_of_bounds _ 24 (by norm_num) (by norm_num)]
  have hm : (32768000 : ℚ) / (2 : ℚ) ^ ((24 : Int) - 23) = ((16384000 : Int) : ℚ) := by
    norm_num
  rw [hm, roundHalfEven_intCast]
  norm_num

/-- The tick of the clip "long" by 32768001 from the elapsed time 0, whatever the
flags other than paused and external control, the queued clip and the entity are:
the advanced elapsed time 32768001 exceeds the duration 32768000, but as a `float`
it is 32768000, so the tick takes no end-of-clip branch. -/
theorem long_tick (fl : AnimFlags) (next : Option Nat) (io : Option Entity)
    (hp : fl.EA_PAUSED = false) (hex : fl.EA_EXCONTROL = false)
    (hfr : ∀ e, io = some e → e.ioflags &&& examplePlayEnv.IO_FREEZESCRIPT = 0) :
    ∃ r u', PrepareAnim examplePlayEnv longTable (fun _ => 0) 0
        (some { cur_anim := some 3, next_anim := next, flags := fl }) 32768001 io false
        = some r ∧
      r.eanim = some u' ∧ r.io = io ∧ u'.ctime = 32768001 ∧
      u'.flags = { fl with EA_ANIMEND := false } ∧
      u'.cur_anim = some 3 ∧ u'.next_anim = next ∧
      r.events.filter AnimEvent.isFinish = [] := by
  have hadv : (PrepareAnim.advance (longTable 3)
      { cur_anim := some 3, next_anim := next, flags := fl }
      (PrepareAnim.time examplePlayEnv { cur_anim := some 3, next_anim := next, flags := fl }
        32768001 io)).ctime = 32768001 := by
    rw [advance_ctime_running examplePlayEnv _ _ _ io hp hfr hex]
    norm_num [wrapLong]
  obtain ⟨r, u', hr, he, hio, hc, hf, hcur, hn, hev⟩ := PrepareAnim_before_end_float
    examplePlayEnv longTable (fun _ => 0) 0
    { cur_anim := some 3, next_anim := next, flags := fl } 32768001 io false 3 longTrack
    rfl rfl
    (by
      rw [hadv, floatOfLong_example, roundFloat_longTrack]
      exact lt_irrefl _)
  exact ⟨r, u', hr, he, hio, hc.trans hadv, hf, hcur, hn, hev⟩

/-- A tick that has to switch to the queued clip, when the selection of the
alternate does not return: the tick has no result. -/
theorem PrepareAnim_switch_undefined (penv : PlayEnv) (animations : AnimTable) (rnd : Nat → ℚ)
    (fuel : Nat) (u : ANIM_USE) (time : Nat) (io : Option Entity) (isPlayer : Bool)
    (h next : Nat) (t : EERIE_ANIM)
    (hcur : u.cur_anim = some h)
    (htrack : (animations h).track (PrepareAnim.altidx (animations h) u) = some t)
    (hstop : u.flags.EA_STOPEND = false)
    (hover : floatOfLong (PrepareAnim.advance (animations h) u
      (PrepareAnim.time penv u time io)).ctime > roundFloat t.anim_time)
    (hnext : u.next_anim = some next)
    (hbranch : PrepareAnim.isLooping penv u io = true ∨ ∃ e, io = some e)
    (hidx : ANIM_GetAltIdx rnd fuel (animations next) (PrepareAnim.altidx (animations h) u)
      = none) :
    PrepareAnim penv animations rnd fuel (some u) time io isPlayer = none := by
  have hs : PrepareAnim.stopEnd t (PrepareAnim.advance (animations h) u
      (PrepareAnim.time penv u time io))
      = PrepareAnim.advance (animations h) u (PrepareAnim.time penv u time io) :=
    stopEnd_of_clear t _ (by rw [advance_flags]; exact hstop)
  have hl : PrepareAnim.isLooping penv (PrepareAnim.advance (animations h) u
      (PrepareAnim.time penv u time io)) io = PrepareAnim.isLooping penv u io :=
    isLooping_congr penv u _ io (by rw [advance_flags]) (advance_cur_anim _ _ _)
  have hsw : ∀ lost, PrepareAnim.switch penv animations rnd fuel
      (PrepareAnim.advance (animations h) u (PrepareAnim.time penv u time io)) next lost io
      = none := by
    intro lost
    unfold PrepareAnim.switch
    simp only [advance_altidx_cur, hidx]
  have hend : PrepareAnim.endOfClip penv animations rnd fuel
      (PrepareAnim.stopEnd t (PrepareAnim.advance (animations h) u
        (PrepareAnim.time penv u time io))) t io = none := by
    rw [hs]
    unfold PrepareAnim.endOfClip
    rw [hl]
    by_cases hlo : PrepareAnim.isLooping penv u io = true
    · simp only [hlo, if_true, if_pos hover, advance_next_anim, hnext]
      exact hsw _
    · rcases hbranch with hb | ⟨e, rfl⟩
      · exact absurd hb hlo
      · simp only [hlo, if_false, if_pos hover, advance_next_anim, hnext]
        exact hsw _
  have ht := advance_track animations h u (PrepareAnim.time penv u time io) hcur
  rw [htrack] at ht
  simp only [PrepareAnim, hcur, ht, hend]

theorem walk_never_selected (fuel : Nat) (old : Int) :
    ANIM_GetAltIdx (fun _ => 9 / 10) fuel (playTable 0) old = none := by
  have h : playTable 0 = { path := "walk", anims := [some emptyClipTrack, some emptyClipTrack]
                           alt_nb := 2, locks := 1 } := rfl
  have ht : ANIM_GetAltIdx.tot (playTable 0) = 120 := by rw [h]; decide
  rw [ANIM_GetAltIdx_of_many _ _ _ _ (by rw [h]; decide), ht]
  apply retry_none
  intro d k hk
  have hk2 : k < 2 := by rw [h] at hk; exact hk
  rcases k with _ | _ | k
  · norm_num [anim_power_at, anim_power]
  · norm_num [anim_power_at, anim_power]
  · omega

/-! ## The claims -/

/-- C1: a `Load` of a non-empty path that a live slot already holds returns the
first slot with that path, raises its lock count by one, reads no file and leaves
every other field and slot alone; a second `Load` returns the same slot and raises
the count once more. -/
theorem C1_load_existing_path (env : Env) (fuel : Nat) (animations : AnimTable) (p : String)
    (i : Nat) (hp : p ≠ "") (hi : i < MAX_ANIMATIONS) (hlive : (animations i).path = p) :
    ∃ h, h ≤ i ∧ (animations h).path = p ∧ (∀ j, j < h → (animations j).path ≠ p) ∧
      EERIE_ANIMMANAGER_Load_NoWarning env fuel p animations =
        some ⟨some h, Function.update animations h
          { animations h with locks := (animations h).locks + 1 }, []⟩ ∧
      EERIE_ANIMMANAGER_Load_NoWarning env fuel p
          (Function.update animations h
            { animations h with locks := (animations h).locks + 1 }) =
        some ⟨some h, Function.update animations h
          { animations h with locks := (animations h).locks + 2 }, []⟩ := by
  have _ := hp
  obtain ⟨h, hle, hg⟩ := GetHandle_of_mem animations p i hi hlive
  have hs := (GetHandle_eq_some animations p h).1 hg
  refine ⟨h, hle, hs.2.1, hs.2.2, ?_, ?_⟩
  · unfold EERIE_ANIMMANAGER_Load_NoWarning
    rw [hg]
  · have hg2 : EERIE_ANIMMANAGER_GetHandle
        (Function.update animations h
          { animations h with locks := (animations h).locks + 1 }) p = some h := by
      rw [GetHandle_congr animations _ p, hg]
      intro j
      by_cases hj : j = h
      · subst hj; rw [Function.update_same]
      · rw [Function.update_noteq hj]
    unfold EERIE_ANIMMANAGER_Load_NoWarning
    rw [hg2]
    simp only [Function.update_same, Function.update_idem, add_assoc]
    rfl

/-- C1 at a concrete table: slot 1 holds "walk" with two locks. -/
theorem C1_load_existing_path_witness :
    ∃ h, h ≤ 1 ∧
      EERIE_ANIMMANAGER_Load_NoWarning
        (exampleEnv exampleFiles) 0 "walk"
        (Function.update emptyTable 1 { path := "walk", locks := 2 }) =
      some ⟨some h, Function.update (Function.update emptyTable 1 { path := "walk", locks := 2 }) h
        { Function.update emptyTable 1 { path := "walk", locks := 2 } h with
          locks := (Function.update emptyTable 1 { path := "walk", locks := 2 } h).locks + 1 },
        []⟩ := by
  obtain ⟨h, h1, -, -, h2, -⟩ := C1_load_existing_path (exampleEnv exampleFiles) 0
    (Function.update emptyTable 1 { path := "walk", locks := 2 }) "walk" 1
    (by decide) (by decide) (by simp)
  exact ⟨h, h1, h2⟩

/-- C4: releasing a handle whose lock count is `n ≥ 0` leaves the count at
`max (n - 1) 0`, so never below zero, changes no other field of the slot and no
other slot; with a count of zero, and with a null handle, nothing changes. -/
theorem C4_release_handle_floor (animations : AnimTable) (h : Nat)
    (hn : 0 ≤ (animations h).locks) :
    (EERIE_ANIMMANAGER_ReleaseHandle animations (some h) h).locks
        = max ((animations h).locks - 1) 0 ∧
      (EERIE_ANIMMANAGER_ReleaseHandle animations (some h) h).path = (animations h).path ∧
      (EERIE_ANIMMANAGER_ReleaseHandle animations (some h) h).anims = (animations h).anims ∧
      (EERIE_ANIMMANAGER_ReleaseHandle animations (some h) h).alt_nb = (animations h).alt_nb ∧
      (∀ j, j ≠ h → EERIE_ANIMMANAGER_ReleaseHandle animations (some h) j = animations j) ∧
      0 ≤ (EERIE_ANIMMANAGER_ReleaseHandle animations (some h) h).locks ∧
      ((animations h).locks = 0 →
        EERIE_ANIMMANAGER_ReleaseHandle animations (some h) = animations) ∧
      EERIE_ANIMMANAGER_ReleaseHandle animations none = animations := by
  refine ⟨?_, ?_, ?_, ?_, ?_, ?_, ?_, rfl⟩
  · simp only [EERIE_ANIMMANAGER_ReleaseHandle, Function.update_same]
    split_ifs with hl
    · rw [max_eq_right (by omega)]
    · rw [max_eq_left (by omega)]
  · simp only [EERIE_ANIMMANAGER_ReleaseHandle, Function.update_same]
  · simp only [EERIE_ANIMMANAGER_ReleaseHandle, Function.update_same]
  · simp only [EERIE_ANIMMANAGER_ReleaseHandle, Function.update_same]
  · intro j hj
    simp only [EERIE_ANIMMANAGER_ReleaseHandle, Function.update_noteq hj]
  · simp only [EERIE_ANIMMANAGER_ReleaseHandle, Function.update_same]
    split_ifs with hl
    · exact le_refl 0
    · omega
  · intro h0
    funext j
    by_cases hj : j = h
    · subst hj
      simp only [EERIE_ANIMMANAGER_ReleaseHandle, Function.update_same, h0]
      cases hs : animations j with
      | mk path anims alt_nb locks =>
        rw [hs] at h0
        simp only at h0
        subst h0
        rfl
    · simp only [EERIE_ANIMMANAGER_ReleaseHandle, Function.update_noteq hj]

/-- C4 at a concrete table: slot 3 holds "walk" with two locks. -/
theorem C4_release_handle_floor_witness :
    0 ≤ (Function.update emptyTable 3 { path := "walk", locks := 2 } 3).locks ∧
      (EERIE_ANIMMANAGER_ReleaseHandle
        (Function.update emptyTable 3 { path := "walk", locks := 2 }) (some 3) 3).locks
        = max ((Function.update emptyTable 3 { path := "walk", locks := 2 } 3).locks - 1) 0 :=
  ⟨by simp, (C4_release_handle_floor
    (Function.update emptyTable 3 { path := "walk", locks := 2 }) 3 (by simp)).1⟩

/-- C5: after `PurgeUnused` every slot that was live with lock count 0 has an empty
path and no tracks, every slot with a positive lock count is unchanged, no live
slot with lock count 0 remains, and a second `PurgeUnused` changes nothing. -/
theorem C5_purge_unused (animations : AnimTable) :
    (∀ i, i < MAX_ANIMATIONS → (animations i).path ≠ "" → (animations i).locks = 0 →
        (EERIE_ANIMMANAGER_PurgeUnused animations i).path = "" ∧
        (EERIE_ANIMMANAGER_PurgeUnused animations i).anims = []) ∧
      (∀ i, 0 < (animations i).locks →
        EERIE_ANIMMANAGER_PurgeUnused animations i = animations i) ∧
      (∀ i, i < MAX_ANIMATIONS →
        ¬ ((EERIE_ANIMMANAGER_PurgeUnused animations i).path ≠ "" ∧
          (EERIE_ANIMMANAGER_PurgeUnused animations i).locks = 0)) ∧
      EERIE_ANIMMANAGER_PurgeUnused (EERIE_ANIMMANAGER_PurgeUnused animations)
        = EERIE_ANIMMANAGER_PurgeUnused animations := by
  refine ⟨?_, ?_, ?_, ?_⟩
  · intro i hi hp hl
    rw [PurgeUnused_apply, if_pos ⟨hi, hp, hl⟩]
    exact ⟨rfl, rfl⟩
  · intro i hl
    rw [PurgeUnused_apply, if_neg]
    rintro ⟨-, -, h0⟩
    omega
  · intro i hi
    rw [PurgeUnused_apply]
    by_cases hc : i < MAX_ANIMATIONS ∧ (animations i).path ≠ "" ∧ (animations i).locks = 0
    · rw [if_pos hc]
      rintro ⟨h1, -⟩
      exact h1 rfl
    · rw [if_neg hc]
      rintro ⟨h1, h2⟩
      exact hc ⟨hi, h1, h2⟩
  · funext j
    rw [PurgeUnused_apply (EERIE_ANIMMANAGER_PurgeUnused animations) j, if_neg]
    rw [PurgeUnused_apply]
    by_cases hc : j < MAX_ANIMATIONS ∧ (animations j).path ≠ "" ∧ (animations j).locks = 0
    · rw [if_pos hc]
      rintro ⟨-, h1, -⟩
      exact h1 rfl
    · rw [if_neg hc]
      exact hc

/-- C7: the table has 900 slots, and when every one of them holds a non-empty path
other than `p`, `Load(p)` returns `NULL`, reads no file and leaves the table as it
is. -/
theorem C7_full_cache_load_fails (env : Env) (fuel : Nat) (animations : AnimTable)
    (p : String)
    (hfull : ∀ i, i < MAX_ANIMATIONS → (animations i).path ≠ "" ∧ (animations i).path ≠ p) :
    MAX_ANIMATIONS = 900 ∧
      EERIE_ANIMMANAGER_Load_NoWarning env fuel p animations = some ⟨none, animations, []⟩ := by
  refine ⟨rfl, ?_⟩
  have hg : EERIE_ANIMMANAGER_GetHandle animations p = none :=
    (GetHandle_eq_none animations p).2 (fun j hj => (hfull j hj).2)
  unfold EERIE_ANIMMANAGER_Load_NoWarning
  rw [hg]
  exact Load_loop_none env fuel p MAX_ANIMATIONS 0 animations
    (fun j _ hj => (hfull j (by omega)).1)

/-- C7 at a concrete table: every slot holds "run", the path asked for is "walk". -/
theorem C7_full_cache_load_fails_witness :
    (∀ i, i < MAX_ANIMATIONS →
        ((fun _ => { path := "run", locks := 1 } : AnimTable) i).path ≠ "" ∧
        ((fun _ => { path := "run", locks := 1 } : AnimTable) i).path ≠ "walk") ∧
      EERIE_ANIMMANAGER_Load_NoWarning (exampleEnv exampleFiles) 3 "walk"
        (fun _ => { path := "run", locks := 1 })
        = some ⟨none, fun _ => { path := "run", locks := 1 }, []⟩ :=
  ⟨fun _ _ => ⟨by simp, by simp⟩,
    (C7_full_cache_load_fails (exampleEnv exampleFiles) 3
      (fun _ => { path := "run", locks := 1 }) "walk"
      (fun _ _ => ⟨by simp, by simp⟩)).2⟩

/-- C3: when no slot holds `p` and the first `Load(p)` returns a handle, `N ≥ 1` calls
of `Load(p)` all return that handle and leave it with `N` locks; `N` calls of
`ReleaseHandle` on it bring the lock count to 0 with the path still in place, and a
following `PurgeUnused` leaves the slot without tracks and with an empty path. -/
theorem C3_load_release_purge (env : Env) (fuel : Nat) (animations : AnimTable) (p : String)
    (N : Nat) (r : LoadResult) (h : Nat) (hN : 1 ≤ N)
    (hnone : ∀ j, j < MAX_ANIMATIONS → (animations j).path ≠ p)
    (hfirst : EERIE_ANIMMANAGER_Load_NoWarning env fuel p animations = some r)
    (hh : r.handle = some h) :
    ∃ tN, loadTimes env fuel p N animations = some (List.replicate N (some h), tN) ∧
      h < MAX_ANIMATIONS ∧ p ≠ "" ∧
      (tN h).path = p ∧ (tN h).locks = (N : Int) ∧
      (releaseTimes (some h) N tN h).locks = 0 ∧
      (releaseTimes (some h) N tN h).path = p ∧
      (EERIE_ANIMMANAGER_PurgeUnused (releaseTimes (some h) N tN) h).path = "" ∧
      (EERIE_ANIMMANAGER_PurgeUnused (releaseTimes (some h) N tN) h).anims = [] := by
  have hp : p ≠ "" := by
    intro e
    subst e
    rw [Load_no_free env fuel "" animations hnone hnone] at hfirst
    simp only [Option.some.injEq] at hfirst
    subst hfirst
    cases hh
  obtain ⟨hM, -, -, hpath, hlocks, hother, -⟩ :=
    Load_new_path env fuel animations p r h hp hnone hfirst hh
  obtain ⟨n, rfl⟩ : ∃ n, N = n + 1 := ⟨N - 1, by omega⟩
  have hrest := loadTimes_existing env fuel p n r.animations h hM hpath
    (fun j hj => by rw [hother j (by omega)]; exact hnone j (by omega))
  have hrel := releaseTimes_eq h (n + 1)
    (Function.update r.animations h
      { r.animations h with locks := (r.animations h).locks + (n : Int) })
    (by simp only [Function.update_same]; omega)
  have hl0 : (releaseTimes (some h) (n + 1)
      (Function.update r.animations h
        { r.animations h with locks := (r.animations h).locks + (n : Int) }) h).locks = 0 := by
    rw [hrel]
    simp only [Function.update_same, hlocks, Nat.cast_add, Nat.cast_one]
    rw [max_eq_right (by omega)]
  have hp0 : (releaseTimes (some h) (n + 1)
      (Function.update r.animations h
        { r.animations h with locks := (r.animations h).locks + (n : Int) }) h).path = p := by
    rw [hrel]
    simp only [Function.update_same, hpath]
  refine ⟨_, ?_, hM, hp, ?_, ?_, hl0, hp0, ?_, ?_⟩
  · simp only [loadTimes, hfirst, hrest, Option.map_some', hh, List.replicate_succ]
  · simp only [Function.update_same, hpath]
  · simp only [Function.update_same, hlocks, Nat.cast_add, Nat.cast_one]
    omega
  · rw [PurgeUnused_apply, if_pos ⟨hM, by rw [hp0]; exact hp, hl0⟩]
  · rw [PurgeUnused_apply, if_pos ⟨hM, by rw [hp0]; exact hp, hl0⟩]

/-- C3 on the example file system: two loads of "walk" into the start-up table,
two releases, one purge. -/
theorem C3_load_release_purge_witness :
    EERIE_ANIMMANAGER_Load_NoWarning (exampleEnv exampleFiles) 3 "walk" emptyTable =
        some ⟨some 0,
          walkTable,
          ["walk", "walk2", "walk3"]⟩ ∧
      ∃ tN, loadTimes (exampleEnv exampleFiles) 3 "walk" 2 emptyTable
          = some (List.replicate 2 (some 0), tN) ∧
        (tN 0).locks = 2 ∧
        (releaseTimes (some 0) 2 tN 0).locks = 0 ∧
        (EERIE_ANIMMANAGER_PurgeUnused (releaseTimes (some 0) 2 tN) 0).path = "" ∧
        (EERIE_ANIMMANAGER_PurgeUnused (releaseTimes (some 0) 2 tN) 0).anims = [] := by
  refine ⟨Load_walk_example, ?_⟩
  obtain ⟨tN, h1, -, -, -, h2, h3, -, h4, h5⟩ :=
    C3_load_release_purge (exampleEnv exampleFiles) 3 emptyTable "walk" 2 _ 0 (by decide)
      (fun j _ => by simp only [emptyTable]; decide) Load_walk_example rfl
  exact ⟨tN, h1, h2, h3, h4, h5⟩

/-- C2, at the empty path on the start-up table (no live handle at all, every slot
free): `Load("")` returns slot 0, a free slot: its path is still empty, it holds no
track, and no file was read. -/
theorem C2_load_empty_path_returns_free_slot (env : Env) (fuel : Nat) :
    (∀ j, (emptyTable j).path = "") ∧
      EERIE_ANIMMANAGER_Load_NoWarning env fuel "" emptyTable =
        some ⟨some 0, Function.update emptyTable 0 { emptyTable 0 with locks := 1 }, []⟩ ∧
      (Function.update emptyTable 0 { emptyTable 0 with locks := 1 } 0).path = "" ∧
      (Function.update emptyTable 0 { emptyTable 0 with locks := 1 } 0).anims = [] := by
  refine ⟨fun _ => rfl, ?_, rfl, rfl⟩
  have hg : EERIE_ANIMMANAGER_GetHandle emptyTable "" = some 0 :=
    (GetHandle_eq_some emptyTable "" 0).2 ⟨by decide, rfl, fun j hj => by omega⟩
  rw [Load_of_GetHandle env fuel "" emptyTable 0 hg]
  rfl

/-- C6, at a file that reads but has an unsupported version, loaded into the
start-up table: `Load` returns `NULL`, yet slot 0 now has an array of one `NULL`
track and an alternate count of 1 where it had no array and a count of 0. -/
theorem C6_failed_decode_leaves_slot_changed :
    EERIE_ANIMMANAGER_Load_NoWarning (exampleEnv exampleFiles) 3 "old" emptyTable =
        some ⟨none,
          Function.update emptyTable 0 { emptyTable 0 with anims := [none], alt_nb := 1 },
          ["old"]⟩ ∧
      (Function.update emptyTable 0 { emptyTable 0 with anims := [none], alt_nb := 1 } 0).alt_nb
        = 1 ∧
      (Function.update emptyTable 0 { emptyTable 0 with anims := [none], alt_nb := 1 } 0).anims
        = [none] ∧
      (emptyTable 0).alt_nb = 0 ∧ (emptyTable 0).anims = [] := by
  refine ⟨?_, rfl, rfl, rfl, rfl⟩
  rw [Load_at_first_free (exampleEnv exampleFiles) 3 "old" emptyTable 0
    (fun j _ => by simp only [emptyTable]; decide) (by decide) rfl (fun j hj => by omega)]
  exact Load_slot_undecodable (exampleEnv exampleFiles) 3 "old" 0 emptyTable oldClip
    (by simp [exampleEnv, exampleFiles]) (TheaToEerie_oldClip exampleFiles)

/-- C8: in every cache state reachable from the start-up table by `Load`,
`ReleaseHandle`, `PurgeUnused`, `Clear`, `ClearAll` and `ReloadAll`, no two slots
hold the same non-empty path. -/
theorem C8_reachable_paths_unique (t : AnimTable) (hreach : Reachable t) :
    ∀ i j, i < MAX_ANIMATIONS → j < MAX_ANIMATIONS → (t i).path ≠ "" →
      (t i).path = (t j).path → i = j := by
  have hu : UniquePaths t := by
    induction hreach with
    | init =>
      intro i j _ _ hne _
      exact absurd rfl hne
    | load env fuel path t r _ hload ih => exact UniquePaths_Load env fuel path t r hload ih
    | release t anim _ ih =>
      exact UniquePaths_of_cleared t _ (fun j => Or.inl (ReleaseHandle_path t anim j)) ih
    | purge t _ ih =>
      refine UniquePaths_of_cleared t _ (fun j => ?_) ih
      rw [PurgeUnused_apply]
      split_ifs
      · right; rfl
      · left; rfl
    | clear t i _ _ ih => exact UniquePaths_of_cleared t _ (Clear_path t i) ih
    | clearAll t _ ih =>
      exact UniquePaths_of_cleared t _ (ClearAll_loop_path MAX_ANIMATIONS 0 t) ih
    | reloadAll env fuel t entities r _ hre ih =>
      unfold EERIE_ANIMMANAGER_ReloadAll at hre
      simp only [Option.map_eq_some'] at hre
      obtain ⟨t', hloop, rfl⟩ := hre
      exact UniquePaths_ReloadAll_loop env fuel MAX_ANIMATIONS 0 _ t'
        (UniquePaths_of_cleared t _ (fun j => Or.inl (entityLoop_path entities t j)) ih) hloop
  exact hu

/-- C8 at the table reached by loading "walk" from the example file system. -/
theorem C8_reachable_paths_unique_witness :
    Reachable walkTable ∧
      ∀ i j, i < MAX_ANIMATIONS → j < MAX_ANIMATIONS →
        (walkTable i).path ≠ "" → (walkTable i).path = (walkTable j).path → i = j :=
  ⟨Reachable.load _ _ _ _ _ Reachable.init Load_walk_example,
    C8_reachable_paths_unique _ (Reachable.load _ _ _ _ _ Reachable.init Load_walk_example)⟩

/-- C9: when every live path still reads and decodes (and the probing of its
numbered alternates stops within the fuel), `ReloadAll` returns; afterwards every
entity has all handle references null and every layer zeroed, the live paths of the
cache are those it had before, and every live slot has lock count 1. -/
theorem C9_reload_all (env : Env) (fuel : Nat) (animations : AnimTable)
    (entities : List (Option Entity))
    (hfiles : ∀ i, i < MAX_ANIMATIONS → (animations i).path ≠ "" →
      (∃ (adr : List Nat) (e : EERIE_ANIM), env.readAlloc (animations i).path = some adr ∧
        TheaToEerie env adr = some (some e)) ∧
      ∃ n, n < fuel ∧
        (∀ k, k < n → ∃ e, decodeFile env
          (env.append_basename (animations i).path (toString (2 + k))) = some (some e)) ∧
        decodeFile env (env.append_basename (animations i).path (toString (2 + n)))
          = some none) :
    ∃ t' es', EERIE_ANIMMANAGER_ReloadAll env fuel animations entities = some (t', es') ∧
      es' = entities.map (Option.map fun e =>
        { e with
          anims := e.anims.map fun _ => none
          animlayer := e.animlayer.map fun _ => {} }) ∧
      (∀ e, some e ∈ es' →
        (∀ a, a ∈ e.anims → a = none) ∧
        ∀ l, l ∈ e.animlayer → l = ({} : ANIM_USE)) ∧
      (∀ p, p ≠ "" → ((∃ i, i < MAX_ANIMATIONS ∧ (t' i).path = p) ↔
        ∃ i, i < MAX_ANIMATIONS ∧ (animations i).path = p)) ∧
      (∀ i, i < MAX_ANIMATIONS → (t' i).path ≠ "" → (t' i).locks = 1) := by
  have hf : ∀ p, p ≠ "" → (∃ j, j < MAX_ANIMATIONS ∧ (animations j).path = p) →
      ∃ (adr : List Nat) (e0 : EERIE_ANIM) (alts : List EERIE_ANIM),
        env.readAlloc p = some adr ∧ TheaToEerie env adr = some (some e0) ∧
        probeAlts env p fuel 2 = some alts := by
    rintro p hp ⟨j, hj, rfl⟩
    obtain ⟨⟨adr, e, hr, hd⟩, n, hn, hok, hstop⟩ := hfiles j hj hp
    obtain ⟨alts, ha⟩ := probeAlts_defined env _ n fuel 2 hn hok hstop
    exact ⟨adr, e, alts, hr, hd, ha⟩
  obtain ⟨t', hloop, hpaths, hlocks⟩ :=
    ReloadAll_loop_spec env fuel animations hf MAX_ANIMATIONS 0
      (EERIE_ANIMMANAGER_ReloadAll.entityLoop animations entities).1 (by omega)
      (fun p _ => by simp only [entityLoop_path])
      (fun j hj => by omega) (fun j hj => by omega)
  refine ⟨t', _, ?_, rfl, ?_, hpaths, hlocks⟩
  · unfold EERIE_ANIMMANAGER_ReloadAll
    simp only [hloop, Option.map_some', entityLoop_entities]
  · intro e he
    simp only [List.mem_map] at he
    obtain ⟨oe, -, hoe⟩ := he
    cases oe with
    | none => cases hoe
    | some e1 =>
      simp only [Option.map_some', Option.some.injEq] at hoe
      subst hoe
      constructor
      · intro a ha
        simp only [List.mem_map] at ha
        obtain ⟨_, -, rfl⟩ := ha
        rfl
      · intro l hl
        simp only [List.mem_map] at hl
        obtain ⟨_, -, rfl⟩ := hl
        rfl

/-- C9 on the example file system: the table holds "walk" in slot 0, one entity
refers to it. -/
theorem C9_reload_all_witness :
    ∃ t' es', EERIE_ANIMMANAGER_ReloadAll (exampleEnv exampleFiles) 3 walkTable exampleEntities
        = some (t', es') ∧
      es' = [some { anims := [none, none], animlayer := [{}] }, none] ∧
      (∀ i, i < MAX_ANIMATIONS → (t' i).path ≠ "" → (t' i).locks = 1) := by
  obtain ⟨t', es', h1, h2, -, -, h3⟩ :=
    C9_reload_all (exampleEnv exampleFiles) 3 walkTable exampleEntities
      (fun i _ hne => by
        rw [walkTable_live i hne]
        exact example_walk_files)
  exact ⟨t', es', h1, by rw [h2]; rfl, h3⟩

/-- C10: on a buffer that holds a whole header, `TheaToEerie` returns `NULL` when the
version is below 2014; when the version is at least 2014 and the buffer is long
enough for every read to stay inside it, it returns a track whose key frame count
and group count are the header's; so on such input the decode fails exactly when
the version check fails. Being long enough is kept by every longer buffer with the
same start, which decodes to the same result. -/
theorem C10_version_gate (env : Env) (adr : List Nat) (th : THEA_HEADER)
    (hth : theaHeader env adr = some th) :
    (th.version < 2014 → TheaToEerie env adr = some none) ∧
      (2014 ≤ th.version → ∀ r, TheaToEerie env adr = some r →
        ∃ e, r = some e ∧ e.nb_key_frames = th.nb_key_frames ∧ e.nb_groups = th.nb_groups) ∧
      (∀ r, TheaToEerie env adr = some r → (r = none ↔ th.version < 2014)) ∧
      (∀ r extra, TheaToEerie env adr = some r → TheaToEerie env (adr ++ extra) = some r) := by
  obtain ⟨h1, h2⟩ := TheaToEerie_cases env adr th hth
  refine ⟨h1, h2, ?_, fun r extra hr => TheaToEerie_append env adr extra r hr⟩
  intro r hr
  constructor
  · intro hnone
    by_contra hv
    obtain ⟨e, he, -⟩ := h2 (not_lt.mp hv) r hr
    rw [hnone] at he
    cases he
  · intro hv
    have := h1 hv
    rw [hr] at this
    simpa using this

/-- C10 on the two-frame example clip and on the clip of version 2013. -/
theorem C10_version_gate_witness :
    theaHeader (exampleEnv exampleFiles) twoFrameClip =
        some { version := 2015, nb_frames := 24, nb_groups := 1, nb_key_frames := 2 } ∧
      ∃ e, TheaToEerie (exampleEnv exampleFiles) twoFrameClip = some (some e) ∧
        e.nb_key_frames = 2 ∧ e.nb_groups = 1 := by
  refine ⟨twoFrameClip_header, ?_⟩
  obtain ⟨r, hr⟩ := Option.isSome_iff_exists.1 twoFrameClip_defined
  obtain ⟨e, he, h1, h2⟩ :=
    (C10_version_gate (exampleEnv exampleFiles) twoFrameClip _ twoFrameClip_header).2.1
      (by decide) r hr
  subst he
  exact ⟨e, hr, h1, h2⟩

/-- C11: for every decoded track the duration `anim_time` is
`max (nb_frames * 1000 / 24) 1`, where `nb_frames` is the frame count the header
declares. It is at least 1 whatever the declared frame count is, and it depends on
nothing else: two decoded buffers whose headers declare the same frame count have
the same duration, whatever their key frame records are. -/
theorem C11_anim_time (env : Env) (adr : List Nat) (th : THEA_HEADER) (e : EERIE_ANIM)
    (hth : theaHeader env adr = some th) (hdec : TheaToEerie env adr = some (some e)) :
    e.anim_time = max ((th.nb_frames : ℚ) * 1000 / 24) 1 ∧ 1 ≤ e.anim_time ∧
      ∀ (env' : Env) (adr' : List Nat) (th' : THEA_HEADER) (e' : EERIE_ANIM),
        theaHeader env' adr' = some th' → TheaToEerie env' adr' = some (some e') →
        th'.nb_frames = th.nb_frames → e'.anim_time = e.anim_time := by
  have h := decoded_anim_time env adr th e hth hdec
  refine ⟨h, ?_, ?_⟩
  · rw [h]
    exact le_max_right _ _
  · intro env' adr' th' e' hth' hdec' hn
    rw [h, decoded_anim_time env' adr' th' e' hth' hdec', hn]

/-- Witness of C11 on the two-key-frame example: 24 declared frames give the
duration 1000. -/
theorem C11_anim_time_witness :
    theaHeader (exampleEnv exampleFiles) twoFrameClip = some twoFrameHeader ∧
      ∃ e, TheaToEerie (exampleEnv exampleFiles) twoFrameClip = some (some e) ∧
        e.anim_time = max (((24 : Int) : ℚ) * 1000 / 24) 1 ∧ 1 ≤ e.anim_time := by
  obtain ⟨e, he⟩ := twoFrameClip_decodes
  have h := C11_anim_time (exampleEnv exampleFiles) twoFrameClip twoFrameHeader e
    twoFrameClip_header he
  exact ⟨twoFrameClip_header, e, he, h.1, h.2.1⟩

/-- C12 as the claim words it fails: key frame 1 of the two-key-frame example has
the frame number 12 and the `time_frame` value 7, and its decoded time is 500, not
`7 * 1000 / 24`. -/
theorem C12_time_frame_counterexample :
    ¬ ∀ (env : Env) (adr : List Nat) (th : THEA_HEADER) (e : EERIE_ANIM)
        (recs : List KeyframeRead) (i : Nat) (r : KeyframeRead),
        theaHeader env adr = some th → TheaToEerie env adr = some (some e) →
        keyframeReads env adr th = some recs → recs[i]? = some r →
        (e.frames.getD i default).time = (r.tkf2015.time_frame : ℚ) * 1000 * (1 / 24) := by
  intro h
  obtain ⟨e, he⟩ := twoFrameClip_decodes
  have h1 := h (exampleEnv exampleFiles) twoFrameClip twoFrameHeader e _ 1 _
    twoFrameClip_header he twoFrameClip_reads rfl
  rw [decoded_frame_time (exampleEnv exampleFiles) twoFrameClip twoFrameHeader e _
    twoFrameClip_header he twoFrameClip_reads 1 _ rfl] at h1
  simp only [List.getElem_cons_succ, List.getElem_cons_zero] at h1
  norm_num [wrapS32] at h1

/-- C12, amended: for every key frame record of a decoded track, in either on-disk
layout, the decoded key frame exists and its time is the frame number `num_frame`
of the record, multiplied by 1000 in 32-bit signed arithmetic, and scaled by 1/24.
The field `time_frame` of the record plays no part. -/
theorem C12_key_frame_time (env : Env) (adr : List Nat) (th : THEA_HEADER) (e : EERIE_ANIM)
    (recs : List KeyframeRead) (i : Nat) (r : KeyframeRead)
    (hth : theaHeader env adr = some th) (hdec : TheaToEerie env adr = some (some e))
    (hrecs : keyframeReads env adr th = some recs) (hi : recs[i]? = some r) :
    i < e.frames.length ∧
      (e.frames.getD i default).time
        = ((wrapS32 (r.tkf2015.num_frame * 1000) : Int) : ℚ) * (1 / 24) := by
  refine ⟨?_, decoded_frame_time env adr th e recs hth hdec hrecs i r hi⟩
  rw [decoded_frames_length env adr th e recs hth hdec hrecs]
  exact lt_length_of_getElem? recs i r hi

/-- Witness of C12 on the two-key-frame example: key frame 1, frame number 12,
has the decoded time 500. -/
theorem C12_key_frame_time_witness :
    ∃ e, TheaToEerie (exampleEnv exampleFiles) twoFrameClip = some (some e) ∧
      1 < e.frames.length ∧ (e.frames.getD 1 default).time = 500 := by
  obtain ⟨e, he⟩ := twoFrameClip_decodes
  have h := C12_key_frame_time (exampleEnv exampleFiles) twoFrameClip twoFrameHeader e _ 1 _
    twoFrameClip_header he twoFrameClip_reads rfl
  refine ⟨e, he, h.1, ?_⟩
  rw [h.2]
  simp only [List.getElem_cons_succ, List.getElem_cons_zero]
  norm_num [wrapS32]

/-- C13, the example of the claim run through the decoder: three key frames at the
frames 0, 10 and 20, the first with the translation (0, 0, 0), the last with
(10, 0, 0), the middle one with none. The decoded times are 0, 1250/3 and 2500/3,
and the decoded translation of the middle key frame is (10/3, 0, 0), not the
time-weighted blend (5, 0, 0). -/
theorem C13_three_key_frames :
    theaHeader (exampleEnv exampleFiles) threeFrameClip = some threeFrameHeader ∧
      (keyframeReads (exampleEnv exampleFiles) threeFrameClip threeFrameHeader).map
          (fun recs => recs.map fun r => (r.tkf2015.num_frame, r.move))
        = some [(0, some ⟨0, 0, 0⟩), (10, none), (20, some ⟨10, 0, 0⟩)] ∧
      (∃ e, TheaToEerie (exampleEnv exampleFiles) threeFrameClip = some (some e) ∧
        e.frames.map (fun f => (f.time, f.translate))
          = [(0, ⟨0, 0, 0⟩), (1250 / 3, ⟨10 / 3, 0, 0⟩), (2500 / 3, ⟨10, 0, 0⟩)]) ∧
      (⟨10 / 3, 0, 0⟩ : Vec3f) ≠ ⟨5, 0, 0⟩ := by
  refine ⟨threeFrameClip_header, ?_, ?_, ?_⟩
  · rw [threeFrameClip_reads]
    rfl
  · obtain ⟨e, he⟩ := threeFrameClip_decodes
    exact ⟨e, he, threeFrameClip_frames e he⟩
  · intro h
    simp only [Vec3f.mk.injEq] at h
    norm_num at h

/-- C14: in a decoded track, a key frame whose record carries a translation keeps
exactly the translation read from the record, and one whose record carries a
rotation keeps exactly that rotation. A key frame whose record carries no
translation keeps the zero vector of the zero-initialised array when no earlier
key frame or no later key frame carries a translation; one whose record carries no
rotation keeps the all-zero quaternion when no earlier or no later key frame
carries a rotation. -/
theorem C14_gap_fill_sides (env : Env) (adr : List Nat) (th : THEA_HEADER) (e : EERIE_ANIM)
    (recs : List KeyframeRead) (i : Nat) (r : KeyframeRead)
    (hth : theaHeader env adr = some th) (hdec : TheaToEerie env adr = some (some e))
    (hrecs : keyframeReads env adr th = some recs) (hi : recs[i]? = some r) :
    i < e.frames.length ∧
      (∀ v, r.move = some v → (e.frames.getD i default).translate = v) ∧
      (∀ q, r.quat = some q → (e.frames.getD i default).quat = q) ∧
      (r.move = none →
        ((∀ k r', k < i → recs[k]? = some r' → r'.move = none) ∨
          (∀ j r', i < j → recs[j]? = some r' → r'.move = none)) →
        (e.frames.getD i default).translate = Vec3f.ZERO) ∧
      (r.quat = none →
        ((∀ k r', k < i → recs[k]? = some r' → r'.quat = none) ∨
          (∀ j r', i < j → recs[j]? = some r' → r'.quat = none)) →
        (e.frames.getD i default).quat = { w := 0, x := 0, y := 0, z := 0 }) := by
  have ha := decoded_frame_authored env adr th e recs hth hdec hrecs i r hi
  have hd := decoded_frame_default env adr th e recs hth hdec hrecs i r hi
  refine ⟨?_, ha.1, ha.2, hd.1, hd.2⟩
  rw [decoded_frames_length env adr th e recs hth hdec hrecs]
  exact lt_length_of_getElem? recs i r hi

/-- Witness of C14 on the two-key-frame example: key frame 0 keeps the translation
(1, 2, 3) of its record. -/
theorem C14_gap_fill_sides_witness :
    ∃ e, TheaToEerie (exampleEnv exampleFiles) twoFrameClip = some (some e) ∧
      0 < e.frames.length ∧ (e.frames.getD 0 default).translate = ⟨1, 2, 3⟩ := by
  obtain ⟨e, he⟩ := twoFrameClip_decodes
  have h := C14_gap_fill_sides (exampleEnv exampleFiles) twoFrameClip twoFrameHeader e _ 0 _
    twoFrameClip_header he twoFrameClip_reads rfl
  exact ⟨e, he, h.1, h.2.1 _ rfl⟩

/-- C15: in a decoded track the void marker of a bone group `g` is set if and only
if the `g`-th group record read for every key frame has the identity rotation
(x = y = z = 0, w = 1), a zero translation and a zero scale. With zero key frames
every group is marked void. -/
theorem C15_void_groups (env : Env) (adr : List Nat) (th : THEA_HEADER) (e : EERIE_ANIM)
    (recs : List KeyframeRead) (g : Nat)
    (hth : theaHeader env adr = some th) (hdec : TheaToEerie env adr = some (some e))
    (hrecs : keyframeReads env adr th = some recs) (hg : g < th.nb_groups.toNat) :
    (e.voidgroups.getD g 0 = 1 ↔
      ∀ (f : Nat) (r : KeyframeRead) (tga : THEO_GROUPANIM),
        recs[f]? = some r → r.groups[g]? = some tga → tga.isVoid) ∧
      (th.nb_key_frames = 0 → e.voidgroups.getD g 0 = 1) := by
  have h := decoded_voidgroup env adr th e recs hth hdec hrecs g hg
  refine ⟨h, ?_⟩
  intro hz
  obtain ⟨e0, -, hlen, -, -, -⟩ := TheaToEerie_decoded_reads env adr th e recs hth hdec hrecs
  rw [hz] at hlen
  have hnil : recs = [] := List.length_eq_zero.1 hlen
  rw [h, hnil]
  intro f r tga hr
  simp at hr

/-- Witness of C15 on the two-key-frame example: its only group has the identity
transform in both key frames and is marked void. -/
theorem C15_void_groups_witness :
    ∃ e, TheaToEerie (exampleEnv exampleFiles) twoFrameClip = some (some e) ∧
      e.voidgroups.getD 0 0 = 1 := by
  obtain ⟨e, he⟩ := twoFrameClip_decodes
  have h := C15_void_groups (exampleEnv exampleFiles) twoFrameClip twoFrameHeader e _ 0
    twoFrameClip_header he twoFrameClip_reads (by decide)
  refine ⟨e, he, h.1.2 ?_⟩
  intro f r tga hr ht
  rcases f with _ | _ | f
  · simp only [List.getElem?_cons_zero, Option.some.injEq] at hr
    subst hr
    simp only [List.getElem?_cons_zero, Option.some.injEq] at ht
    subst ht
    exact ⟨rfl, rfl, rfl⟩
  · simp only [List.getElem?_cons_succ, List.getElem?_cons_zero, Option.some.injEq] at hr
    subst hr
    simp only [List.getElem?_cons_zero, Option.some.injEq] at ht
    subst ht
    exact ⟨rfl, rfl, rfl⟩
  · simp at hr

/-- C16: for every handle, every excluded index `old` and every sequence of draws:
with one alternate `ANIM_GetAltIdx` returns 0 unconditionally, also when `old` is
0; with `N >= 2` alternates every index `r` it returns satisfies `0 <= r < N` and
`r != old`, so with two alternates and `old` in {0, 1} it can only return the other
index. -/
theorem C16_alt_idx (rnd : Nat → ℚ) (fuel : Nat) (ah : ANIM_HANDLE) (old : Int) :
    (ah.alt_nb = 1 → ANIM_GetAltIdx rnd fuel ah old = some 0) ∧
      (2 ≤ ah.alt_nb → ∀ r, ANIM_GetAltIdx rnd fuel ah old = some r →
        0 ≤ r ∧ r < ah.alt_nb ∧ r ≠ old) ∧
      (ah.alt_nb = 2 → old = 0 ∨ old = 1 → ∀ r, ANIM_GetAltIdx rnd fuel ah old = some r →
        r = 1 - old) := by
  obtain ⟨h1, h2⟩ := ANIM_GetAltIdx_spec rnd fuel ah old
  refine ⟨h1, ?_, ?_⟩
  · intro hN r hr
    obtain ⟨a, b, c⟩ := h2 r hr
    exact ⟨a, b, c (by omega)⟩
  · intro hN ho r hr
    obtain ⟨a, b, c⟩ := h2 r hr
    have := c (by omega)
    omega

/-- Witness of C16: with two alternates, the excluded index 0 and draws that are
all 0, the first pass returns the index 1. -/
theorem C16_alt_idx_witness :
    ANIM_GetAltIdx (fun _ => 0) 1 { alt_nb := 2 } 0 = some 1 ∧
      (0 : Int) ≤ 1 ∧ (1 : Int) < 2 ∧ (1 : Int) ≠ 0 :=
  ⟨ANIM_GetAltIdx_zero_draws,
    (C16_alt_idx (fun _ => 0) 1 { alt_nb := 2 } 0).2.1 (by decide) 1 ANIM_GetAltIdx_zero_draws⟩

/-- C17 as the claim words it fails, in two ways. The clip "nod" has the duration
125/3; a tick of 100 from the elapsed time 0, with no entity, leaves the elapsed
time 41, which is not the duration. The clip "long" has the duration 32768000; a
tick of 32768001 from the elapsed time 0 advances the elapsed time past the
duration, but the code compares `float` values and 32768001 converts to 32768000:
the ended flag is not set and the elapsed time stays 32768001. -/
theorem C17_elapsed_counterexample :
    (¬ ∀ (penv : PlayEnv) (animations : AnimTable) (rnd : Nat → ℚ) (fuel : Nat) (u : ANIM_USE)
        (time : Nat) (io : Option Entity) (isPlayer : Bool) (h : Nat) (t : EERIE_ANIM),
        u.cur_anim = some h →
        (animations h).track (PrepareAnim.altidx (animations h) u) = some t →
        PrepareAnim.isLooping penv u io = false →
        u.flags.EA_PAUSED = false →
        (∀ e, io = some e → e.ioflags &&& penv.IO_FREEZESCRIPT = 0) →
        u.flags.EA_EXCONTROL = false → u.flags.EA_STOPEND = false → u.next_anim = none →
        ((wrapLong (u.ctime + (time : Int)) : Int) : ℚ) > t.anim_time →
        ∃ r u', PrepareAnim penv animations rnd fuel (some u) time io isPlayer = some r ∧
          r.eanim = some u' ∧ u'.flags.EA_ANIMEND = true ∧ (u'.ctime : ℚ) = t.anim_time) ∧
      ((wrapLong ((0 : Int) + ((32768001 : Nat) : Int)) : ℚ) > longTrack.anim_time ∧
        ∃ r u', PrepareAnim examplePlayEnv longTable (fun _ => 0) 0
            (some { cur_anim := some 3 }) 32768001 none false = some r ∧
          r.eanim = some u' ∧ u'.flags.EA_ANIMEND = false ∧ u'.ctime = 32768001) := by
  constructor
  · intro H
    obtain ⟨r, u', hr, he, -, hc⟩ := H examplePlayEnv playTable (fun _ => 0) 0
      { cur_anim := some 2 } 100 none false 2 oneFrameTrack rfl rfl rfl rfl
      (fun e he => by cases he) rfl rfl rfl (by norm_num [wrapLong, oneFrameTrack])
    obtain ⟨r2, u2, hr2, he2, hc2⟩ := nod_tick
    rw [hr] at hr2
    cases hr2
    rw [he] at he2
    cases he2
    rw [hc2] at hc
    norm_num [oneFrameTrack] at hc
  · refine ⟨by norm_num [wrapLong, longTrack], ?_⟩
    obtain ⟨r, u', hr, he, -, hc, hf, -⟩ := long_tick {} none none rfl rfl
      (fun e he => by cases he)
    exact ⟨r, u', hr, he, by rw [hf], hc⟩

/-- C17, amended: a playback state that is not looping (loop flag clear, and the
clip is none of the walk and run clips of the owner), not paused, not frozen, not
driven from outside, with stop-at-end clear and no clip queued, is ticked by a
delta with which the elapsed time, advanced in `long` arithmetic and converted to
`float` as the code compares it, exceeds the duration of the clip. After the tick
the ended flag is set and the elapsed time is the duration truncated to a whole
number: the floor of a duration that is not negative, and the duration itself when
that is whole, as in the example of duration 1000, elapsed time 0 and delta 1500. -/
theorem C17_non_looping_end (penv : PlayEnv) (animations : AnimTable) (rnd : Nat → ℚ)
    (fuel : Nat) (u : ANIM_USE) (time : Nat) (io : Option Entity) (isPlayer : Bool) (h : Nat)
    (t : EERIE_ANIM)
    (hcur : u.cur_anim = some h)
    (htrack : (animations h).track (PrepareAnim.altidx (animations h) u) = some t)
    (hloop : PrepareAnim.isLooping penv u io = false)
    (hpaused : u.flags.EA_PAUSED = false)
    (hfrozen : ∀ e, io = some e → e.ioflags &&& penv.IO_FREEZESCRIPT = 0)
    (hex : u.flags.EA_EXCONTROL = false) (hstop : u.flags.EA_STOPEND = false)
    (hnext : u.next_anim = none)
    (hover : floatOfLong (wrapLong (u.ctime + (time : Int))) > roundFloat t.anim_time) :
    ∃ r u', PrepareAnim penv animations rnd fuel (some u) time io isPlayer = some r ∧
      r.eanim = some u' ∧ u'.flags.EA_ANIMEND = true ∧
      u'.ctime = truncQ t.anim_time ∧
      (0 ≤ t.anim_time → u'.ctime = ⌊t.anim_time⌋) ∧
      (∀ n : Int, t.anim_time = (n : ℚ) → u'.ctime = n) ∧
      u'.cur_anim = some h ∧ r.events.filter AnimEvent.isFinish = [] := by
  obtain ⟨r, u', hr, he, -, hc, hf, hcur', -, hev⟩ := PrepareAnim_non_looping_end penv
    animations rnd fuel u time io isPlayer h t hcur htrack hstop hloop
    (by rw [advance_ctime_running penv _ u time io hpaused hfrozen hex]; exact hover)
    (Or.inr hnext)
  refine ⟨r, u', hr, he, ?_, hc, ?_, ?_, hcur', hev⟩
  · rw [hf]
  · intro h0
    rw [hc, truncQ_nonneg _ h0]
  · intro n hn
    rw [hc, hn, truncQ_intCast]

/-- Witness of C17, the example of the claim: the clip "idle" of duration 1000,
elapsed time 0, ticked by 1500, ends with the elapsed time 1000. -/
theorem C17_non_looping_end_witness :
    ∃ r u', PrepareAnim examplePlayEnv playTable (fun _ => 0) 0 (some { cur_anim := some 1 })
        1500 none false = some r ∧
      r.eanim = some u' ∧ u'.flags.EA_ANIMEND = true ∧ u'.ctime = 1000 := by
  obtain ⟨r, u', hr, he, hf, -, -, hc, -⟩ := C17_non_looping_end examplePlayEnv playTable
    (fun _ => 0) 0 { cur_anim := some 1 } 1500 none false 1 emptyClipTrack rfl rfl rfl rfl
    (fun e he => by cases he) rfl rfl rfl
    (by
      norm_num [wrapLong, emptyClipTrack]
      exact over_of_small 1500 1000 _ (by norm_num) (by norm_num) (by norm_num) (by norm_num))
  exact ⟨r, u', hr, he, hf, hc 1000 (by norm_num [emptyClipTrack])⟩

/-- C18 as the claim words it fails: the looping clip "long" has the duration
32768000; a tick of 32768001 from the elapsed time 0, with an owner, advances the
elapsed time past the duration, but the code compares `float` values and 32768001
converts to 32768000: the elapsed time is not wrapped, it stays 32768001, which is
not below the duration, and `FinishAnim` is not called. -/
theorem C18_float_counterexample :
    (wrapLong ((0 : Int) + ((32768001 : Nat) : Int)) : ℚ) > longTrack.anim_time ∧
      ∃ r u', PrepareAnim examplePlayEnv longTable (fun _ => 0) 0
          (some { cur_anim := some 3, flags := { EA_LOOP := true } }) 32768001
          (some exampleOwner) false = some r ∧
        r.eanim = some u' ∧ u'.ctime = 32768001 ∧ ¬ ((u'.ctime : ℚ) < longTrack.anim_time) ∧
        r.events.filter AnimEvent.isFinish = [] := by
  refine ⟨by norm_num [wrapLong, longTrack], ?_⟩
  obtain ⟨r, u', hr, he, -, hc, -, -, -, hev⟩ := long_tick { EA_LOOP := true } none
    (some exampleOwner) rfl rfl (fun e he => by cases he; rfl)
  refine ⟨r, u', hr, he, hc, ?_, hev⟩
  rw [hc]
  norm_num [longTrack]

/-- C18, amended: a playback state with an owning entity that is looping (loop flag
set, or the clip is one of the walk and run clips of the owner), not paused, not
frozen, not driven from outside, with stop-at-end clear and no clip queued, on a
track of duration at least 1, is ticked by a delta with which the elapsed time,
advanced in `long` arithmetic and converted to `float` as the code compares it,
exceeds the duration. After the tick the elapsed time is the advanced time modulo
the floor of the duration and lies in [0, duration), the ended flag is clear, the
current clip is unchanged, and `FinishAnim(owner, clip)` was called exactly once. -/
theorem C18_looping_wrap (penv : PlayEnv) (animations : AnimTable) (rnd : Nat → ℚ)
    (fuel : Nat) (u : ANIM_USE) (time : Nat) (e : Entity) (isPlayer : Bool) (h : Nat)
    (t : EERIE_ANIM)
    (hcur : u.cur_anim = some h)
    (htrack : (animations h).track (PrepareAnim.altidx (animations h) u) = some t)
    (hloop : PrepareAnim.isLooping penv u (some e) = true)
    (hpaused : u.flags.EA_PAUSED = false)
    (hfrozen : e.ioflags &&& penv.IO_FREEZESCRIPT = 0)
    (hex : u.flags.EA_EXCONTROL = false) (hstop : u.flags.EA_STOPEND = false)
    (hnext : u.next_anim = none)
    (hdur : 1 ≤ t.anim_time)
    (hover : floatOfLong (wrapLong (u.ctime + (time : Int))) > roundFloat t.anim_time) :
    ∃ r u', PrepareAnim penv animations rnd fuel (some u) time (some e) isPlayer = some r ∧
      r.eanim = some u' ∧
      u'.ctime = wrapLong (u.ctime + (time : Int)) % ⌊t.anim_time⌋ ∧
      0 ≤ u'.ctime ∧ (u'.ctime : ℚ) < t.anim_time ∧
      u'.flags.EA_ANIMEND = false ∧ u'.cur_anim = u.cur_anim ∧
      r.events.filter AnimEvent.isFinish = [AnimEvent.FinishAnim h] ∧
      r.io = FinishAnim penv (some e) (some h) := by
  have hfr : ∀ e', some e = some e' → e'.ioflags &&& penv.IO_FREEZESCRIPT = 0 := by
    intro e' he'
    cases he'
    exact hfrozen
  have hadv := advance_ctime_running penv (animations h) u time (some e) hpaused hfr hex
  have h0 : (0 : ℚ) ≤ t.anim_time := le_trans (by norm_num) hdur
  have hfl : (1 : Int) ≤ ⌊t.anim_time⌋ := Int.le_floor.2 (by exact_mod_cast hdur)
  have hpos : (0 : Int) ≤ wrapLong (u.ctime + (time : Int)) := by
    by_contra hneg
    have hle : ((wrapLong (u.ctime + (time : Int)) : Int) : ℚ) ≤ 0 := by
      exact_mod_cast le_of_lt (not_le.1 hneg)
    have h1 := floatOfLong_mono _ 0 hle
    rw [roundFloat_zero] at h1
    have h2 : (0 : ℚ) ≤ roundFloat t.anim_time := by
      have := roundFloat_mono 0 t.anim_time h0
      rwa [roundFloat_zero] at this
    linarith
  obtain ⟨r, u', hr, he, hio, hc, hf, hcur', -, hev⟩ := PrepareAnim_looping_wrap penv
    animations rnd fuel u time (some e) isPlayer h t hcur htrack hstop hloop
    (by rw [hadv]; exact hover) hnext
    (by rw [truncQ_nonneg _ h0]; omega)
  have hct : u'.ctime = wrapLong (u.ctime + (time : Int)) % ⌊t.anim_time⌋ := by
    rw [hc, hadv, truncQ_nonneg _ h0, Int.tmod_eq_emod hpos (by omega)]
  refine ⟨r, u', hr, he, hct, ?_, ?_, ?_, ?_, hev, hio⟩
  · rw [hct]
    exact Int.emod_nonneg _ (by omega)
  · have hlt : u'.ctime < ⌊t.anim_time⌋ := by
      rw [hct]
      exact Int.emod_lt_of_pos _ (by omega)
    have h1 : (u'.ctime : ℚ) < ((⌊t.anim_time⌋ : Int) : ℚ) := by exact_mod_cast hlt
    exact lt_of_lt_of_le h1 (Int.floor_le _)
  · rw [hf]
  · rw [hcur', hcur]

/-- Witness of C18, the example of the claim: the looping clip "idle" of duration
1000, elapsed time 0, ticked by 1500, wraps to the elapsed time 500. -/
theorem C18_looping_wrap_witness :
    ∃ r u', PrepareAnim examplePlayEnv playTable (fun _ => 0) 0
        (some { cur_anim := some 1, flags := { EA_LOOP := true } }) 1500 (some exampleOwner)
        false = some r ∧
      r.eanim = some u' ∧ u'.ctime = 500 ∧ u'.flags.EA_ANIMEND = false ∧
      r.events.filter AnimEvent.isFinish = [AnimEvent.FinishAnim 1] := by
  obtain ⟨r, u', hr, he, hc, -, -, hf, -, hev, -⟩ := C18_looping_wrap examplePlayEnv playTable
    (fun _ => 0) 0 { cur_anim := some 1, flags := { EA_LOOP := true } } 1500 exampleOwner false 1
    emptyClipTrack rfl rfl rfl rfl rfl rfl rfl rfl (by norm_num [emptyClipTrack])
    (by
      norm_num [wrapLong, emptyClipTrack]
      exact over_of_small 1500 1000 _ (by norm_num) (by norm_num) (by norm_num) (by norm_num))
  refine ⟨r, u', hr, he, ?_, hf, hev⟩
  rw [hc]
  have hfl : ⌊emptyClipTrack.anim_time⌋ = 1000 := by
    rw [Int.floor_eq_iff]
    norm_num [emptyClipTrack]
  rw [hfl]
  norm_num [wrapLong]

/-- C19 as the claim words it fails, in three ways. With no entity supplied, the
clip "idle" with "walk" queued, ticked by 1500 past its duration 1000, ends with
"idle" still current and "walk" still queued. With an entity, the clip "long" of
duration 32768000 with "idle" queued, ticked by 32768001 from the elapsed time 0,
is past its duration, but the code compares `float` values and 32768001 converts
to 32768000: no transition is made. And with an entity and the draws all 9/10, the
clip "idle" with the two-alternate clip "walk" queued, ticked by 1500, has no
result for any number of passes: the selection of the alternate does not return. -/
theorem C19_switch_counterexample :
    (¬ ∀ (penv : PlayEnv) (animations : AnimTable) (rnd : Nat → ℚ) (fuel : Nat) (u : ANIM_USE)
        (time : Nat) (io : Option Entity) (isPlayer : Bool) (h next : Nat)
        (t t' : EERIE_ANIM) (idx : Int),
        u.cur_anim = some h →
        (animations h).track (PrepareAnim.altidx (animations h) u) = some t →
        PrepareAnim.isLooping penv u io = false →
        u.flags.EA_STOPEND = false → u.next_anim = some next →
        (((PrepareAnim.advance (animations h) u (PrepareAnim.time penv u time io)).ctime : Int)
          : ℚ) > t.anim_time →
        ANIM_GetAltIdx rnd fuel (animations next) (PrepareAnim.altidx (animations h) u)
          = some idx →
        (animations next).track idx = some t' →
        ∃ r u', PrepareAnim penv animations rnd fuel (some u) time io isPlayer = some r ∧
          r.eanim = some u' ∧ u'.cur_anim = some next ∧ u'.next_anim = none ∧
          u'.flags = { u.nextflags with EA_ANIMEND := false }) ∧
      ((wrapLong ((0 : Int) + ((32768001 : Nat) : Int)) : ℚ) > longTrack.anim_time ∧
        PrepareAnim.isLooping examplePlayEnv { cur_anim := some 3, next_anim := some 1 }
          (some exampleOwner) = false ∧
        ∃ r u', PrepareAnim examplePlayEnv longTable (fun _ => 0) 0
            (some { cur_anim := some 3, next_anim := some 1 }) 32768001 (some exampleOwner)
            false = some r ∧
          r.eanim = some u' ∧ u'.cur_anim = some 3 ∧ u'.next_anim = some 1 ∧
          u'.ctime = 32768001) ∧
      (PrepareAnim.isLooping examplePlayEnv { cur_anim := some 1, next_anim := some 0 }
          (some exampleOwner) = false ∧
        ∀ fuel, PrepareAnim examplePlayEnv playTable (fun _ => 9 / 10) fuel
          (some { cur_anim := some 1, next_anim := some 0 }) 1500 (some exampleOwner) false
          = none) := by
  refine ⟨?_, ⟨by norm_num [wrapLong, longTrack], rfl, ?_⟩, rfl, fun fuel => ?_⟩
  · intro H
    obtain ⟨r, u', hr, he, hc, -⟩ := H examplePlayEnv playTable (fun _ => 0) 1
      { cur_anim := some 1, next_anim := some 0 } 1500 none false 1 0 emptyClipTrack
      emptyClipTrack 1 rfl rfl rfl rfl rfl
      (by
        rw [advance_ctime_running examplePlayEnv _ _ _ none rfl (fun e he => by cases he) rfl]
        norm_num [wrapLong, emptyClipTrack])
      walk_roll rfl
    obtain ⟨r2, u2, hr2, he2, hc2, -⟩ := idle_to_walk_tick_without_entity
    rw [hr] at hr2
    cases hr2
    rw [he] at he2
    cases he2
    rw [hc2] at hc
    cases hc
  · obtain ⟨r, u', hr, he, -, hc, -, hcur, hn, -⟩ := long_tick {} (some 1)
      (some exampleOwner) rfl rfl (fun e he => by cases he; rfl)
    exact ⟨r, u', hr, he, hcur, hn, hc⟩
  · exact PrepareAnim_switch_undefined examplePlayEnv playTable (fun _ => 9 / 10) fuel
      { cur_anim := some 1, next_anim := some 0 } 1500 (some exampleOwner) false 1 0
      emptyClipTrack rfl rfl rfl
      (by
        rw [advance_ctime_running examplePlayEnv _ _ _ (some exampleOwner) rfl
          (fun e he => by cases he; rfl) rfl]
        norm_num [wrapLong, emptyClipTrack]
        exact over_of_small 1500 1000 _ (by norm_num) (by norm_num) (by norm_num)
          (by norm_num))
      rfl (Or.inr ⟨exampleOwner, rfl⟩) (walk_never_selected fuel _)

/-- C19, amended: a playback state that is not looping, ticked with an owning
entity, has a clip queued and stop-at-end clear, and its advanced elapsed time,
converted to `float` as the code compares it, exceeds the duration of the clip; the
selection of the alternate of the queued clip returns an index at which that clip
has a track. After the tick the current clip is the queued one, nothing is queued,
the elapsed time is the overflow computed on `float` values, the advanced time
minus the old duration, truncated toward zero, the flags are the queued flags
without the ended bit, and `FinishAnim(owner, old clip)` was called once. When the
duration is a whole number that is not negative and the advanced time is at most
`2 ^ 24`, the overflow is the plain difference. -/
theorem C19_non_looping_switch (penv : PlayEnv) (animations : AnimTable) (rnd : Nat → ℚ)
    (fuel : Nat) (u : ANIM_USE) (time : Nat) (e : Entity) (isPlayer : Bool) (h next : Nat)
    (t t' : EERIE_ANIM) (idx : Int)
    (hcur : u.cur_anim = some h)
    (htrack : (animations h).track (PrepareAnim.altidx (animations h) u) = some t)
    (hloop : PrepareAnim.isLooping penv u (some e) = false)
    (hstop : u.flags.EA_STOPEND = false) (hnext : u.next_anim = some next)
    (hover : floatOfLong (PrepareAnim.advance (animations h) u
      (PrepareAnim.time penv u time (some e))).ctime > roundFloat t.anim_time)
    (hidx : ANIM_GetAltIdx rnd fuel (animations next) (PrepareAnim.altidx (animations h) u)
      = some idx)
    (htrack' : (animations next).track idx = some t') :
    ∃ r u', PrepareAnim penv animations rnd fuel (some u) time (some e) isPlayer = some r ∧
      r.eanim = some u' ∧ u'.cur_anim = some next ∧ u'.next_anim = none ∧
      u'.ctime = truncQ (roundFloat (floatOfLong (PrepareAnim.advance (animations h) u
        (PrepareAnim.time penv u time (some e))).ctime - roundFloat t.anim_time)) ∧
      (∀ n : Int, t.anim_time = (n : ℚ) → 0 ≤ n →
        |(PrepareAnim.advance (animations h) u
          (PrepareAnim.time penv u time (some e))).ctime| ≤ 2 ^ 24 →
        u'.ctime = (PrepareAnim.advance (animations h) u
          (PrepareAnim.time penv u time (some e))).ctime - n) ∧
      u'.flags = { u.nextflags with EA_ANIMEND := false } ∧ u'.flags.EA_ANIMEND = false ∧
      r.events.filter AnimEvent.isFinish = [AnimEvent.FinishAnim h] := by
  obtain ⟨r, u', hr, he, -, hc, hf, hcur', hn, -, hev⟩ := PrepareAnim_switch penv animations
    rnd fuel u time (some e) isPlayer h next t t' idx hcur htrack hstop hover hnext
    (Or.inr ⟨e, rfl⟩) hidx htrack'
  have hct : u'.ctime = truncQ (roundFloat (floatOfLong (PrepareAnim.advance (animations h) u
      (PrepareAnim.time penv u time (some e))).ctime - roundFloat t.anim_time)) := by
    rw [hc, hloop]
    simp
  refine ⟨r, u', hr, he, hcur', hn, hct, ?_, hf, ?_, hev⟩
  · intro n hn0 hnn hsmall
    rw [hn0] at hover
    rw [floatOfLong_small _ hsmall] at hover
    -- the duration is at most 2 ^ 24 as well, so every conversion is exact
    have hn24 : n ≤ 2 ^ 24 := by
      by_contra hgt
      have h1 : ((2 ^ 24 : Int) : ℚ) ≤ (n : ℚ) := by
        exact_mod_cast le_of_lt (not_le.1 hgt)
      have h2 := roundFloat_mono _ _ h1
      rw [roundFloat_intCast_small _ (by norm_num)] at h2
      have h3 : ((PrepareAnim.advance (animations h) u
          (PrepareAnim.time penv u time (some e))).ctime : ℚ) ≤ ((2 ^ 24 : Int) : ℚ) := by
        exact_mod_cast (abs_le.1 hsmall).2
      linarith
    have hnabs : |n| ≤ 2 ^ 24 := abs_le.2 ⟨by omega, hn24⟩
    rw [roundFloat_intCast_small n hnabs] at hover
    have hlt : n < (PrepareAnim.advance (animations h) u
        (PrepareAnim.time penv u time (some e))).ctime := by exact_mod_cast hover
    rw [hct, hn0, floatOfLong_small _ hsmall, roundFloat_intCast_small n hnabs]
    have hd : (((PrepareAnim.advance (animations h) u
        (PrepareAnim.time penv u time (some e))).ctime : Int) : ℚ) - (n : ℚ)
        = (((PrepareAnim.advance (animations h) u
          (PrepareAnim.time penv u time (some e))).ctime - n : Int) : ℚ) := by
      push_cast
      ring
    rw [hd, roundFloat_intCast_small _ (abs_le.2 ⟨by omega, by
      have := (abs_le.1 hsmall).2
      omega⟩), truncQ_intCast]
  · rw [hf]

/-- Witness of C19: the clip "idle" with "walk" queued, ticked by 1500 with an
owning entity, switches to "walk" with the elapsed time 500. -/
theorem C19_non_looping_switch_witness :
    ∃ r u', PrepareAnim examplePlayEnv playTable (fun _ => 0) 1
        (some { cur_anim := some 1, next_anim := some 0 }) 1500 (some exampleOwner) false
        = some r ∧
      r.eanim = some u' ∧ u'.cur_anim = some 0 ∧ u'.next_anim = none ∧ u'.ctime = 500 := by
  have hadv : (PrepareAnim.advance (playTable 1) { cur_anim := some 1, next_anim := some 0 }
      (PrepareAnim.time examplePlayEnv { cur_anim := some 1, next_anim := some 0 } 1500
        (some exampleOwner))).ctime = 1500 := by
    rw [advance_ctime_running examplePlayEnv _ _ _ (some exampleOwner) rfl
      (fun e he => by cases he; rfl) rfl]
    norm_num [wrapLong]
  obtain ⟨r, u', hr, he, hc, hn, -, hct, -⟩ := C19_non_looping_switch examplePlayEnv playTable
    (fun _ => 0) 1 { cur_anim := some 1, next_anim := some 0 } 1500 exampleOwner false 1 0
    emptyClipTrack emptyClipTrack 1 rfl rfl rfl rfl rfl
    (by
      rw [hadv]
      norm_num [emptyClipTrack]
      exact over_of_small 1500 1000 _ (by norm_num) (by norm_num) (by norm_num) (by norm_num))
    walk_roll rfl
  refine ⟨r, u', hr, he, hc, hn, ?_⟩
  rw [hct 1000 (by norm_num [emptyClipTrack]) (by norm_num) (by rw [hadv]; norm_num), hadv]
  norm_num

/-- C20 as the claim words it fails, in two ways. The looping clip "long" of
duration 32768000 with "idle" queued, ticked by 32768001 from the elapsed time 0,
is past its duration, but the code compares `float` values and 32768001 converts
to 32768000: no transition is made. And with the draws all 9/10, the looping clip
"idle" with the two-alternate clip "walk" queued, ticked by 1500 past its duration
1000, has no result for any number of passes: the selection of the alternate does
not return. -/
theorem C20_switch_counterexample :
    ((wrapLong ((0 : Int) + ((32768001 : Nat) : Int)) : ℚ) > longTrack.anim_time ∧
        PrepareAnim.isLooping examplePlayEnv
          { cur_anim := some 3, next_anim := some 1, flags := { EA_LOOP := true } } none
          = true ∧
        ∃ r u', PrepareAnim examplePlayEnv longTable (fun _ => 0) 0
            (some { cur_anim := some 3, next_anim := some 1, flags := { EA_LOOP := true } })
            32768001 none false = some r ∧
          r.eanim = some u' ∧ u'.cur_anim = some 3 ∧ u'.next_anim = some 1 ∧
          u'.ctime = 32768001) ∧
      (PrepareAnim.isLooping examplePlayEnv
          { cur_anim := some 1, next_anim := some 0, flags := { EA_LOOP := true } } none
          = true ∧
        (((PrepareAnim.advance (playTable 1)
            { cur_anim := some 1, next_anim := some 0, flags := { EA_LOOP := true } }
            (PrepareAnim.time examplePlayEnv
              { cur_anim := some 1, next_anim := some 0, flags := { EA_LOOP := true } } 1500
              none)).ctime : Int) : ℚ) > emptyClipTrack.anim_time ∧
        ∀ fuel, PrepareAnim examplePlayEnv playTable (fun _ => 9 / 10) fuel
          (some { cur_anim := some 1, next_anim := some 0, flags := { EA_LOOP := true } })
          1500 none false = none) := by
  have hadv : (PrepareAnim.advance (playTable 1)
      { cur_anim := some 1, next_anim := some 0, flags := { EA_LOOP := true } }
      (PrepareAnim.time examplePlayEnv
        { cur_anim := some 1, next_anim := some 0, flags := { EA_LOOP := true } } 1500
        none)).ctime = 1500 := by
    rw [advance_ctime_running examplePlayEnv _ _ _ none rfl (fun e he => by cases he) rfl]
    norm_num [wrapLong]
  refine ⟨⟨by norm_num [wrapLong, longTrack], rfl, ?_⟩, rfl, ?_, fun fuel => ?_⟩
  · obtain ⟨r, u', hr, he, -, hc, -, hcur, hn, -⟩ := long_tick { EA_LOOP := true } (some 1)
      none rfl rfl (fun e he => by cases he)
    exact ⟨r, u', hr, he, hcur, hn, hc⟩
  · rw [hadv]
    norm_num [emptyClipTrack]
  · exact PrepareAnim_switch_undefined examplePlayEnv playTable (fun _ => 9 / 10) fuel
      { cur_anim := some 1, next_anim := some 0, flags := { EA_LOOP := true } } 1500 none
      false 1 0 emptyClipTrack rfl rfl rfl
      (by
        rw [hadv]
        norm_num [emptyClipTrack]
        exact over_of_small 1500 1000 _ (by norm_num) (by norm_num) (by norm_num)
          (by norm_num))
      rfl (Or.inl rfl) (walk_never_selected fuel _)

/-- C20, amended: a looping playback state has a clip queued and stop-at-end clear,
its advanced elapsed time, converted to `float` as the code compares it, exceeds
the duration of the clip, which is not negative; the selection of the alternate of
the queued clip returns an index at which that clip has a track. After the tick the
current clip is the queued one, nothing is queued, the elapsed time is the advanced
time minus the floor of the old duration, the flags are the queued flags with the
ended bit removed, a queued loop or paused bit included, and the alternate index is
an index of the new clip that differs from the alternate played before whenever the
new clip has more than one alternate. -/
theorem C20_looping_switch (penv : PlayEnv) (animations : AnimTable) (rnd : Nat → ℚ)
    (fuel : Nat) (u : ANIM_USE) (time : Nat) (io : Option Entity) (isPlayer : Bool)
    (h next : Nat) (t t' : EERIE_ANIM) (idx : Int)
    (hcur : u.cur_anim = some h)
    (htrack : (animations h).track (PrepareAnim.altidx (animations h) u) = some t)
    (hloop : PrepareAnim.isLooping penv u io = true)
    (hstop : u.flags.EA_STOPEND = false) (hnext : u.next_anim = some next)
    (hdur : 0 ≤ t.anim_time)
    (hover : floatOfLong (PrepareAnim.advance (animations h) u
      (PrepareAnim.time penv u time io)).ctime > roundFloat t.anim_time)
    (hidx : ANIM_GetAltIdx rnd fuel (animations next) (PrepareAnim.altidx (animations h) u)
      = some idx)
    (htrack' : (animations next).track idx = some t') :
    ∃ r u', PrepareAnim penv animations rnd fuel (some u) time io isPlayer = some r ∧
      r.eanim = some u' ∧ u'.cur_anim = some next ∧ u'.next_anim = none ∧
      u'.ctime = (PrepareAnim.advance (animations h) u (PrepareAnim.time penv u time io)).ctime
        - ⌊t.anim_time⌋ ∧
      u'.flags = { u.nextflags with EA_ANIMEND := false } ∧
      u'.flags.EA_LOOP = u.nextflags.EA_LOOP ∧ u'.flags.EA_PAUSED = u.nextflags.EA_PAUSED ∧
      u'.altidx_cur = idx ∧ 0 ≤ u'.altidx_cur ∧ u'.altidx_cur < (animations next).alt_nb ∧
      (1 < (animations next).alt_nb →
        u'.altidx_cur ≠ PrepareAnim.altidx (animations h) u) := by
  obtain ⟨r, u', hr, he, -, hc, hf, hcur', hn, hi, -⟩ := PrepareAnim_switch penv animations
    rnd fuel u time io isPlayer h next t t' idx hcur htrack hstop hover hnext
    (Or.inl hloop) hidx htrack'
  obtain ⟨i1, i2, i3⟩ := (ANIM_GetAltIdx_spec rnd fuel (animations next)
    (PrepareAnim.altidx (animations h) u)).2 idx hidx
  refine ⟨r, u', hr, he, hcur', hn, ?_, hf, ?_, ?_, hi, ?_, ?_, ?_⟩
  · rw [hc, if_pos hloop, truncQ_nonneg _ hdur]
  · rw [hf]
  · rw [hf]
  · rw [hi]
    exact i1
  · rw [hi]
    exact i2
  · intro hN
    rw [hi]
    exact i3 (by omega)

/-- Witness of C20: the looping clip "idle" with "walk" queued together with the
paused flag, ticked by 1500, switches to the alternate 1 of "walk" with the elapsed
time 500 and the paused flag set. -/
theorem C20_looping_switch_witness :
    ∃ r u', PrepareAnim examplePlayEnv playTable (fun _ => 0) 1
        (some { cur_anim := some 1, next_anim := some 0, flags := { EA_LOOP := true }
                nextflags := { EA_PAUSED := true, EA_ANIMEND := true } })
        1500 none false = some r ∧
      r.eanim = some u' ∧ u'.cur_anim = some 0 ∧ u'.next_anim = none ∧ u'.ctime = 500 ∧
      u'.flags = { EA_PAUSED := true } ∧ u'.altidx_cur = 1 := by
  have hadv : (PrepareAnim.advance (playTable 1)
      { cur_anim := some 1, next_anim := some 0, flags := { EA_LOOP := true }
        nextflags := { EA_PAUSED := true, EA_ANIMEND := true } }
      (PrepareAnim.time examplePlayEnv
        { cur_anim := some 1, next_anim := some 0, flags := { EA_LOOP := true }
          nextflags := { EA_PAUSED := true, EA_ANIMEND := true } } 1500 none)).ctime = 1500 := by
    rw [advance_ctime_running examplePlayEnv _ _ _ none rfl (fun e he => by cases he) rfl]
    norm_num [wrapLong]
  obtain ⟨r, u', hr, he, hc, hn, hct, hf, -, -, hi, -⟩ := C20_looping_switch examplePlayEnv
    playTable (fun _ => 0) 1
    { cur_anim := some 1, next_anim := some 0, flags := { EA_LOOP := true }
      nextflags := { EA_PAUSED := true, EA_ANIMEND := true } }
    1500 none false 1 0 emptyClipTrack emptyClipTrack 1 rfl rfl rfl rfl rfl
    (by norm_num [emptyClipTrack])
    (by
      rw [hadv]
      norm_num [emptyClipTrack]
      exact over_of_small 1500 1000 _ (by norm_num) (by norm_num) (by norm_num) (by norm_num))
    walk_roll rfl
  refine ⟨r, u', hr, he, hc, hn, ?_, hf, hi⟩
  rw [hct, hadv]
  have hfl : ⌊emptyClipTrack.anim_time⌋ = 1000 := by
    rw [Int.floor_eq_iff]
    norm_num [emptyClipTrack]
  rw [hfl]
  norm_num

/-- C21: for a playback state whose paused flag is set, or whose owning entity is
frozen, a tick with any delta is the tick with delta 0: the same resulting state,
entity and calls. In particular, when the elapsed time (a `long`) does not exceed
the duration of the clip, the tick is defined, leaves the elapsed time unchanged
and makes no call at all: no frame sound and no footstep. -/
theorem C21_paused_or_frozen (penv : PlayEnv) (animations : AnimTable) (rnd : Nat → ℚ)
    (fuel : Nat) (u : ANIM_USE) (time : Nat) (io : Option Entity) (isPlayer : Bool)
    (hstop : u.flags.EA_PAUSED = true ∨
      ∃ e, io = some e ∧ e.ioflags &&& penv.IO_FREEZESCRIPT ≠ 0) :
    PrepareAnim penv animations rnd fuel (some u) time io isPlayer
        = PrepareAnim penv animations rnd fuel (some u) 0 io isPlayer ∧
      ∀ (h : Nat) (t : EERIE_ANIM), u.cur_anim = some h →
        (animations h).track (PrepareAnim.altidx (animations h) u) = some t →
        -(2 ^ 63) ≤ u.ctime → u.ctime < 2 ^ 63 → (u.ctime : ℚ) ≤ t.anim_time →
        ∃ r u', PrepareAnim penv animations rnd fuel (some u) time io isPlayer = some r ∧
          r.eanim = some u' ∧ u'.ctime = u.ctime ∧ r.events = [] := by
  have ht0 := time_of_stopped penv u time io hstop
  have ht1 := time_zero penv u io
  constructor
  · simp only [PrepareAnim, ht0, ht1]
  · intro h t hcur htrack h1 h2 hle
    have hc : (PrepareAnim.advance (animations h) u 0).ctime = u.ctime :=
      advance_ctime_zero _ u h1 h2
    have hno : ¬ (((PrepareAnim.advance (animations h) u 0).ctime : ℚ) > t.anim_time) := by
      rw [hc]
      exact not_lt.2 hle
    have hr := PrepareAnim_eq_of_endOfClip penv animations rnd fuel u time io isPlayer h t t
      (PrepareAnim.advance (animations h) u 0) io [] hcur htrack
      (by rw [ht0]; exact endOfClip_plain penv animations rnd fuel _ t io hno)
      (track_advance animations h u 0 t hcur htrack)
    rw [ht0] at hr
    refine ⟨_, _, hr, rfl, ?_, ?_⟩
    · dsimp only
      rw [(resolve_fields t _ 0 _ isPlayer).1, hc]
    · dsimp only
      rw [resolve_events_of_time_zero]
      rfl

/-- Witness of C21: the paused clip "talk" at the elapsed time 150, ticked by 1000,
keeps the elapsed time 150 and makes no call. -/
theorem C21_paused_or_frozen_witness :
    ∃ r u', PrepareAnim examplePlayEnv frameTable (fun _ => 0) 0
        (some { cur_anim := some 4, ctime := 150, lastframe := -1
                flags := { EA_PAUSED := true } }) 1000 none false = some r ∧
      r.eanim = some u' ∧ u'.ctime = 150 ∧ r.events = [] :=
  (C21_paused_or_frozen examplePlayEnv frameTable (fun _ => 0) 0
    { cur_anim := some 4, ctime := 150, lastframe := -1, flags := { EA_PAUSED := true } }
    1000 none false (Or.inl rfl)).2 4 soundTrack rfl rfl (by decide) (by decide)
    (by norm_num [soundTrack])

/-- C29: a tick whose frame loop meets a pair of adjacent key frames `j`, `j + 1`
with equal truncated times before any pair has passed the test of the loop stops
the frame search for this tick, whatever the playback time is: the tick makes no
call besides those of the end-of-clip part (no frame sound, no footstep), and the
last evaluated frame keeps the value it had after the time advance. -/
theorem C29_equal_times_abort (penv : PlayEnv) (animations : AnimTable) (rnd : Nat → ℚ)
    (fuel : Nat) (u : ANIM_USE) (time : Nat) (io : Option Entity) (isPlayer : Bool) (h : Nat)
    (t t1 : EERIE_ANIM) (u1 : ANIM_USE) (io1 : Option Entity) (ev1 : List AnimEvent) (j : Int)
    (hcur : u.cur_anim = some h)
    (htrack : (animations h).track (PrepareAnim.altidx (animations h) u) = some t)
    (hend : PrepareAnim.endOfClip penv animations rnd fuel
      (PrepareAnim.stopEnd t
        (PrepareAnim.advance (animations h) u (PrepareAnim.time penv u time io))) t io
      = some (u1, io1, ev1))
    (htrack1 : PrepareAnim.track animations u1 = some t1)
    (hj0 : 0 ≤ j) (hj1 : j ≤ t1.nb_key_frames - 2)
    (heq : PrepareAnim.keyTime t1 j = PrepareAnim.keyTime t1 (j + 1))
    (hbefore : ∀ f, 0 ≤ f → f < j → ¬ PrepareAnim.bounds t1 (PrepareAnim.tim t1 u1) f) :
    ∃ r u', PrepareAnim penv animations rnd fuel (some u) time io isPlayer = some r ∧
      r.eanim = some u' ∧ u'.lastframe = u1.lastframe ∧
      r.events = ev1 ∧ r.events.filter (fun ev => !ev.isFinish) = [] := by
  have hs : PrepareAnim.scan t1 (PrepareAnim.tim t1 u1) (t1.nb_key_frames - 1).toNat 1
      = none :=
    scan_none_of_equal t1 _ _ 1 j (by omega) (by omega) heq (fun f hf1 hf2 =>
      hbefore f (by omega) hf2)
  have hr := PrepareAnim_eq_of_endOfClip penv animations rnd fuel u time io isPlayer h t t1
    u1 io1 ev1 hcur htrack hend htrack1
  rw [resolve_scan_none t1 u1 _ _ isPlayer hs] at hr
  refine ⟨_, _, hr, rfl, rfl, ?_, ?_⟩
  · dsimp only
    rw [List.append_nil]
  · dsimp only
    rw [List.append_nil]
    exact endOfClip_events penv animations rnd fuel _ t io u1 io1 ev1 hend

/-- Witness of C29: the clip "flat", whose two key frames both have the time 0,
ticked by 10: no call is made and the last evaluated frame stays -1. -/
theorem C29_equal_times_abort_witness :
    ∃ r u', PrepareAnim examplePlayEnv frameTable (fun _ => 0) 0
        (some { cur_anim := some 5, lastframe := -1 }) 10 none false = some r ∧
      r.eanim = some u' ∧ u'.lastframe = -1 ∧ r.events = [] := by
  have hno : ¬ (((PrepareAnim.advance (frameTable 5) { cur_anim := some 5, lastframe := -1 }
      (PrepareAnim.time examplePlayEnv { cur_anim := some 5, lastframe := -1 } 10
        none)).ctime : ℚ) > flatTrack.anim_time) := by
    rw [advance_ctime_running examplePlayEnv _ _ _ none rfl (fun e he => by cases he) rfl]
    norm_num [wrapLong, flatTrack]
  obtain ⟨r, u', hr, he, h1, h2, -⟩ := C29_equal_times_abort examplePlayEnv frameTable
    (fun _ => 0) 0 { cur_anim := some 5, lastframe := -1 } 10 none false 5 flatTrack
    flatTrack _ none [] 0 rfl rfl
    (endOfClip_plain examplePlayEnv frameTable (fun _ => 0) 0 _ flatTrack none hno)
    (track_advance frameTable 5 _ _ flatTrack rfl rfl)
    (le_refl 0) (by decide)
    (by simp [PrepareAnim.keyTime, PrepareAnim.frameAt, flatTrack])
    (fun f hf1 hf2 => by omega)
  refine ⟨r, u', hr, he, ?_, h2⟩
  rw [h1, advance_lastframe]

/-- C23 as the claim words it fails: the clip "talk" has the sample 7 and the
footstep flag 9 on key frame 1 and neither on key frame 2. With the last evaluated
frame 0 and the elapsed time 50, a tick of 250 with an owner that is not the player
resolves the frame 2, and neither the sound nor the footstep of the skipped frame 1
is fired: the tick makes no call. -/
theorem C23_skipped_sound_counterexample :
    ∃ r u', PrepareAnim examplePlayEnv frameTable (fun _ => 0) 0
        (some { cur_anim := some 4, lastframe := 0, ctime := 50 }) 250 (some exampleOwner)
        false = some r ∧
      r.eanim = some u' ∧ u'.lastframe = 2 ∧
      (PrepareAnim.frameAt soundTrack 1).sample = 7 ∧
      (PrepareAnim.frameAt soundTrack 1).flag = 9 ∧
      r.events = [] := by
  obtain ⟨r, u', hr, he, hl, hev⟩ := talk_skip_tick
  exact ⟨r, u', hr, he, hl, rfl, rfl, hev⟩

/-- C23, amended: a tick with a nonzero effective delta, the ended flag clear at
the frame search, the last evaluated frame `L` and the newly resolved frame
`F != L`, for an owner that is not the player, makes after the calls of the
end-of-clip part the calls of the sound block and then those of the footstep
block. If `0 <= L < F`: when frame `F` has a sample, `ARX_SOUND_PlayAnim` is called
with the sample of every frame `L + 1, ..., F` in increasing order, and when frame
`F` has none no sound is played; when the flag of frame `F` is positive a footstep
is requested for every frame `L + 1, ..., F` whose flag is 9, and when it is not no
footstep is requested. If `L = -1` or `F < L`, only the sound of frame `F` (if it
has one) and its footstep (if its flag is 9) are fired. -/
theorem C23_skipped_frames (penv : PlayEnv) (animations : AnimTable) (rnd : Nat → ℚ)
    (fuel : Nat) (u : ANIM_USE) (time : Nat) (io : Option Entity) (h : Nat)
    (t t1 : EERIE_ANIM) (u1 : ANIM_USE) (io1 : Option Entity) (ev1 : List AnimEvent) (F : Int)
    (hcur : u.cur_anim = some h)
    (htrack : (animations h).track (PrepareAnim.altidx (animations h) u) = some t)
    (hend : PrepareAnim.endOfClip penv animations rnd fuel
      (PrepareAnim.stopEnd t
        (PrepareAnim.advance (animations h) u (PrepareAnim.time penv u time io))) t io
      = some (u1, io1, ev1))
    (htrack1 : PrepareAnim.track animations u1 = some t1)
    (hsel : PrepareAnim.scan t1 (PrepareAnim.tim t1 u1) (t1.nb_key_frames - 1).toNat 1
      = some F)
    (htime : PrepareAnim.time penv u time io ≠ 0)
    (hnotend : u1.flags.EA_ANIMEND = false) (hLF : u1.lastframe ≠ F) :
    ∃ r, PrepareAnim penv animations rnd fuel (some u) time io false = some r ∧
      (0 ≤ u1.lastframe → u1.lastframe < F →
        r.events = ev1 ++
          ((if (PrepareAnim.frameAt t1 F).sample ≠ -1 then
              (List.range (F - u1.lastframe).toNat).map fun d =>
                AnimEvent.ARX_SOUND_PlayAnim
                  (PrepareAnim.frameAt t1 (u1.lastframe + 1 + (d : Int))).sample
                  (io1.map fun e => e.pos)
            else []) ++
          (if (PrepareAnim.frameAt t1 F).flag > 0 then
              ((List.range (F - u1.lastframe).toNat).filter fun d =>
                decide ((PrepareAnim.frameAt t1 (u1.lastframe + 1 + (d : Int))).flag = 9)).map
                fun _ => AnimEvent.ARX_NPC_NeedStepSound (io1.map fun e => e.pos)
            else []))) ∧
      (u1.lastframe = -1 ∨ F < u1.lastframe →
        r.events = ev1 ++
          ((if (PrepareAnim.frameAt t1 F).sample ≠ -1 then
              [AnimEvent.ARX_SOUND_PlayAnim (PrepareAnim.frameAt t1 F).sample
                (io1.map fun e => e.pos)]
            else []) ++
          (if (PrepareAnim.frameAt t1 F).flag = 9 then
              [AnimEvent.ARX_NPC_NeedStepSound (io1.map fun e => e.pos)]
            else []))) := by
  have hr := PrepareAnim_eq_of_endOfClip penv animations rnd fuel u time io false h t t1
    u1 io1 ev1 hcur htrack hend htrack1
  rw [resolve_scan_some t1 u1 _ _ false F hsel] at hr
  refine ⟨_, hr, ?_, ?_⟩
  · intro h0 hlt
    dsimp only
    rw [sounds_replay t1 u1 _ F _ hnotend htime h0 hlt,
      steps_replay t1 u1 _ F _ hnotend htime h0 hlt]
  · intro hl
    dsimp only
    rw [sounds_single t1 u1 _ F _ hnotend htime hLF hl,
      steps_single t1 u1 _ F _ hnotend htime hLF hl]

/-- Witness of C23: the clip "talk" with the last evaluated frame 0, ticked by 150
from the elapsed time 0 with an owner that is not the player, resolves the frame 1,
which has the sample 7 and the flag 9: the sound is played, then the footstep is
requested. -/
theorem C23_skipped_frames_witness :
    ∃ r, PrepareAnim examplePlayEnv frameTable (fun _ => 0) 0
        (some { cur_anim := some 4, lastframe := 0 }) 150 (some exampleOwner) false
        = some r ∧
      r.events = [AnimEvent.ARX_SOUND_PlayAnim 7 (some {}),
        AnimEvent.ARX_NPC_NeedStepSound (some {})] := by
  have hrun : ∀ e, some exampleOwner = some e →
      e.ioflags &&& examplePlayEnv.IO_FREEZESCRIPT = 0 := by
    intro e he
    cases he
    rfl
  have htime : PrepareAnim.time examplePlayEnv { cur_anim := some 4, lastframe := 0 }
      150 (some exampleOwner) = 150 := time_of_running _ _ _ _ rfl hrun
  have htim : PrepareAnim.tim soundTrack (PrepareAnim.advance (frameTable 4)
      { cur_anim := some 4, lastframe := 0 }
      (PrepareAnim.time examplePlayEnv { cur_anim := some 4, lastframe := 0 } 150
        (some exampleOwner))) = 150 := by
    rw [tim_advance_forward examplePlayEnv _ _ _ (some exampleOwner) _ rfl hrun rfl rfl]
    norm_num [wrapLong]
  have hno : ¬ (((PrepareAnim.advance (frameTable 4) { cur_anim := some 4, lastframe := 0 }
      (PrepareAnim.time examplePlayEnv { cur_anim := some 4, lastframe := 0 } 150
        (some exampleOwner))).ctime : ℚ) > soundTrack.anim_time) := by
    rw [advance_ctime_running examplePlayEnv _ _ _ (some exampleOwner) rfl hrun rfl]
    norm_num [wrapLong, soundTrack]
  obtain ⟨r, hr, h1, -⟩ := C23_skipped_frames examplePlayEnv frameTable (fun _ => 0) 0
    { cur_anim := some 4, lastframe := 0 } 150 (some exampleOwner) 4 soundTrack soundTrack
    _ (some exampleOwner) [] 1 rfl rfl
    (endOfClip_plain examplePlayEnv frameTable (fun _ => 0) 0 _ soundTrack _ hno)
    (track_advance frameTable 4 _ _ soundTrack rfl rfl)
    (by
      rw [htim]
      simp [PrepareAnim.scan, PrepareAnim.frameAt, soundTrack, truncQ])
    (by rw [htime]; decide) (by rw [advance_flags]) (by rw [advance_lastframe]; decide)
  refine ⟨r, hr, ?_⟩
  rw [h1 (by rw [advance_lastframe]) (by rw [advance_lastframe]; decide)]
  simp [advance_lastframe, PrepareAnim.frameAt, soundTrack, exampleOwner, List.range,
    List.range.loop]

/-- C24 as the claim words it fails: the looping clip "idle" with "step" queued and
the last evaluated frame 0, ticked by 1100 past its duration 1000, switches to
"step" and resolves its frame 0, whose footstep is requested although 0 is the
last evaluated frame held before the tick. -/
theorem C24_transition_counterexample :
    ∃ r u', PrepareAnim examplePlayEnv frameTable (fun _ => 0) 0
        (some { cur_anim := some 1, next_anim := some 3, lastframe := 0
                flags := { EA_LOOP := true } }) 1100 (some exampleOwner) false = some r ∧
      r.eanim = some u' ∧
      AnimEvent.ARX_NPC_NeedStepSound (some {}) ∈ r.events ∧
      u'.lastframe = 0 := by
  obtain ⟨r, u', hr, he, hl, -, hev⟩ := step_after_switch_tick
  refine ⟨r, u', hr, he, ?_, hl⟩
  simp [hev]

/-- C24, amended: every tick on a playback state with a current clip and its
tracks has a result; if in it a frame sound is played or a footstep is requested,
then the effective delta of the tick is not zero, so the state is not paused and
its owner is not frozen, the ended flag is clear at the frame search, and the
resolved frame differs from the last evaluated frame held at the frame search,
which is the one held before the tick or, after a transition in this tick, -1. -/
theorem C24_side_effect_guard (penv : PlayEnv) (animations : AnimTable) (rnd : Nat → ℚ)
    (fuel : Nat) (u : ANIM_USE) (time : Nat) (io : Option Entity) (isPlayer : Bool) (h : Nat)
    (t t1 : EERIE_ANIM) (u1 : ANIM_USE) (io1 : Option Entity) (ev1 : List AnimEvent)
    (hcur : u.cur_anim = some h)
    (htrack : (animations h).track (PrepareAnim.altidx (animations h) u) = some t)
    (hend : PrepareAnim.endOfClip penv animations rnd fuel
      (PrepareAnim.stopEnd t
        (PrepareAnim.advance (animations h) u (PrepareAnim.time penv u time io))) t io
      = some (u1, io1, ev1))
    (htrack1 : PrepareAnim.track animations u1 = some t1) :
    ∃ r u', PrepareAnim penv animations rnd fuel (some u) time io isPlayer = some r ∧
      r.eanim = some u' ∧
      ((∃ ev, ev ∈ r.events ∧ ev.isFinish = false) →
        PrepareAnim.time penv u time io ≠ 0 ∧ time ≠ 0 ∧ u.flags.EA_PAUSED = false ∧
        (∀ e, io = some e → e.ioflags &&& penv.IO_FREEZESCRIPT = 0) ∧
        u1.flags.EA_ANIMEND = false ∧ u'.lastframe ≠ u1.lastframe ∧
        (u1.lastframe = u.lastframe ∨ u1.lastframe = -1)) := by
  have hr := PrepareAnim_eq_of_endOfClip penv animations rnd fuel u time io isPlayer h t t1
    u1 io1 ev1 hcur htrack hend htrack1
  have hlast : u1.lastframe = u.lastframe ∨ u1.lastframe = -1 := by
    have := (endOfClip_lastframe penv animations rnd fuel _ t io u1 io1 ev1 hend).1
    rw [(stopEnd_fields t _).1, advance_lastframe] at this
    exact this
  have hfin := endOfClip_events penv animations rnd fuel _ t io u1 io1 ev1 hend
  refine ⟨_, _, hr, rfl, ?_⟩
  rintro ⟨ev, hev, hnf⟩
  dsimp only at hev
  rcases List.mem_append.1 hev with h1 | h1
  · have : ev ∈ ev1.filter (fun ev => !ev.isFinish) := by
      rw [List.mem_filter]
      exact ⟨h1, by rw [hnf]; rfl⟩
    rw [hfin] at this
    simp at this
  · cases hs : PrepareAnim.scan t1 (PrepareAnim.tim t1 u1) (t1.nb_key_frames - 1).toNat 1 with
    | none =>
      rw [resolve_scan_none t1 u1 _ _ isPlayer hs] at h1
      simp at h1
    | some fr =>
      rw [resolve_scan_some t1 u1 _ _ isPlayer fr hs] at h1 ⊢
      dsimp only at h1 ⊢
      have hg : u1.flags.EA_ANIMEND = false ∧ PrepareAnim.time penv u time io ≠ 0 ∧
          u1.lastframe ≠ fr := by
        rcases List.mem_append.1 h1 with h2 | h2
        · exact mem_sounds t1 u1 _ fr _ ev h2
        · exact mem_steps t1 u1 _ fr _ isPlayer ev h2
      obtain ⟨g1, g2, g3⟩ := hg
      obtain ⟨k1, k2, k3⟩ := time_ne_zero penv u time io g2
      exact ⟨g2, k1, k2, k3, g1, fun hh => g3 hh.symm, hlast⟩

/-- Witness of C24: the tick of the clip "talk" that plays the sample of frame 1
has a nonzero delta and resolves the frame 1, not the frame 0 held before. -/
theorem C24_side_effect_guard_witness :
    ∃ r u', PrepareAnim examplePlayEnv frameTable (fun _ => 0) 0
        (some { cur_anim := some 4, lastframe := 0 }) 150 (some exampleOwner) false
        = some r ∧ r.eanim = some u' := by
  have hrun : ∀ e, some exampleOwner = some e →
      e.ioflags &&& examplePlayEnv.IO_FREEZESCRIPT = 0 := by
    intro e he
    cases he
    rfl
  have hno : ¬ (((PrepareAnim.advance (frameTable 4) { cur_anim := some 4, lastframe := 0 }
      (PrepareAnim.time examplePlayEnv { cur_anim := some 4, lastframe := 0 } 150
        (some exampleOwner))).ctime : ℚ) > soundTrack.anim_time) := by
    rw [advance_ctime_running examplePlayEnv _ _ _ (some exampleOwner) rfl hrun rfl]
    norm_num [wrapLong, soundTrack]
  obtain ⟨r, u', hr, he, -⟩ := C24_side_effect_guard examplePlayEnv frameTable (fun _ => 0) 0
    { cur_anim := some 4, lastframe := 0 } 150 (some exampleOwner) false 4 soundTrack
    soundTrack _ (some exampleOwner) [] rfl rfl
    (endOfClip_plain examplePlayEnv frameTable (fun _ => 0) 0 _ soundTrack _ hno)
    (track_advance frameTable 4 _ _ soundTrack rfl rfl)
  exact ⟨r, u', hr, he⟩

/-- C25: evaluation of the five null cases on the code. `ANIM_Set` with a null
state or a null clip, `ResetAnim` with a null state and `PrepareAnim` with a null
state return with the state unchanged and without an event. `PrepareAnim` with a
state whose current clip is null does not: it reads `eanim->cur_anim->alt_nb`
before its test of `cur_anim`, the undefined outcome `none`. -/
theorem C25_null_entry_points (penv : PlayEnv) (animations : AnimTable) (rnd : Nat → ℚ)
    (fuel : Nat) (time : Nat) (io : Option Entity) (isPlayer : Bool) :
    (∀ anim, ANIM_Set animations rnd fuel none anim = some none) ∧
      (∀ u, ANIM_Set animations rnd fuel (some u) none = some (some u)) ∧
      ResetAnim none = none ∧
      PrepareAnim penv animations rnd fuel none time io isPlayer =
        some { eanim := none, io := io, events := [] } ∧
      (∀ u : ANIM_USE, PrepareAnim penv animations rnd fuel (some { u with cur_anim := none })
        time io isPlayer = none) := by
  refine ⟨fun anim => ?_, fun u => rfl, rfl, rfl, fun u => rfl⟩
  cases anim <;> rfl

/-- C27 as the claim words it fails: with two alternates the weights are 100 and
20 and `tot` is 120; with every draw 9/10, which lies in [0,1), each index is
tested against 108, which no weight exceeds, so with the excluded index 5 (not a
valid alternate index) no pass returns, whatever the number of passes. -/
theorem C27_first_pass_counterexample :
    (0 : ℚ) ≤ 9 / 10 ∧ (9 / 10 : ℚ) < 1 ∧ ANIM_GetAltIdx.tot { alt_nb := 2 } = 120 ∧
      ¬ ((9 / 10 : ℚ) * 120 < (anim_power_at 0 : ℚ)) ∧
      ¬ ((9 / 10 : ℚ) * 120 < (anim_power_at 1 : ℚ)) ∧
      ∀ fuel, ANIM_GetAltIdx (fun _ => 9 / 10) fuel { alt_nb := 2 } 5 = none := by
  refine ⟨by norm_num, by norm_num, tot_two, by norm_num [anim_power_at, anim_power],
    by norm_num [anim_power_at, anim_power], fun fuel => ?_⟩
  rw [ANIM_GetAltIdx_of_many _ _ _ _ (by decide), tot_two]
  apply retry_none
  intro d k hk
  have hk2 : k < 2 := hk
  rcases k with _ | _ | k
  · norm_num [anim_power_at, anim_power]
  · norm_num [anim_power_at, anim_power]
  · omega

/-- C27, amended: for every handle with `N >= 2` alternates, every sequence of
draws and every excluded index that is not a valid alternate index, each index `k`
of the first pass is tested against its own draw `rnd k * tot`: the first pass
returns the first index whose draw is below the weight of that index, and when no
index of the pass has such a draw the pass ends without a return although nothing
is excluded; when no draw at all is below a weight, no pass returns. -/
theorem C27_first_pass (rnd : Nat → ℚ) (fuel : Nat) (ah : ANIM_HANDLE) (old : Int)
    (hN : 2 ≤ ah.alt_nb) (hold : old < 0 ∨ ah.alt_nb ≤ old) :
    (∀ k : Nat, (k : Int) < ah.alt_nb →
        (∀ m : Nat, m < k →
          ¬ (rnd m * (ANIM_GetAltIdx.tot ah : ℚ) < (anim_power_at m : ℚ))) →
        rnd k * (ANIM_GetAltIdx.tot ah : ℚ) < (anim_power_at k : ℚ) →
        ANIM_GetAltIdx rnd (fuel + 1) ah old = some (k : Int)) ∧
      ((∀ k : Nat, (k : Int) < ah.alt_nb →
          ¬ (rnd k * (ANIM_GetAltIdx.tot ah : ℚ) < (anim_power_at k : ℚ))) →
        ANIM_GetAltIdx rnd 1 ah old = none) ∧
      ((∀ (d k : Nat), (k : Int) < ah.alt_nb →
          ¬ (rnd d * (ANIM_GetAltIdx.tot ah : ℚ) < (anim_power_at k : ℚ))) →
        ANIM_GetAltIdx rnd fuel ah old = none) := by
  have hne : ah.alt_nb ≠ 1 := by omega
  have hvalid : ∀ k : Nat, (k : Int) < ah.alt_nb → (k : Int) ≠ old := by
    intro k hk
    omega
  refine ⟨fun k hk hbefore hacc => ?_, fun hall => ?_, fun hall => ?_⟩
  · rw [ANIM_GetAltIdx_of_many _ _ _ _ hne]
    unfold ANIM_GetAltIdx.retry
    rw [pass_first rnd _ old ah.alt_nb.toNat 0 0 k (by omega)
      (fun m hm hh => hbefore m hm (by simpa using hh.1))
      ⟨by simpa using hacc, by simpa using hvalid k hk⟩]
    simp
  · rw [ANIM_GetAltIdx_of_many _ _ _ _ hne]
    unfold ANIM_GetAltIdx.retry
    rw [pass_none rnd _ old ah.alt_nb.toNat 0 0
      (fun k hk hh => hall k (by omega) (by simpa using hh.1))]
    rfl
  · rw [ANIM_GetAltIdx_of_many _ _ _ _ hne]
    exact retry_none rnd _ _ old (fun d k hk hh => hall d k (by omega) hh.1) fuel 0

/-- Witness of C27: with two alternates, the excluded index 5 and draws that are
all 0, the first pass returns the index 0, whose draw 0 is below its weight 100. -/
theorem C27_first_pass_witness :
    (2 : Int) ≤ (({ alt_nb := 2 } : ANIM_HANDLE)).alt_nb ∧
      ANIM_GetAltIdx (fun _ => 0) 1 { alt_nb := 2 } 5 = some 0 :=
  ⟨by decide,
    (C27_first_pass (fun _ => 0) 0 { alt_nb := 2 } 5 (by decide) (Or.inr (by decide))).1 0
      (by decide) (fun m hm => absurd hm (Nat.not_lt_zero m))
      (by norm_num [anim_power_at, anim_power])⟩

/-- C30: in every cache state reachable from the empty cache by `Load`,
`ReleaseHandle`, `PurgeUnused`, `Clear`, `ClearAll` and `ReloadAll`, every live
handle (non-empty path) has an alternate count of at least 1 and each of its
`alt_nb` track entries is present; so `ANIM_GetAltIdx` on a live handle never runs
with zero alternates (with zero alternates no number of passes returns), and every
index it returns addresses an existing track. -/
theorem C30_live_tracks (t : AnimTable) (hr : Reachable t) (i : Nat)
    (hlive : (t i).path ≠ "") :
    1 ≤ (t i).alt_nb ∧
      (∀ k : Nat, (k : Int) < (t i).alt_nb → ∃ e, (t i).anims[k]? = some (some e)) ∧
      (t i).alt_nb ≠ 0 ∧
      (∀ (rnd : Nat → ℚ) (fuel : Nat) (ah : ANIM_HANDLE) (old : Int), ah.alt_nb = 0 →
        ANIM_GetAltIdx rnd fuel ah old = none) ∧
      ∀ (rnd : Nat → ℚ) (fuel : Nat) (old r : Int),
        ANIM_GetAltIdx rnd fuel (t i) old = some r → ∃ e, (t i).track r = some e := by
  obtain ⟨h1, h2⟩ := LiveTracks_of_Reachable t hr i hlive
  refine ⟨h1, h2, by omega, fun rnd fuel ah old h0 => ANIM_GetAltIdx_no_alternates rnd fuel ah old h0,
    fun rnd fuel old r hsel => ?_⟩
  obtain ⟨hr0, hrN, -⟩ := (ANIM_GetAltIdx_spec rnd fuel (t i) old).2 r hsel
  obtain ⟨e, he⟩ := h2 r.toNat (by omega)
  exact ⟨e, track_of_present (t i) r e hr0 he⟩

/-- Witness of C30: the table reached by loading "walk" from the example file
system; its slot 0 is live, has two alternates, and the index 1 that the selection
returns for the excluded index 0 addresses a track. -/
theorem C30_live_tracks_witness :
    Reachable walkTable ∧ (walkTable 0).path ≠ "" ∧ (1 : Int) ≤ (walkTable 0).alt_nb ∧
      ANIM_GetAltIdx (fun _ => 0) 1 (walkTable 0) 0 = some 1 ∧
      ∃ e, (walkTable 0).track 1 = some e :=
  ⟨Reachable.load _ _ _ _ _ Reachable.init Load_walk_example, by decide,
    (C30_live_tracks walkTable (Reachable.load _ _ _ _ _ Reachable.init Load_walk_example) 0
      (by decide)).1,
    walkTable_select,
    (C30_live_tracks walkTable (Reachable.load _ _ _ _ _ Reachable.init Load_walk_example) 0
      (by decide)).2.2.2.2 (fun _ => 0) 1 0 1 walkTable_select⟩

/-- C28: in a decoded track, let key frame `i` lack an authored rotation, let
`k < i` be the nearest earlier and `j > i` the nearest later key frame with an
authored rotation, `r1 = GetTimeBetweenKeyFrames(k, i)` and
`r2 = GetTimeBetweenKeyFrames(i, j)` with `r1 + r2 != 0`. Then each of the four
components of the rotation of key frame `i` is `(q_j * r1 + q_k * r2) / (r1 + r2)`,
where `q_k` and `q_j` are the rotations read from the records of `k` and `j`: a
blend with the weights `r1 / (r1 + r2)` and `r2 / (r1 + r2)`, which sum to 1, not
normalised afterwards. The translation of a key frame that lacks one is the same
blend of the translations read from the records of its nearest authored
neighbours. -/
theorem C28_gap_fill_blend (env : Env) (adr : List Nat) (th : THEA_HEADER) (e : EERIE_ANIM)
    (recs : List KeyframeRead) (i k j : Nat) (ri rk rj : KeyframeRead)
    (hth : theaHeader env adr = some th) (hdec : TheaToEerie env adr = some (some e))
    (hrecs : keyframeReads env adr th = some recs)
    (hi : recs[i]? = some ri) (hk : recs[k]? = some rk) (hj : recs[j]? = some rj)
    (hki : k < i) (hij : i < j)
    (hsum : GetTimeBetweenKeyFrames e k i + GetTimeBetweenKeyFrames e i j ≠ 0) :
    (ri.quat = none → ∀ qk qj, rk.quat = some qk → rj.quat = some qj →
        (∀ m r, k < m → m < i → recs[m]? = some r → r.quat = none) →
        (∀ m r, i < m → m < j → recs[m]? = some r → r.quat = none) →
        (e.frames.getD i default).quat =
          { w := (qj.w * GetTimeBetweenKeyFrames e k i + qk.w * GetTimeBetweenKeyFrames e i j)
                / (GetTimeBetweenKeyFrames e k i + GetTimeBetweenKeyFrames e i j)
            x := (qj.x * GetTimeBetweenKeyFrames e k i + qk.x * GetTimeBetweenKeyFrames e i j)
                / (GetTimeBetweenKeyFrames e k i + GetTimeBetweenKeyFrames e i j)
            y := (qj.y * GetTimeBetweenKeyFrames e k i + qk.y * GetTimeBetweenKeyFrames e i j)
                / (GetTimeBetweenKeyFrames e k i + GetTimeBetweenKeyFrames e i j)
            z := (qj.z * GetTimeBetweenKeyFrames e k i + qk.z * GetTimeBetweenKeyFrames e i j)
                / (GetTimeBetweenKeyFrames e k i + GetTimeBetweenKeyFrames e i j) }) ∧
      (ri.move = none → ∀ vk vj, rk.move = some vk → rj.move = some vj →
        (∀ m r, k < m → m < i → recs[m]? = some r → r.move = none) →
        (∀ m r, i < m → m < j → recs[m]? = some r → r.move = none) →
        (e.frames.getD i default).translate =
          { x := (vj.x * GetTimeBetweenKeyFrames e k i + vk.x * GetTimeBetweenKeyFrames e i j)
                / (GetTimeBetweenKeyFrames e k i + GetTimeBetweenKeyFrames e i j)
            y := (vj.y * GetTimeBetweenKeyFrames e k i + vk.y * GetTimeBetweenKeyFrames e i j)
                / (GetTimeBetweenKeyFrames e k i + GetTimeBetweenKeyFrames e i j)
            z := (vj.z * GetTimeBetweenKeyFrames e k i + vk.z * GetTimeBetweenKeyFrames e i j)
                / (GetTimeBetweenKeyFrames e k i + GetTimeBetweenKeyFrames e i j) }) ∧
      GetTimeBetweenKeyFrames e k i
          / (GetTimeBetweenKeyFrames e k i + GetTimeBetweenKeyFrames e i j)
        + GetTimeBetweenKeyFrames e i j
          / (GetTimeBetweenKeyFrames e k i + GetTimeBetweenKeyFrames e i j) = 1 := by
  refine ⟨fun hnone qk qj hqk hqj hkz hjz => ?_, fun hnone vk vj hvk hvj hkz hjz => ?_, ?_⟩
  · rw [decoded_rotation_fill env adr th e recs i k j ri rk rj qk qj hth hdec hrecs hi hk hj
      hnone hki hqk hkz hij hqj hjz]
    simp only [ArxQuat.mk.injEq]
    refine ⟨?_, ?_, ?_, ?_⟩ <;> ring
  · rw [decoded_translation_fill env adr th e recs i k j ri rk rj vk vj hth hdec hrecs hi hk hj
      hnone hki hvk hkz hij hvj hjz]
    simp only [Vec3f.scale, Vec3f.add, Vec3f.mk.injEq]
    refine ⟨?_, ?_, ?_⟩ <;> ring
  · rw [← add_div, div_self hsum]

/-- Witness of C28 on the clip `spinClip`: key frames at the frames 0, 10 and 20,
the first with the rotation (1, 0, 0, 0), the last with (0, 3, 0, 0), the middle one
with none. The weights are `r1 = 1250/3` and `r2 = 2500/3`, and the rotation of the
middle key frame decodes to (2/3, 1, 0, 0), which is not of unit length. -/
theorem C28_gap_fill_blend_witness :
    ∃ e, TheaToEerie (exampleEnv exampleFiles) spinClip = some (some e) ∧
      GetTimeBetweenKeyFrames e ((0 : Nat) : Int) ((1 : Nat) : Int)
        + GetTimeBetweenKeyFrames e ((1 : Nat) : Int) ((2 : Nat) : Int) ≠ 0 ∧
      (e.frames.getD 1 default).quat = { w := 2 / 3, x := 1, y := 0, z := 0 } := by
  obtain ⟨e, he⟩ := spinClip_decodes
  obtain ⟨h1, h2⟩ := spinClip_weights e he
  have hsum : GetTimeBetweenKeyFrames e ((0 : Nat) : Int) ((1 : Nat) : Int)
      + GetTimeBetweenKeyFrames e ((1 : Nat) : Int) ((2 : Nat) : Int) ≠ 0 := by
    rw [h1, h2]
    norm_num
  have h := (C28_gap_fill_blend (exampleEnv exampleFiles) spinClip threeFrameHeader e _ 1 0 2
    _ _ _ spinClip_header he spinClip_reads rfl rfl rfl (by decide) (by decide) hsum).1 rfl
    { w := 1, x := 0, y := 0, z := 0 } { w := 0, x := 3, y := 0, z := 0 } rfl rfl
    (fun m r hm1 hm2 => by omega) (fun m r hm1 hm2 => by omega)
  refine ⟨e, he, hsum, ?_⟩
  rw [h, h1, h2]
  norm_num

/-- C26: evaluation of a push followed by a pop on the unchanged cache, with the
sound system enabled. On the cache `talkTable`, whose only track has the named
sample on key frame 1 of 4, the push records the name "talk.wav" with the position
2; the pop creates the sample at the position 2 and then, at key frame 2, compares
the position 3 with `numbers[1]`, an entry past the one recorded: the undefined
outcome `none`. On the cache `stepTable`, where the named sample is on the last key
frame visited, the pop creates the sample again, leaves the other key frame as it
was and leaves no name recorded. -/
theorem C26_pop_reads_past_recorded :
    ARX_SOUND_PushAnimSamples exampleSound talkTable {} =
        some { nbelems := 1, elems := some ["talk.wav"], numbers := some [2] } ∧
      ARX_SOUND_PopAnimSamples exampleSound talkTable
        { nbelems := 1, elems := some ["talk.wav"], numbers := some [2] } = none ∧
      ARX_SOUND_PushAnimSamples exampleSound stepTable {} =
        some { nbelems := 1, elems := some ["step.wav"], numbers := some [2] } ∧
      ∃ t', ARX_SOUND_PopAnimSamples exampleSound stepTable
          { nbelems := 1, elems := some ["step.wav"], numbers := some [2] } = some (t', {}) ∧
        (t' 0).anims = [some { twoFrameTrack with
          frames := twoFrameTrack.frames.set 1
            { twoFrameTrack.frames.getD 1 default with sample := 165 } }] :=
  ⟨talkTable_push, talkTable_pop, stepTable_push, stepTable_pop⟩

/-- C31: a tick on a playback state with a current clip and its tracks has a
result, and when the clip played after the end-of-clip part has at least 2 key
frames, the exposed frame index satisfies `0 <= fr <= nb_key_frames - 2` and the
exposed fraction satisfies `0 <= pour <= 1`, whatever the key frame times and the
playback time are. When the frame loop selects no frame (the playback time lies
in no interval, or the loop stops at a pair of equal times) they keep the values
`nb_key_frames - 2` and 1 set before the loop; when it selects a frame, the
divisor `time[fr + 1] - time[fr]` of the fraction is not zero. -/
theorem C31_exposed_frame_bounds (penv : PlayEnv) (animations : AnimTable) (rnd : Nat → ℚ)
    (fuel : Nat) (u : ANIM_USE) (time : Nat) (io : Option Entity) (isPlayer : Bool) (h : Nat)
    (t t1 : EERIE_ANIM) (u1 : ANIM_USE) (io1 : Option Entity) (ev1 : List AnimEvent)
    (hcur : u.cur_anim = some h)
    (htrack : (animations h).track (PrepareAnim.altidx (animations h) u) = some t)
    (hend : PrepareAnim.endOfClip penv animations rnd fuel
      (PrepareAnim.stopEnd t
        (PrepareAnim.advance (animations h) u (PrepareAnim.time penv u time io))) t io
      = some (u1, io1, ev1))
    (htrack1 : PrepareAnim.track animations u1 = some t1)
    (hnb : 2 ≤ t1.nb_key_frames) :
    ∃ r u', PrepareAnim penv animations rnd fuel (some u) time io isPlayer = some r ∧
      r.eanim = some u' ∧
      0 ≤ u'.fr ∧ u'.fr ≤ t1.nb_key_frames - 2 ∧ 0 ≤ u'.pour ∧ u'.pour ≤ 1 ∧
      (PrepareAnim.scan t1 (PrepareAnim.tim t1 u1) (t1.nb_key_frames - 1).toNat 1 = none →
        u'.fr = t1.nb_key_frames - 2 ∧ u'.pour = 1) ∧
      (∀ F, PrepareAnim.scan t1 (PrepareAnim.tim t1 u1) (t1.nb_key_frames - 1).toNat 1
          = some F →
        u'.fr = F ∧
        u'.pour = ((PrepareAnim.tim t1 u1 - PrepareAnim.keyTime t1 F : Int) : ℚ)
          / (((PrepareAnim.keyTime t1 (F + 1) : Int) : ℚ)
            - ((PrepareAnim.keyTime t1 F : Int) : ℚ)) ∧
        ((PrepareAnim.keyTime t1 (F + 1) : Int) : ℚ)
          - ((PrepareAnim.keyTime t1 F : Int) : ℚ) ≠ 0) := by
  have hr := PrepareAnim_eq_of_endOfClip penv animations rnd fuel u time io isPlayer h t t1
    u1 io1 ev1 hcur htrack hend htrack1
  cases hsel : PrepareAnim.scan t1 (PrepareAnim.tim t1 u1) (t1.nb_key_frames - 1).toNat 1 with
  | none =>
    rw [resolve_scan_none t1 u1 _ _ isPlayer hsel] at hr
    refine ⟨_, _, hr, rfl, ?_, ?_, ?_, ?_, fun _ => ⟨rfl, rfl⟩, fun F hF => by cases hF⟩
    · show 0 ≤ t1.nb_key_frames - 2
      omega
    · exact le_refl _
    · show (0 : ℚ) ≤ 1
      norm_num
    · exact le_refl _
  | some F =>
    rw [resolve_scan_some t1 u1 _ _ isPlayer F hsel] at hr
    obtain ⟨a1, a2, a3, a4, -⟩ := scan_some_spec t1 _ _ 1 F hsel
    have hne : ((PrepareAnim.keyTime t1 (F + 1) : Int) : ℚ)
        - ((PrepareAnim.keyTime t1 F : Int) : ℚ) ≠ 0 := by
      intro hh
      apply a3
      have : ((PrepareAnim.keyTime t1 (F + 1) : Int) : ℚ) = ((PrepareAnim.keyTime t1 F : Int) : ℚ) :=
        sub_eq_zero.1 hh
      exact (Int.cast_injective this).symm
    have hbounds : (0 : ℚ) ≤ ((PrepareAnim.tim t1 u1 - PrepareAnim.keyTime t1 F : Int) : ℚ)
          / (((PrepareAnim.keyTime t1 (F + 1) : Int) : ℚ)
            - ((PrepareAnim.keyTime t1 F : Int) : ℚ)) ∧
        ((PrepareAnim.tim t1 u1 - PrepareAnim.keyTime t1 F : Int) : ℚ)
          / (((PrepareAnim.keyTime t1 (F + 1) : Int) : ℚ)
            - ((PrepareAnim.keyTime t1 F : Int) : ℚ)) ≤ 1 := by
      rcases a4 with ⟨b1, b2⟩ | ⟨-, b2⟩
      · have hpos : (0 : ℚ) < ((PrepareAnim.keyTime t1 (F + 1) : Int) : ℚ)
            - ((PrepareAnim.keyTime t1 F : Int) : ℚ) := by
          rw [sub_pos]
          exact_mod_cast lt_of_le_of_lt b2 b1
        have hnum : (0 : ℚ) ≤ ((PrepareAnim.tim t1 u1 - PrepareAnim.keyTime t1 F : Int) : ℚ) := by
          exact_mod_cast sub_nonneg.2 b2
        refine ⟨div_nonneg hnum (le_of_lt hpos), ?_⟩
        rw [div_le_one hpos]
        push_cast
        have : ((PrepareAnim.tim t1 u1 : Int) : ℚ) < ((PrepareAnim.keyTime t1 (F + 1) : Int) : ℚ) := by
          exact_mod_cast b1
        linarith
      · rw [b2]
        push_cast
        rw [div_self hne]
        exact ⟨by norm_num, le_refl _⟩
    refine ⟨_, _, hr, rfl, ?_, ?_, hbounds.1, hbounds.2, fun hh => (by cases hh),
      fun F' hF' => ?_⟩
    · show 0 ≤ F
      omega
    · show F ≤ t1.nb_key_frames - 2
      omega
    · cases hF'
      exact ⟨rfl, rfl, hne⟩

/-- Witness of C31: the clip "flat", whose two key frames both have the time 0,
ticked by 10: the frame loop stops at the pair of equal times, and the exposed
frame index is 0 and the exposed fraction 1. -/
theorem C31_exposed_frame_bounds_witness :
    (2 : Int) ≤ flatTrack.nb_key_frames ∧
      ∃ r u', PrepareAnim examplePlayEnv frameTable (fun _ => 0) 0
          (some { cur_anim := some 5, lastframe := -1 }) 10 none false = some r ∧
        r.eanim = some u' ∧ u'.fr = 0 ∧ u'.pour = 1 := by
  have hno : ¬ (((PrepareAnim.advance (frameTable 5) { cur_anim := some 5, lastframe := -1 }
      (PrepareAnim.time examplePlayEnv { cur_anim := some 5, lastframe := -1 } 10
        none)).ctime : ℚ) > flatTrack.anim_time) := by
    rw [advance_ctime_running examplePlayEnv _ _ _ none rfl (fun e he => by cases he) rfl]
    norm_num [wrapLong, flatTrack]
  obtain ⟨r, u', hr, he, -, -, -, -, hnone, -⟩ := C31_exposed_frame_bounds examplePlayEnv
    frameTable (fun _ => 0) 0 { cur_anim := some 5, lastframe := -1 } 10 none false 5 flatTrack
    flatTrack _ none [] rfl rfl
    (endOfClip_plain examplePlayEnv frameTable (fun _ => 0) 0 _ flatTrack none hno)
    (track_advance frameTable 5 _ _ flatTrack rfl rfl) (by decide)
  obtain ⟨h1, h2⟩ := hnone (by
    simp [PrepareAnim.scan, PrepareAnim.frameAt, flatTrack])
  exact ⟨by decide, r, u', hr, he, h1, h2⟩

/-- C32 as the claim words it fails: the clip "long" of duration 32768000 with the
stop-at-end flag set, ticked by 32768001 from the elapsed time 0. The clamp compares
`float` values, and 32768001 converts to 32768000, which does not exceed the
duration: the tick leaves the elapsed time 32768001, above the duration. -/
theorem C32_float_counterexample :
    ∃ r u', PrepareAnim examplePlayEnv longTable (fun _ => 0) 0
        (some { cur_anim := some 3, flags := { EA_STOPEND := true } }) 32768001 none false
        = some r ∧
      r.eanim = some u' ∧ u'.ctime = 32768001 ∧ (u'.ctime : ℚ) > longTrack.anim_time ∧
      ¬ ((u'.ctime : ℚ) ≤ longTrack.anim_time) := by
  obtain ⟨r, u', hr, he, -, hc, -⟩ := long_tick { EA_STOPEND := true } none none rfl rfl
    (fun e he => by cases he)
  refine ⟨r, u', hr, he, hc, ?_, ?_⟩ <;>
  · rw [hc]
    norm_num [longTrack]

/-- C32, amended: on a cache reachable from the empty cache, a tick on a playback
state that has the stop-at-end flag set, a current clip and a track at its alternate
index has a result, whatever the delta, the loop flag and the queued clip are.
Afterwards the elapsed time, converted to `float` as the code compares it, is at
most the duration of the clip; the elapsed time itself is at most the duration when
the advanced elapsed time is at most `2 ^ 24` in magnitude and the duration is a
`float` value. The elapsed time is the advanced elapsed time, or the duration (as a
`long`) when the advanced time as a `float` exceeds the duration, and it is not
reduced modulo the duration. The ended flag is clear, the other flags, the current
clip and the queued clip are unchanged, the entity is unchanged, and `FinishAnim`
is not called. -/
theorem C32_stop_at_end (penv : PlayEnv) (animations : AnimTable) (rnd : Nat → ℚ)
    (fuel : Nat) (u : ANIM_USE) (time : Nat) (io : Option Entity) (isPlayer : Bool) (h : Nat)
    (t : EERIE_ANIM)
    (hreach : Reachable animations)
    (hcur : u.cur_anim = some h)
    (htrack : (animations h).track (PrepareAnim.altidx (animations h) u) = some t)
    (hstop : u.flags.EA_STOPEND = true) :
    ∃ r u', PrepareAnim penv animations rnd fuel (some u) time io isPlayer = some r ∧
      r.eanim = some u' ∧ r.io = io ∧
      floatOfLong u'.ctime ≤ roundFloat t.anim_time ∧
      (|(PrepareAnim.advance (animations h) u (PrepareAnim.time penv u time io)).ctime|
          ≤ 2 ^ 24 →
        roundFloat t.anim_time = t.anim_time → (u'.ctime : ℚ) ≤ t.anim_time) ∧
      u'.flags.EA_ANIMEND = false ∧
      u'.ctime =
        (if floatOfLong (PrepareAnim.advance (animations h) u
            (PrepareAnim.time penv u time io)).ctime > roundFloat t.anim_time then
          truncQ t.anim_time
          else (PrepareAnim.advance (animations h) u (PrepareAnim.time penv u time io)).ctime) ∧
      (PrepareAnim.advance (animations h) u (PrepareAnim.time penv u time io)).ctime =
        (if u.flags.EA_EXCONTROL = true then u.ctime
          else wrapLong (u.ctime + (PrepareAnim.time penv u time io : Int))) ∧
      u'.flags = { u.flags with EA_ANIMEND := false } ∧
      u'.cur_anim = u.cur_anim ∧ u'.next_anim = u.next_anim ∧
      r.events.filter AnimEvent.isFinish = [] := by
  have hdur : 1 ≤ t.anim_time :=
    track_duration animations (TrackDurations_of_Reachable animations hreach) h _ t htrack
  obtain ⟨r, u', hr, he, hio, hle, hct, hfl, hc, hn, hev⟩ := PrepareAnim_stop_at_end penv
    animations rnd fuel u time io isPlayer h t hcur htrack hstop (by linarith)
  refine ⟨r, u', hr, he, hio, hle, ?_, ?_, hct, advance_ctime _ u _, hfl, hc, hn, hev⟩
  · intro hsmall hfloat
    rw [hct]
    split_ifs with hover
    · exact truncQ_le _ (by linarith)
    · have h1 := not_lt.1 hover
      rwa [floatOfLong_small _ hsmall, hfloat] at h1
  · rw [hfl]

/-- Witness of C32: on the cache reached by loading "walk" (two tracks of duration
1000), the clip in slot 0 with the stop-at-end flag and the loop flag set and a
clip queued, ticked by 1500 from the elapsed time 0: the elapsed time is clamped to
1000, the ended flag is clear, and the current and the queued clip are kept. -/
theorem C32_stop_at_end_witness :
    Reachable walkTable ∧
      ∃ r u', PrepareAnim examplePlayEnv walkTable (fun _ => 0) 0
          (some { cur_anim := some 0, next_anim := some 0
                  flags := { EA_STOPEND := true, EA_LOOP := true } }) 1500 none false = some r ∧
        r.eanim = some u' ∧ u'.ctime = 1000 ∧ (u'.ctime : ℚ) ≤ emptyClipTrack.anim_time ∧
        u'.flags.EA_ANIMEND = false ∧ u'.cur_anim = some 0 ∧ u'.next_anim = some 0 := by
  have hreach : Reachable walkTable :=
    Reachable.load _ _ _ _ _ Reachable.init Load_walk_example
  obtain ⟨r, u', hr, he, -, -, hsm, hend, hct, hadv, -, hc, hn, -⟩ := C32_stop_at_end
    examplePlayEnv walkTable (fun _ => 0) 0
    { cur_anim := some 0, next_anim := some 0, flags := { EA_STOPEND := true, EA_LOOP := true } }
    1500 none false 0 emptyClipTrack hreach rfl rfl rfl
  have h1500 : (PrepareAnim.advance (walkTable 0)
      { cur_anim := some 0, next_anim := some 0
        flags := { EA_STOPEND := true, EA_LOOP := true } }
      (PrepareAnim.time examplePlayEnv
        { cur_anim := some 0, next_anim := some 0
          flags := { EA_STOPEND := true, EA_LOOP := true } } 1500 none)).ctime = 1500 := by
    rw [hadv]
    norm_num [PrepareAnim.time, wrapLong]
  have hfloat : roundFloat emptyClipTrack.anim_time = emptyClipTrack.anim_time := by
    have h := roundFloat_intCast_small 1000 (by norm_num)
    have e : emptyClipTrack.anim_time = ((1000 : Int) : ℚ) := by norm_num [emptyClipTrack]
    rw [e]
    exact h
  refine ⟨hreach, r, u', hr, he, ?_, hsm (by rw [h1500]; norm_num) hfloat, hend, hc, hn⟩
  rw [hct, h1500, if_pos (over_of_small 1500 1000 _ (by norm_num) (by norm_num)
    (by norm_num [emptyClipTrack]) (by norm_num))]
  norm_num [emptyClipTrack, truncQ]

end Arx
